import Mathlib

/-! tiny_nmea: ring buffer, sentence decoders, framing state machine, unit
conversions and satellite tracker.

A shallow embedding of `src/ringbuf.c`, `src/tiny_nmea.c`, `src/tiny_nmea_parse.c`,
`src/sentences.c`, the field parsers, `src/tiny_nmea_work.c`, `src/data_formats.c`,
`src/sats_tracking.c` and `src/sats_tracking_handler.c`.  Bytes and
`size_t` values are natural numbers; a C pointer into an array is the index it
points at; a `(pointer, length)` pair handed to a function is the list of bytes
it designates.
-/

namespace TinyNmea

set_option maxRecDepth 100000

/-! ## Ring buffer (`ringbuf.c`) -/

/-- The struct `ringbuf_t`: caller-supplied storage, its declared size, the
write index `head` and the read index `tail`. -/
structure ringbuf_t where
  buf : List Nat
  size : Nat
  head : Nat
  tail : Nat
deriving DecidableEq, Repr

/-- The enum `ringbuf_push_mode_t`. -/
inductive ringbuf_push_mode_t where
  | RINGBUF_PUSH_DROP
  | RINGBUF_PUSH_WRAP
  | RINGBUF_PUSH_ATOMIC
deriving DecidableEq, Repr

open ringbuf_push_mode_t

/-- The bytes `src[off .. off+n)`, the source operand of a `memcpy(_, src + off, n)`. -/
def slice (src : List Nat) (off n : Nat) : List Nat :=
  (src.drop off).take n

/-- The call `memcpy(dest + off, src, |src|)`: overwrite `dest[off .. off+|src|)`. -/
def memcpy (dest : List Nat) (off : Nat) (src : List Nat) : List Nat :=
  dest.take off ++ src ++ dest.drop (off + src.length)

/-- The macro `RINGBUF_COMPUTE_LENGTH(hd, tl)`. -/
def RINGBUF_COMPUTE_LENGTH (rb : ringbuf_t) (hd tl : Nat) : Nat :=
  if hd ≥ tl then hd - tl else rb.size - tl + hd

/-- The macro `RINGBUF_COMPUTE_FREE_SPACE(hd, tl)`. -/
def RINGBUF_COMPUTE_FREE_SPACE (rb : ringbuf_t) (hd tl : Nat) : Nat :=
  rb.size - RINGBUF_COMPUTE_LENGTH rb hd tl - 1

/-- The function `ringbuf_init`. -/
def ringbuf_init (buf : List Nat) (size : Nat) : ringbuf_t :=
  { buf := buf, size := size, head := 0, tail := 0 }

/-- The function `ringbuf_clear`: publish `head := tail`. -/
def ringbuf_clear (rb : ringbuf_t) : ringbuf_t :=
  { rb with head := rb.tail }

/-- The function `ringbuf_len`. -/
def ringbuf_len (rb : ringbuf_t) : Nat :=
  RINGBUF_COMPUTE_LENGTH rb rb.head rb.tail

/-- The function `ringbuf_free`. -/
def ringbuf_free (rb : ringbuf_t) : Nat :=
  RINGBUF_COMPUTE_FREE_SPACE rb rb.head rb.tail

/-- The function `ringbuf_empty`. -/
def ringbuf_empty (rb : ringbuf_t) : Bool :=
  rb.head == rb.tail

/-- The function `ringbuf_full`. -/
def ringbuf_full (rb : ringbuf_t) : Bool :=
  (rb.head + 1) % rb.size == rb.tail

/-- The function `ringbuf_discard`: returns the new state and the number of
bytes discarded. -/
def ringbuf_discard (rb : ringbuf_t) (len : Nat) : ringbuf_t × Nat :=
  let avail := RINGBUF_COMPUTE_LENGTH rb rb.head rb.tail
  let len := if len > avail then avail else len
  ({ rb with tail := (rb.tail + len) % rb.size }, len)

/-- The function `ringbuf_push`; `data` is the byte string `data[0 .. len)`.
Returns the new state and the number of bytes written.  The first component
of `pre` is the state after the `if (len > free_space)` block, the second the
bytes still to be written, the third the local `head`; `none` is the early
`return 0` of the ATOMIC mode. -/
def ringbuf_push (rb : ringbuf_t) (data : List Nat) (mode : ringbuf_push_mode_t) :
    ringbuf_t × Nat :=
  let head := rb.head
  let tail := rb.tail
  let len := data.length
  let free_space := RINGBUF_COMPUTE_FREE_SPACE rb head tail
  let pre : Option (ringbuf_t × List Nat × Nat) :=
    if len > free_space then
      match mode with
      | RINGBUF_PUSH_ATOMIC => none
      | RINGBUF_PUSH_DROP => some (rb, data.take free_space, head)
      | RINGBUF_PUSH_WRAP =>
        if len ≥ rb.size then
          some ({ rb with tail := 0, head := 0 }, data.drop (len - (rb.size - 1)), 0)
        else
          some ((ringbuf_discard rb (len - free_space)).1, data, head)
    else some (rb, data, head)
  match pre with
  | none => (rb, 0)
  | some (rb1, data1, head1) =>
    let len1 := data1.length
    if len1 = 0 then (rb1, 0)
    else
      let to_end := rb1.size - head1
      let buf1 :=
        if to_end ≥ len1 then memcpy rb1.buf head1 data1
        else memcpy (memcpy rb1.buf head1 (data1.take to_end)) 0 (data1.drop to_end)
      ({ rb1 with buf := buf1, head := (head1 + len1) % rb1.size }, len1)

/-- The function `ringbuf_pop`; `data` is the destination memory (`none` for a
NULL pointer).  Returns the new state, the destination after the copy and the
number of bytes popped. -/
def ringbuf_pop (rb : ringbuf_t) (data : Option (List Nat)) (len : Nat) :
    ringbuf_t × Option (List Nat) × Nat :=
  let head := rb.head
  let tail := rb.tail
  let avail := RINGBUF_COMPUTE_LENGTH rb head tail
  let len := if len > avail then avail else len
  if len = 0 then (rb, data, 0)
  else
    let to_end := rb.size - tail
    let data1 := data.map fun d =>
      if to_end ≥ len then memcpy d 0 (slice rb.buf tail len)
      else memcpy (memcpy d 0 (slice rb.buf tail to_end)) to_end (slice rb.buf 0 (len - to_end))
    ({ rb with tail := (tail + len) % rb.size }, data1, len)

/-- The function `ringbuf_peek`; `data` is the destination memory.  Returns the
destination after the copy and the number of bytes copied (the ring buffer is
a `const` argument). -/
def ringbuf_peek (rb : ringbuf_t) (data : List Nat) (len offset : Nat) : List Nat × Nat :=
  let head := rb.head
  let tail := rb.tail
  let avail := RINGBUF_COMPUTE_LENGTH rb head tail
  if offset ≥ avail then (data, 0)
  else
    let len := if len > avail - offset then avail - offset else len
    let start := (tail + offset) % rb.size
    let to_end := rb.size - start
    let data1 :=
      if to_end ≥ len then memcpy data 0 (slice rb.buf start len)
      else memcpy (memcpy data 0 (slice rb.buf start to_end)) to_end (slice rb.buf 0 (len - to_end))
    (data1, len)

/-- The function `ringbuf_peek_byte`; `out` is the previous value of `*out`.
Returns the result flag and the value of `*out` afterwards. -/
def ringbuf_peek_byte (rb : ringbuf_t) (offset : Nat) (out : Nat) : Bool × Nat :=
  let head := rb.head
  let tail := rb.tail
  let length := RINGBUF_COMPUTE_LENGTH rb head tail
  if offset ≥ length then (false, out)
  else (true, rb.buf.getD ((tail + offset) % rb.size) 0)

/-! ### Abstraction of a ring buffer state -/

/-- The stored byte queue, oldest byte first: `buf[(tail + i) mod size]` for
`i < ringbuf_len`. -/
def ringbuf_contents (rb : ringbuf_t) : List Nat :=
  (List.range (ringbuf_len rb)).map fun i => rb.buf.getD ((rb.tail + i) % rb.size) 0

/-- The representation invariant of `ringbuf_t`: the storage has the declared,
non-zero size and both indices are inside it. -/
def ringbuf_wf (rb : ringbuf_t) : Prop :=
  0 < rb.size ∧ rb.buf.length = rb.size ∧ rb.head < rb.size ∧ rb.tail < rb.size

instance (rb : ringbuf_t) : Decidable (ringbuf_wf rb) := by
  unfold ringbuf_wf; infer_instance

/-! ### Auxiliary descriptions of the ring buffer operations (used in proofs) -/

/-- The storage after the one- or two-piece copy of `ringbuf_push`. -/
def ringbuf_write_buf (buf : List Nat) (size head : Nat) (data : List Nat) : List Nat :=
  if size - head ≥ data.length then memcpy buf head data
  else memcpy (memcpy buf head (data.take (size - head))) 0 (data.drop (size - head))

/-- The state after `ringbuf_push` has copied `data` in and published the new head. -/
def ringbuf_write (rb : ringbuf_t) (data : List Nat) : ringbuf_t :=
  { rb with buf := ringbuf_write_buf rb.buf rb.size rb.head data,
            head := (rb.head + data.length) % rb.size }

/-- The bytes that the one- or two-piece copy of `ringbuf_pop` and
`ringbuf_peek` moves into the destination. -/
def ringbuf_read (buf : List Nat) (size start n : Nat) : List Nat :=
  if size - start ≥ n then slice buf start n
  else slice buf start (size - start) ++ slice buf 0 (n - (size - start))

/-- The destination memory after the copy of `ringbuf_pop` / `ringbuf_peek`. -/
def ringbuf_copy_out (d buf : List Nat) (size start n : Nat) : List Nat :=
  if size - start ≥ n then memcpy d 0 (slice buf start n)
  else memcpy (memcpy d 0 (slice buf start (size - start))) (size - start)
    (slice buf 0 (n - (size - start)))

/-- The state after `ringbuf_pop` / `ringbuf_discard` has published the new tail. -/
def ringbuf_advance (rb : ringbuf_t) (n : Nat) : ringbuf_t :=
  { rb with tail := (rb.tail + n) % rb.size }

/-- The part of `ringbuf_push` from `if (len == 0)` on, for the state, bytes
and local `head` that the overflow block leaves. -/
def ringbuf_push_finish (rb1 : ringbuf_t) (data1 : List Nat) (head1 : Nat) : ringbuf_t × Nat :=
  let len1 := data1.length
  if len1 = 0 then (rb1, 0)
  else
    let to_end := rb1.size - head1
    let buf1 :=
      if to_end ≥ len1 then memcpy rb1.buf head1 data1
      else memcpy (memcpy rb1.buf head1 (data1.take to_end)) 0 (data1.drop to_end)
    ({ rb1 with buf := buf1, head := (head1 + len1) % rb1.size }, len1)

/-- One call of the ring buffer interface, with its arguments. -/
inductive ringbuf_op where
  | push (data : List Nat) (mode : ringbuf_push_mode_t)
  | pop (data : Option (List Nat)) (len : Nat)
  | peek (data : List Nat) (len offset : Nat)
  | peek_byte (offset out : Nat)
  | discard (len : Nat)
  | clear

/-- The effect of one interface call on the ring buffer state.  `ringbuf_peek`
and `ringbuf_peek_byte` take a `const ringbuf_t *` and store nothing through it. -/
def ringbuf_apply (rb : ringbuf_t) : ringbuf_op → ringbuf_t
  | .push data mode => (ringbuf_push rb data mode).1
  | .pop data len => (ringbuf_pop rb data len).1
  | .peek _ _ _ => rb
  | .peek_byte _ _ => rb
  | .discard len => (ringbuf_discard rb len).1
  | .clear => ringbuf_clear rb

/-- The index part of the representation invariant. -/
def ringbuf_idx_ok (rb : ringbuf_t) : Prop :=
  0 < rb.size ∧ rb.head < rb.size ∧ rb.tail < rb.size

/-! ## Configuration (`config.h`) and machine integers -/

/-- The macro `TINY_NMEA_MAX_SENTENCE_LEN`. -/
def TINY_NMEA_MAX_SENTENCE_LEN : Nat := 82

/-- The macro `TINY_NMEA_WORKING_BUF_LEN`. -/
def TINY_NMEA_WORKING_BUF_LEN : Nat := 128

/-- The macro `TINY_NMEA_MAX_SATS_PER_GSV`. -/
def TINY_NMEA_MAX_SATS_PER_GSV : Nat := 4

/-- The macro `TINY_NMEA_MAX_SATS_GSA`. -/
def TINY_NMEA_MAX_SATS_GSA : Nat := 12

/-- The constant `UINT32_MAX`. -/
def UINT32_MAX : Nat := 4294967295

/-- The constant `INT32_MAX`. -/
def INT32_MAX : Nat := 2147483647

/-- The conversion to `uint8_t`. -/
def to_uint8 (x : Nat) : Nat := x % 256

/-- The conversion to `uint16_t`. -/
def to_uint16 (x : Nat) : Nat := x % 65536

/-- The conversion to `uint32_t`. -/
def to_uint32 (x : Nat) : Nat := x % 4294967296

/-- The conversion to `int8_t` (two's complement). -/
def to_int8 (x : Int) : Int := (x + 128) % 256 - 128

/-- The conversion to `int16_t` (two's complement). -/
def to_int16 (x : Int) : Int := (x + 32768) % 65536 - 32768

/-- The conversion to `int32_t` (two's complement). -/
def to_int32 (x : Int) : Int := (x + 2147483648) % 4294967296 - 2147483648

/-! ## Data formats (`fixed_point.h`, `data_formats.h`, `nmea_0183_types.h`) -/

/-- The struct `tiny_nmea_float_t`. -/
structure tiny_nmea_float_t where
  value : Int := 0
  scale : Int := 0
deriving DecidableEq, Repr

/-- The struct `tiny_nmea_time_t`. -/
structure tiny_nmea_time_t where
  hours : Nat := 0
  minutes : Nat := 0
  seconds : Nat := 0
  microseconds : Nat := 0
  valid : Bool := false
deriving DecidableEq, Repr

/-- The struct `tiny_nmea_date_t`. -/
structure tiny_nmea_date_t where
  day : Nat := 0
  month : Nat := 0
  year : Nat := 0
  year_yy : Nat := 0
  valid : Bool := false
deriving DecidableEq, Repr

/-- The struct `tiny_nmea_coord_t`. -/
structure tiny_nmea_coord_t where
  raw : tiny_nmea_float_t := {}
  hemisphere : Nat := 0
deriving DecidableEq, Repr

/-- The struct `tiny_nmea_rmc_t`. -/
structure tiny_nmea_rmc_t where
  time : tiny_nmea_time_t := {}
  date : tiny_nmea_date_t := {}
  status_valid : Bool := false
  latitude : tiny_nmea_coord_t := {}
  longitude : tiny_nmea_coord_t := {}
  speed_knots : tiny_nmea_float_t := {}
  course_deg : tiny_nmea_float_t := {}
  mag_variation : tiny_nmea_float_t := {}
  mag_var_dir : Nat := 0
  faa_mode : Nat := 0
  nav_status : Nat := 0
deriving DecidableEq, Repr

/-- The struct `tiny_nmea_gga_t`. -/
structure tiny_nmea_gga_t where
  time : tiny_nmea_time_t := {}
  latitude : tiny_nmea_coord_t := {}
  longitude : tiny_nmea_coord_t := {}
  fix_quality : Nat := 0
  satellites_used : Nat := 0
  hdop : tiny_nmea_float_t := {}
  altitude_m : tiny_nmea_float_t := {}
  geoid_sep_m : tiny_nmea_float_t := {}
  dgps_age_sec : tiny_nmea_float_t := {}
  dgps_station_id : Nat := 0
deriving DecidableEq, Repr

/-- The struct `tiny_nmea_gns_t`; `mode` has `TINY_NMEA_CONSTELLATION_COUNT` = 9 slots. -/
structure tiny_nmea_gns_t where
  time : tiny_nmea_time_t := {}
  latitude : tiny_nmea_coord_t := {}
  longitude : tiny_nmea_coord_t := {}
  mode : List Nat := List.replicate 9 0
  mode_count : Nat := 0
  satellites_used : Nat := 0
  hdop : tiny_nmea_float_t := {}
  altitude_m : tiny_nmea_float_t := {}
  geoid_sep_m : tiny_nmea_float_t := {}
  dgps_age_sec : tiny_nmea_float_t := {}
  dgps_station_id : Nat := 0
  nav_status : Nat := 0
deriving DecidableEq, Repr

/-- The struct `tiny_nmea_gsa_t`; `satellite_prns` has `TINY_NMEA_MAX_SATS_GSA` slots. -/
structure tiny_nmea_gsa_t where
  mode_selection : Nat := 0
  fix_type : Nat := 0
  satellite_prns : List Nat := List.replicate 12 0
  satellite_count : Nat := 0
  pdop : tiny_nmea_float_t := {}
  hdop : tiny_nmea_float_t := {}
  vdop : tiny_nmea_float_t := {}
  system_id : Nat := 0
deriving DecidableEq, Repr

/-- The struct `tiny_nmea_sat_info_t`. -/
structure tiny_nmea_sat_info_t where
  prn : Nat := 0
  elevation : Int := 0
  azimuth : Int := 0
  snr : Int := 0
deriving DecidableEq, Repr

/-- The struct `tiny_nmea_gsv_t`; `sats` has `TINY_NMEA_MAX_SATS_PER_GSV` slots. -/
structure tiny_nmea_gsv_t where
  total_msgs : Nat := 0
  msg_number : Nat := 0
  total_sats : Nat := 0
  sats : List tiny_nmea_sat_info_t := List.replicate 4 {}
  sat_count : Nat := 0
  signal_id : Nat := 0
deriving DecidableEq, Repr

/-- The struct `tiny_nmea_vtg_t`. -/
structure tiny_nmea_vtg_t where
  course_true_deg : tiny_nmea_float_t := {}
  course_mag_deg : tiny_nmea_float_t := {}
  speed_knots : tiny_nmea_float_t := {}
  speed_kph : tiny_nmea_float_t := {}
  faa_mode : Nat := 0
deriving DecidableEq, Repr

/-- The struct `tiny_nmea_gll_t`. -/
structure tiny_nmea_gll_t where
  latitude : tiny_nmea_coord_t := {}
  longitude : tiny_nmea_coord_t := {}
  time : tiny_nmea_time_t := {}
  status_valid : Bool := false
  faa_mode : Nat := 0
deriving DecidableEq, Repr

/-- The struct `tiny_nmea_zda_t`. -/
structure tiny_nmea_zda_t where
  time : tiny_nmea_time_t := {}
  date : tiny_nmea_date_t := {}
  tz_hours : Int := 0
  tz_minutes : Nat := 0
deriving DecidableEq, Repr

/-- The struct `tiny_nmea_gbs_t`. -/
structure tiny_nmea_gbs_t where
  time : tiny_nmea_time_t := {}
  err_lat_m : tiny_nmea_float_t := {}
  err_lon_m : tiny_nmea_float_t := {}
  err_alt_m : tiny_nmea_float_t := {}
  failed_sat_id : Nat := 0
  prob_missed : tiny_nmea_float_t := {}
  bias_m : tiny_nmea_float_t := {}
  bias_stddev_m : tiny_nmea_float_t := {}
deriving DecidableEq, Repr

/-- The struct `tiny_nmea_gst_t`. -/
structure tiny_nmea_gst_t where
  time : tiny_nmea_time_t := {}
  rms_range : tiny_nmea_float_t := {}
  std_major_m : tiny_nmea_float_t := {}
  std_minor_m : tiny_nmea_float_t := {}
  orient_deg : tiny_nmea_float_t := {}
  std_lat_m : tiny_nmea_float_t := {}
  std_lon_m : tiny_nmea_float_t := {}
  std_alt_m : tiny_nmea_float_t := {}
deriving DecidableEq, Repr

/-- The struct `tiny_nmea_ais_t`; `payload` has 64 slots. -/
structure tiny_nmea_ais_t where
  fragment_count : Nat := 0
  fragment_number : Nat := 0
  sequential_id : Nat := 0
  channel : Nat := 0
  payload : List Nat := List.replicate 64 0
  payload_len : Nat := 0
  fill_bits : Nat := 0
deriving DecidableEq, Repr

/-- The union `data` of `tiny_nmea_type_t`: the member last written, or `zero`
for the all-zero bytes of the initialiser `{0}`. -/
inductive tiny_nmea_data_t where
  | zero
  | rmc (d : tiny_nmea_rmc_t)
  | gga (d : tiny_nmea_gga_t)
  | gns (d : tiny_nmea_gns_t)
  | gsa (d : tiny_nmea_gsa_t)
  | gsv (d : tiny_nmea_gsv_t)
  | vtg (d : tiny_nmea_vtg_t)
  | gll (d : tiny_nmea_gll_t)
  | zda (d : tiny_nmea_zda_t)
  | gbs (d : tiny_nmea_gbs_t)
  | gst (d : tiny_nmea_gst_t)
  | ais (d : tiny_nmea_ais_t)
deriving DecidableEq, Repr

/-- The struct `tiny_nmea_type_t`: sentence type tag, talker tag and payload. -/
structure tiny_nmea_type_t where
  type : Nat := 0
  talker : Nat := 0
  data : tiny_nmea_data_t := tiny_nmea_data_t.zero
deriving DecidableEq, Repr

/-- The enum `tiny_nmea_res_t`. -/
inductive tiny_nmea_res_t where
  | TINY_NMEA_OK
  | TINY_NMEA_INVALID_ARGS
  | TINY_NMEA_MALFORMED_SENTENCE
  | TINY_NMEA_ERR_NULL_PTR
  | TINY_NMEA_ERR_EMPTY_FIELD
  | TINY_NMEA_ERR_TOO_FEW_FIELDS
  | TINY_NMEA_ERR_INVALID_FORMAT
  | TINY_NMEA_ERR_INVALID_TIME
  | TINY_NMEA_ERR_INVALID_DATE
  | TINY_NMEA_ERR_INVALID_COORD
  | TINY_NMEA_ERR_INVALID_NUMBER
  | TINY_NMEA_ERR_OVERFLOW
  | TINY_NMEA_ERR_BUFFER_FULL
  | TINY_NMEA_ERR_CHECKSUM
  | TINY_NMEA_ERR_UNSUPPORTED
deriving DecidableEq, Repr

open tiny_nmea_res_t

/-! ## Talker and sentence-type tables (`nmea_0183_defs.h`, `nmea_0183_parse_fields.c`) -/

/-- The macro `NMEA_HASH2`. -/
def NMEA_HASH2 (a b : Nat) : Nat :=
  (to_uint8 a * 256) ||| to_uint8 b

/-- The macro `NMEA_HASH3`. -/
def NMEA_HASH3 (a b c : Nat) : Nat :=
  (to_uint8 a * 65536) ||| (to_uint8 b * 256) ||| to_uint8 c

/-- The enum constant `TINY_NMEA_TALKER_COUNT` (UNKNOWN = 0, GP = 1, GL = 2,
GA = 3, GB = 4, BD = 5, GN = 6, GQ = 7, GI = 8, AI = 9, AB = 10, AD = 11,
AN = 12, AR = 13, AS = 14, AT = 15, AX = 16). -/
def TINY_NMEA_TALKER_COUNT : Nat := 17

/-- The enum constant `TINY_NMEA_SENTENCE_COUNT` (UNKNOWN = 0, RMC = 1,
GGA = 2, GNS = 3, GSA = 4, GSV = 5, VTG = 6, GLL = 7, ZDA = 8, GBS = 9,
GST = 10, VDM = 11, VDO = 12). -/
def TINY_NMEA_SENTENCE_COUNT : Nat := 13

/-- The enum constant `TINY_NMEA_CONSTELLATION_COUNT`. -/
def TINY_NMEA_CONSTELLATION_COUNT : Nat := 9

def TINY_NMEA_SENTENCE_RMC : Nat := 1
def TINY_NMEA_SENTENCE_GGA : Nat := 2
def TINY_NMEA_SENTENCE_GNS : Nat := 3
def TINY_NMEA_SENTENCE_GSA : Nat := 4
def TINY_NMEA_SENTENCE_GSV : Nat := 5
def TINY_NMEA_SENTENCE_VTG : Nat := 6
def TINY_NMEA_SENTENCE_GLL : Nat := 7
def TINY_NMEA_SENTENCE_ZDA : Nat := 8
def TINY_NMEA_SENTENCE_GBS : Nat := 9
def TINY_NMEA_SENTENCE_GST : Nat := 10
def TINY_NMEA_SENTENCE_VDM : Nat := 11
def TINY_NMEA_SENTENCE_VDO : Nat := 12

/-- The X-macro `TINY_NMEA_TALKER_LIST`: the two characters of each talker, in
enum order (GP, GL, GA, GB, BD, GN, GQ, GI, AI, AB, AD, AN, AR, AS, AT, AX). -/
def TINY_NMEA_TALKER_LIST : List (Nat × Nat) :=
  [(71, 80), (71, 76), (71, 65), (71, 66), (66, 68), (71, 78), (71, 81), (71, 73),
   (65, 73), (65, 66), (65, 68), (65, 78), (65, 82), (65, 83), (65, 84), (65, 88)]

/-- The X-macro `TINY_NMEA_SENTENCE_LIST`: the three characters of each
sentence type, in enum order (RMC, GGA, GNS, GSA, GSV, VTG, GLL, ZDA, GBS, GST,
VDM, VDO). -/
def TINY_NMEA_SENTENCE_LIST : List (Nat × Nat × Nat) :=
  [(82, 77, 67), (71, 71, 65), (71, 78, 83), (71, 83, 65), (71, 83, 86), (86, 84, 71),
   (71, 76, 76), (90, 68, 65), (71, 66, 83), (71, 83, 84), (86, 68, 77), (86, 68, 79)]

/-- The `switch` of `parse_talker_id` over the generated `case` labels: the
enum value (position in the list plus one) of the first label equal to `h`,
or `TINY_NMEA_TALKER_UNKNOWN` = 0. -/
def talker_switch (h : Nat) : List (Nat × Nat) → Nat → Nat
  | [], _ => 0
  | (c1, c2) :: rest, k => if h = NMEA_HASH2 c1 c2 then k else talker_switch h rest (k + 1)

/-- The function `parse_talker_id` applied to a pointer at the bytes `s0 s1`. -/
def parse_talker_id (s0 s1 : Nat) : Nat :=
  talker_switch (NMEA_HASH2 s0 s1) TINY_NMEA_TALKER_LIST 1

/-- The `switch` of `parse_sentence_type` over the generated `case` labels. -/
def sentence_switch (h : Nat) : List (Nat × Nat × Nat) → Nat → Nat
  | [], _ => 0
  | (c1, c2, c3) :: rest, k =>
    if h = NMEA_HASH3 c1 c2 c3 then k else sentence_switch h rest (k + 1)

/-- The function `parse_sentence_type` applied to a pointer at the bytes `s0 s1 s2`. -/
def parse_sentence_type (s0 s1 s2 : Nat) : Nat :=
  sentence_switch (NMEA_HASH3 s0 s1 s2) TINY_NMEA_SENTENCE_LIST 1

/-- The function `tiny_nmea_talker_valid`. -/
def tiny_nmea_talker_valid (t : Nat) : Bool :=
  decide (t > 0) && decide (t < TINY_NMEA_TALKER_COUNT)

/-- The function `tiny_nmea_sentence_valid`. -/
def tiny_nmea_sentence_valid (t : Nat) : Bool :=
  decide (t > 0) && decide (t < TINY_NMEA_SENTENCE_COUNT)

/-- The function `parse_faa_mode`: the enum values are the characters
A, D, E, F, M, N, P, R, S; anything else is `TINY_NMEA_FAA_UNKNOWN` = 0. -/
def parse_faa_mode (c : Nat) : Nat :=
  if c ∈ [65, 68, 69, 70, 77, 78, 80, 82, 83] then c else 0

/-- The function `parse_gsa_fix`: '1', '2', '3' give 1, 2, 3; anything else 0. -/
def parse_gsa_fix (c : Nat) : Nat :=
  if c = 49 then 1 else if c = 50 then 2 else if c = 51 then 3 else 0

/-- The function `parse_nav_status`: the enum values are the characters
S, C, U, V; anything else is `TINY_NMEA_NAV_STATUS_UNKNOWN` = 0. -/
def parse_nav_status (c : Nat) : Nat :=
  if c ∈ [83, 67, 85, 86] then c else 0

/-! ## Tokenizer and field parsers (`parse_sentence_fields.c`) -/

/-- The macro `IS_DIGIT`: `(uint8_t)(c - '0') <= 9`. -/
def IS_DIGIT (c : Nat) : Bool :=
  decide ((c + 256 - 48) % 256 ≤ 9)

/-- The function `is_ndigits`. -/
def is_ndigits (p : List Nat) (n : Nat) : Bool :=
  (p.take n).all IS_DIGIT

/-- The function `field_empty`; a field is the byte string `ptr[0 .. len)`. -/
def field_empty (f : List Nat) : Bool :=
  f.length == 0

/-- The macro `WOULD_OVERFLOW_U32`. -/
def WOULD_OVERFLOW_U32 (val digit : Nat) : Bool :=
  decide (val > UINT32_MAX / 10) || (decide (val = UINT32_MAX / 10) && decide (digit > UINT32_MAX % 10))

/-- The accumulation loop of `parse_uint`. -/
def parse_uint_loop : List Nat → Nat → Option Nat
  | [], val => some val
  | c :: cs, val =>
    let digit := to_uint8 (c + 256 - 48)
    if WOULD_OVERFLOW_U32 val digit then none
    else parse_uint_loop cs (val * 10 + digit)

/-- The function `parse_uint`: `none` for `false`, `some v` for `true` with `*out = v`. -/
def parse_uint (f : List Nat) : Option Nat :=
  if field_empty f then none
  else if !(is_ndigits f f.length) then none
  else parse_uint_loop f 0

/-- The function `parse_int`: `none` for `false`, `some v` for `true` with
`*out = v`. The value `-(int32_t)uval` is taken in 32-bit two's complement, so
that `uval = 2147483648` gives `INT32_MIN`; `(int32_t)uval` is `uval` itself
for `uval ≤ INT32_MAX`. -/
def parse_int (f : List Nat) : Option Int :=
  if field_empty f then none
  else
    let negative := f.headD 0 == 45
    let p := if f.headD 0 == 45 then f.tail else if f.headD 0 == 43 then f.tail else f
    match parse_uint p with
    | none => none
    | some uval =>
      if negative then
        if uval > INT32_MAX + 1 then none else some (to_int32 (-(uval : Int)))
      else
        if uval > INT32_MAX then none else some (uval : Int)

/-- The function `parse_char`. -/
def parse_char (f : List Nat) : Option Nat :=
  if field_empty f then none else some (f.headD 0)

/-- The first index of the byte `c` in `l`, as `memchr(l, c, |l|)` finds it. -/
def memchr_list (l : List Nat) (c : Nat) : Option Nat :=
  match l with
  | [] => none
  | x :: xs => if x = c then some 0 else (memchr_list xs c).map (· + 1)

/-- The value of `scale` after the loop `for (i = 0; i < len; i++) scale *= 10`
on a `uint32_t`. -/
def scale_loop : Nat → Nat → Nat
  | 0, scale => scale
  | n + 1, scale => scale_loop n (to_uint32 (scale * 10))

/-- The function `parse_fixedpoint_float`.  The outer `none` is the undefined
behaviour of the division `INT32_MAX / scale` by zero; otherwise the result
is the returned flag and the value of `*out`. -/
def parse_fixedpoint_float (f : List Nat) : Option (Bool × tiny_nmea_float_t) :=
  if field_empty f then some (false, {})
  else
    let negative := f.headD 0 == 45
    let p := if f.headD 0 == 45 then f.tail else if f.headD 0 == 43 then f.tail else f
    if p.length = 0 then some (false, {})
    else
      -- the part before the decimal point
      let before : Option (Nat × Bool × List Nat) :=
        match memchr_list p 46 with
        | some int_len =>
          if int_len > 0 then
            match parse_uint (p.take int_len) with
            | none => none
            | some v => some (v, true, p.drop (int_len + 1))
          else some (0, false, p.drop (int_len + 1))
        | none => some (0, false, p)
      match before with
      | none => some (false, {})
      | some (integer_val, have_digits1, p2) =>
        -- the part after it
        let after : Option (Nat × Nat × Bool) :=
          if p2.length > 0 then
            match parse_uint p2 with
            | none => none
            | some v => some (v, scale_loop p2.length 1, true)
          else some (0, 1, have_digits1)
        match after with
        | none => some (false, {})
        | some (frac_val, scale, have_digits) =>
          if !have_digits then some (false, {})
          else if scale = 0 then none
          else if integer_val > to_uint32 (INT32_MAX / scale) then some (false, {})
          else
            let combined := to_uint32 (integer_val * scale + frac_val)
            if combined > INT32_MAX then some (false, {})
            else
              some (true, { value := if negative then -(combined : Int) else (combined : Int),
                            scale := to_int32 (scale : Int) })

/-- The loop of `tokenize`, with `n` the number of fields still allowed:
`ptr` runs over the remaining bytes `s`. -/
def tokenize_loop : Nat → List Nat → List (List Nat)
  | 0, _ => []
  | n + 1, s =>
    match memchr_list s 44 with
    | some i => (s.take i).take (to_uint8 i) :: tokenize_loop n (s.drop (i + 1))
    | none => [s.take (to_uint8 s.length)]

/-- The function `tokenize`: the fields written to `fields[0 .. count)`, each
the byte string `ptr[0 .. len)` with `len` stored in a `uint8_t`. -/
def tokenize (sentence : List Nat) (max_fields : Nat) : List (List Nat) :=
  if sentence.length = 0 then [] else tokenize_loop max_fields sentence

/-- The fractional-seconds loop of `parse_time`: reads digits while fewer than
six have been read; returns `frac` and `digits`. -/
def parse_time_frac : List Nat → Nat → Nat → Nat × Nat
  | [], frac, digits => (frac, digits)
  | c :: cs, frac, digits =>
    if digits < 6 then
      if !(IS_DIGIT c) then (frac, digits)
      else parse_time_frac cs (to_uint32 (frac * 10 + (c - 48))) (digits + 1)
    else (frac, digits)

/-- The padding loop `while (digits < 6) { frac *= 10; digits++; }`, for at
most six rounds. -/
def parse_time_pad : Nat → Nat → Nat → Nat
  | 0, frac, _ => frac
  | n + 1, frac, digits =>
    if digits < 6 then parse_time_pad n (to_uint32 (frac * 10)) (digits + 1) else frac

/-- The function `parse_time`: the returned flag and `*out`. -/
def parse_time (f : List Nat) : Bool × tiny_nmea_time_t :=
  if field_empty f || decide (f.length < 6) then (false, {})
  else if !(is_ndigits f 6) then (false, {})
  else
    let hours := to_uint8 ((f.getD 0 0 - 48) * 10 + (f.getD 1 0 - 48))
    let minutes := to_uint8 ((f.getD 2 0 - 48) * 10 + (f.getD 3 0 - 48))
    let seconds := to_uint8 ((f.getD 4 0 - 48) * 10 + (f.getD 5 0 - 48))
    if hours > 23 ∨ minutes > 59 ∨ seconds > 60 then
      (false, { hours := hours, minutes := minutes, seconds := seconds })
    else
      let microseconds :=
        if f.length > 7 ∧ f.getD 6 0 = 46 then
          let r := parse_time_frac (f.drop 7) 0 0
          parse_time_pad 6 r.1 r.2
        else 0
      (true, { hours := hours, minutes := minutes, seconds := seconds,
               microseconds := microseconds, valid := true })

/-- The function `parse_date`: the returned flag and `*out`. -/
def parse_date (f : List Nat) : Bool × tiny_nmea_date_t :=
  if field_empty f || decide (f.length < 6) then (false, {})
  else if !(is_ndigits f 6) then (false, {})
  else
    let day := to_uint8 ((f.getD 0 0 - 48) * 10 + (f.getD 1 0 - 48))
    let month := to_uint8 ((f.getD 2 0 - 48) * 10 + (f.getD 3 0 - 48))
    let year_yy := to_uint8 ((f.getD 4 0 - 48) * 10 + (f.getD 5 0 - 48))
    if day < 1 ∨ day > 31 ∨ month < 1 ∨ month > 12 then
      (false, { day := day, month := month, year_yy := year_yy })
    else
      (true, { day := day, month := month, year_yy := year_yy, valid := true })

/-- The function `parse_latitude`: the returned flag and `*out`; the outer
`none` is the undefined behaviour of `parse_fixedpoint_float`. -/
def parse_latitude (f dir : List Nat) : Option (Bool × tiny_nmea_coord_t) :=
  if field_empty f then some (false, {})
  else
    match parse_fixedpoint_float f with
    | none => none
    | some (false, raw) => some (false, { raw := raw })
    | some (true, raw) =>
      if !(field_empty dir) then
        let h := dir.headD 0
        if h = 78 ∨ h = 83 then some (true, { raw := raw, hemisphere := h })
        else some (false, { raw := raw })
      else some (true, { raw := raw })

/-- The function `parse_longitude`. -/
def parse_longitude (f dir : List Nat) : Option (Bool × tiny_nmea_coord_t) :=
  if field_empty f then some (false, {})
  else
    match parse_fixedpoint_float f with
    | none => none
    | some (false, raw) => some (false, { raw := raw })
    | some (true, raw) =>
      if !(field_empty dir) then
        let h := dir.headD 0
        if h = 69 ∨ h = 87 then some (true, { raw := raw, hemisphere := h })
        else some (false, { raw := raw })
      else some (true, { raw := raw })

/-! ## Sentence decoders (`sentences.c`)

A decoder receives the body `sentence[0 .. len)` and the previous value of
`*data`, and returns its result code and the value of `*data` afterwards; the
outer `none` is the undefined behaviour of `parse_fixedpoint_float`. -/

/-- The function `parse_status_valid`. -/
def parse_status_valid (f : List Nat) : Bool :=
  !(field_empty f) && f.headD 0 == 65

/-- The function `parse_faa_mode_field`. -/
def parse_faa_mode_field (f : List Nat) : Nat :=
  if field_empty f then 0 else parse_faa_mode (f.headD 0)

/-- The function `parse_nav_status_field`. -/
def parse_nav_status_field (f : List Nat) : Nat :=
  if field_empty f then 0 else parse_nav_status (f.headD 0)

/-- The function `parse_gsa_fix_field`. -/
def parse_gsa_fix_field (f : List Nat) : Nat :=
  if field_empty f then 0 else parse_gsa_fix (f.headD 0)

/-- The value left in a `tiny_nmea_float_t` by `parse_fixedpoint_float(&f, &x)`. -/
def float_field (f : List Nat) : Option tiny_nmea_float_t :=
  (parse_fixedpoint_float f).map (·.2)

/-- The function `handle_parse_rmc`. -/
def handle_parse_rmc (sentence : List Nat) (data : tiny_nmea_rmc_t) :
    Option (tiny_nmea_res_t × tiny_nmea_rmc_t) :=
  let f := tokenize sentence 13
  let count := f.length
  if count < 11 then some (TINY_NMEA_ERR_TOO_FEW_FIELDS, data)
  else do
    let time := (parse_time (f.getD 0 [])).2
    let status_valid := parse_status_valid (f.getD 1 [])
    let latitude ← parse_latitude (f.getD 2 []) (f.getD 3 [])
    let longitude ← parse_longitude (f.getD 4 []) (f.getD 5 [])
    let speed_knots ← float_field (f.getD 6 [])
    let course_deg ← float_field (f.getD 7 [])
    let date := (parse_date (f.getD 8 [])).2
    let mag_variation ← float_field (f.getD 9 [])
    let mag_var_dir := (parse_char (f.getD 10 [])).getD 0
    let faa_mode := if count > 11 then parse_faa_mode_field (f.getD 11 []) else 0
    let nav_status := if count > 12 then parse_nav_status_field (f.getD 12 []) else 0
    some (TINY_NMEA_OK,
      { time := time, date := date, status_valid := status_valid, latitude := latitude.2,
        longitude := longitude.2, speed_knots := speed_knots, course_deg := course_deg,
        mag_variation := mag_variation, mag_var_dir := mag_var_dir, faa_mode := faa_mode,
        nav_status := nav_status })

/-- The function `handle_parse_gga`. -/
def handle_parse_gga (sentence : List Nat) (data : tiny_nmea_gga_t) :
    Option (tiny_nmea_res_t × tiny_nmea_gga_t) :=
  let f := tokenize sentence 15
  let count := f.length
  if count < 14 then some (TINY_NMEA_ERR_TOO_FEW_FIELDS, data)
  else do
    let time := (parse_time (f.getD 0 [])).2
    let latitude ← parse_latitude (f.getD 1 []) (f.getD 2 [])
    let longitude ← parse_longitude (f.getD 3 []) (f.getD 4 [])
    let fix_quality := ((parse_uint (f.getD 5 [])).map to_uint8).getD 0
    let satellites_used := ((parse_uint (f.getD 6 [])).map to_uint8).getD 0
    let hdop ← float_field (f.getD 7 [])
    let altitude_m ← float_field (f.getD 8 [])
    let geoid_sep_m ← float_field (f.getD 10 [])
    let dgps_age_sec ← float_field (f.getD 12 [])
    let dgps_station_id := ((parse_uint (f.getD 13 [])).map to_uint16).getD 0
    some (TINY_NMEA_OK,
      { time := time, latitude := latitude.2, longitude := longitude.2,
        fix_quality := fix_quality, satellites_used := satellites_used, hdop := hdop,
        altitude_m := altitude_m, geoid_sep_m := geoid_sep_m, dgps_age_sec := dgps_age_sec,
        dgps_station_id := dgps_station_id })

/-- The mode loop of `handle_parse_gns`: `data->mode[i] = parse_faa_mode(ptr[i])`
for `i < mode_len`. -/
def gns_mode_loop (chars : List Nat) (mode : List Nat) : List Nat :=
  (chars.map parse_faa_mode) ++ mode.drop chars.length

/-- The function `handle_parse_gns`. -/
def handle_parse_gns (sentence : List Nat) (data : tiny_nmea_gns_t) :
    Option (tiny_nmea_res_t × tiny_nmea_gns_t) :=
  let f := tokenize sentence 14
  let count := f.length
  if count < 12 then some (TINY_NMEA_ERR_TOO_FEW_FIELDS, data)
  else do
    let time := (parse_time (f.getD 0 [])).2
    let latitude ← parse_latitude (f.getD 1 []) (f.getD 2 [])
    let longitude ← parse_longitude (f.getD 3 []) (f.getD 4 [])
    let f5 := f.getD 5 []
    let mode_len :=
      if f5.length > TINY_NMEA_CONSTELLATION_COUNT then TINY_NMEA_CONSTELLATION_COUNT
      else f5.length
    let mode :=
      if !(field_empty f5) then gns_mode_loop (f5.take mode_len) (List.replicate 9 0)
      else List.replicate 9 0
    let mode_count := if !(field_empty f5) then mode_len else 0
    let satellites_used := ((parse_uint (f.getD 6 [])).map to_uint8).getD 0
    let hdop ← float_field (f.getD 7 [])
    let altitude_m ← float_field (f.getD 8 [])
    let geoid_sep_m ← float_field (f.getD 9 [])
    let dgps_age_sec ← float_field (f.getD 10 [])
    let dgps_station_id := ((parse_uint (f.getD 11 [])).map to_uint16).getD 0
    let nav_status := if count > 12 then parse_nav_status_field (f.getD 12 []) else 0
    some (TINY_NMEA_OK,
      { time := time, latitude := latitude.2, longitude := longitude.2, mode := mode,
        mode_count := mode_count, satellites_used := satellites_used, hdop := hdop,
        altitude_m := altitude_m, geoid_sep_m := geoid_sep_m, dgps_age_sec := dgps_age_sec,
        dgps_station_id := dgps_station_id, nav_status := nav_status })

/-- The PRN loop of `handle_parse_gsa` over the fields 2..13: the array
`satellite_prns` and `satellite_count`. -/
def gsa_prn_loop : List (List Nat) → List Nat × Nat → List Nat × Nat
  | [], acc => acc
  | fi :: rest, (prns, cnt) =>
    if cnt < TINY_NMEA_MAX_SATS_GSA then
      if !(field_empty fi) then
        match parse_uint fi with
        | some tmp => gsa_prn_loop rest (prns.set cnt (to_uint8 tmp), cnt + 1)
        | none => gsa_prn_loop rest (prns, cnt)
      else gsa_prn_loop rest (prns, cnt)
    else (prns, cnt)

/-- The function `handle_parse_gsa`. -/
def handle_parse_gsa (sentence : List Nat) (data : tiny_nmea_gsa_t) :
    Option (tiny_nmea_res_t × tiny_nmea_gsa_t) :=
  let f := tokenize sentence 18
  let count := f.length
  if count < 17 then some (TINY_NMEA_ERR_TOO_FEW_FIELDS, data)
  else do
    let mode_selection := (parse_char (f.getD 0 [])).getD 0
    let fix_type := parse_gsa_fix_field (f.getD 1 [])
    let prns := gsa_prn_loop ((f.drop 2).take 12) (List.replicate 12 0, 0)
    let pdop ← float_field (f.getD 14 [])
    let hdop ← float_field (f.getD 15 [])
    let vdop ← float_field (f.getD 16 [])
    let system_id :=
      if count > 17 then ((parse_uint (f.getD 17 [])).map to_uint8).getD 0 else 0
    some (TINY_NMEA_OK,
      { mode_selection := mode_selection, fix_type := fix_type, satellite_prns := prns.1,
        satellite_count := prns.2, pdop := pdop, hdop := hdop, vdop := vdop,
        system_id := system_id })

/-- The satellite-block loop of `handle_parse_gsv` for the indices `i` of the
list: the array `sats` and `sat_count`. -/
def gsv_sat_loop (f : List (List Nat)) (count : Nat) :
    List Nat → List tiny_nmea_sat_info_t × Nat → List tiny_nmea_sat_info_t × Nat
  | [], acc => acc
  | i :: rest, (sats, sat_count) =>
    let base := to_uint8 (3 + i * 4)
    if base ≥ count then (sats, sat_count)
    else if field_empty (f.getD base []) then gsv_sat_loop f count rest (sats, sat_count)
    else
      let marked : tiny_nmea_sat_info_t := { prn := 0, elevation := -128, azimuth := -1, snr := -1 }
      match parse_uint (f.getD base []) with
      | none => gsv_sat_loop f count rest (sats.set sat_count marked, sat_count)
      | some tmp =>
        let elevation :=
          if base + 1 < count then
            match parse_int (f.getD (base + 1) []) with
            | some stmp => to_int8 stmp
            | none => -128
          else -128
        let azimuth :=
          if base + 2 < count then
            match parse_uint (f.getD (base + 2) []) with
            | some t => to_int16 (t : Int)
            | none => -1
          else -1
        let snr :=
          if base + 3 < count then
            match parse_int (f.getD (base + 3) []) with
            | some stmp => to_int8 stmp
            | none => -1
          else -1
        gsv_sat_loop f count rest
          (sats.set sat_count
            { prn := to_uint8 tmp, elevation := elevation, azimuth := azimuth, snr := snr },
           sat_count + 1)

/-- The function `handle_parse_gsv`. -/
def handle_parse_gsv (sentence : List Nat) (data : tiny_nmea_gsv_t) :
    Option (tiny_nmea_res_t × tiny_nmea_gsv_t) :=
  let f := tokenize sentence 20
  let count := f.length
  if count < 3 then some (TINY_NMEA_ERR_TOO_FEW_FIELDS, data)
  else
    let total_msgs := ((parse_uint (f.getD 0 [])).map to_uint8).getD 0
    let msg_number := ((parse_uint (f.getD 1 [])).map to_uint8).getD 0
    let total_sats := ((parse_uint (f.getD 2 [])).map to_uint8).getD 0
    let sats := gsv_sat_loop f count (List.range TINY_NMEA_MAX_SATS_PER_GSV)
      (List.replicate 4 {}, 0)
    let sig_idx := to_uint8 (3 + sats.2 * 4)
    let signal_id :=
      if sig_idx < count then ((parse_uint (f.getD sig_idx [])).map to_uint8).getD 0 else 0
    some (TINY_NMEA_OK,
      { total_msgs := total_msgs, msg_number := msg_number, total_sats := total_sats,
        sats := sats.1, sat_count := sats.2, signal_id := signal_id })

/-- The function `handle_parse_vtg`. -/
def handle_parse_vtg (sentence : List Nat) (data : tiny_nmea_vtg_t) :
    Option (tiny_nmea_res_t × tiny_nmea_vtg_t) :=
  let f := tokenize sentence 10
  let count := f.length
  if count < 8 then some (TINY_NMEA_ERR_TOO_FEW_FIELDS, data)
  else do
    let course_true_deg ← float_field (f.getD 0 [])
    let course_mag_deg ← float_field (f.getD 2 [])
    let speed_knots ← float_field (f.getD 4 [])
    let speed_kph ← float_field (f.getD 6 [])
    let faa_mode := if count > 8 then parse_faa_mode_field (f.getD 8 []) else 0
    some (TINY_NMEA_OK,
      { course_true_deg := course_true_deg, course_mag_deg := course_mag_deg,
        speed_knots := speed_knots, speed_kph := speed_kph, faa_mode := faa_mode })

/-- The function `handle_parse_gll`. -/
def handle_parse_gll (sentence : List Nat) (data : tiny_nmea_gll_t) :
    Option (tiny_nmea_res_t × tiny_nmea_gll_t) :=
  let f := tokenize sentence 8
  let count := f.length
  if count < 6 then some (TINY_NMEA_ERR_TOO_FEW_FIELDS, data)
  else do
    let latitude ← parse_latitude (f.getD 0 []) (f.getD 1 [])
    let longitude ← parse_longitude (f.getD 2 []) (f.getD 3 [])
    let time := (parse_time (f.getD 4 [])).2
    let status_valid := parse_status_valid (f.getD 5 [])
    let faa_mode := if count > 6 then parse_faa_mode_field (f.getD 6 []) else 0
    some (TINY_NMEA_OK,
      { latitude := latitude.2, longitude := longitude.2, time := time,
        status_valid := status_valid, faa_mode := faa_mode })

/-- The function `handle_parse_zda`. -/
def handle_parse_zda (sentence : List Nat) (data : tiny_nmea_zda_t) :
    Option (tiny_nmea_res_t × tiny_nmea_zda_t) :=
  let f := tokenize sentence 7
  let count := f.length
  if count < 6 then some (TINY_NMEA_ERR_TOO_FEW_FIELDS, data)
  else
    let t := parse_time (f.getD 0 [])
    if !t.1 then some (TINY_NMEA_ERR_INVALID_TIME, { time := t.2 })
    else
      let day := ((parse_uint (f.getD 1 [])).map to_uint8).getD 0
      let month := ((parse_uint (f.getD 2 [])).map to_uint8).getD 0
      let year := ((parse_uint (f.getD 3 [])).map to_uint16).getD 0
      if day < 1 ∨ day > 31 ∨ month < 1 ∨ month > 12 then
        some (TINY_NMEA_ERR_INVALID_DATE,
          { time := t.2, date := { day := day, month := month, year := year } })
      else
        let tz_hours := ((parse_int (f.getD 4 [])).map to_int8).getD 0
        let tz_minutes := ((parse_int (f.getD 5 [])).map fun s => (s % 256).toNat).getD 0
        some (TINY_NMEA_OK,
          { time := t.2,
            date := { day := day, month := month, year := year, valid := true },
            tz_hours := tz_hours, tz_minutes := tz_minutes })

/-- The function `handle_parse_gbs`. -/
def handle_parse_gbs (sentence : List Nat) (data : tiny_nmea_gbs_t) :
    Option (tiny_nmea_res_t × tiny_nmea_gbs_t) :=
  let f := tokenize sentence 9
  let count := f.length
  if count < 8 then some (TINY_NMEA_ERR_TOO_FEW_FIELDS, data)
  else do
    let time := (parse_time (f.getD 0 [])).2
    let err_lat_m ← float_field (f.getD 1 [])
    let err_lon_m ← float_field (f.getD 2 [])
    let err_alt_m ← float_field (f.getD 3 [])
    let failed_sat_id := ((parse_uint (f.getD 4 [])).map to_uint8).getD 0
    let prob_missed ← float_field (f.getD 5 [])
    let bias_m ← float_field (f.getD 6 [])
    let bias_stddev_m ← float_field (f.getD 7 [])
    some (TINY_NMEA_OK,
      { time := time, err_lat_m := err_lat_m, err_lon_m := err_lon_m, err_alt_m := err_alt_m,
        failed_sat_id := failed_sat_id, prob_missed := prob_missed, bias_m := bias_m,
        bias_stddev_m := bias_stddev_m })

/-- The function `handle_parse_gst`. -/
def handle_parse_gst (sentence : List Nat) (data : tiny_nmea_gst_t) :
    Option (tiny_nmea_res_t × tiny_nmea_gst_t) :=
  let f := tokenize sentence 9
  let count := f.length
  if count < 8 then some (TINY_NMEA_ERR_TOO_FEW_FIELDS, data)
  else do
    let time := (parse_time (f.getD 0 [])).2
    let rms_range ← float_field (f.getD 1 [])
    let std_major_m ← float_field (f.getD 2 [])
    let std_minor_m ← float_field (f.getD 3 [])
    let orient_deg ← float_field (f.getD 4 [])
    let std_lat_m ← float_field (f.getD 5 [])
    let std_lon_m ← float_field (f.getD 6 [])
    let std_alt_m ← float_field (f.getD 7 [])
    some (TINY_NMEA_OK,
      { time := time, rms_range := rms_range, std_major_m := std_major_m,
        std_minor_m := std_minor_m, orient_deg := orient_deg, std_lat_m := std_lat_m,
        std_lon_m := std_lon_m, std_alt_m := std_alt_m })

/-- The function `handle_parse_ais`. -/
def handle_parse_ais (sentence : List Nat) (data : tiny_nmea_ais_t) :
    Option (tiny_nmea_res_t × tiny_nmea_ais_t) :=
  let f := tokenize sentence 6
  let count := f.length
  if count < 6 then some (TINY_NMEA_ERR_TOO_FEW_FIELDS, data)
  else
    let fragment_count := ((parse_uint (f.getD 0 [])).map to_uint8).getD 0
    let fragment_number := ((parse_uint (f.getD 1 [])).map to_uint8).getD 0
    let sequential_id :=
      if !(field_empty (f.getD 2 [])) then ((parse_uint (f.getD 2 [])).map to_uint8).getD 0
      else 0
    let channel := (parse_char (f.getD 3 [])).getD 0
    let f4 := f.getD 4 []
    let payload_len := if f4.length > 63 then 63 else f4.length
    let payload :=
      if !(field_empty f4) then
        memcpy (memcpy (List.replicate 64 0) 0 (f4.take payload_len)) payload_len [0]
      else List.replicate 64 0
    let fill_bits := ((parse_uint (f.getD 5 [])).map to_uint8).getD 0
    some (TINY_NMEA_OK,
      { fragment_count := fragment_count, fragment_number := fragment_number,
        sequential_id := sequential_id, channel := channel, payload := payload,
        payload_len := if !(field_empty f4) then payload_len else 0, fill_bits := fill_bits })

/-! ## Sentence dispatch (`tiny_nmea_parse.c`) -/

/-- The C function `strlen` on the memory starting at a pointer. -/
def strlen (s : List Nat) : Nat :=
  (s.takeWhile fun b => b != 0).length

/-- The union member read through `&result->data.rmc` and its siblings: the
member last written, or all-zero bytes. -/
def data_rmc : tiny_nmea_data_t → tiny_nmea_rmc_t
  | .rmc d => d
  | _ => {}

def data_gga : tiny_nmea_data_t → tiny_nmea_gga_t
  | .gga d => d
  | _ => {}

def data_gns : tiny_nmea_data_t → tiny_nmea_gns_t
  | .gns d => d
  | _ => {}

def data_gsa : tiny_nmea_data_t → tiny_nmea_gsa_t
  | .gsa d => d
  | _ => {}

def data_gsv : tiny_nmea_data_t → tiny_nmea_gsv_t
  | .gsv d => d
  | _ => {}

def data_vtg : tiny_nmea_data_t → tiny_nmea_vtg_t
  | .vtg d => d
  | _ => {}

def data_gll : tiny_nmea_data_t → tiny_nmea_gll_t
  | .gll d => d
  | _ => {}

def data_zda : tiny_nmea_data_t → tiny_nmea_zda_t
  | .zda d => d
  | _ => {}

def data_gbs : tiny_nmea_data_t → tiny_nmea_gbs_t
  | .gbs d => d
  | _ => {}

def data_gst : tiny_nmea_data_t → tiny_nmea_gst_t
  | .gst d => d
  | _ => {}

def data_ais : tiny_nmea_data_t → tiny_nmea_ais_t
  | .ais d => d
  | _ => {}

/-- The `size_t` difference `strlen(sentence) - 7` that `tiny_nmea_parse`
computes for `field_len`: it wraps for a string shorter than 7 bytes. -/
def parse_field_len (sentence : List Nat) : Nat :=
  (strlen sentence + 18446744073709551616 - 7) % 18446744073709551616

/-- The bytes that `tokenize` walks for the pair `(field_data, field_len)` that
`tiny_nmea_parse` hands to a decoder, with `field_data = sentence + 7`.
`tokenize` computes `end = field_data + field_len`, which is at the offset
`(7 + field_len) mod 2^64` from `sentence` (pointers are 64 bits wide): the
offset of the terminator.  For a string of 7 bytes or more the pair designates
the bytes from offset 7 to the terminator.  For a shorter string `field_len`
has wrapped and `end` lies before `field_data`: the loop
`while (ptr <= end && ...)` of `tokenize` is not entered, no byte is read and
0 fields are returned, as for `len == 0`. -/
def parse_field_data (sentence : List Nat) : List Nat :=
  let field_len := parse_field_len sentence
  let field_end := (7 + field_len) % 18446744073709551616
  if field_end < 7 then [] else slice sentence 7 field_len

/-- The function `tiny_nmea_parse`; `sentence` is the memory at the pointer
(a NUL-terminated string) and `result` the previous value of `*result`.
Returns the result code and `*result` afterwards; `none` is undefined
behaviour inside a decoder.  `field_data` stands for the pair
`(field_data, field_len)`, see `parse_field_data`. -/
def tiny_nmea_parse (sentence : List Nat) (result : tiny_nmea_type_t) :
    Option (tiny_nmea_res_t × tiny_nmea_type_t) :=
  let redo := !(tiny_nmea_talker_valid result.talker) || !(tiny_nmea_sentence_valid result.type)
  let result1 : tiny_nmea_type_t :=
    if redo then
      { result with
        talker := parse_talker_id (sentence.getD 1 0) (sentence.getD 2 0),
        type := parse_sentence_type (sentence.getD 3 0) (sentence.getD 4 0) (sentence.getD 5 0) }
    else result
  if redo && (!(tiny_nmea_talker_valid result1.talker) ||
      !(tiny_nmea_sentence_valid result1.type)) then
    some (TINY_NMEA_MALFORMED_SENTENCE, result1)
  else
    let field_data := parse_field_data sentence
    let t := result1.type
    if t = TINY_NMEA_SENTENCE_RMC then
      (handle_parse_rmc field_data (data_rmc result1.data)).map
        fun r => (r.1, { result1 with data := .rmc r.2 })
    else if t = TINY_NMEA_SENTENCE_GGA then
      (handle_parse_gga field_data (data_gga result1.data)).map
        fun r => (r.1, { result1 with data := .gga r.2 })
    else if t = TINY_NMEA_SENTENCE_GNS then
      (handle_parse_gns field_data (data_gns result1.data)).map
        fun r => (r.1, { result1 with data := .gns r.2 })
    else if t = TINY_NMEA_SENTENCE_GSA then
      (handle_parse_gsa field_data (data_gsa result1.data)).map
        fun r => (r.1, { result1 with data := .gsa r.2 })
    else if t = TINY_NMEA_SENTENCE_GSV then
      (handle_parse_gsv field_data (data_gsv result1.data)).map
        fun r => (r.1, { result1 with data := .gsv r.2 })
    else if t = TINY_NMEA_SENTENCE_VTG then
      (handle_parse_vtg field_data (data_vtg result1.data)).map
        fun r => (r.1, { result1 with data := .vtg r.2 })
    else if t = TINY_NMEA_SENTENCE_GLL then
      (handle_parse_gll field_data (data_gll result1.data)).map
        fun r => (r.1, { result1 with data := .gll r.2 })
    else if t = TINY_NMEA_SENTENCE_ZDA then
      (handle_parse_zda field_data (data_zda result1.data)).map
        fun r => (r.1, { result1 with data := .zda r.2 })
    else if t = TINY_NMEA_SENTENCE_GBS then
      (handle_parse_gbs field_data (data_gbs result1.data)).map
        fun r => (r.1, { result1 with data := .gbs r.2 })
    else if t = TINY_NMEA_SENTENCE_GST then
      (handle_parse_gst field_data (data_gst result1.data)).map
        fun r => (r.1, { result1 with data := .gst r.2 })
    else if t = TINY_NMEA_SENTENCE_VDM ∨ t = TINY_NMEA_SENTENCE_VDO then
      (handle_parse_ais field_data (data_ais result1.data)).map
        fun r => (r.1, { result1 with data := .ais r.2 })
    else some (TINY_NMEA_ERR_UNSUPPORTED, result1)

/-! ## Parser context and framing state machine (`tiny_nmea.h`, `tiny_nmea.c`, `tiny_nmea_work.c`) -/

/-- The struct `tiny_nmea_parser_statistics_t` (four `uint32_t` counters). -/
structure tiny_nmea_parser_statistics_t where
  sentences_parsed : Nat := 0
  checksum_errors : Nat := 0
  parse_errors : Nat := 0
  buffer_overflows : Nat := 0
deriving DecidableEq, Repr

/-- The enum `tiny_nmea_parser_fsm_state_t`. -/
inductive tiny_nmea_parser_fsm_state_t where
  | TINY_NMEA_PARSE_FIND_START
  | TINY_NMEA_PARSE_FIND_TALKER_AND_TYPE
  | TINY_NMEA_PARSE_FIND_CHECKSUM_OR_END
  | TINY_NMEA_PARSE_FIND_END
  | TINY_NMEA_SENTENCE_COMPLETE
deriving DecidableEq, Repr

open tiny_nmea_parser_fsm_state_t

/-- One invocation of a user callback, with the record and the statistics
snapshot it is passed. -/
inductive tiny_nmea_callback_event where
  | parse (result : tiny_nmea_type_t) (stats : tiny_nmea_parser_statistics_t)
  | error (result : tiny_nmea_type_t) (stats : tiny_nmea_parser_statistics_t)
deriving DecidableEq, Repr

/-- The struct `tiny_nmea_ctx_t`.  `parse_callback` / `error_callback` say
whether the function pointer is non-NULL; `data_end` and `line_end` are
offsets into `working_buf` (`none` for a NULL `line_end`); the opaque user
data pointers and the never-accessed `start_char` are left out.  `calls` is
not a field of the C struct: it records the callback invocations made so far,
oldest first. -/
structure tiny_nmea_ctx_t where
  ringbuf : ringbuf_t
  parse_callback : Bool
  error_callback : Bool
  working_buf : List Nat
  working_buf_len : Nat
  parse_pos : Nat
  waiting_for_data : Bool
  has_checksum : Bool
  computed_checksum : Nat
  received_checksum : Nat
  data_end : Nat
  line_end : Option Nat
  current_talker : Nat
  current_type : Nat
  parser_state : tiny_nmea_parser_fsm_state_t
  zda_century : Nat
  stats : tiny_nmea_parser_statistics_t
  calls : List tiny_nmea_callback_event
deriving DecidableEq, Repr

/-- The function `tiny_nmea_init_callbacks`, for non-NULL `ctx` and `buffer`;
`ctx` is the previous content of the context memory, of which the fields that
the function does not assign are kept. -/
def tiny_nmea_init_callbacks (ctx : tiny_nmea_ctx_t) (buffer : List Nat) (buf_size : Nat)
    (parse_callback error_callback : Bool) : tiny_nmea_ctx_t :=
  { ctx with
    ringbuf := ringbuf_init buffer buf_size
    has_checksum := false
    parse_callback := parse_callback
    error_callback := error_callback
    zda_century := 0
    stats := { sentences_parsed := 0, checksum_errors := 0, parse_errors := 0,
               buffer_overflows := 0 }
    working_buf_len := 0
    parse_pos := 0
    waiting_for_data := false
    parser_state := TINY_NMEA_PARSE_FIND_START
    working_buf := List.replicate TINY_NMEA_WORKING_BUF_LEN 0
    calls := [] }

/-- The function `tiny_nmea_init`. -/
def tiny_nmea_init (ctx : tiny_nmea_ctx_t) (buffer : List Nat) (buf_size : Nat) :
    tiny_nmea_ctx_t :=
  tiny_nmea_init_callbacks ctx buffer buf_size false false

/-- The function `tiny_nmea_feed`, for non-NULL arguments: the result code and
the context afterwards. -/
def tiny_nmea_feed (ctx : tiny_nmea_ctx_t) (data : List Nat) :
    tiny_nmea_res_t × tiny_nmea_ctx_t :=
  let r := ringbuf_push ctx.ringbuf data RINGBUF_PUSH_DROP
  (if r.2 = data.length then TINY_NMEA_OK else TINY_NMEA_ERR_BUFFER_FULL,
   { ctx with ringbuf := r.1 })

/-- The function `nmea_checksum_helper` over the bytes `start[0 .. end - start)`. -/
def nmea_checksum_helper (bytes : List Nat) : Nat :=
  bytes.foldl (fun cs b => to_uint8 (cs ^^^ b)) 0

/-- The function `date_get_century_helper`. -/
def date_get_century_helper (d : tiny_nmea_date_t) : Nat :=
  if d.valid && decide (d.year ≥ 100) then to_uint8 (d.year / 100) else 0

/-- The function `parse_post_process`: the context and `*result` afterwards. -/
def parse_post_process (ctx : tiny_nmea_ctx_t) (result : tiny_nmea_type_t) :
    tiny_nmea_ctx_t × tiny_nmea_type_t :=
  if result.type = TINY_NMEA_SENTENCE_ZDA then
    if (data_zda result.data).date.valid then
      ({ ctx with zda_century := date_get_century_helper (data_zda result.data).date }, result)
    else (ctx, result)
  else if result.type = TINY_NMEA_SENTENCE_RMC then
    if ctx.zda_century > 0 then
      let rmc := data_rmc result.data
      (ctx, { result with data := .rmc { rmc with date := { rmc.date with
        year := to_uint16 (to_uint16 ctx.zda_century * 100 + rmc.date.year_yy) } } })
    else (ctx, result)
  else (ctx, result)

/-- The macro `RESET_WORKBUF_BYTES(c, len)`. -/
def RESET_WORKBUF_BYTES (c : tiny_nmea_ctx_t) (len : Nat) : tiny_nmea_ctx_t :=
  { c with working_buf_len := len, parse_pos := 0, parser_state := TINY_NMEA_PARSE_FIND_START }

/-- The macro `RESET_TO_START(c)`. -/
def RESET_TO_START (c : tiny_nmea_ctx_t) : tiny_nmea_ctx_t :=
  RESET_WORKBUF_BYTES c 0

/-- The function `discard_bytes`. -/
def discard_bytes (ctx : tiny_nmea_ctx_t) (amt : Nat) : tiny_nmea_ctx_t :=
  if amt ≥ ctx.working_buf_len then { ctx with working_buf_len := 0 }
  else
    { ctx with
      working_buf :=
        memcpy ctx.working_buf 0 (slice ctx.working_buf amt (ctx.working_buf_len - amt))
      working_buf_len := ctx.working_buf_len - amt }

/-- The call `memchr(buf + off, c, n)`: the offset in `buf` of the first byte
equal to `c` among `buf[off .. off+n)`, or `none` for NULL. -/
def memchr (buf : List Nat) (off c n : Nat) : Option Nat :=
  (memchr_list (slice buf off n) c).map (· + off)

/-- The function `min_ptr`. -/
def min_ptr (a b : Nat) : Nat :=
  if a < b then a else b

/-- The function `min_size`. -/
def min_size (a b : Nat) : Nat :=
  if a < b then a else b

/-- The choice between two `memchr` results that the FSM makes for the start
character and for the line ending: `min_ptr` when both are found, otherwise
whichever is not NULL (`a ? a : b`). -/
def earliest_ptr (a b : Option Nat) : Option Nat :=
  match a, b with
  | some x, some y => some (min_ptr x y)
  | _, _ => if a.isSome then a else b

/-- The function `parse_hex_char`. -/
def parse_hex_char (c : Nat) : Int :=
  if c ≥ 48 ∧ c ≤ 57 then (c : Int) - 48
  else if c ≥ 65 ∧ c ≤ 70 then (c : Int) - 65 + 10
  else if c ≥ 97 ∧ c ≤ 102 then (c : Int) - 97 + 10
  else -1

/-- The function `parse_hex_byte` on the bytes `s[0]`, `s[1]`: `none` for the
return value 0, `some v` for the return value 2 with `*out = v`. -/
def parse_hex_byte (s0 s1 : Nat) : Option Nat :=
  let hi := parse_hex_char s0
  let lo := parse_hex_char s1
  if hi < 0 ∨ lo < 0 then none
  else some (to_uint8 ((hi.toNat <<< 4) ||| lo.toNat))

/-- The increment `x++` of a `uint32_t` counter. -/
def incr32 (x : Nat) : Nat :=
  to_uint32 (x + 1)

/-- The number of bytes from offset `from` that the loop
`while (sentence_end < working_buf + working_buf_len && (*sentence_end is CR, LF or NUL))`
steps over. -/
def skip_line_ending (buf : List Nat) (start len : Nat) : Nat :=
  ((slice buf start (len - start)).takeWhile fun b => b == 13 || b == 10 || b == 0).length

/-- The statement `ctx->stats.parse_errors++`. -/
def count_parse_error (ctx : tiny_nmea_ctx_t) : tiny_nmea_ctx_t :=
  { ctx with stats := { ctx.stats with parse_errors := incr32 ctx.stats.parse_errors } }

/-- The case `TINY_NMEA_PARSE_FIND_START` of the `switch` in `tiny_nmea_work`. -/
def fsm_find_start (ctx0 : tiny_nmea_ctx_t) : tiny_nmea_ctx_t :=
  let ctx := { ctx0 with has_checksum := false }
  let b0 := ctx.working_buf.getD 0 0
  let start : Option Nat :=
    if b0 = 36 ∨ b0 = 33 then some 0
    else
      let start_dollar := memchr ctx.working_buf 0 36 ctx.working_buf_len
      let start_exclam := memchr ctx.working_buf 0 33 ctx.working_buf_len
      earliest_ptr start_dollar start_exclam
  match start with
  | some start_offset =>
    { discard_bytes ctx start_offset with
      parse_pos := 1
      computed_checksum := 0
      parser_state := TINY_NMEA_PARSE_FIND_TALKER_AND_TYPE }
  | none => RESET_TO_START ctx

/-- The case `TINY_NMEA_PARSE_FIND_TALKER_AND_TYPE`. -/
def fsm_find_talker_and_type (ctx0 : tiny_nmea_ctx_t) : tiny_nmea_ctx_t :=
  if ctx0.working_buf_len - ctx0.parse_pos < 6 then { ctx0 with waiting_for_data := true }
  else
    let ctx := { ctx0 with
      current_talker := parse_talker_id (ctx0.working_buf.getD 1 0) (ctx0.working_buf.getD 2 0)
      current_type := parse_sentence_type (ctx0.working_buf.getD 3 0)
        (ctx0.working_buf.getD 4 0) (ctx0.working_buf.getD 5 0) }
    if !(tiny_nmea_talker_valid ctx.current_talker) ||
        !(tiny_nmea_sentence_valid ctx.current_type) ||
        ctx.working_buf.getD 6 0 != 44 then
      let ctx1 := count_parse_error (discard_bytes ctx 1)
      RESET_WORKBUF_BYTES ctx1 ctx1.working_buf_len
    else
      { ctx with
        parse_pos := ctx.parse_pos + 6
        parser_state := TINY_NMEA_PARSE_FIND_CHECKSUM_OR_END }

/-- The branch shared by `FIND_CHECKSUM_OR_END` and `FIND_END` when no
terminator is in the scratch buffer yet ("may need more data"). -/
def fsm_need_more_data (ctx : tiny_nmea_ctx_t) : tiny_nmea_ctx_t :=
  if ctx.parse_pos > TINY_NMEA_MAX_SENTENCE_LEN then
    let ctx1 := discard_bytes (count_parse_error ctx) ctx.parse_pos
    RESET_WORKBUF_BYTES ctx1 ctx1.working_buf_len
  else
    { ctx with parse_pos := ctx.working_buf_len, waiting_for_data := true }

/-- The case `TINY_NMEA_PARSE_FIND_CHECKSUM_OR_END`. -/
def fsm_find_checksum_or_end (ctx0 : tiny_nmea_ctx_t) : tiny_nmea_ctx_t :=
  let remaining := ctx0.working_buf_len - ctx0.parse_pos
  let asterisk := memchr ctx0.working_buf ctx0.parse_pos 42 remaining
  let cr := memchr ctx0.working_buf ctx0.parse_pos 13 remaining
  let lf := memchr ctx0.working_buf ctx0.parse_pos 10 remaining
  let ctx := { ctx0 with line_end := earliest_ptr cr lf }
  -- (data_end, has_checksum), or `none` for the final `else` branch
  let found : Option (Nat × Bool) :=
    match asterisk, ctx.line_end with
    | some a, some l => some (if a < l then a else l, decide (a < l))
    | none, some l => some (l, false)
    | some a, none => some (a, true)
    | none, none => none
  match found with
  | none => fsm_need_more_data ctx
  | some (data_end, has_checksum) =>
    { ctx with
      parse_pos := data_end
      has_checksum := has_checksum
      data_end := data_end
      parser_state :=
        if has_checksum then TINY_NMEA_PARSE_FIND_END else TINY_NMEA_SENTENCE_COMPLETE }

/-- The case `TINY_NMEA_PARSE_FIND_END`. -/
def fsm_find_end (ctx0 : tiny_nmea_ctx_t) : tiny_nmea_ctx_t :=
  let ctx :=
    if ctx0.line_end.isNone then
      let remaining := ctx0.working_buf_len - ctx0.parse_pos
      let cr := memchr ctx0.working_buf ctx0.parse_pos 13 remaining
      let lf := memchr ctx0.working_buf ctx0.parse_pos 10 remaining
      { ctx0 with line_end := earliest_ptr cr lf }
    else ctx0
  match ctx.line_end with
  | none => fsm_need_more_data ctx
  | some line_end =>
    let hex_start := ctx.data_end + 1
    if line_end ≤ hex_start ∨ line_end - hex_start ≠ 2 then
      RESET_TO_START (count_parse_error ctx)
    else
      match parse_hex_byte (ctx.working_buf.getD hex_start 0)
          (ctx.working_buf.getD (hex_start + 1) 0) with
      | none => RESET_TO_START (count_parse_error ctx)
      | some received =>
        let ctx1 := { ctx with
          received_checksum := received
          computed_checksum := nmea_checksum_helper (slice ctx.working_buf 1 (ctx.data_end - 1)) }
        if ctx1.computed_checksum = ctx1.received_checksum then
          { ctx1 with parser_state := TINY_NMEA_SENTENCE_COMPLETE }
        else
          RESET_TO_START { ctx1 with stats := { ctx1.stats with
            checksum_errors := incr32 ctx1.stats.checksum_errors } }

/-- The case `TINY_NMEA_SENTENCE_COMPLETE`; `none` is undefined behaviour (in
a decoder, or a NULL `line_end`). -/
def fsm_sentence_complete (ctx0 : tiny_nmea_ctx_t) : Option tiny_nmea_ctx_t :=
  let ctx := { ctx0 with working_buf := ctx0.working_buf.set ctx0.data_end 0 }
  let result0 : tiny_nmea_type_t :=
    { type := ctx.current_type, talker := ctx.current_talker, data := tiny_nmea_data_t.zero }
  match tiny_nmea_parse ctx.working_buf result0 with
  | none => none
  | some (parse_res, result) =>
    let ctx1 :=
      if parse_res = TINY_NMEA_OK then
        { ctx with stats := { ctx.stats with
            sentences_parsed := incr32 ctx.stats.sentences_parsed } }
      else count_parse_error ctx
    let ctx2 :=
      if parse_res = TINY_NMEA_OK then
        let pp := parse_post_process ctx1 result
        if pp.1.parse_callback then
          { pp.1 with calls := pp.1.calls ++ [tiny_nmea_callback_event.parse pp.2 pp.1.stats] }
        else pp.1
      else if ctx1.error_callback then
        { ctx1 with calls := ctx1.calls ++ [tiny_nmea_callback_event.error result ctx1.stats] }
      else ctx1
    match ctx2.line_end with
    | none => none
    | some line_end =>
      let consumed := line_end + skip_line_ending ctx2.working_buf line_end ctx2.working_buf_len
      let ctx3 := discard_bytes ctx2 consumed
      some (RESET_WORKBUF_BYTES ctx3 ctx3.working_buf_len)

/-- How one pass through the body of the `while` loop of `tiny_nmea_work` ends. -/
inductive loop_outcome where
  | next (ctx : tiny_nmea_ctx_t)
  | exit (ctx : tiny_nmea_ctx_t)
  | undefined

/-- The body of the `while` loop of `tiny_nmea_work`: `next` when control
returns to the loop condition (end of the body or `continue`), `exit` for a
`break` out of the loop.  The `size_t` differences are taken where the
minuend is not smaller (`parse_pos ≤ working_buf_len ≤ TINY_NMEA_MAX_SENTENCE_LEN`
in every state the loop reaches). -/
def tiny_nmea_work_body (ctx0 : tiny_nmea_ctx_t) : loop_outcome :=
  let bytes_avail := ringbuf_len ctx0.ringbuf
  if ctx0.waiting_for_data && bytes_avail == 0 then loop_outcome.exit ctx0
  else
    let space_in_workbuf := TINY_NMEA_MAX_SENTENCE_LEN - ctx0.working_buf_len
    let to_pop := min_size space_in_workbuf bytes_avail
    let ctx1 :=
      if to_pop > 0 then
        let r := ringbuf_pop ctx0.ringbuf (some (ctx0.working_buf.drop ctx0.working_buf_len)) to_pop
        { ctx0 with
          ringbuf := r.1
          working_buf := ctx0.working_buf.take ctx0.working_buf_len ++ r.2.1.getD []
          working_buf_len := ctx0.working_buf_len + r.2.2 }
      else if space_in_workbuf = 0 ∧ ctx0.waiting_for_data = true then
        RESET_TO_START { ctx0 with stats := { ctx0.stats with
          buffer_overflows := incr32 ctx0.stats.buffer_overflows } }
      else ctx0
    let ctx := { ctx1 with waiting_for_data := false }
    if ctx.working_buf_len - ctx.parse_pos = 0 then
      if ringbuf_empty ctx.ringbuf then loop_outcome.exit ctx else loop_outcome.next ctx
    else
      match ctx.parser_state with
      | TINY_NMEA_PARSE_FIND_START => loop_outcome.next (fsm_find_start ctx)
      | TINY_NMEA_PARSE_FIND_TALKER_AND_TYPE => loop_outcome.next (fsm_find_talker_and_type ctx)
      | TINY_NMEA_PARSE_FIND_CHECKSUM_OR_END => loop_outcome.next (fsm_find_checksum_or_end ctx)
      | TINY_NMEA_PARSE_FIND_END => loop_outcome.next (fsm_find_end ctx)
      | TINY_NMEA_SENTENCE_COMPLETE =>
        match fsm_sentence_complete ctx with
        | some c => loop_outcome.next c
        | none => loop_outcome.undefined

/-- The `while` loop of `tiny_nmea_work`, run for at most `fuel` passes:
`none` when the fuel runs out before the loop ends, or on undefined behaviour. -/
def tiny_nmea_work_loop : Nat → tiny_nmea_ctx_t → Option tiny_nmea_ctx_t
  | 0, _ => none
  | fuel + 1, ctx =>
    if !(ringbuf_empty ctx.ringbuf) || decide (ctx.working_buf_len > ctx.parse_pos) then
      match tiny_nmea_work_body ctx with
      | loop_outcome.exit c => some c
      | loop_outcome.next c => tiny_nmea_work_loop fuel c
      | loop_outcome.undefined => none
    else some ctx

/-- The function `tiny_nmea_work` for a non-NULL context (its return value is
then always `TINY_NMEA_OK`): the context when the call returns. -/
def tiny_nmea_work (fuel : Nat) (ctx : tiny_nmea_ctx_t) : Option tiny_nmea_ctx_t :=
  tiny_nmea_work_loop fuel ctx

/-- Feed each chunk with `tiny_nmea_feed` and call `tiny_nmea_work` after it,
as the tests `test_system_incremental_feed` / `test_system_chunked_feed` do. -/
def feed_work_chunks (fuel : Nat) : tiny_nmea_ctx_t → List (List Nat) → Option tiny_nmea_ctx_t
  | ctx, [] => some ctx
  | ctx, chunk :: rest =>
    match tiny_nmea_work fuel (tiny_nmea_feed ctx chunk).2 with
    | none => none
    | some ctx1 => feed_work_chunks fuel ctx1 rest

/-- The bytes of an ASCII string literal. -/
def bytes (s : String) : List Nat :=
  s.toList.map Char.toNat

/-- Context memory before `tiny_nmea_init_callbacks` runs (here all zero, as
after the `memset` of the test suites; the theorems do not depend on it). -/
def ctx_zero : tiny_nmea_ctx_t :=
  { ringbuf := { buf := [], size := 0, head := 0, tail := 0 }
    parse_callback := false, error_callback := false
    working_buf := List.replicate TINY_NMEA_WORKING_BUF_LEN 0
    working_buf_len := 0, parse_pos := 0, waiting_for_data := false
    has_checksum := false, computed_checksum := 0, received_checksum := 0
    data_end := 0, line_end := none, current_talker := 0, current_type := 0
    parser_state := TINY_NMEA_PARSE_FIND_START, zda_century := 0
    stats := {}, calls := [] }

/-! ## Unit conversions (`data_formats.c`) -/

/-- The conversion to `int64_t` (two's complement). -/
def to_int64 (x : Int) : Int :=
  (x + 9223372036854775808) % 18446744073709551616 - 9223372036854775808

/-- The function `tiny_nmea_coord_to_fixed_degrees`.  The arithmetic is on
`int64_t` (each product and sum taken in two's complement), `/` is the C
division, which truncates toward zero, and the result is converted to
`int32_t`.  The divisors `100 * scale` and `60 * scale` are not zero for an
`int32_t` scale other than 0. -/
def tiny_nmea_coord_to_fixed_degrees (coord : tiny_nmea_coord_t) : Int :=
  if coord.hemisphere = 0 ∨ coord.raw.scale = 0 then 0
  else
    let raw : Int := coord.raw.value
    let scale : Int := coord.raw.scale
    let degrees := Int.tdiv raw (to_int64 (100 * scale))
    let minutes_scaled := to_int64 (raw - to_int64 (to_int64 (degrees * 100) * scale))
    let SCALE_OUT : Int := 10000000
    let result := to_int64 (to_int64 (degrees * SCALE_OUT) +
      Int.tdiv (to_int64 (minutes_scaled * SCALE_OUT)) (to_int64 (60 * scale)))
    let result :=
      if coord.hemisphere = 83 ∨ coord.hemisphere = 87 then to_int64 (-result) else result
    to_int32 result

/-- The function `tiny_nmea_knots_to_mps`.  The numerator is an `int64_t`
product; the divisor `knots->scale * 1000` is a product of an `int32_t` and an
`int`, taken in 32-bit two's complement.  `none` is the division by zero that
follows when this product is 0. -/
def tiny_nmea_knots_to_mps (knots : tiny_nmea_float_t) : Option Int :=
  if knots.scale = 0 then some 0
  else
    let divisor := to_int32 (knots.scale * 1000)
    if divisor = 0 then none
    else some (to_int32 (Int.tdiv (to_int64 (knots.value * 514444)) divisor))

/-- The function `tiny_nmea_knots_to_kph`. -/
def tiny_nmea_knots_to_kph (knots : tiny_nmea_float_t) : Int :=
  if knots.scale = 0 then 0
  else to_int32 (Int.tdiv (to_int64 (knots.value * 1852)) knots.scale)

/-! ## Satellite tracker (`sats_tracking_types.h`, `sats_tracking.c`, `sats_tracking_handler.c`) -/

/-- The configuration constant `TINY_NMEA_MAX_PRN_PER_CONST`. -/
def TINY_NMEA_MAX_PRN_PER_CONST : Nat := 255

/-- The configuration constant `TINY_NMEA_MAX_TRACKED_GSV_SATS`. -/
def TINY_NMEA_MAX_TRACKED_GSV_SATS : Nat := 64

/-- The configuration constant `TINY_NMEA_MAX_TRACKED_GSA_SATS`. -/
def TINY_NMEA_MAX_TRACKED_GSA_SATS : Nat := 128

/-- The configuration constant `DEFAULT_GSA_BURST_THRESHOLD`. -/
def DEFAULT_GSA_BURST_THRESHOLD : Nat := 1000

/-- The constant `TINY_NMEA_TRACK_PRN_PER_CONST_ARR_SIZE`. -/
def TINY_NMEA_TRACK_PRN_PER_CONST_ARR_SIZE : Nat := TINY_NMEA_MAX_PRN_PER_CONST / 8

/-- The constellation tags `TINY_NMEA_CONSTELLATION_GP`, `_GL`, `_GA`, `_GB`, `_GN`. -/
def TINY_NMEA_CONSTELLATION_GP : Nat := 1

def TINY_NMEA_CONSTELLATION_GL : Nat := 2

def TINY_NMEA_CONSTELLATION_GA : Nat := 3

def TINY_NMEA_CONSTELLATION_GB : Nat := 4

def TINY_NMEA_CONSTELLATION_GN : Nat := 6

/-- The struct `tiny_nmea_gsa_sat_info_t`. -/
structure tiny_nmea_gsa_sat_info_t where
  prn : Nat := 0
  constellation : Nat := 0
deriving DecidableEq, Repr

/-- One invocation of a tracker callback: the array the pointer `sats`
designates at that moment, `count`, and the date and time passed. -/
inductive tiny_nmea_tracker_event where
  | sats_view (sats : List tiny_nmea_sat_info_t) (count : Nat) (date : tiny_nmea_date_t)
      (time : tiny_nmea_time_t)
  | sats_active (sats : List tiny_nmea_gsa_sat_info_t) (count : Nat) (date : tiny_nmea_date_t)
      (time : tiny_nmea_time_t)
deriving DecidableEq, Repr

/-- The struct `tiny_nmea_sats_tracker_ctx_t`.  `sats_active_bitmask` has
`TINY_NMEA_CONSTELLATION_COUNT` rows of `TINY_NMEA_TRACK_PRN_PER_CONST_ARR_SIZE`
bytes; `cb_sats_in_view` / `cb_sats_active` say whether the function pointer is
non-NULL.  `calls` is not a field of the C struct: it records the callback
invocations made so far, oldest first. -/
structure tiny_nmea_sats_tracker_ctx_t where
  sats_active_bitmask : List (List Nat)
  sats_active_info : List tiny_nmea_gsa_sat_info_t
  num_sats_active : Nat
  sats_active_update_time : tiny_nmea_time_t
  sats_active_update_date : tiny_nmea_date_t
  sats_in_view_info : List tiny_nmea_sat_info_t
  sats_in_view_total_sentences : Nat
  sats_in_view_last_sentence : Nat
  num_sats_in_view : Nat
  gsa_burst_threshold : Nat
  last_seen_time : tiny_nmea_time_t
  last_seen_date : tiny_nmea_date_t
  cb_sats_in_view : Bool
  cb_sats_active : Bool
  calls : List tiny_nmea_tracker_event
deriving DecidableEq, Repr

/-- The function `tiny_nmea_sat_tracking_init` for a non-NULL context; `calls`
starts empty. -/
def tiny_nmea_sat_tracking_init : tiny_nmea_sats_tracker_ctx_t :=
  { sats_active_bitmask :=
      List.replicate TINY_NMEA_CONSTELLATION_COUNT
        (List.replicate TINY_NMEA_TRACK_PRN_PER_CONST_ARR_SIZE 0)
    sats_active_info := List.replicate TINY_NMEA_MAX_TRACKED_GSA_SATS {}
    num_sats_active := 0
    sats_active_update_time := {}
    sats_active_update_date := {}
    sats_in_view_info := List.replicate TINY_NMEA_MAX_TRACKED_GSV_SATS {}
    sats_in_view_total_sentences := 0
    sats_in_view_last_sentence := 0
    num_sats_in_view := 0
    gsa_burst_threshold := DEFAULT_GSA_BURST_THRESHOLD
    last_seen_time := {}
    last_seen_date := {}
    cb_sats_in_view := false
    cb_sats_active := false
    calls := [] }

/-- The function `tiny_nmea_sat_tracking_set_gsa_threshold`. -/
def tiny_nmea_sat_tracking_set_gsa_threshold (ctx : tiny_nmea_sats_tracker_ctx_t) (ms : Nat) :
    tiny_nmea_sats_tracker_ctx_t :=
  { ctx with gsa_burst_threshold := ms }

/-- The function `tiny_nmea_sat_tracking_register_callbacks`. -/
def tiny_nmea_sat_tracking_register_callbacks (ctx : tiny_nmea_sats_tracker_ctx_t)
    (cb_view cb_active : Bool) : tiny_nmea_sats_tracker_ctx_t :=
  { ctx with cb_sats_in_view := cb_view, cb_sats_active := cb_active }

/-- The constant `DAY_IN_MS`. -/
def DAY_IN_MS : Int := 86400000

/-- The constant `MAX_ROLLOVER_HRS`. -/
def MAX_ROLLOVER_HRS : Int := 16

/-- The function `time_to_ms` (arithmetic on `uint32_t`). -/
def time_to_ms (t : tiny_nmea_time_t) : Nat :=
  to_uint32 (to_uint32 (to_uint32 (to_uint32 (t.hours * 3600000) + to_uint32 (t.minutes * 60000)) +
    to_uint32 (t.seconds * 1000)) + t.microseconds / 1000)

/-- The function `get_time_delta_ms`; `new_date` is `none` for a NULL pointer. -/
def get_time_delta_ms (old_time : tiny_nmea_time_t) (old_date : tiny_nmea_date_t)
    (new_time : tiny_nmea_time_t) (new_date : Option tiny_nmea_date_t) : Int :=
  if !old_time.valid || !new_time.valid then 0
  else
    let old_ms : Int := time_to_ms old_time
    let new_ms : Int := time_to_ms new_time
    let dated :=
      match new_date with
      | some nd => old_date.valid && nd.valid
      | none => false
    if dated then
      if (new_date.map fun nd => nd.day) = some old_date.day then new_ms - old_ms
      else (new_ms + DAY_IN_MS) - old_ms
    else if new_ms < old_ms then
      let rollover_delta := (new_ms + DAY_IN_MS) - old_ms
      if rollover_delta < MAX_ROLLOVER_HRS * 60 * 60 * 1000 then rollover_delta
      else new_ms - old_ms
    else new_ms - old_ms

/-- The function `reset_active_sats`. -/
def reset_active_sats (ctx : tiny_nmea_sats_tracker_ctx_t) : tiny_nmea_sats_tracker_ctx_t :=
  { ctx with
    sats_active_bitmask :=
      List.replicate TINY_NMEA_CONSTELLATION_COUNT
        (List.replicate TINY_NMEA_TRACK_PRN_PER_CONST_ARR_SIZE 0)
    num_sats_active := 0 }

/-- The call of the callback `cb_sats_active` on the active buffer. -/
def publish_active (ctx : tiny_nmea_sats_tracker_ctx_t) : tiny_nmea_sats_tracker_ctx_t :=
  { ctx with calls := ctx.calls ++
      [tiny_nmea_tracker_event.sats_active ctx.sats_active_info ctx.num_sats_active
        ctx.sats_active_update_date ctx.sats_active_update_time] }

/-- The function `check_gsa_burst_completion`. -/
def check_gsa_burst_completion (ctx : tiny_nmea_sats_tracker_ctx_t)
    (new_time : tiny_nmea_time_t) (new_date : Option tiny_nmea_date_t) :
    tiny_nmea_sats_tracker_ctx_t :=
  let diff := get_time_delta_ms ctx.sats_active_update_time ctx.sats_active_update_date
    new_time new_date
  if diff > (ctx.gsa_burst_threshold : Int) then
    let ctx1 :=
      if ctx.num_sats_active > 0 then
        if ctx.cb_sats_active then publish_active ctx else ctx
      else ctx
    reset_active_sats ctx1
  else ctx

/-- The function `tiny_nmea_sat_tracking_update_datetime` for non-NULL arguments. -/
def tiny_nmea_sat_tracking_update_datetime (ctx : tiny_nmea_sats_tracker_ctx_t)
    (date : tiny_nmea_date_t) (time : tiny_nmea_time_t) :
    tiny_nmea_res_t × tiny_nmea_sats_tracker_ctx_t :=
  let ctx1 := check_gsa_burst_completion ctx time (some date)
  (TINY_NMEA_OK, { ctx1 with last_seen_date := date, last_seen_time := time })

/-- The function `tiny_nmea_sat_tracking_update_time` for non-NULL arguments. -/
def tiny_nmea_sat_tracking_update_time (ctx : tiny_nmea_sats_tracker_ctx_t)
    (time : tiny_nmea_time_t) : tiny_nmea_res_t × tiny_nmea_sats_tracker_ctx_t :=
  let ctx1 := check_gsa_burst_completion ctx time none
  (TINY_NMEA_OK, { ctx1 with last_seen_time := time })

/-- The accumulation loop of `tiny_nmea_sat_tracking_update_gsv` over the
indices `i` of the list; `none` when `gsv->sats[i]` is outside the array. -/
def gsv_accumulate (gsv : tiny_nmea_gsv_t) :
    List Nat → tiny_nmea_sats_tracker_ctx_t → Option tiny_nmea_sats_tracker_ctx_t
  | [], ctx => some ctx
  | i :: rest, ctx =>
    if ctx.num_sats_in_view < TINY_NMEA_MAX_TRACKED_GSV_SATS then
      match gsv.sats.get? i with
      | none => none
      | some sat =>
        gsv_accumulate gsv rest
          { ctx with
            sats_in_view_info := ctx.sats_in_view_info.set ctx.num_sats_in_view sat
            num_sats_in_view := to_uint8 (ctx.num_sats_in_view + 1) }
    else gsv_accumulate gsv rest ctx

/-- The function `tiny_nmea_sat_tracking_update_gsv` for non-NULL arguments:
the result code and the tracker afterwards. -/
def tiny_nmea_sat_tracking_update_gsv (ctx : tiny_nmea_sats_tracker_ctx_t)
    (gsv : tiny_nmea_gsv_t) : Option (tiny_nmea_res_t × tiny_nmea_sats_tracker_ctx_t) :=
  let ctx1 :=
    if gsv.msg_number = 1 ∨ gsv.total_msgs ≠ ctx.sats_in_view_last_sentence then
      { ctx with
        num_sats_in_view := 0
        sats_in_view_last_sentence := 0
        sats_in_view_total_sentences := gsv.total_msgs }
    else ctx
  if gsv.msg_number ≠ ctx1.sats_in_view_last_sentence + 1 then
    some (TINY_NMEA_OK, { ctx1 with num_sats_in_view := 0, sats_in_view_last_sentence := 0 })
  else
    let ctx2 := { ctx1 with sats_in_view_last_sentence := gsv.msg_number }
    match gsv_accumulate gsv (List.range gsv.sat_count) ctx2 with
    | none => none
    | some ctx3 =>
      if gsv.msg_number = gsv.total_msgs then
        if ctx3.cb_sats_in_view then
          some (TINY_NMEA_OK, { ctx3 with calls := ctx3.calls ++
            [tiny_nmea_tracker_event.sats_view ctx3.sats_in_view_info ctx3.num_sats_in_view
              ctx3.last_seen_date ctx3.last_seen_time] })
        else some (TINY_NMEA_OK, ctx3)
      else some (TINY_NMEA_OK, ctx3)

/-- The function `set_bit` on the bitmask row `bitmask`; `none` when the byte
index `prn / 8` is outside the row. -/
def set_bit (bitmask : List Nat) (prn : Nat) : Option (List Nat) :=
  if prn = 0 then some bitmask
  else
    let idx := prn / 8
    let bit := prn % 8
    match bitmask.get? idx with
    | none => none
    | some b => some (bitmask.set idx (to_uint8 (b ||| (1 <<< bit))))

/-- The function `check_bit` on the bitmask row `bitmask`; `none` when the
byte index `prn / 8` is outside the row. -/
def check_bit (bitmask : List Nat) (prn : Nat) : Option Bool :=
  if prn = 0 then some false
  else
    let idx := prn / 8
    let bit := prn % 8
    match bitmask.get? idx with
    | none => none
    | some b => some ((b &&& (1 <<< bit)) != 0)

/-- The function `tiny_nmea_constellation_valid`. -/
def tiny_nmea_constellation_valid (t : Nat) : Bool :=
  decide (t > 0) && decide (t < TINY_NMEA_CONSTELLATION_COUNT)

/-- The function `tiny_nmea_const_from_talker`. -/
def tiny_nmea_const_from_talker (t : Nat) : Nat :=
  if tiny_nmea_constellation_valid t then t else 0

/-- The constellation that `tiny_nmea_sat_tracking_update_gsa` selects. -/
def gsa_constellation (gsa : tiny_nmea_gsa_t) (talker : Nat) : Nat :=
  if gsa.system_id > 0 then
    if gsa.system_id = 1 then TINY_NMEA_CONSTELLATION_GP
    else if gsa.system_id = 2 then TINY_NMEA_CONSTELLATION_GL
    else if gsa.system_id = 3 then TINY_NMEA_CONSTELLATION_GA
    else if gsa.system_id = 4 then TINY_NMEA_CONSTELLATION_GB
    else TINY_NMEA_CONSTELLATION_GN
  else
    let derived := tiny_nmea_const_from_talker talker
    if derived ≠ 0 then derived else TINY_NMEA_CONSTELLATION_GP

/-- The conflict loop of `tiny_nmea_sat_tracking_update_gsa` over the indices
`i` of the list: the value of `conflict`; `none` for an access outside
`satellite_prns` or outside the bitmask. -/
def gsa_conflict (ctx : tiny_nmea_sats_tracker_ctx_t) (gsa : tiny_nmea_gsa_t)
    (constellation : Nat) : List Nat → Option Bool
  | [] => some false
  | i :: rest =>
    match gsa.satellite_prns.get? i with
    | none => none
    | some prn =>
      if prn = 0 ∨ prn ≥ TINY_NMEA_MAX_PRN_PER_CONST then
        gsa_conflict ctx gsa constellation rest
      else
        match ctx.sats_active_bitmask.get? constellation with
        | none => none
        | some row =>
          match check_bit row prn with
          | none => none
          | some true => some true
          | some false => gsa_conflict ctx gsa constellation rest

/-- The accumulation loop of `tiny_nmea_sat_tracking_update_gsa` over the
indices `i` of the list; `none` for an access outside `satellite_prns` or
outside the bitmask. -/
def gsa_accumulate (gsa : tiny_nmea_gsa_t) (constellation : Nat) :
    List Nat → tiny_nmea_sats_tracker_ctx_t → Option tiny_nmea_sats_tracker_ctx_t
  | [], ctx => some ctx
  | i :: rest, ctx =>
    match gsa.satellite_prns.get? i with
    | none => none
    | some prn =>
      if prn = 0 ∨ prn ≥ TINY_NMEA_MAX_PRN_PER_CONST then
        gsa_accumulate gsa constellation rest ctx
      else
        match ctx.sats_active_bitmask.get? constellation with
        | none => none
        | some row =>
          match set_bit row prn with
          | none => none
          | some row1 =>
            let ctx1 := { ctx with
              sats_active_bitmask := ctx.sats_active_bitmask.set constellation row1 }
            if ctx1.num_sats_active < TINY_NMEA_MAX_TRACKED_GSA_SATS then
              gsa_accumulate gsa constellation rest
                { ctx1 with
                  sats_active_info := ctx1.sats_active_info.set ctx1.num_sats_active
                    { prn := prn, constellation := constellation }
                  num_sats_active := to_uint8 (ctx1.num_sats_active + 1) }
            else gsa_accumulate gsa constellation rest ctx1

/-- The function `tiny_nmea_sat_tracking_update_gsa` for non-NULL arguments:
the result code and the tracker afterwards; `none` is an access outside an
array. -/
def tiny_nmea_sat_tracking_update_gsa (ctx : tiny_nmea_sats_tracker_ctx_t)
    (gsa : tiny_nmea_gsa_t) (talker : Nat) :
    Option (tiny_nmea_res_t × tiny_nmea_sats_tracker_ctx_t) :=
  let diff := get_time_delta_ms ctx.sats_active_update_time ctx.sats_active_update_date
    ctx.last_seen_time (some ctx.last_seen_date)
  let ctx1 :=
    if diff > (ctx.gsa_burst_threshold : Int) then
      reset_active_sats
        (if ctx.num_sats_active > 0 ∧ ctx.cb_sats_active = true then publish_active ctx else ctx)
    else ctx
  let constellation := gsa_constellation gsa talker
  match gsa_conflict ctx1 gsa constellation (List.range gsa.satellite_count) with
  | none => none
  | some conflict =>
    let ctx2 :=
      if conflict then
        reset_active_sats (if ctx1.cb_sats_active then publish_active ctx1 else ctx1)
      else ctx1
    match gsa_accumulate gsa constellation (List.range gsa.satellite_count) ctx2 with
    | none => none
    | some ctx3 =>
      some (TINY_NMEA_OK,
        { ctx3 with
          sats_active_update_time := ctx3.last_seen_time
          sats_active_update_date := ctx3.last_seen_date })

/-- The function `tiny_nmea_sat_tracking_update_sentence` for a non-NULL context. -/
def tiny_nmea_sat_tracking_update_sentence (ctx : tiny_nmea_sats_tracker_ctx_t)
    (parse_res : tiny_nmea_type_t) :
    Option (tiny_nmea_res_t × tiny_nmea_sats_tracker_ctx_t) :=
  let t := parse_res.type
  if t = TINY_NMEA_SENTENCE_RMC then
    some (tiny_nmea_sat_tracking_update_datetime ctx (data_rmc parse_res.data).date
      (data_rmc parse_res.data).time)
  else if t = TINY_NMEA_SENTENCE_ZDA then
    some (tiny_nmea_sat_tracking_update_datetime ctx (data_zda parse_res.data).date
      (data_zda parse_res.data).time)
  else if t = TINY_NMEA_SENTENCE_GGA then
    some (tiny_nmea_sat_tracking_update_time ctx (data_gga parse_res.data).time)
  else if t = TINY_NMEA_SENTENCE_GLL then
    some (tiny_nmea_sat_tracking_update_time ctx (data_gll parse_res.data).time)
  else if t = TINY_NMEA_SENTENCE_GBS then
    some (tiny_nmea_sat_tracking_update_time ctx (data_gbs parse_res.data).time)
  else if t = TINY_NMEA_SENTENCE_GST then
    some (tiny_nmea_sat_tracking_update_time ctx (data_gst parse_res.data).time)
  else if t = TINY_NMEA_SENTENCE_GNS then
    some (tiny_nmea_sat_tracking_update_time ctx (data_gns parse_res.data).time)
  else if t = TINY_NMEA_SENTENCE_GSV then
    tiny_nmea_sat_tracking_update_gsv ctx (data_gsv parse_res.data)
  else if t = TINY_NMEA_SENTENCE_GSA then
    tiny_nmea_sat_tracking_update_gsa ctx (data_gsa parse_res.data) parse_res.talker
  else some (TINY_NMEA_OK, ctx)

/-! ## Auxiliary descriptions of the framer (used in proofs) -/

/-- The context after the top-up block at the head of the loop body of
`tiny_nmea_work` (pop from the ring buffer, or count a buffer overflow). -/
def work_top_up (ctx0 : tiny_nmea_ctx_t) : tiny_nmea_ctx_t :=
  let bytes_avail := ringbuf_len ctx0.ringbuf
  let space_in_workbuf := TINY_NMEA_MAX_SENTENCE_LEN - ctx0.working_buf_len
  let to_pop := min_size space_in_workbuf bytes_avail
  if to_pop > 0 then
    let r := ringbuf_pop ctx0.ringbuf (some (ctx0.working_buf.drop ctx0.working_buf_len)) to_pop
    { ctx0 with
      ringbuf := r.1
      working_buf := ctx0.working_buf.take ctx0.working_buf_len ++ r.2.1.getD []
      working_buf_len := ctx0.working_buf_len + r.2.2 }
  else if space_in_workbuf = 0 ∧ ctx0.waiting_for_data = true then
    RESET_TO_START { ctx0 with stats := { ctx0.stats with
      buffer_overflows := incr32 ctx0.stats.buffer_overflows } }
  else ctx0

/-- The rest of the loop body of `tiny_nmea_work` after the top-up block. -/
def work_dispatch (ctx1 : tiny_nmea_ctx_t) : loop_outcome :=
  let ctx := { ctx1 with waiting_for_data := false }
  if ctx.working_buf_len - ctx.parse_pos = 0 then
    if ringbuf_empty ctx.ringbuf then loop_outcome.exit ctx else loop_outcome.next ctx
  else
    match ctx.parser_state with
    | TINY_NMEA_PARSE_FIND_START => loop_outcome.next (fsm_find_start ctx)
    | TINY_NMEA_PARSE_FIND_TALKER_AND_TYPE => loop_outcome.next (fsm_find_talker_and_type ctx)
    | TINY_NMEA_PARSE_FIND_CHECKSUM_OR_END => loop_outcome.next (fsm_find_checksum_or_end ctx)
    | TINY_NMEA_PARSE_FIND_END => loop_outcome.next (fsm_find_end ctx)
    | TINY_NMEA_SENTENCE_COMPLETE =>
      match fsm_sentence_complete ctx with
      | some c => loop_outcome.next c
      | none => loop_outcome.undefined

/-- What the loop of `tiny_nmea_work` does with the outcome of one pass. -/
def work_continue (fuel : Nat) : loop_outcome → Option tiny_nmea_ctx_t
  | loop_outcome.exit c => some c
  | loop_outcome.next c => tiny_nmea_work_loop fuel c
  | loop_outcome.undefined => none

/-- The positions of a sentence `T` as the framer sees them: start character,
recognised talker `tk` and type `ty`, comma at offset 6, data bytes (none of
them '*', CR or LF) up to `d`, there either '*' and two hex digits of value `v`
(`ck = true`, line ending at `e = d + 3`) or directly the line ending
(`ck = false`, `e = d`), and from `e` to the end only CR and LF. -/
structure sentence_shape (T : List Nat) (d e : Nat) (ck : Bool) (tk ty v : Nat) : Prop where
  start : T.getD 0 0 = 36 ∨ T.getD 0 0 = 33
  talker : parse_talker_id (T.getD 1 0) (T.getD 2 0) = tk
  talker_valid : tiny_nmea_talker_valid tk = true
  type : parse_sentence_type (T.getD 3 0) (T.getD 4 0) (T.getD 5 0) = ty
  type_valid : tiny_nmea_sentence_valid ty = true
  comma : T.getD 6 0 = 44
  hdr_nz : ∀ i, i < 7 → T.getD i 0 ≠ 0
  d_ge : 7 ≤ d
  body : ∀ i, 7 ≤ i → i < d → T.getD i 0 ≠ 42 ∧ T.getD i 0 ≠ 13 ∧ T.getD i 0 ≠ 10
  with_ck : ck = true → T.getD d 0 = 42 ∧ e = d + 3 ∧
    parse_hex_byte (T.getD (d + 1) 0) (T.getD (d + 2) 0) = some v
  without_ck : ck = false → e = d
  term : ∀ i, e ≤ i → i < T.length → T.getD i 0 = 13 ∨ T.getD i 0 = 10
  e_lt : e < T.length

/-- A sentence of the shape `sentence_shape` that is no longer than
`TINY_NMEA_MAX_SENTENCE_LEN`. -/
structure sentence_frame (T : List Nat) (d e : Nat) (ck : Bool) (tk ty v : Nat)
    extends sentence_shape T d e ck tk ty v : Prop where
  len_le : T.length ≤ TINY_NMEA_MAX_SENTENCE_LEN

/-- The scratch buffer of `ctx` agrees with `T` on the bytes it holds. -/
def scratch_matches (ctx : tiny_nmea_ctx_t) (T : List Nat) : Prop :=
  ctx.working_buf.length = TINY_NMEA_WORKING_BUF_LEN ∧
  ctx.working_buf_len ≤ TINY_NMEA_MAX_SENTENCE_LEN ∧
  ∀ i, i < ctx.working_buf_len → i < T.length → ctx.working_buf.getD i 0 = T.getD i 0

/-- The value of `zda_century` that `parse_post_process` leaves. -/
def pp_century (century : Nat) (r : tiny_nmea_type_t) : Nat :=
  (parse_post_process { ctx_zero with zda_century := century } r).1.zda_century

/-- The record that `parse_post_process` leaves. -/
def pp_record (century : Nat) (r : tiny_nmea_type_t) : tiny_nmea_type_t :=
  (parse_post_process { ctx_zero with zda_century := century } r).2

/-- The bytes the framer still holds: the scratch buffer followed by the ring buffer. -/
def stream (ctx : tiny_nmea_ctx_t) : List Nat :=
  ctx.working_buf.take ctx.working_buf_len ++ ringbuf_contents ctx.ringbuf

/-- After `j` passes the loop of `tiny_nmea_work` started in `a` is in `b`. -/
def runs_to (a b : tiny_nmea_ctx_t) (j : Nat) : Prop :=
  ∀ f, tiny_nmea_work_loop (f + j) a = tiny_nmea_work_loop f b

/-- With `j` passes of fuel (or more) the loop of `tiny_nmea_work` started in
`a` ends in `b`. -/
def halts_at (a b : tiny_nmea_ctx_t) (j : Nat) : Prop :=
  ∀ f, tiny_nmea_work_loop (f + j) a = some b

/-- The loop condition of `tiny_nmea_work`. -/
def work_cond (ctx : tiny_nmea_ctx_t) : Bool :=
  !(ringbuf_empty ctx.ringbuf) || decide (ctx.working_buf_len > ctx.parse_pos)

/-- What `fsm_sentence_complete` does to `ctx` when the decoder accepts and
yields `rec`: `k` bytes are consumed, the rest of the scratch buffer moves to
the front, the sentence is counted and the parse callback is invoked. -/
structure completed (rec : tiny_nmea_type_t) (ctx ctx' : tiny_nmea_ctx_t) (e k : Nat) : Prop where
  k_gt : e < k
  k_le : k ≤ ctx.working_buf_len
  skipped : ∀ j, e < j → j < k →
    ctx.working_buf.getD j 0 = 13 ∨ ctx.working_buf.getD j 0 = 10 ∨ ctx.working_buf.getD j 0 = 0
  stop : k < ctx.working_buf_len →
    ctx.working_buf.getD k 0 ≠ 13 ∧ ctx.working_buf.getD k 0 ≠ 10 ∧ ctx.working_buf.getD k 0 ≠ 0
  ringbuf : ctx'.ringbuf = ctx.ringbuf
  wb_length : ctx'.working_buf.length = ctx.working_buf.length
  len : ctx'.working_buf_len = ctx.working_buf_len - k
  shift : ∀ i, i < ctx.working_buf_len - k →
    ctx'.working_buf.getD i 0 = ctx.working_buf.getD (k + i) 0
  pos : ctx'.parse_pos = 0
  state : ctx'.parser_state = TINY_NMEA_PARSE_FIND_START
  parse_cb : ctx'.parse_callback = ctx.parse_callback
  error_cb : ctx'.error_callback = ctx.error_callback
  stats : ctx'.stats =
    { ctx.stats with sentences_parsed := incr32 ctx.stats.sentences_parsed }
  calls : ctx'.calls = ctx.calls ++
    [tiny_nmea_callback_event.parse (pp_record ctx.zda_century rec)
      { ctx.stats with sentences_parsed := incr32 ctx.stats.sentences_parsed }]
  century : ctx'.zda_century = pp_century ctx.zda_century rec

/-- The fields of the context that the framing steps on one sentence leave alone. -/
structure same_data (a b : tiny_nmea_ctx_t) : Prop where
  ringbuf : b.ringbuf = a.ringbuf
  working_buf : b.working_buf = a.working_buf
  working_buf_len : b.working_buf_len = a.working_buf_len
  parse_cb : b.parse_callback = a.parse_callback
  error_cb : b.error_callback = a.error_callback
  stats : b.stats = a.stats
  calls : b.calls = a.calls
  century : b.zda_century = a.zda_century

/-- The bytes the framer holds agree with `T` as far as both go. -/
def stream_matches (ctx : tiny_nmea_ctx_t) (T : List Nat) : Prop :=
  ∀ i, i < (stream ctx).length → i < T.length → (stream ctx).getD i 0 = T.getD i 0

/-- What the parser state, position and bookkeeping fields are while the
sentence with data end `d` and line end `e` is being framed. -/
def stage_ok (d e : Nat) (ck : Bool) (tk ty : Nat) (ctx : tiny_nmea_ctx_t) : Prop :=
  match ctx.parser_state with
  | TINY_NMEA_PARSE_FIND_START => ctx.parse_pos = 0
  | TINY_NMEA_PARSE_FIND_TALKER_AND_TYPE => ctx.parse_pos = 1
  | TINY_NMEA_PARSE_FIND_CHECKSUM_OR_END =>
    7 ≤ ctx.parse_pos ∧ ctx.parse_pos ≤ d ∧ ctx.current_talker = tk ∧ ctx.current_type = ty
  | TINY_NMEA_PARSE_FIND_END =>
    ck = true ∧ 7 ≤ ctx.parse_pos ∧ ctx.parse_pos ≤ e ∧ ctx.data_end = d ∧
    (ctx.line_end = none ∨ (ctx.line_end = some e ∧ e < ctx.working_buf_len)) ∧
    ctx.current_talker = tk ∧ ctx.current_type = ty
  | TINY_NMEA_SENTENCE_COMPLETE => False

/-- The framer is at work on the sentence `T`: its bytes so far are a prefix
of `T` (or `T` followed by more), and the state machine is where these bytes
have taken it. -/
structure framing (T : List Nat) (d e : Nat) (ck : Bool) (tk ty : Nat)
    (ctx : tiny_nmea_ctx_t) : Prop where
  wf : ringbuf_wf ctx.ringbuf
  wb_length : ctx.working_buf.length = TINY_NMEA_WORKING_BUF_LEN
  len_le : ctx.working_buf_len ≤ TINY_NMEA_MAX_SENTENCE_LEN
  pos_le : ctx.parse_pos ≤ ctx.working_buf_len
  agrees : stream_matches ctx T
  cb : ctx.parse_callback = true
  stage : stage_ok d e ck tk ty ctx

/-- Nothing to pop and not waiting: the next passes of the loop only run the
state machine. -/
def settled (ctx : tiny_nmea_ctx_t) : Prop :=
  ctx.waiting_for_data = false ∧
  (ringbuf_len ctx.ringbuf = 0 ∨ ctx.working_buf_len = TINY_NMEA_MAX_SENTENCE_LEN)

/-- The context after the top-up block, with the waiting flag cleared as the
loop body does next. -/
def activate (ctx : tiny_nmea_ctx_t) : tiny_nmea_ctx_t :=
  { work_top_up ctx with waiting_for_data := false }

/-- What a checksum mismatch does to `ctx`: the scratch buffer is dropped and
the error is counted; no callback. -/
structure rejected (ctx ctx' : tiny_nmea_ctx_t) : Prop where
  ringbuf : ctx'.ringbuf = ctx.ringbuf
  wb_length : ctx'.working_buf.length = ctx.working_buf.length
  len : ctx'.working_buf_len = 0
  pos : ctx'.parse_pos = 0
  state : ctx'.parser_state = TINY_NMEA_PARSE_FIND_START
  parse_cb : ctx'.parse_callback = ctx.parse_callback
  error_cb : ctx'.error_callback = ctx.error_callback
  stats : ctx'.stats =
    { ctx.stats with checksum_errors := incr32 ctx.stats.checksum_errors }
  calls : ctx'.calls = ctx.calls
  century : ctx'.zda_century = ctx.zda_century

/-- The sentence is acceptable: its checksum, if it has one, is the XOR of the
bytes between the start character and the asterisk, and the decoder of its
type returns `TINY_NMEA_OK` with the record `rec`. -/
def accepted (T : List Nat) (d : Nat) (ck : Bool) (tk ty v : Nat) (rec : tiny_nmea_type_t) :
    Prop :=
  (ck = true → nmea_checksum_helper (slice T 1 (d - 1)) = v) ∧
  tiny_nmea_parse (T.take d ++ [0])
    { type := ty, talker := tk, data := tiny_nmea_data_t.zero } = some (TINY_NMEA_OK, rec)

/-- The sentence carries a checksum that differs from the computed one. -/
def corrupted (T : List Nat) (d : Nat) (ck : Bool) (v : Nat) : Prop :=
  ck = true ∧ nmea_checksum_helper (slice T 1 (d - 1)) ≠ v

/-- How the framer leaves a sentence whose line end is in the scratch buffer:
completed with a parse callback when `good`, rejected otherwise. -/
def finished (good : Bool) (rec : tiny_nmea_type_t) (e : Nat) (ctx c : tiny_nmea_ctx_t) : Prop :=
  if good then ∃ k, completed rec ctx c e k else rejected ctx c

/-- The sentence is acceptable when `good`, and has a wrong checksum otherwise. -/
def verdict (good : Bool) (T : List Nat) (d : Nat) (ck : Bool) (tk ty v : Nat)
    (rec : tiny_nmea_type_t) : Prop :=
  if good then accepted T d ck tk ty v rec else corrupted T d ck v

/-- What the loop does from `ctx` within `n` state machine steps: without the
line end in the scratch buffer it stops, still framing the sentence; with the
line end it finishes the sentence. -/
def outcome (T : List Nat) (d e : Nat) (ck : Bool) (tk ty : Nat) (good : Bool)
    (rec : tiny_nmea_type_t) (n : Nat) (ctx : tiny_nmea_ctx_t) : Prop :=
  (ctx.working_buf_len ≤ e →
    ∃ c, halts_at ctx c (n + 1) ∧ framing T d e ck tk ty c ∧ same_data ctx c) ∧
  (e < ctx.working_buf_len →
    ∃ c j, j ≤ n ∧ runs_to ctx c j ∧ finished good rec e ctx c ∧ c.waiting_for_data = false)

/-- How `b`, the context after the top-up block, relates to `a` before it. -/
structure topped (a b : tiny_nmea_ctx_t) : Prop where
  wf : ringbuf_wf b.ringbuf
  size : b.ringbuf.size = a.ringbuf.size
  wb_length : b.working_buf.length = a.working_buf.length
  len : b.working_buf_len =
    min TINY_NMEA_MAX_SENTENCE_LEN (a.working_buf_len + ringbuf_len a.ringbuf)
  ring_len : ringbuf_len b.ringbuf =
    a.working_buf_len + ringbuf_len a.ringbuf - b.working_buf_len
  stream_eq : stream b = stream a
  waiting : b.waiting_for_data = false
  pos : b.parse_pos = a.parse_pos
  state : b.parser_state = a.parser_state
  data_end : b.data_end = a.data_end
  line_end : b.line_end = a.line_end
  talker : b.current_talker = a.current_talker
  type : b.current_type = a.current_type
  parse_cb : b.parse_callback = a.parse_callback
  error_cb : b.error_callback = a.error_callback
  stats : b.stats = a.stats
  calls : b.calls = a.calls
  century : b.zda_century = a.zda_century

/-- The fields of the context that the user of the library observes are unchanged. -/
structure user_same (a b : tiny_nmea_ctx_t) : Prop where
  parse_cb : b.parse_callback = a.parse_callback
  error_cb : b.error_callback = a.error_callback
  stats : b.stats = a.stats
  calls : b.calls = a.calls
  century : b.zda_century = a.zda_century

/-- What the user of the library observes of one sentence: when `good`, one
more sentence parsed and the parse callback invoked with the post-processed
record `rec`; otherwise one more checksum error and no callback. -/
structure user_done (good : Bool) (rec : tiny_nmea_type_t) (a c : tiny_nmea_ctx_t) : Prop where
  parse_cb : c.parse_callback = a.parse_callback
  error_cb : c.error_callback = a.error_callback
  stats : c.stats =
    if good then { a.stats with sentences_parsed := incr32 a.stats.sentences_parsed }
    else { a.stats with checksum_errors := incr32 a.stats.checksum_errors }
  calls : c.calls =
    if good then a.calls ++
      [tiny_nmea_callback_event.parse (pp_record a.zda_century rec)
        { a.stats with sentences_parsed := incr32 a.stats.sentences_parsed }]
    else a.calls
  century : c.zda_century = if good then pp_century a.zda_century rec else a.zda_century

/-- The framer is between sentences with an empty scratch buffer. -/
structure at_start (c : tiny_nmea_ctx_t) : Prop where
  wf : ringbuf_wf c.ringbuf
  wb_length : c.working_buf.length = TINY_NMEA_WORKING_BUF_LEN
  len : c.working_buf_len = 0
  pos : c.parse_pos = 0
  state : c.parser_state = TINY_NMEA_PARSE_FIND_START
  waiting : c.waiting_for_data = false

/-- The framer is between sentences: looking for a start character, or just
past one that is at the front of the scratch buffer. -/
structure fresh (c : tiny_nmea_ctx_t) : Prop where
  wf : ringbuf_wf c.ringbuf
  wb_length : c.working_buf.length = TINY_NMEA_WORKING_BUF_LEN
  len_le : c.working_buf_len ≤ TINY_NMEA_MAX_SENTENCE_LEN
  waiting : c.waiting_for_data = false
  stage : (c.parser_state = TINY_NMEA_PARSE_FIND_START ∧ c.parse_pos = 0) ∨
    (c.parser_state = TINY_NMEA_PARSE_FIND_TALKER_AND_TYPE ∧ c.parse_pos = 1 ∧
      1 ≤ c.working_buf_len)

/-- The sentence `T` is well formed: it has the shape of a sentence, is not
too long, its checksum (if any) is right and its decoder accepts it. -/
def well_formed (T : List Nat) : Prop :=
  ∃ d e ck tk ty v rec, sentence_frame T d e ck tk ty v ∧ accepted T d ck tk ty v rec

/-- The sentence `T` is well formed except that its checksum value is wrong. -/
def wrong_checksum (T : List Nat) : Prop :=
  ∃ d e tk ty v, sentence_frame T d e true tk ty v ∧ corrupted T d true v

/-- The sentence of the GGA tests (`test_system.c`). -/
def sample_gga : List Nat :=
  bytes "$GPGGA,123519,4807.038,N,01131.000,E,1,08,0.9,545.4,M,46.9,M,,*47\r\n"

/-- The record that the decoder yields for `sample_gga`. -/
def sample_gga_record : tiny_nmea_type_t :=
  { type := TINY_NMEA_SENTENCE_GGA
    talker := 1
    data := tiny_nmea_data_t.gga
      { time := { hours := 12, minutes := 35, seconds := 19, microseconds := 0, valid := true }
        latitude := { raw := { value := 4807038, scale := 1000 }, hemisphere := 78 }
        longitude := { raw := { value := 1131000, scale := 1000 }, hemisphere := 69 }
        fix_quality := 1
        satellites_used := 8
        hdop := { value := 9, scale := 10 }
        altitude_m := { value := 5454, scale := 10 }
        geoid_sep_m := { value := 469, scale := 10 }
        dgps_age_sec := { value := 0, scale := 0 }
        dgps_station_id := 0 } }

/-- The sentence of the GSA tests. -/
def sample_gsa : List Nat :=
  bytes "$GPGSA,A,3,04,05,,09,12,,,24,,,,,2.5,1.3,2.1*39\r\n"

/-- The record that the decoder yields for `sample_gsa`. -/
def sample_gsa_record : tiny_nmea_type_t :=
  { type := TINY_NMEA_SENTENCE_GSA
    talker := 1
    data := tiny_nmea_data_t.gsa
      { mode_selection := 65
        fix_type := 3
        satellite_prns := [4, 5, 9, 12, 24, 0, 0, 0, 0, 0, 0, 0]
        satellite_count := 5
        pdop := { value := 25, scale := 10 }
        hdop := { value := 13, scale := 10 }
        vdop := { value := 21, scale := 10 }
        system_id := 0 } }

/-- The RMC sentence of the tests with the checksum replaced by `FF`
(`test_system_checksum_invalid`). -/
def sample_rmc_bad : List Nat :=
  bytes "$GPRMC,123519,A,4807.038,N,01131.000,E,022.4,084.4,230394,003.1,W*FF\r\n"

/-- The record that the decoder yields for the body of `sample_rmc_bad`. -/
def sample_rmc_record : tiny_nmea_type_t :=
  { type := TINY_NMEA_SENTENCE_RMC
    talker := 1
    data := tiny_nmea_data_t.rmc
      { time := { hours := 12, minutes := 35, seconds := 19, microseconds := 0, valid := true }
        date := { day := 23, month := 3, year := 0, year_yy := 94, valid := true }
        status_valid := true
        latitude := { raw := { value := 4807038, scale := 1000 }, hemisphere := 78 }
        longitude := { raw := { value := 1131000, scale := 1000 }, hemisphere := 69 }
        speed_knots := { value := 224, scale := 10 }
        course_deg := { value := 844, scale := 10 }
        mag_variation := { value := 31, scale := 10 }
        mag_var_dir := 87
        faa_mode := 0
        nav_status := 0 } }

/-- An RMC sentence of 95 bytes, all fields empty, with its correct checksum. -/
def sample_rmc_long : List Nat :=
  bytes "$GPRMC,,,,,,,,,,,,,,,,,,,,,,,,,,,,,,,,,,,,,,,,,,,,,,,,,,,,,,,,,,,,,,,,,,,,,,,,,,,,,,,,,,,,*4B\r\n"

/-- The record that the decoder yields for `sample_rmc_long`. -/
def sample_rmc_long_record : tiny_nmea_type_t :=
  { type := TINY_NMEA_SENTENCE_RMC, talker := 1, data := tiny_nmea_data_t.rmc { } }

/-- A parser freshly initialised with both callbacks and a ring buffer of 512 bytes. -/
def sample_context : tiny_nmea_ctx_t :=
  tiny_nmea_init_callbacks ctx_zero (List.replicate 512 0) (List.replicate 512 0).length true true

/-- The byte `c` is an ASCII digit '0'..'9'. -/
def is_ascii_digit (c : Nat) : Prop :=
  48 ≤ c ∧ c ≤ 57

instance (c : Nat) : Decidable (is_ascii_digit c) := by
  unfold is_ascii_digit; infer_instance

/-- The decimal value of a string of ASCII digits, most significant digit
first (0 for the empty string). -/
def decimal_value (ds : List Nat) : Nat :=
  ds.foldl (fun acc c => acc * 10 + (c - 48)) 0

/-- The part of `parse_fixedpoint_float` after the sign has been stripped:
`p` is the rest of the field and `negative` says whether the sign was '-'. -/
def fixedpoint_body (negative : Bool) (p : List Nat) : Option (Bool × tiny_nmea_float_t) :=
  if p.length = 0 then some (false, {})
  else
    let before : Option (Nat × Bool × List Nat) :=
      match memchr_list p 46 with
      | some int_len =>
        if int_len > 0 then
          match parse_uint (p.take int_len) with
          | none => none
          | some v => some (v, true, p.drop (int_len + 1))
        else some (0, false, p.drop (int_len + 1))
      | none => some (0, false, p)
    match before with
    | none => some (false, {})
    | some (integer_val, have_digits1, p2) =>
      let after : Option (Nat × Nat × Bool) :=
        if p2.length > 0 then
          match parse_uint p2 with
          | none => none
          | some v => some (v, scale_loop p2.length 1, true)
        else some (0, 1, have_digits1)
      match after with
      | none => some (false, {})
      | some (frac_val, scale, have_digits) =>
        if !have_digits then some (false, {})
        else if scale = 0 then none
        else if integer_val > to_uint32 (INT32_MAX / scale) then some (false, {})
        else
          let combined := to_uint32 (integer_val * scale + frac_val)
          if combined > INT32_MAX then some (false, {})
          else
            some (true, { value := if negative then -(combined : Int) else (combined : Int),
                          scale := to_int32 (scale : Int) })

/-- The last `k` decimal digits of `n` as ASCII bytes, most significant first
(padded with '0' on the left). -/
def fixed_digits : Nat → Nat → List Nat
  | 0, _ => []
  | k + 1, n => fixed_digits k (n / 10) ++ [48 + n % 10]

/-- The decimal digits of `n` without leading zeros ("0" for zero), for
`n < 10 ^ 10`. -/
def integer_digits (n : Nat) : List Nat :=
  if (fixed_digits 10 n).dropWhile (fun c => c == 48) = [] then [48]
  else (fixed_digits 10 n).dropWhile (fun c => c == 48)

/-- The fixed-point number `v / 10 ^ k` written as a decimal with exactly `k`
fractional digits: an optional '-', the integer part, '.', `k` digits. -/
def write_fixedpoint (v : Int) (k : Nat) : List Nat :=
  (if v < 0 then [45] else []) ++
    (integer_digits (v.natAbs / 10 ^ k) ++ 46 :: fixed_digits k (v.natAbs % 10 ^ k))

/-- Feed a sequence of GSV records to `tiny_nmea_sat_tracking_update_gsv`, one
call after the other. -/
def track_gsv : tiny_nmea_sats_tracker_ctx_t → List tiny_nmea_gsv_t →
    Option tiny_nmea_sats_tracker_ctx_t
  | ctx, [] => some ctx
  | ctx, g :: rest =>
    match tiny_nmea_sat_tracking_update_gsv ctx g with
    | none => none
    | some r => track_gsv r.2 rest

/-- A tracker after `tiny_nmea_sat_tracking_init` with both callbacks registered. -/
def sample_tracker : tiny_nmea_sats_tracker_ctx_t :=
  tiny_nmea_sat_tracking_register_callbacks tiny_nmea_sat_tracking_init true true

/-- The GSV record number `k` of `n`, with one satellite of PRN `k`. -/
def sample_gsv (n k : Nat) : tiny_nmea_gsv_t :=
  { total_msgs := n, msg_number := k, total_sats := n,
    sats := [{ prn := k, elevation := 45, azimuth := 90, snr := 30 }, {}, {}, {}],
    sat_count := 1 }

/-- The answer of `tiny_nmea_parse` for the sentence in the scratch buffer, as
the case `TINY_NMEA_SENTENCE_COMPLETE` obtains it: the byte at `data_end` is
overwritten with NUL and the record starts with the talker and type found in
the header. -/
def complete_decode (ctx : tiny_nmea_ctx_t) : Option (tiny_nmea_res_t × tiny_nmea_type_t) :=
  tiny_nmea_parse (ctx.working_buf.set ctx.data_end 0)
    { type := ctx.current_type, talker := ctx.current_talker, data := tiny_nmea_data_t.zero }

/-- The context after at most `n` passes through the body of the loop of
`tiny_nmea_work`, stopping early when the loop is left. -/
def work_passes : Nat → tiny_nmea_ctx_t → tiny_nmea_ctx_t
  | 0, c => c
  | n + 1, c =>
    match tiny_nmea_work_body c with
    | loop_outcome.next c1 => work_passes n c1
    | loop_outcome.exit c1 => c1
    | loop_outcome.undefined => c

/-- An RMC sentence with two fields and its correct checksum. -/
def sample_rmc_short : List Nat :=
  bytes "$GPRMC,1,2*48\r\n"

/-- A ZDA sentence with the hour 25 and its correct checksum. -/
def sample_zda_bad_time : List Nat :=
  bytes "$GPZDA,250000.00,15,01,2025,00,00*61\r\n"

/-- The fresh parser `sample_context` after `sample_rmc_short` has been fed
and four passes of the loop of `tiny_nmea_work` have framed it. -/
def sample_rmc_short_complete : tiny_nmea_ctx_t :=
  work_passes 4 (tiny_nmea_feed sample_context sample_rmc_short).2

/-- The ZDA sentence of the test `test_system_century_from_zda`. -/
def sample_zda_2025 : List Nat :=
  bytes "$GPZDA,120000.00,15,01,2025,00,00*65\r\n"

/-- A ZDA sentence with the year 0025 and its correct checksum. -/
def sample_zda_0025 : List Nat :=
  bytes "$GPZDA,120001.00,15,01,0025,00,00*66\r\n"

/-- The RMC sentence of the test `test_system_century_from_zda`. -/
def sample_rmc_full : List Nat :=
  bytes "$GPRMC,120001,A,4807.038,N,01131.000,E,022.4,084.4,150125,003.1,W*68\r\n"

/-- The fresh parser `sample_context` after `sample_zda_2025` has been fed and
four passes of the loop of `tiny_nmea_work` have framed it. -/
def sample_zda_complete : tiny_nmea_ctx_t :=
  work_passes 4 (tiny_nmea_feed sample_context sample_zda_2025).2

/-- The record that `handle_parse_zda` decodes from `sample_zda_2025`. -/
def sample_zda_record : tiny_nmea_type_t :=
  { type := TINY_NMEA_SENTENCE_ZDA, talker := 1,
    data := tiny_nmea_data_t.zda
      { time := { hours := 12, minutes := 0, seconds := 0, microseconds := 0, valid := true },
        date := { day := 15, month := 1, year := 2025, year_yy := 0, valid := true },
        tz_hours := 0, tz_minutes := 0 } }

/-- The parser after `sample_zda_2025` has been fed and worked off, then
`sample_rmc_full` has been fed and four passes of the loop of `tiny_nmea_work`
have framed it. -/
def sample_rmc_complete : tiny_nmea_ctx_t :=
  work_passes 4 (tiny_nmea_feed (work_passes 6 (tiny_nmea_feed sample_context sample_zda_2025).2)
    sample_rmc_full).2

/-- The record that `handle_parse_rmc` decodes from `sample_rmc_full`. -/
def sample_rmc_decoded : tiny_nmea_type_t :=
  { type := TINY_NMEA_SENTENCE_RMC, talker := 1,
    data := tiny_nmea_data_t.rmc
      { time := { hours := 12, minutes := 0, seconds := 1, microseconds := 0, valid := true },
        date := { day := 15, month := 1, year := 0, year_yy := 25, valid := true },
        status_valid := true,
        latitude := { raw := { value := 4807038, scale := 1000 }, hemisphere := 78 },
        longitude := { raw := { value := 1131000, scale := 1000 }, hemisphere := 69 },
        speed_knots := { value := 224, scale := 10 },
        course_deg := { value := 844, scale := 10 },
        mag_variation := { value := 31, scale := 10 },
        mag_var_dir := 87, faa_mode := 0, nav_status := 0 } }

/-- The bit of PRN `q` in the bitmask row `row`, read without a bounds check. -/
def row_has (row : List Nat) (q : Nat) : Bool :=
  (row.getD (q / 8) 0).testBit (q % 8)

/-- The PRN `q` is recorded in row `r` of the bitmask: `check_bit` on that row
answers true. -/
def prn_recorded (bitmask : List (List Nat)) (r q : Nat) : Bool :=
  check_bit (bitmask.getD r []) q == some true

/-- The PRNs at the indices `l` of a GSA record that the loops of
`tiny_nmea_sat_tracking_update_gsa` do not skip. -/
def idx_prns (gsa : tiny_nmea_gsa_t) (l : List Nat) : List Nat :=
  (l.filterMap fun i => gsa.satellite_prns.get? i).filter
    fun p => decide (¬ (p = 0 ∨ p ≥ TINY_NMEA_MAX_PRN_PER_CONST))

/-- The PRNs of a GSA record that the loops of
`tiny_nmea_sat_tracking_update_gsa` do not skip: those of the first
`satellite_count` slots that are neither 0 nor `TINY_NMEA_MAX_PRN_PER_CONST`
or more. -/
def gsa_prns (gsa : tiny_nmea_gsa_t) : List Nat :=
  (gsa.satellite_prns.take gsa.satellite_count).filter
    fun p => decide (¬ (p = 0 ∨ p ≥ TINY_NMEA_MAX_PRN_PER_CONST))

/-- The arrays of the tracker have their declared sizes and the active count
is within the active buffer. -/
def tracker_wf (ctx : tiny_nmea_sats_tracker_ctx_t) : Prop :=
  ctx.sats_active_bitmask.length = TINY_NMEA_CONSTELLATION_COUNT ∧
  (∀ row ∈ ctx.sats_active_bitmask, row.length = TINY_NMEA_TRACK_PRN_PER_CONST_ARR_SIZE) ∧
  ctx.sats_active_info.length = TINY_NMEA_MAX_TRACKED_GSA_SATS ∧
  ctx.num_sats_active ≤ TINY_NMEA_MAX_TRACKED_GSA_SATS

instance (ctx : tiny_nmea_sats_tracker_ctx_t) : Decidable (tracker_wf ctx) := by
  unfold tracker_wf; infer_instance

/-- The entry that the accumulation loop writes for the PRN `p`. -/
def gsa_entry (constellation : Nat) (p : Nat) : tiny_nmea_gsa_sat_info_t :=
  { prn := p, constellation := constellation }

/-- Feed the GSA records of the list, each with its talker, to
`tiny_nmea_sat_tracking_update_gsa`, one after the other. -/
def track_gsa : tiny_nmea_sats_tracker_ctx_t → List (tiny_nmea_gsa_t × Nat) →
    Option tiny_nmea_sats_tracker_ctx_t
  | ctx, [] => some ctx
  | ctx, g :: rest =>
    match tiny_nmea_sat_tracking_update_gsa ctx g.1 g.2 with
    | none => none
    | some r => track_gsa r.2 rest

/-- A GSA record with twelve PRNs `12 * i + 1` .. `12 * i + 12` and no system ID. -/
def sample_gsa_block (i : Nat) : tiny_nmea_gsa_t :=
  { mode_selection := 65, fix_type := 3
    satellite_prns := (List.range 12).map fun j => 12 * i + j + 1
    satellite_count := 12 }

/-- A GSA record with the PRNs 12, 13 and 14 and no system ID. -/
def sample_gsa_overlap : tiny_nmea_gsa_t :=
  { mode_selection := 65, fix_type := 3
    satellite_prns := [12, 13, 14, 0, 0, 0, 0, 0, 0, 0, 0, 0]
    satellite_count := 3 }

/-- The tracker `sample_tracker` after the GSA record `sample_gsa_block 0` with the
talker GP. -/
def sample_tracker_active : tiny_nmea_sats_tracker_ctx_t :=
  (track_gsa sample_tracker [(sample_gsa_block 0, 1)]).getD sample_tracker

/-- The tracker `sample_tracker` after the ten GSA records `sample_gsa_block 0` ..
`sample_gsa_block 9` with the talker GP. -/
def sample_tracker_full : tiny_nmea_sats_tracker_ctx_t :=
  (track_gsa sample_tracker ((List.range 10).map fun i => (sample_gsa_block i, 1))).getD sample_tracker

/-- The sum `hours * 3600000 + minutes * 60000 + seconds * 1000 +
microseconds / 1000`, the milliseconds since midnight of a time. -/
def time_ms (t : tiny_nmea_time_t) : Int :=
  (t.hours * 3600000 + t.minutes * 60000 + t.seconds * 1000 + t.microseconds / 1000 : Nat)

/-- The members of a `tiny_nmea_time_t` are within their C types (`uint8_t`
hours, minutes and seconds, `uint32_t` microseconds). -/
def time_in_type (t : tiny_nmea_time_t) : Prop :=
  t.hours < 256 ∧ t.minutes < 256 ∧ t.seconds < 256 ∧ t.microseconds < 4294967296

instance (t : tiny_nmea_time_t) : Decidable (time_in_type t) := by
  unfold time_in_type; infer_instance

/-- A full ring buffer of size 4 holding the bytes 1, 2, 3. -/
def sample_ring_full : ringbuf_t :=
  { buf := [1, 2, 3, 0], size := 4, head := 3, tail := 0 }

/-- The sentence of the test `test_corrupt_dropped_comma`: no comma after the
sentence type. -/
def sample_dropped_comma : List Nat :=
  bytes "$GPGGA123519,4807.038,N,01131.000,E,1,08,0.9,545.4,M,47.0,M,,*47\r\n"

/-- The fresh parser `sample_context` after `sample_dropped_comma` has been
fed and one pass of the loop of `tiny_nmea_work` has found the start character. -/
def sample_dropped_comma_header : tiny_nmea_ctx_t :=
  work_passes 1 (tiny_nmea_feed sample_context sample_dropped_comma).2

/-- How `parse_time` leaves `*out` when it fails on the field `f`: the
validity flag and the microseconds are off; all members are zero unless the
field starts with six digits, in which case hours, minutes and seconds hold the
three two-digit numbers, one of them out of range. -/
def time_unparsed (f : List Nat) (t : tiny_nmea_time_t) : Prop :=
  t.valid = false ∧ t.microseconds = 0 ∧
  (if 6 ≤ f.length ∧ is_ndigits f 6 = true then
    t.hours = to_uint8 ((f.getD 0 0 - 48) * 10 + (f.getD 1 0 - 48)) ∧
    t.minutes = to_uint8 ((f.getD 2 0 - 48) * 10 + (f.getD 3 0 - 48)) ∧
    t.seconds = to_uint8 ((f.getD 4 0 - 48) * 10 + (f.getD 5 0 - 48)) ∧
    (t.hours > 23 ∨ t.minutes > 59 ∨ t.seconds > 60)
  else t = {})

/-- How `parse_date` leaves `*out` when it fails on the field `f`: the validity
flag and the full year are off; all members are zero unless the field starts
with six digits, in which case day, month and two-digit year hold the three
two-digit numbers, with the day or the month out of range. -/
def date_unparsed (f : List Nat) (d : tiny_nmea_date_t) : Prop :=
  d.valid = false ∧ d.year = 0 ∧
  (if 6 ≤ f.length ∧ is_ndigits f 6 = true then
    d.day = to_uint8 ((f.getD 0 0 - 48) * 10 + (f.getD 1 0 - 48)) ∧
    d.month = to_uint8 ((f.getD 2 0 - 48) * 10 + (f.getD 3 0 - 48)) ∧
    d.year_yy = to_uint8 ((f.getD 4 0 - 48) * 10 + (f.getD 5 0 - 48)) ∧
    (d.day < 1 ∨ d.day > 31 ∨ d.month < 1 ∨ d.month > 12)
  else d = {})

/-- How `parse_latitude` and `parse_longitude` leave `*out` when they fail on
the fields `f` and `dir`: the hemisphere is 0; the raw value is zero unless
the number in `f` was accepted and the failure is the hemisphere letter. -/
def coord_unparsed (f dir : List Nat) (c : tiny_nmea_coord_t) : Prop :=
  c.hemisphere = 0 ∧
  (c.raw = {} ∨ (parse_fixedpoint_float f = some (true, c.raw) ∧ dir ≠ []))

/-- An RMC body whose time field is `256199`, whose date field is `320125` and
whose latitude hemisphere letter is `X`. -/
def sample_rmc_out_of_range : List Nat :=
  bytes "256199,A,4807.038,X,01131.000,E,022.4,084.4,320125,003.1,W"

/-- The record that `handle_parse_rmc` returns for `sample_rmc_out_of_range`. -/
def sample_rmc_out_of_range_record : tiny_nmea_rmc_t :=
  { time := { hours := 25, minutes := 61, seconds := 99, microseconds := 0, valid := false },
    date := { day := 32, month := 1, year := 0, year_yy := 25, valid := false },
    status_valid := true,
    latitude := { raw := { value := 4807038, scale := 1000 }, hemisphere := 0 },
    longitude := { raw := { value := 1131000, scale := 1000 }, hemisphere := 69 },
    speed_knots := { value := 224, scale := 10 },
    course_deg := { value := 844, scale := 10 },
    mag_variation := { value := 31, scale := 10 },
    mag_var_dir := 87, faa_mode := 0, nav_status := 0 }

/-- The framer state invariant: the cursor is inside the filled part of the
scratch buffer, the filled part is at most `TINY_NMEA_MAX_SENTENCE_LEN` bytes,
and in the state `FIND_START` the cursor is 0. -/
def framer_inv (c : tiny_nmea_ctx_t) : Prop :=
  c.parse_pos ≤ c.working_buf_len ∧ c.working_buf_len ≤ TINY_NMEA_MAX_SENTENCE_LEN ∧
  (c.parser_state = TINY_NMEA_PARSE_FIND_START → c.parse_pos = 0)

instance (c : tiny_nmea_ctx_t) : Decidable (framer_inv c) := by
  unfold framer_inv; infer_instance

/-- A valid header followed by one hundred digits `0`: more than
`TINY_NMEA_MAX_SENTENCE_LEN` bytes without '*', CR or LF. -/
def sample_overlong : List Nat :=
  bytes "$GPGGA," ++ List.replicate 100 48

/-- A valid header, eighty digits `0` and the beginning of another sentence:
more than `TINY_NMEA_MAX_SENTENCE_LEN` bytes without '*', CR or LF after the
first header. -/
def sample_overlong_restart : List Nat :=
  bytes "$GPGGA," ++ List.replicate 80 48 ++ bytes "$GPGGA,1"

/-- The position of a framer state in the order in which a sentence passes
through them. -/
def state_rank : tiny_nmea_parser_fsm_state_t → Nat
  | TINY_NMEA_PARSE_FIND_START => 0
  | TINY_NMEA_PARSE_FIND_TALKER_AND_TYPE => 1
  | TINY_NMEA_PARSE_FIND_CHECKSUM_OR_END => 2
  | TINY_NMEA_PARSE_FIND_END => 3
  | TINY_NMEA_SENTENCE_COMPLETE => 4

/-- The part of the termination measure that the state machine steps change:
scratch bytes first, then the distance of the state from `SENTENCE_COMPLETE`,
then whether the framer is not yet waiting for data. -/
def fsm_weight (c : tiny_nmea_ctx_t) : Nat :=
  c.working_buf_len * 10 + (4 - state_rank c.parser_state) * 2 +
    (if c.waiting_for_data = true then 0 else 1)

/-- The termination measure of the loop of `tiny_nmea_work`: every byte in the
ring buffer counts twice, every byte in the scratch buffer once. -/
def work_measure (c : tiny_nmea_ctx_t) : Nat :=
  2 * ringbuf_len c.ringbuf * 10 + fsm_weight c

/-- The invariant of the framer that the termination argument uses: the ring
buffer is well formed, the cursor is inside the filled part of the scratch
buffer, which is at most `TINY_NMEA_MAX_SENTENCE_LEN` bytes; the cursor is 0 in
`FIND_START`, 1 in `FIND_TALKER_AND_TYPE` and positive in the later states; in
`SENTENCE_COMPLETE` the line end is set and not at offset 0; and a scratch
buffer that is full and read to the end means the framer waits for data. -/
structure framer_wf (c : tiny_nmea_ctx_t) : Prop where
  ring : ringbuf_wf c.ringbuf
  pos_le : c.parse_pos ≤ c.working_buf_len
  len_le : c.working_buf_len ≤ TINY_NMEA_MAX_SENTENCE_LEN
  start : c.parser_state = TINY_NMEA_PARSE_FIND_START → c.parse_pos = 0
  talker : c.parser_state = TINY_NMEA_PARSE_FIND_TALKER_AND_TYPE → c.parse_pos = 1
  later : c.parser_state ≠ TINY_NMEA_PARSE_FIND_START → 0 < c.parse_pos
  complete : c.parser_state = TINY_NMEA_SENTENCE_COMPLETE → ∃ l, c.line_end = some l ∧ 0 < l
  full : c.parse_pos = c.working_buf_len →
    c.working_buf_len = TINY_NMEA_MAX_SENTENCE_LEN → c.waiting_for_data = true

/-- What a state machine step from `a` to `c` does for termination: the ring
buffer is untouched, the invariant is kept and the weight goes down. -/
structure fsm_progress (a c : tiny_nmea_ctx_t) : Prop where
  ring : c.ringbuf = a.ringbuf
  wf : framer_wf c
  less : fsm_weight c < fsm_weight a

/-- An RMC sentence of 52 bytes whose speed field is a point followed by 32
digits `0`. -/
def sample_rmc_zero_scale : List Nat :=
  bytes "$GPRMC,,,,,,,.00000000000000000000000000000000,,,,\r\n"

/-- The state machine part of the loop body of `tiny_nmea_work`, on the
context `a` that has the waiting flag cleared. -/
def fsm_dispatch (a : tiny_nmea_ctx_t) : loop_outcome :=
  if a.working_buf_len - a.parse_pos = 0 then
    if ringbuf_empty a.ringbuf then loop_outcome.exit a else loop_outcome.next a
  else
    match a.parser_state with
    | TINY_NMEA_PARSE_FIND_START => loop_outcome.next (fsm_find_start a)
    | TINY_NMEA_PARSE_FIND_TALKER_AND_TYPE => loop_outcome.next (fsm_find_talker_and_type a)
    | TINY_NMEA_PARSE_FIND_CHECKSUM_OR_END => loop_outcome.next (fsm_find_checksum_or_end a)
    | TINY_NMEA_PARSE_FIND_END => loop_outcome.next (fsm_find_end a)
    | TINY_NMEA_SENTENCE_COMPLETE =>
      match fsm_sentence_complete a with
      | some c => loop_outcome.next c
      | none => loop_outcome.undefined

/-- The RMC body `sample_rmc_out_of_range` as a sentence with its correct
checksum. -/
def sample_rmc_out_of_range_sentence : List Nat :=
  bytes "$GPRMC," ++ sample_rmc_out_of_range ++ bytes "*79\r\n"

/-- The byte is a start character, '$' or '!'. -/
def is_start_char (b : Nat) : Bool :=
  b == 36 || b == 33

/-- The number of start characters among the bytes `G`. -/
def start_count (G : List Nat) : Nat :=
  (G.filter is_start_char).length

/-- The header test of the case `TINY_NMEA_PARSE_FIND_TALKER_AND_TYPE` on the
bytes `s` that begin at a start character: bytes 1..2 are a recognised talker,
bytes 3..5 a recognised sentence type and byte 6 is a comma (the negation of
the condition under which the case skips one character and counts a parse
error). -/
def header_valid (s : List Nat) : Bool :=
  tiny_nmea_talker_valid (parse_talker_id (s.getD 1 0) (s.getD 2 0)) &&
  tiny_nmea_sentence_valid (parse_sentence_type (s.getD 3 0) (s.getD 4 0) (s.getD 5 0)) &&
  s.getD 6 0 == 44

/-- The bytes `J` are CR and LF only. -/
def line_ending_bytes (J : List Nat) : Prop :=
  ∀ i, i < J.length → J.getD i 0 = 13 ∨ J.getD i 0 = 10

/-- What is known of the sentence `p.1`: it is well formed when `p.2`, and well
formed except for a wrong checksum value otherwise. -/
def sentence_ok (p : List Nat × Bool) : Prop :=
  if p.2 then well_formed p.1 else wrong_checksum p.1

/-- Every sentence of the list is as its flag says, and only the last one may
have a wrong checksum. -/
def sentences_ok : List (List Nat × Bool) → Prop
  | [] => True
  | p :: rest => sentence_ok p ∧ (rest ≠ [] → p.2 = true) ∧ sentences_ok rest

/-- The bytes of the sentences, one after the other. -/
def sentence_bytes (Ss : List (List Nat × Bool)) : List Nat :=
  (Ss.map Prod.fst).flatten

/-- The number of well-formed sentences of the list. -/
def good_count (Ss : List (List Nat × Bool)) : Nat :=
  (Ss.filter fun p => p.2).length

/-- The number of sentences with a wrong checksum of the list. -/
def bad_count (Ss : List (List Nat × Bool)) : Nat :=
  (Ss.filter fun p => !p.2).length

/-- The counters of `c` after `sp` parsed sentences and `ce` checksum errors,
with the parse callback set. -/
structure tally (sp ce : Nat) (c : tiny_nmea_ctx_t) : Prop where
  cb : c.parse_callback = true
  stats : c.stats =
    { sentences_parsed := sp % 4294967296, checksum_errors := ce % 4294967296,
      parse_errors := 0, buffer_overflows := 0 }

/-- The framer after a `tiny_nmea_work` with the sentences `Ss` not yet
finished and the bytes `R` not yet fed: the ring buffer is empty and either the
scratch buffer is empty, `R` being the sentences after at most the line ending
of the sentence before, or the scratch buffer holds the beginning of the first
sentence, short of its line end. -/
def drained (Ss : List (List Nat × Bool)) (R : List Nat) (c : tiny_nmea_ctx_t) : Prop :=
  ringbuf_len c.ringbuf = 0 ∧
  ((at_start c ∧ ∃ J, R = J ++ sentence_bytes Ss ∧ line_ending_bytes J ∧ J.length ≤ 82) ∨
   (∃ T g Ss' d e ck tk ty v rec, Ss = (T, g) :: Ss' ∧ sentence_frame T d e ck tk ty v ∧
      verdict g T d ck tk ty v rec ∧ framing T d e ck tk ty c ∧ 0 < c.working_buf_len ∧
      c.working_buf_len ≤ e ∧ R = T.drop c.working_buf_len ++ sentence_bytes Ss'))

/-- The loop of `tiny_nmea_work` started in `ctx` ends within `bound` passes,
with a suffix of the sentences `Ss` not yet finished and the others counted. -/
def drain_result (Ss : List (List Nat × Bool)) (bound : Nat) (ctx : tiny_nmea_ctx_t)
    (R : List Nat) (sp ce : Nat) : Prop :=
  ∃ c Ss' sp' ce' n, n ≤ bound ∧ halts_at ctx c n ∧ drained Ss' R c ∧ tally sp' ce' c ∧
    c.ringbuf.size = ctx.ringbuf.size ∧ sentences_ok Ss' ∧ Ss'.length ≤ Ss.length ∧
    sp' + good_count Ss' = sp + good_count Ss ∧ ce' + bad_count Ss' = ce + bad_count Ss

/-- The loop of `tiny_nmea_work` from a framer between sentences that holds
the bytes `W`, a prefix of line-ending bytes followed by the sentences `Ss`. -/
def drain_spec (Ss : List (List Nat × Bool)) : Prop :=
  ∀ (ctx : tiny_nmea_ctx_t) (J W R : List Nat) (sp ce : Nat),
    fresh ctx → ctx.parser_state = TINY_NMEA_PARSE_FIND_START → stream ctx = W →
    W ++ R = J ++ sentence_bytes Ss → line_ending_bytes J → J.length ≤ 82 →
    tally sp ce ctx → drain_result Ss (6 * Ss.length + 2) ctx R sp ce

/-- The sentence `sample_rmc_bad` up to its CR, without the LF. -/
def sample_rmc_bad_cr : List Nat :=
  bytes "$GPRMC,123519,A,4807.038,N,01131.000,E,022.4,084.4,230394,003.1,W*FF\r"

/-! ## Ring buffer: lemmas -/

theorem wrap_eq {n a : Nat} (ha : a < n + n) :
    a % n = if a < n then a else a - n := by
  split
  · exact Nat.mod_eq_of_lt ‹_›
  · rw [Nat.mod_eq_sub_mod (by omega)]
    exact Nat.mod_eq_of_lt (by omega)

theorem memcpy_length (d s : List Nat) (off : Nat) (h : off + s.length ≤ d.length) :
    (memcpy d off s).length = d.length := by
  simp [memcpy]; omega

theorem memcpy_getD (d s : List Nat) (off j : Nat) (h : off + s.length ≤ d.length) :
    (memcpy d off s).getD j 0 =
      if off ≤ j ∧ j < off + s.length then s.getD (j - off) 0 else d.getD j 0 := by
  have h1 : (d.take off).length = off := by simp; omega
  unfold memcpy
  simp only [List.getD_eq_getElem?_getD]
  by_cases c1 : j < off
  · rw [List.append_assoc, List.getElem?_append_left (by omega)]
    have : ¬ (off ≤ j ∧ j < off + s.length) := by omega
    simp [this, List.getElem?_take, c1]
  · by_cases c2 : j < off + s.length
    · rw [List.getElem?_append_left (by simp; omega), List.getElem?_append_right (by omega)]
      have c3 : off ≤ j := by omega
      simp [h1, c2, c3]
    · rw [List.getElem?_append_right (by simp; omega)]
      have : ¬ (off ≤ j ∧ j < off + s.length) := by omega
      simp [this, h1]
      congr 2; omega

theorem slice_length (l : List Nat) (off n : Nat) (h : off + n ≤ l.length) :
    (slice l off n).length = n := by
  simp [slice]; omega

theorem slice_getD (l : List Nat) (off n j : Nat) (h : j < n) :
    (slice l off n).getD j 0 = l.getD (off + j) 0 := by
  simp [slice, List.getD_eq_getElem?_getD, List.getElem?_take, List.getElem?_drop, h]

theorem write_buf_length (buf : List Nat) (size head : Nat) (data : List Nat)
    (hb : buf.length = size) (hh : head < size) (hd : data.length ≤ size) :
    (ringbuf_write_buf buf size head data).length = size := by
  unfold ringbuf_write_buf
  split
  · rw [memcpy_length _ _ _ (by omega), hb]
  · rw [memcpy_length, memcpy_length, hb]
    · simp; omega
    · rw [memcpy_length]
      · simp; omega
      · simp; omega

theorem write_buf_getD (buf : List Nat) (size head : Nat) (data : List Nat) (j : Nat)
    (hb : buf.length = size) (hh : head < size) (hd : data.length ≤ size) (hj : j < size) :
    (ringbuf_write_buf buf size head data).getD j 0 =
      if head ≤ j ∧ j < head + data.length then data.getD (j - head) 0
      else if j + size < head + data.length then data.getD (j + size - head) 0
      else buf.getD j 0 := by
  unfold ringbuf_write_buf
  split
  · rw [memcpy_getD _ _ _ _ (by omega)]
    have : ¬ (j + size < head + data.length) := by omega
    simp [this]
  · have l1 : (data.take (size - head)).length = size - head := by simp; omega
    have l2 : (data.drop (size - head)).length = data.length - (size - head) := by simp
    rw [memcpy_getD _ _ _ _ (by rw [memcpy_length _ _ _ (by omega)]; omega),
      memcpy_getD _ _ _ _ (by omega), l1, l2]
    simp only [List.getD_eq_getElem?_getD, List.getElem?_drop, List.getElem?_take]
    by_cases c1 : j + size < head + data.length
    · have e1 : (0 ≤ j ∧ j < 0 + (data.length - (size - head))) := by omega
      have e2 : ¬ (head ≤ j ∧ j < head + data.length) := by omega
      simp only [e1, e2, c1]
      simp; congr 2; omega
    · have e1 : ¬ (0 ≤ j ∧ j < 0 + (data.length - (size - head))) := by omega
      simp only [e1, c1]
      by_cases c2 : head ≤ j
      · have e3 : (head ≤ j ∧ j < head + (size - head)) := by omega
        have e4 : (head ≤ j ∧ j < head + data.length) := by omega
        have e5 : j - head < size - head := by omega
        simp [e3, e4, e5]
      · have e3 : ¬ (head ≤ j ∧ j < head + (size - head)) := by omega
        have e4 : ¬ (head ≤ j ∧ j < head + data.length) := by omega
        simp [e3, e4]

theorem range_map_eq (n : Nat) (f : Nat → Nat) (L : List Nat) (hl : L.length = n)
    (h : ∀ i, i < n → f i = L.getD i 0) : (List.range n).map f = L := by
  apply List.ext_getElem
  · simp [hl]
  · intro i h1 h2
    simp at h1
    simp only [List.getElem_map, List.getElem_range]
    rw [h i h1, List.getD_eq_getElem _ _ h2]

theorem contents_length (rb : ringbuf_t) : (ringbuf_contents rb).length = ringbuf_len rb := by
  simp [ringbuf_contents]

theorem contents_getD (rb : ringbuf_t) (i : Nat) (h : i < ringbuf_len rb) :
    (ringbuf_contents rb).getD i 0 = rb.buf.getD ((rb.tail + i) % rb.size) 0 := by
  have h2 : i < (ringbuf_contents rb).length := by rw [contents_length]; exact h
  rw [List.getD_eq_getElem _ _ h2]
  simp [ringbuf_contents]

theorem len_lt_size (rb : ringbuf_t) (h : ringbuf_wf rb) : ringbuf_len rb < rb.size := by
  obtain ⟨h0, _, h2, h3⟩ := h
  unfold ringbuf_len RINGBUF_COMPUTE_LENGTH
  split <;> omega

theorem len_add_free (rb : ringbuf_t) (h : ringbuf_wf rb) :
    ringbuf_len rb + ringbuf_free rb = rb.size - 1 := by
  have := len_lt_size rb h
  unfold ringbuf_free RINGBUF_COMPUTE_FREE_SPACE
  unfold ringbuf_len at *
  omega

theorem write_wf (rb : ringbuf_t) (data : List Nat) (h : ringbuf_wf rb)
    (hd : data.length ≤ ringbuf_free rb) : ringbuf_wf (ringbuf_write rb data) := by
  have hl := len_add_free rb h
  obtain ⟨h0, h1, h2, h3⟩ := h
  refine ⟨h0, ?_, Nat.mod_lt _ h0, h3⟩
  exact write_buf_length _ _ _ _ h1 h2 (by omega)

theorem write_len (rb : ringbuf_t) (data : List Nat) (h : ringbuf_wf rb)
    (hd : data.length ≤ ringbuf_free rb) :
    ringbuf_len (ringbuf_write rb data) = ringbuf_len rb + data.length := by
  have hl := len_add_free rb h
  obtain ⟨h0, h1, h2, h3⟩ := h
  unfold ringbuf_len RINGBUF_COMPUTE_LENGTH at *
  simp only [ringbuf_write]
  rw [wrap_eq (by split at hl <;> omega)]
  split at hl <;> split <;> split <;> omega

theorem getD_append_ite (a b : List Nat) (i : Nat) :
    (a ++ b).getD i 0 = if i < a.length then a.getD i 0 else b.getD (i - a.length) 0 := by
  simp only [List.getD_eq_getElem?_getD]
  split
  · rw [List.getElem?_append_left ‹_›]
  · rw [List.getElem?_append_right (by omega)]

theorem head_eq (rb : ringbuf_t) (h : ringbuf_wf rb) :
    rb.head = if rb.tail + ringbuf_len rb < rb.size then rb.tail + ringbuf_len rb
      else rb.tail + ringbuf_len rb - rb.size := by
  obtain ⟨h0, _, h2, h3⟩ := h
  unfold ringbuf_len RINGBUF_COMPUTE_LENGTH
  split <;> split <;> omega

theorem write_contents (rb : ringbuf_t) (data : List Nat) (h : ringbuf_wf rb)
    (hd : data.length ≤ ringbuf_free rb) :
    ringbuf_contents (ringbuf_write rb data) = ringbuf_contents rb ++ data := by
  have hl := len_add_free rb h
  have hw := write_len rb data h hd
  have hlt := len_lt_size rb h
  have hh := head_eq rb h
  obtain ⟨h0, h1, h2, h3⟩ := h
  have e : ringbuf_contents (ringbuf_write rb data) =
      (List.range (ringbuf_len rb + data.length)).map
        (fun i => (ringbuf_write_buf rb.buf rb.size rb.head data).getD
          ((rb.tail + i) % rb.size) 0) := by
    unfold ringbuf_contents; rw [hw]; rfl
  rw [e]
  clear e hw
  apply range_map_eq
  · simp [contents_length]
  · intro i hi
    have hj : (rb.tail + i) % rb.size < rb.size := Nat.mod_lt _ h0
    rw [write_buf_getD _ _ _ _ _ h1 h2 (by omega) hj, getD_append_ite, contents_length]
    by_cases c : i < ringbuf_len rb
    · rw [if_pos c, contents_getD _ _ c]
      rw [wrap_eq (by omega)]
      generalize ringbuf_len rb = L at *
      generalize ringbuf_free rb = F at *
      split at hh <;> split <;> split <;> (try split) <;> first | rfl | omega
    · rw [if_neg c]
      rw [wrap_eq (by omega)]
      generalize ringbuf_len rb = L at *
      generalize ringbuf_free rb = F at *
      split at hh <;> split <;> split <;> (try split) <;> first | omega | (congr 1; omega)

theorem list_ext_getD (a b : List Nat) (hl : a.length = b.length)
    (h : ∀ i, i < a.length → a.getD i 0 = b.getD i 0) : a = b := by
  apply List.ext_getElem hl
  intro i h1 h2
  have := h i h1
  rwa [List.getD_eq_getElem _ _ h1, List.getD_eq_getElem _ _ h2] at this

theorem read_length (buf : List Nat) (size start n : Nat)
    (hb : buf.length = size) (hs : start < size) (hn : n ≤ size) :
    (ringbuf_read buf size start n).length = n := by
  unfold ringbuf_read
  split
  · exact slice_length _ _ _ (by omega)
  · rw [List.length_append, slice_length _ _ _ (by omega), slice_length _ _ _ (by omega)]
    omega

theorem read_getD (buf : List Nat) (size start n k : Nat)
    (hb : buf.length = size) (hs : start < size) (hn : n ≤ size) (hk : k < n) :
    (ringbuf_read buf size start n).getD k 0 = buf.getD ((start + k) % size) 0 := by
  unfold ringbuf_read
  rw [wrap_eq (by omega)]
  split
  · rw [slice_getD _ _ _ _ hk, if_pos (by omega)]
  · rw [getD_append_ite, slice_length _ _ _ (by omega)]
    split
    · rw [slice_getD _ _ _ _ ‹_›, if_pos (by omega)]
    · rw [slice_getD _ _ _ _ (by omega), if_neg (by omega)]
      congr 1; omega

theorem memcpy_take_one (d s : List Nat) : (memcpy d 0 s).take s.length = s := by
  simp [memcpy]

theorem memcpy_take_two (d s1 s2 : List Nat) :
    (memcpy (memcpy d 0 s1) s1.length s2).take (s1.length + s2.length) = s1 ++ s2 := by
  simp [memcpy, List.take_append_eq_append_take]

theorem copy_out_take (d buf : List Nat) (size start n : Nat)
    (hb : buf.length = size) (hs : start < size) (hn : n ≤ size) :
    (ringbuf_copy_out d buf size start n).take n = ringbuf_read buf size start n := by
  unfold ringbuf_copy_out ringbuf_read
  split
  · have := memcpy_take_one d (slice buf start n)
    rwa [slice_length _ _ _ (by omega)] at this
  · have := memcpy_take_two d (slice buf start (size - start)) (slice buf 0 (n - (size - start)))
    rw [slice_length _ _ _ (by omega), slice_length _ _ _ (by omega)] at this
    rw [← this]
    congr 1; omega

theorem read_eq_contents (rb : ringbuf_t) (h : ringbuf_wf rb) (offset n : Nat)
    (hn : offset + n ≤ ringbuf_len rb) :
    ringbuf_read rb.buf rb.size ((rb.tail + offset) % rb.size) n =
      ((ringbuf_contents rb).drop offset).take n := by
  have hlt := len_lt_size rb h
  obtain ⟨h0, h1, h2, h3⟩ := h
  have hl : (ringbuf_read rb.buf rb.size ((rb.tail + offset) % rb.size) n).length = n :=
    read_length _ _ _ _ h1 (Nat.mod_lt _ h0) (by omega)
  apply list_ext_getD
  · rw [hl]; simp [contents_length]; omega
  · intro i hi
    rw [hl] at hi
    rw [read_getD _ _ _ _ _ h1 (Nat.mod_lt _ h0) (by omega) hi]
    simp only [List.getD_eq_getElem?_getD, List.getElem?_take, List.getElem?_drop, hi, if_true]
    rw [← List.getD_eq_getElem?_getD, ← List.getD_eq_getElem?_getD,
      contents_getD _ _ (by omega)]
    congr 1
    rw [Nat.mod_add_mod, Nat.add_assoc]

theorem advance_wf (rb : ringbuf_t) (n : Nat) (h : ringbuf_wf rb) :
    ringbuf_wf (ringbuf_advance rb n) := by
  obtain ⟨h0, h1, h2, h3⟩ := h
  exact ⟨h0, h1, h2, Nat.mod_lt _ h0⟩

theorem advance_len (rb : ringbuf_t) (n : Nat) (h : ringbuf_wf rb) (hn : n ≤ ringbuf_len rb) :
    ringbuf_len (ringbuf_advance rb n) = ringbuf_len rb - n := by
  have hlt := len_lt_size rb h
  obtain ⟨h0, h1, h2, h3⟩ := h
  unfold ringbuf_len RINGBUF_COMPUTE_LENGTH at *
  simp only [ringbuf_advance]
  rw [wrap_eq (by omega)]
  split at hn <;> split <;> split <;> omega

theorem advance_contents (rb : ringbuf_t) (n : Nat) (h : ringbuf_wf rb)
    (hn : n ≤ ringbuf_len rb) :
    ringbuf_contents (ringbuf_advance rb n) = (ringbuf_contents rb).drop n := by
  have hlt := len_lt_size rb h
  have hw := advance_len rb n h hn
  have h0 := h.1
  have e : ringbuf_contents (ringbuf_advance rb n) =
      (List.range (ringbuf_len rb - n)).map
        (fun i => rb.buf.getD (((rb.tail + n) % rb.size + i) % rb.size) 0) := by
    unfold ringbuf_contents; rw [hw]; rfl
  rw [e]
  apply range_map_eq
  · simp [contents_length]
  · intro i hi
    simp only [List.getD_eq_getElem?_getD, List.getElem?_drop]
    rw [← List.getD_eq_getElem?_getD, ← List.getD_eq_getElem?_getD,
      contents_getD _ _ (by omega)]
    congr 1
    rw [Nat.mod_add_mod, Nat.add_assoc]

theorem take_min_len (l : List Nat) (n : Nat) : l.take n = l.take (min n l.length) := by
  by_cases c : n ≤ l.length
  · rw [Nat.min_eq_left c]
  · rw [Nat.min_eq_right (by omega), List.take_length, List.take_of_length_le (by omega)]

theorem write_nil (rb : ringbuf_t) (h : ringbuf_wf rb) : ringbuf_write rb [] = rb := by
  obtain ⟨h0, h1, h2, h3⟩ := h
  cases rb
  simp_all [ringbuf_write, ringbuf_write_buf, memcpy, Nat.mod_eq_of_lt]

theorem advance_zero (rb : ringbuf_t) (h : ringbuf_wf rb) : ringbuf_advance rb 0 = rb := by
  obtain ⟨h0, h1, h2, h3⟩ := h
  cases rb
  simp_all [ringbuf_advance, Nat.mod_eq_of_lt]

theorem push_finish_eq (rb : ringbuf_t) (data : List Nat) (h : ringbuf_wf rb) :
    ringbuf_push_finish rb data rb.head = (ringbuf_write rb data, data.length) := by
  unfold ringbuf_push_finish
  by_cases c : data.length = 0
  · have : data = [] := List.length_eq_zero.mp c
    subst this
    simp [write_nil rb h]
  · simp only [c, if_false]
    rfl

theorem push_eq_write (rb : ringbuf_t) (data : List Nat) (mode : ringbuf_push_mode_t)
    (h : ringbuf_wf rb) (hd : data.length ≤ ringbuf_free rb) :
    ringbuf_push rb data mode = (ringbuf_write rb data, data.length) := by
  have hd2 : ¬ (data.length > RINGBUF_COMPUTE_FREE_SPACE rb rb.head rb.tail) := by
    unfold ringbuf_free at hd; omega
  have e : ringbuf_push rb data mode = ringbuf_push_finish rb data rb.head := by
    unfold ringbuf_push
    simp only [hd2, if_false]
    rfl
  rw [e, push_finish_eq rb data h]

theorem push_drop_eq (rb : ringbuf_t) (data : List Nat) (h : ringbuf_wf rb) :
    ringbuf_push rb data RINGBUF_PUSH_DROP =
      (ringbuf_write rb (data.take (ringbuf_free rb)), min data.length (ringbuf_free rb)) := by
  by_cases c : data.length ≤ ringbuf_free rb
  · rw [push_eq_write rb data _ h c, List.take_of_length_le c, Nat.min_eq_left c]
  · have hd2 : (data.length > RINGBUF_COMPUTE_FREE_SPACE rb rb.head rb.tail) := by
      unfold ringbuf_free at c; omega
    have e : ringbuf_push rb data RINGBUF_PUSH_DROP =
        ringbuf_push_finish rb (data.take (ringbuf_free rb)) rb.head := by
      unfold ringbuf_push
      simp only [hd2, if_true]
      rfl
    rw [e, push_finish_eq _ _ h, List.length_take, Nat.min_comm]

theorem pop_eq (rb : ringbuf_t) (d : List Nat) (n : Nat) (h : ringbuf_wf rb) :
    ringbuf_pop rb (some d) n =
      (ringbuf_advance rb (min n (ringbuf_len rb)),
       some (if min n (ringbuf_len rb) = 0 then d
             else ringbuf_copy_out d rb.buf rb.size rb.tail (min n (ringbuf_len rb))),
       min n (ringbuf_len rb)) := by
  unfold ringbuf_pop
  have e : (if n > RINGBUF_COMPUTE_LENGTH rb rb.head rb.tail
      then RINGBUF_COMPUTE_LENGTH rb rb.head rb.tail else n) = min n (ringbuf_len rb) := by
    unfold ringbuf_len; split <;> omega
  simp only [e]
  by_cases c : min n (ringbuf_len rb) = 0
  · simp only [c, if_true, advance_zero rb h]
  · simp only [c, if_false]
    rfl

theorem pop_null_eq (rb : ringbuf_t) (n : Nat) (h : ringbuf_wf rb) :
    ringbuf_pop rb none n = (ringbuf_advance rb (min n (ringbuf_len rb)), none,
       min n (ringbuf_len rb)) := by
  unfold ringbuf_pop
  have e : (if n > RINGBUF_COMPUTE_LENGTH rb rb.head rb.tail
      then RINGBUF_COMPUTE_LENGTH rb rb.head rb.tail else n) = min n (ringbuf_len rb) := by
    unfold ringbuf_len; split <;> omega
  simp only [e]
  by_cases c : min n (ringbuf_len rb) = 0
  · simp only [c, if_true, advance_zero rb h]
  · simp only [c, if_false]
    rfl

theorem discard_eq (rb : ringbuf_t) (n : Nat) :
    ringbuf_discard rb n = (ringbuf_advance rb (min n (ringbuf_len rb)),
       min n (ringbuf_len rb)) := by
  unfold ringbuf_discard
  have e : (if n > RINGBUF_COMPUTE_LENGTH rb rb.head rb.tail
      then RINGBUF_COMPUTE_LENGTH rb rb.head rb.tail else n) = min n (ringbuf_len rb) := by
    unfold ringbuf_len; split <;> omega
  simp only [e]
  rfl

theorem empty_iff (rb : ringbuf_t) (h : ringbuf_wf rb) :
    ringbuf_empty rb = true ↔ ringbuf_len rb = 0 := by
  obtain ⟨h0, h1, h2, h3⟩ := h
  unfold ringbuf_empty ringbuf_len RINGBUF_COMPUTE_LENGTH
  simp only [beq_iff_eq]
  split <;> omega

theorem contents_nil_of_empty (rb : ringbuf_t) (h : ringbuf_wf rb)
    (he : ringbuf_empty rb = true) : ringbuf_contents rb = [] := by
  have := (empty_iff rb h).mp he
  apply List.eq_nil_of_length_eq_zero
  rw [contents_length, this]

/-! ## Ring buffer: main theorems -/

theorem idx_ok_of_wf (rb : ringbuf_t) (h : ringbuf_wf rb) : ringbuf_idx_ok rb :=
  ⟨h.1, h.2.2.1, h.2.2.2⟩

theorem idx_len_lt_size (rb : ringbuf_t) (h : ringbuf_idx_ok rb) : ringbuf_len rb < rb.size := by
  obtain ⟨h0, h2, h3⟩ := h
  unfold ringbuf_len RINGBUF_COMPUTE_LENGTH
  split <;> omega

theorem idx_len_add_free (rb : ringbuf_t) (h : ringbuf_idx_ok rb) :
    ringbuf_len rb + ringbuf_free rb = rb.size - 1 := by
  have := idx_len_lt_size rb h
  unfold ringbuf_free RINGBUF_COMPUTE_FREE_SPACE
  unfold ringbuf_len at *
  omega

theorem idx_empty_iff (rb : ringbuf_t) (h : ringbuf_idx_ok rb) :
    ringbuf_empty rb = true ↔ ringbuf_len rb = 0 := by
  obtain ⟨h0, h2, h3⟩ := h
  unfold ringbuf_empty ringbuf_len RINGBUF_COMPUTE_LENGTH
  simp only [beq_iff_eq]
  split <;> omega

theorem idx_full_iff (rb : ringbuf_t) (h : ringbuf_idx_ok rb) :
    ringbuf_full rb = true ↔ ringbuf_len rb = rb.size - 1 := by
  obtain ⟨h0, h2, h3⟩ := h
  unfold ringbuf_full ringbuf_len RINGBUF_COMPUTE_LENGTH
  simp only [beq_iff_eq]
  rw [wrap_eq (by omega)]
  split <;> split <;> omega

theorem push_finish_idx_ok (rb1 : ringbuf_t) (data1 : List Nat) (head1 : Nat)
    (h : ringbuf_idx_ok rb1) :
    ringbuf_idx_ok (ringbuf_push_finish rb1 data1 head1).1 ∧
      (ringbuf_push_finish rb1 data1 head1).1.size = rb1.size := by
  obtain ⟨h0, h2, h3⟩ := h
  by_cases c : data1.length = 0
  · simp only [ringbuf_push_finish, c, if_true]
    exact ⟨⟨h0, h2, h3⟩, trivial⟩
  · simp only [ringbuf_push_finish, c, if_false]
    exact ⟨⟨h0, Nat.mod_lt _ h0, h3⟩, trivial⟩

theorem push_cases (rb : ringbuf_t) (data : List Nat) (mode : ringbuf_push_mode_t)
    (h : ringbuf_idx_ok rb) :
    ringbuf_push rb data mode = (rb, 0) ∨
    ∃ rb1 data1 head1, ringbuf_push rb data mode = ringbuf_push_finish rb1 data1 head1 ∧
      ringbuf_idx_ok rb1 ∧ rb1.size = rb.size := by
  obtain ⟨h0, h2, h3⟩ := h
  by_cases c : data.length > RINGBUF_COMPUTE_FREE_SPACE rb rb.head rb.tail
  · cases mode with
    | RINGBUF_PUSH_ATOMIC =>
      left
      unfold ringbuf_push
      simp only [c, if_true]
    | RINGBUF_PUSH_DROP =>
      right
      refine ⟨rb, data.take (RINGBUF_COMPUTE_FREE_SPACE rb rb.head rb.tail), rb.head, ?_,
        ⟨h0, h2, h3⟩, rfl⟩
      unfold ringbuf_push
      simp only [c, if_true]
      rfl
    | RINGBUF_PUSH_WRAP =>
      right
      by_cases c2 : data.length ≥ rb.size
      · refine ⟨{ rb with tail := 0, head := 0 }, data.drop (data.length - (rb.size - 1)), 0,
          ?_, ⟨h0, h0, h0⟩, rfl⟩
        unfold ringbuf_push
        simp only [c, c2, if_true]
        rfl
      · refine ⟨(ringbuf_discard rb
            (data.length - RINGBUF_COMPUTE_FREE_SPACE rb rb.head rb.tail)).1, data, rb.head,
          ?_, ⟨h0, h2, Nat.mod_lt _ h0⟩, rfl⟩
        unfold ringbuf_push
        simp only [c, c2, if_true, if_false]
        rfl
  · right
    refine ⟨rb, data, rb.head, ?_, ⟨h0, h2, h3⟩, rfl⟩
    unfold ringbuf_push
    simp only [c, if_false]
    rfl

theorem apply_idx_ok (rb : ringbuf_t) (op : ringbuf_op) (h : ringbuf_idx_ok rb) :
    ringbuf_idx_ok (ringbuf_apply rb op) ∧ (ringbuf_apply rb op).size = rb.size := by
  have h' := h
  obtain ⟨h0, h2, h3⟩ := h
  cases op with
  | push data mode =>
    simp only [ringbuf_apply]
    rcases push_cases rb data mode h' with e | ⟨rb1, data1, head1, e, h1, hs⟩
    · rw [e]; exact ⟨h', rfl⟩
    · rw [e]
      have := push_finish_idx_ok rb1 data1 head1 h1
      exact ⟨this.1, this.2.trans hs⟩
  | pop data len =>
    simp only [ringbuf_apply, ringbuf_pop]
    by_cases c : (if len > RINGBUF_COMPUTE_LENGTH rb rb.head rb.tail
        then RINGBUF_COMPUTE_LENGTH rb rb.head rb.tail else len) = 0
    · simp only [c, if_true]
      exact ⟨h', trivial⟩
    · simp only [c, if_false]
      exact ⟨⟨h0, h2, Nat.mod_lt _ h0⟩, trivial⟩
  | peek data len offset => exact ⟨h', rfl⟩
  | peek_byte offset out => exact ⟨h', rfl⟩
  | discard len => exact ⟨⟨h0, h2, Nat.mod_lt _ h0⟩, rfl⟩
  | clear => exact ⟨⟨h0, h3, h3⟩, rfl⟩

theorem foldl_apply_idx_ok (ops : List ringbuf_op) (rb : ringbuf_t) (h : ringbuf_idx_ok rb) :
    ringbuf_idx_ok (ops.foldl ringbuf_apply rb) ∧ (ops.foldl ringbuf_apply rb).size = rb.size := by
  induction ops generalizing rb with
  | nil => exact ⟨h, rfl⟩
  | cons op ops ih =>
    have h1 := apply_idx_ok rb op h
    have h2 := ih (ringbuf_apply rb op) h1.1
    exact ⟨h2.1, h2.2.trans h1.2⟩

/-- C5. FIFO round trip: in a well-formed ring buffer state holding the queue
`Q = ringbuf_contents rb`, a DROP-mode `ringbuf_push` of `S` that reports
`n_written` bytes, followed by a `ringbuf_pop` of `|Q| + n_written` bytes,
returns that count and delivers exactly `Q ++ S[0 .. n_written)` (whatever the
positions of head and tail, so also when the data wraps around the end of the
storage); on an empty buffer the popped bytes are `S[0 .. n_written)`. -/
theorem fifo_round_trip (rb : ringbuf_t) (hwf : ringbuf_wf rb) (S dest : List Nat) :
    (ringbuf_pop (ringbuf_push rb S RINGBUF_PUSH_DROP).1 (some dest)
        (ringbuf_len rb + (ringbuf_push rb S RINGBUF_PUSH_DROP).2)).2.2
      = ringbuf_len rb + (ringbuf_push rb S RINGBUF_PUSH_DROP).2 ∧
    (ringbuf_pop (ringbuf_push rb S RINGBUF_PUSH_DROP).1 (some dest)
        (ringbuf_len rb + (ringbuf_push rb S RINGBUF_PUSH_DROP).2)).2.1.map
        (fun d => d.take (ringbuf_len rb + (ringbuf_push rb S RINGBUF_PUSH_DROP).2))
      = some (ringbuf_contents rb ++ S.take (ringbuf_push rb S RINGBUF_PUSH_DROP).2) ∧
    (ringbuf_empty rb = true →
      (ringbuf_pop (ringbuf_push rb S RINGBUF_PUSH_DROP).1 (some dest)
        (ringbuf_push rb S RINGBUF_PUSH_DROP).2).2.1.map
        (fun d => d.take (ringbuf_push rb S RINGBUF_PUSH_DROP).2)
      = some (S.take (ringbuf_push rb S RINGBUF_PUSH_DROP).2)) := by
  have hfree := len_add_free rb hwf
  have hlt := len_lt_size rb hwf
  rw [push_drop_eq rb S hwf]
  simp only
  have hm : min S.length (ringbuf_free rb) ≤ ringbuf_free rb := Nat.min_le_right _ _
  have htl : (S.take (ringbuf_free rb)).length = min S.length (ringbuf_free rb) := by
    rw [List.length_take, Nat.min_comm]
  have hw := write_wf rb (S.take (ringbuf_free rb)) hwf (by omega)
  have hl := write_len rb (S.take (ringbuf_free rb)) hwf (by omega)
  have hc := write_contents rb (S.take (ringbuf_free rb)) hwf (by omega)
  have htt : S.take (min S.length (ringbuf_free rb)) = S.take (ringbuf_free rb) := by
    rw [Nat.min_comm]; exact (take_min_len S (ringbuf_free rb)).symm
  have key : ∀ n, n = ringbuf_len (ringbuf_write rb (S.take (ringbuf_free rb))) →
      (ringbuf_pop (ringbuf_write rb (S.take (ringbuf_free rb))) (some dest) n).2.2 = n ∧
      (ringbuf_pop (ringbuf_write rb (S.take (ringbuf_free rb))) (some dest) n).2.1.map
        (fun d => d.take n) = some (ringbuf_contents rb ++ S.take (ringbuf_free rb)) := by
    intro n hn
    rw [pop_eq _ _ _ hw, ← hn, Nat.min_self]
    refine ⟨rfl, ?_⟩
    simp only [Option.map_some']
    congr 1
    by_cases c : n = 0
    · simp only [c, if_true, List.take_zero]
      have : (ringbuf_contents (ringbuf_write rb (S.take (ringbuf_free rb)))).length = 0 := by
        rw [contents_length, ← hn, c]
      rw [← hc, List.eq_nil_of_length_eq_zero this]
    · simp only [c, if_false]
      have hlt2 := len_lt_size _ hw
      rw [copy_out_take _ _ _ _ _ hw.2.1 hw.2.2.2 (by omega)]
      have := read_eq_contents _ hw 0 n (by omega)
      simp only [Nat.add_zero, List.drop_zero] at this
      rw [Nat.mod_eq_of_lt hw.2.2.2] at this
      rw [this, hc, List.take_of_length_le]
      rw [← hc, contents_length]; omega
  refine ⟨(key _ (by rw [hl, htl])).1, ?_, ?_⟩
  · rw [(key _ (by rw [hl, htl])).2, htt]
  · intro he
    have h0 := (empty_iff rb hwf).mp he
    have hq := contents_nil_of_empty rb hwf he
    rw [(key _ (by rw [hl, htl, h0, Nat.zero_add])).2, htt, hq, List.nil_append]

theorem fifo_round_trip_witness :
    ringbuf_wf { buf := [0, 0, 0, 0, 9, 8], size := 6, head := 0, tail := 4 } ∧
    (ringbuf_pop (ringbuf_push { buf := [0, 0, 0, 0, 9, 8], size := 6, head := 0, tail := 4 }
        [1, 2, 3, 4, 5] RINGBUF_PUSH_DROP).1 (some [0, 0, 0, 0, 0, 0, 0]) 5).2.1.map
        (fun d => d.take 5) = some [9, 8, 1, 2, 3] :=
  ⟨by decide, (fifo_round_trip { buf := [0, 0, 0, 0, 9, 8], size := 6, head := 0, tail := 4 }
      (by decide) [1, 2, 3, 4, 5] [0, 0, 0, 0, 0, 0, 0]).2.1.trans (by decide)⟩

/-- C6. Length accounting in a well-formed state: a DROP-mode push of `data`
returns `min(|data|, free)` and raises `ringbuf_len` by that amount;
`ringbuf_pop` and `ringbuf_discard` of `n` return `min(n, length)` and lower
`ringbuf_len` by that amount; a pop with a NULL destination leaves the same
state and returns the same count as a discard. -/
theorem length_accounting (rb : ringbuf_t) (hwf : ringbuf_wf rb) (data dest : List Nat)
    (n : Nat) :
    (ringbuf_push rb data RINGBUF_PUSH_DROP).2 = min data.length (ringbuf_free rb) ∧
    ringbuf_len (ringbuf_push rb data RINGBUF_PUSH_DROP).1
      = ringbuf_len rb + (ringbuf_push rb data RINGBUF_PUSH_DROP).2 ∧
    (ringbuf_pop rb (some dest) n).2.2 = min n (ringbuf_len rb) ∧
    ringbuf_len (ringbuf_pop rb (some dest) n).1
      = ringbuf_len rb - (ringbuf_pop rb (some dest) n).2.2 ∧
    (ringbuf_discard rb n).2 = min n (ringbuf_len rb) ∧
    ringbuf_len (ringbuf_discard rb n).1 = ringbuf_len rb - (ringbuf_discard rb n).2 ∧
    (ringbuf_pop rb none n).1 = (ringbuf_discard rb n).1 ∧
    (ringbuf_pop rb none n).2.2 = (ringbuf_discard rb n).2 ∧
    (ringbuf_pop rb none n).2.1 = none := by
  have hl : (data.take (ringbuf_free rb)).length = min data.length (ringbuf_free rb) := by
    rw [List.length_take, Nat.min_comm]
  rw [push_drop_eq rb data hwf, pop_eq rb dest n hwf, discard_eq, pop_null_eq rb n hwf]
  refine ⟨rfl, ?_, rfl, ?_, rfl, ?_, rfl, rfl, rfl⟩
  · simp only
    rw [write_len rb _ hwf (by rw [hl]; exact Nat.min_le_right _ _), hl]
  · exact advance_len rb _ hwf (Nat.min_le_right _ _)
  · exact advance_len rb _ hwf (Nat.min_le_right _ _)

theorem length_accounting_witness :
    ringbuf_wf { buf := [0, 0, 0, 0, 9, 8], size := 6, head := 0, tail := 4 } ∧
    (ringbuf_push { buf := [0, 0, 0, 0, 9, 8], size := 6, head := 0, tail := 4 }
        [1, 2, 3, 4, 5] RINGBUF_PUSH_DROP).2 = 3 ∧
    (ringbuf_discard { buf := [0, 0, 0, 0, 9, 8], size := 6, head := 0, tail := 4 } 7).2 = 2 :=
  ⟨by decide, by
    have h := length_accounting { buf := [0, 0, 0, 0, 9, 8], size := 6, head := 0, tail := 4 }
      (by decide) [1, 2, 3, 4, 5] [] 7
    exact ⟨h.1.trans (by decide), h.2.2.2.2.1.trans (by decide)⟩⟩

/-- C7. Ring buffer state invariant: starting from `ringbuf_init` with capacity
`N ≥ 1`, after any sequence of interface calls (push in any mode, pop, peek,
peek_byte, discard, clear) the size is still `N`, `head < N` and `tail < N`,
`ringbuf_len + ringbuf_free = N - 1`, `ringbuf_empty` holds iff
`ringbuf_len = 0`, and `ringbuf_full` holds iff `ringbuf_len = N - 1`. -/
theorem state_invariant (buf : List Nat) (N : Nat) (hN : 1 ≤ N) (ops : List ringbuf_op) :
    (ops.foldl ringbuf_apply (ringbuf_init buf N)).size = N ∧
    (ops.foldl ringbuf_apply (ringbuf_init buf N)).head < N ∧
    (ops.foldl ringbuf_apply (ringbuf_init buf N)).tail < N ∧
    ringbuf_len (ops.foldl ringbuf_apply (ringbuf_init buf N))
      + ringbuf_free (ops.foldl ringbuf_apply (ringbuf_init buf N)) = N - 1 ∧
    (ringbuf_empty (ops.foldl ringbuf_apply (ringbuf_init buf N)) = true ↔
      ringbuf_len (ops.foldl ringbuf_apply (ringbuf_init buf N)) = 0) ∧
    (ringbuf_full (ops.foldl ringbuf_apply (ringbuf_init buf N)) = true ↔
      ringbuf_len (ops.foldl ringbuf_apply (ringbuf_init buf N)) = N - 1) := by
  have h0 : ringbuf_idx_ok (ringbuf_init buf N) := ⟨hN, hN, hN⟩
  obtain ⟨h1, h2⟩ := foldl_apply_idx_ok ops _ h0
  have hs : (ops.foldl ringbuf_apply (ringbuf_init buf N)).size = N := h2
  refine ⟨hs, ?_, ?_, ?_, idx_empty_iff _ h1, ?_⟩
  · have := h1.2.1; rwa [hs] at this
  · have := h1.2.2; rwa [hs] at this
  · have := idx_len_add_free _ h1; rwa [hs] at this
  · have := idx_full_iff _ h1; rwa [hs] at this

theorem state_invariant_witness :
    1 ≤ 4 ∧ ringbuf_full ([ringbuf_op.push [1, 2, 3, 4, 5] RINGBUF_PUSH_WRAP,
      ringbuf_op.discard 1, ringbuf_op.push [6, 7] RINGBUF_PUSH_DROP].foldl ringbuf_apply
        (ringbuf_init [0, 0, 0, 0] 4)) = true :=
  ⟨by decide, by
    have h := state_invariant [0, 0, 0, 0] 4 (by decide)
      [ringbuf_op.push [1, 2, 3, 4, 5] RINGBUF_PUSH_WRAP, ringbuf_op.discard 1,
        ringbuf_op.push [6, 7] RINGBUF_PUSH_DROP]
    exact h.2.2.2.2.2.mpr (by decide)⟩

/-- C8. ATOMIC push is all-or-nothing: in a well-formed state, when
`|data| ≤ free` the push returns `|data|`, appends all of `data` to the stored
queue and leaves the tail alone; otherwise it returns 0 and the whole state
(head, tail and storage) is unchanged. -/
theorem atomic_push_all_or_nothing (rb : ringbuf_t) (hwf : ringbuf_wf rb) (data : List Nat) :
    (data.length ≤ ringbuf_free rb →
      (ringbuf_push rb data RINGBUF_PUSH_ATOMIC).2 = data.length ∧
      ringbuf_contents (ringbuf_push rb data RINGBUF_PUSH_ATOMIC).1
        = ringbuf_contents rb ++ data ∧
      (ringbuf_push rb data RINGBUF_PUSH_ATOMIC).1.tail = rb.tail) ∧
    (ringbuf_free rb < data.length →
      ringbuf_push rb data RINGBUF_PUSH_ATOMIC = (rb, 0)) := by
  constructor
  · intro h
    rw [push_eq_write rb data _ hwf h]
    exact ⟨rfl, write_contents rb data hwf h, rfl⟩
  · intro h
    have c : data.length > RINGBUF_COMPUTE_FREE_SPACE rb rb.head rb.tail := h
    unfold ringbuf_push
    simp only [c, if_true]

theorem atomic_push_all_or_nothing_witness :
    ringbuf_wf { buf := [0, 0, 0, 0, 9, 8], size := 6, head := 0, tail := 4 } ∧
    ((4 : Nat) ≤ 3 →
      (ringbuf_push { buf := [0, 0, 0, 0, 9, 8], size := 6, head := 0, tail := 4 }
        [1, 2, 3, 4] RINGBUF_PUSH_ATOMIC).2 = 4 ∧
      ringbuf_contents (ringbuf_push { buf := [0, 0, 0, 0, 9, 8], size := 6, head := 0, tail := 4 }
        [1, 2, 3, 4] RINGBUF_PUSH_ATOMIC).1 = [9, 8] ++ [1, 2, 3, 4] ∧
      (ringbuf_push { buf := [0, 0, 0, 0, 9, 8], size := 6, head := 0, tail := 4 }
        [1, 2, 3, 4] RINGBUF_PUSH_ATOMIC).1.tail = 4) ∧
    ((3 : Nat) < 4 →
      ringbuf_push { buf := [0, 0, 0, 0, 9, 8], size := 6, head := 0, tail := 4 }
        [1, 2, 3, 4] RINGBUF_PUSH_ATOMIC
        = ({ buf := [0, 0, 0, 0, 9, 8], size := 6, head := 0, tail := 4 }, 0)) :=
  ⟨by decide, atomic_push_all_or_nothing
    { buf := [0, 0, 0, 0, 9, 8], size := 6, head := 0, tail := 4 } (by decide) [1, 2, 3, 4]⟩

theorem drop_append_of_ge (a b : List Nat) (n : Nat) (h : a.length ≤ n) :
    (a ++ b).drop n = b.drop (n - a.length) := by
  rw [List.drop_append_eq_append_drop, List.drop_of_length_le h, List.nil_append]

/-- C9. WRAP push keeps the newest bytes: in a well-formed state of capacity
`N = rb.size` holding `Q`, a WRAP-mode push of `S` returns `min(|S|, N-1)` and
leaves a well-formed state that holds exactly the last `min(N-1, |Q|+|S|)`
bytes of `Q ++ S`; when `|S| ≥ N` these are the last `N-1` bytes of `S`. -/
theorem wrap_push_keeps_newest (rb : ringbuf_t) (hwf : ringbuf_wf rb) (S : List Nat) :
    (ringbuf_push rb S RINGBUF_PUSH_WRAP).2 = min S.length (rb.size - 1) ∧
    ringbuf_wf (ringbuf_push rb S RINGBUF_PUSH_WRAP).1 ∧
    ringbuf_contents (ringbuf_push rb S RINGBUF_PUSH_WRAP).1
      = (ringbuf_contents rb ++ S).drop
          ((ringbuf_contents rb ++ S).length
            - min (rb.size - 1) ((ringbuf_contents rb).length + S.length)) ∧
    (rb.size ≤ S.length →
      ringbuf_contents (ringbuf_push rb S RINGBUF_PUSH_WRAP).1
        = S.drop (S.length - (rb.size - 1))) := by
  have hfree := len_add_free rb hwf
  have hlt := len_lt_size rb hwf
  have hQ := contents_length rb
  have hF : RINGBUF_COMPUTE_FREE_SPACE rb rb.head rb.tail = ringbuf_free rb := rfl
  by_cases c : S.length ≤ ringbuf_free rb
  · -- everything fits
    rw [push_eq_write rb S _ hwf c]
    refine ⟨by simp only; omega, write_wf rb S hwf c, ?_, fun h => by omega⟩
    simp only
    rw [write_contents rb S hwf c, List.length_append, hQ,
      Nat.min_eq_right (by omega), Nat.sub_self, List.drop_zero]
  · have c' : S.length > RINGBUF_COMPUTE_FREE_SPACE rb rb.head rb.tail := by rw [hF]; omega
    by_cases c2 : S.length ≥ rb.size
    · -- larger than the buffer: reset, keep the last size-1 bytes
      have hwf0 : ringbuf_wf { rb with tail := 0, head := 0 } :=
        ⟨hwf.1, hwf.2.1, hwf.1, hwf.1⟩
      have e : ringbuf_push rb S RINGBUF_PUSH_WRAP =
          ringbuf_push_finish { rb with tail := 0, head := 0 }
            (S.drop (S.length - (rb.size - 1))) 0 := by
        unfold ringbuf_push
        simp only [c', c2, if_true]
        rfl
      have hl0 : ringbuf_len { rb with tail := 0, head := 0 } = 0 := by
        simp [ringbuf_len, RINGBUF_COMPUTE_LENGTH]
      have hf0 := len_add_free _ hwf0
      have hc0 : ringbuf_contents { rb with tail := 0, head := 0 } = [] := by
        apply List.eq_nil_of_length_eq_zero
        rw [contents_length, hl0]
      have hdl : (S.drop (S.length - (rb.size - 1))).length = rb.size - 1 := by
        rw [List.length_drop]; omega
      have hfit : (S.drop (S.length - (rb.size - 1))).length
          ≤ ringbuf_free { rb with tail := 0, head := 0 } := by
        rw [hdl]; simp only at hf0; omega
      have hcont : ringbuf_contents (ringbuf_write { rb with tail := 0, head := 0 }
          (S.drop (S.length - (rb.size - 1)))) = S.drop (S.length - (rb.size - 1)) := by
        rw [write_contents _ _ hwf0 hfit, hc0, List.nil_append]
      rw [e, push_finish_eq _ _ hwf0]
      refine ⟨by simp only; rw [hdl]; omega, write_wf _ _ hwf0 hfit, ?_, fun _ => hcont⟩
      simp only
      rw [hcont, List.length_append, hQ, Nat.min_eq_left (by omega),
        drop_append_of_ge _ _ _ (by omega)]
      congr 1; omega
    · -- discard the oldest bytes to make room
      have hmin : min (S.length - ringbuf_free rb) (ringbuf_len rb)
          = S.length - ringbuf_free rb := by omega
      have hwf1 : ringbuf_wf (ringbuf_advance rb (S.length - ringbuf_free rb)) :=
        advance_wf rb _ hwf
      have e : ringbuf_push rb S RINGBUF_PUSH_WRAP =
          ringbuf_push_finish (ringbuf_advance rb (S.length - ringbuf_free rb)) S
            (ringbuf_advance rb (S.length - ringbuf_free rb)).head := by
        unfold ringbuf_push
        simp only [c', c2, if_true, if_false]
        rw [discard_eq, hF, hmin]
        rfl
      have hl1 := advance_len rb (S.length - ringbuf_free rb) hwf (by omega)
      have hf1 := len_add_free _ hwf1
      have hs1 : (ringbuf_advance rb (S.length - ringbuf_free rb)).size = rb.size := rfl
      have hfit : S.length ≤ ringbuf_free (ringbuf_advance rb (S.length - ringbuf_free rb)) := by
        rw [hs1] at hf1; omega
      rw [e, push_finish_eq _ _ hwf1]
      refine ⟨by simp only; omega, write_wf _ _ hwf1 hfit, ?_, fun h => by omega⟩
      simp only
      rw [write_contents _ _ hwf1 hfit, advance_contents rb _ hwf (by omega),
        List.length_append, hQ, Nat.min_eq_left (by omega),
        List.drop_append_of_le_length (by rw [hQ]; omega)]
      congr 2; omega

theorem wrap_push_keeps_newest_witness :
    ringbuf_wf { buf := [0, 0, 0, 0, 9, 8], size := 6, head := 0, tail := 4 } ∧
    ringbuf_contents (ringbuf_push { buf := [0, 0, 0, 0, 9, 8], size := 6, head := 0, tail := 4 }
      [1, 2, 3, 4] RINGBUF_PUSH_WRAP).1 = [8, 1, 2, 3, 4] :=
  ⟨by decide, (wrap_push_keeps_newest
    { buf := [0, 0, 0, 0, 9, 8], size := 6, head := 0, tail := 4 } (by decide)
      [1, 2, 3, 4]).2.2.1.trans (by decide)⟩

/-- C10. Peek is a non-destructive read: in a well-formed state holding `Q`,
`ringbuf_peek(dest, len, offset)` returns 0 and leaves `dest` alone when
`offset ≥ |Q|`, and otherwise copies `n = min(len, |Q| - offset)` bytes equal to
`Q[offset .. offset+n)`; neither peek changes the ring buffer state;
`ringbuf_peek_byte(offset, out)` returns true iff `offset < |Q|`, and then
`*out = Q[offset]`. -/
theorem peek_nondestructive (rb : ringbuf_t) (hwf : ringbuf_wf rb) (dest : List Nat)
    (len offset out : Nat) :
    ((ringbuf_contents rb).length ≤ offset → ringbuf_peek rb dest len offset = (dest, 0)) ∧
    (offset < (ringbuf_contents rb).length →
      (ringbuf_peek rb dest len offset).2 = min len ((ringbuf_contents rb).length - offset) ∧
      (ringbuf_peek rb dest len offset).1.take (ringbuf_peek rb dest len offset).2
        = ((ringbuf_contents rb).drop offset).take (ringbuf_peek rb dest len offset).2) ∧
    ringbuf_apply rb (ringbuf_op.peek dest len offset) = rb ∧
    ringbuf_apply rb (ringbuf_op.peek_byte offset out) = rb ∧
    ((ringbuf_peek_byte rb offset out).1 = true ↔ offset < (ringbuf_contents rb).length) ∧
    (offset < (ringbuf_contents rb).length →
      (ringbuf_peek_byte rb offset out).2 = (ringbuf_contents rb).getD offset 0) := by
  have hlt := len_lt_size rb hwf
  have hL : RINGBUF_COMPUTE_LENGTH rb rb.head rb.tail = ringbuf_len rb := rfl
  rw [contents_length]
  refine ⟨?_, ?_, rfl, rfl, ?_, ?_⟩
  · intro h
    unfold ringbuf_peek
    simp only [hL, ge_iff_le, h, if_true]
  · intro h
    have hn : ¬ (offset ≥ ringbuf_len rb) := by omega
    have e : (if len > ringbuf_len rb - offset then ringbuf_len rb - offset else len)
        = min len (ringbuf_len rb - offset) := by split <;> omega
    have ep : ringbuf_peek rb dest len offset =
        (ringbuf_copy_out dest rb.buf rb.size ((rb.tail + offset) % rb.size)
          (min len (ringbuf_len rb - offset)), min len (ringbuf_len rb - offset)) := by
      unfold ringbuf_peek
      simp only [hL, hn, if_false, e]
      rfl
    rw [ep]
    refine ⟨rfl, ?_⟩
    simp only
    rw [copy_out_take _ _ _ _ _ hwf.2.1 (Nat.mod_lt _ hwf.1) (by omega),
      read_eq_contents rb hwf offset _ (by omega)]
  · unfold ringbuf_peek_byte
    simp only [hL]
    by_cases c : offset ≥ ringbuf_len rb
    · simp only [c, if_true]
      constructor
      · intro h; cases h
      · intro h; omega
    · simp only [c, if_false]
      constructor
      · intro _; omega
      · intro _; trivial
  · intro h
    have hn : ¬ (offset ≥ ringbuf_len rb) := by omega
    unfold ringbuf_peek_byte
    simp only [hL, hn, if_false]
    rw [contents_getD rb offset h]

theorem peek_nondestructive_witness :
    ringbuf_wf { buf := [3, 0, 0, 0, 9, 8], size := 6, head := 1, tail := 4 } ∧
    (ringbuf_peek { buf := [3, 0, 0, 0, 9, 8], size := 6, head := 1, tail := 4 }
      [0, 0, 0, 0] 5 1).1.take 2 = [8, 3] :=
  ⟨by decide, by
    have h := ((peek_nondestructive
      { buf := [3, 0, 0, 0, 9, 8], size := 6, head := 1, tail := 4 } (by decide)
      [0, 0, 0, 0] 5 1 0).2.1 (by decide)).2
    exact h.trans (by decide)⟩

/-! ## Framer: lemmas on the byte-level helpers -/

theorem memchr_list_none (l : List Nat) (c : Nat) :
    memchr_list l c = none ↔ ∀ i, i < l.length → l.getD i 0 ≠ c := by
  induction l with
  | nil => simp [memchr_list]
  | cons x xs ih =>
    unfold memchr_list
    by_cases hx : x = c
    · simp only [hx, if_true]
      constructor
      · intro h; cases h
      · intro h; exact absurd (by simp) (h 0 (by simp))
    · simp only [hx, if_false, Option.map_eq_none', ih]
      constructor
      · intro h i hi
        cases i with
        | zero => simpa using hx
        | succ j =>
          have := h j (by simpa using hi)
          simpa using this
      · intro h i hi
        have := h (i + 1) (by simpa using hi)
        simpa using this

theorem memchr_list_some (l : List Nat) (c i : Nat) :
    memchr_list l c = some i ↔
      i < l.length ∧ l.getD i 0 = c ∧ ∀ j, j < i → l.getD j 0 ≠ c := by
  induction l generalizing i with
  | nil => simp [memchr_list]
  | cons x xs ih =>
    unfold memchr_list
    by_cases hx : x = c
    · simp only [hx, if_true]
      constructor
      · intro h
        have : i = 0 := by cases h; rfl
        subst this
        exact ⟨by simp, by simp, fun j hj => absurd hj (Nat.not_lt_zero _)⟩
      · rintro ⟨_, _, h3⟩
        cases i with
        | zero => rfl
        | succ j => exact absurd (by simp) (h3 0 (Nat.succ_pos _))
    · simp only [hx, if_false]
      cases i with
      | zero =>
        constructor
        · intro h
          cases hm : memchr_list xs c <;> simp [hm] at h
        · rintro ⟨_, h2, _⟩
          exact absurd (by simpa using h2) hx
      | succ k =>
        constructor
        · intro h
          cases hm : memchr_list xs c with
          | none => simp [hm] at h
          | some m =>
            simp [hm] at h
            subst h
            obtain ⟨a1, a2, a3⟩ := (ih m).mp hm
            refine ⟨by simpa using a1, by simpa using a2, ?_⟩
            intro j hj
            cases j with
            | zero => simpa using hx
            | succ j' => simpa using a3 j' (by omega)
        · rintro ⟨h1, h2, h3⟩
          have : memchr_list xs c = some k := by
            apply (ih k).mpr
            refine ⟨by simpa using h1, by simpa using h2, ?_⟩
            intro j hj
            simpa using h3 (j + 1) (by omega)
          simp [this]

theorem slice_getD' (l : List Nat) (off n j : Nat) (h : j < n) :
    (slice l off n).getD j 0 = l.getD (off + j) 0 :=
  slice_getD l off n j h

theorem memchr_eq_some (buf : List Nat) (off c n i : Nat) (h : off + n ≤ buf.length)
    (h1 : off ≤ i) (h2 : i < off + n) (h3 : buf.getD i 0 = c)
    (h4 : ∀ j, off ≤ j → j < i → buf.getD j 0 ≠ c) : memchr buf off c n = some i := by
  unfold memchr
  have hl := slice_length buf off n h
  have : memchr_list (slice buf off n) c = some (i - off) := by
    apply (memchr_list_some _ _ _).mpr
    refine ⟨by omega, ?_, ?_⟩
    · rw [slice_getD _ _ _ _ (by omega)]
      rw [show off + (i - off) = i by omega]; exact h3
    · intro j hj
      rw [slice_getD _ _ _ _ (by omega)]
      exact h4 _ (by omega) (by omega)
  rw [this]
  simp only [Option.map_some']
  congr 1; omega

theorem memchr_eq_none (buf : List Nat) (off c n : Nat) (h : off + n ≤ buf.length)
    (h4 : ∀ j, off ≤ j → j < off + n → buf.getD j 0 ≠ c) : memchr buf off c n = none := by
  unfold memchr
  have hl := slice_length buf off n h
  have : memchr_list (slice buf off n) c = none := by
    apply (memchr_list_none _ _).mpr
    intro j hj
    rw [hl] at hj
    rw [slice_getD _ _ _ _ hj]
    exact h4 _ (by omega) (by omega)
  rw [this]; rfl

theorem memchr_some_spec (buf : List Nat) (off c n a : Nat) (h : off + n ≤ buf.length)
    (hm : memchr buf off c n = some a) :
    off ≤ a ∧ a < off + n ∧ buf.getD a 0 = c := by
  unfold memchr at hm
  have hl := slice_length buf off n h
  cases hs : memchr_list (slice buf off n) c with
  | none => simp [hs] at hm
  | some m =>
    simp [hs] at hm
    obtain ⟨a1, a2, _⟩ := (memchr_list_some _ _ _).mp hs
    rw [hl] at a1
    rw [slice_getD _ _ _ _ a1] at a2
    subst hm
    exact ⟨by omega, by omega, by rw [Nat.add_comm]; exact a2⟩

theorem memcpy_self (buf : List Nat) (n : Nat) (h : n ≤ buf.length) :
    memcpy buf 0 (slice buf 0 n) = buf := by
  have hl := slice_length buf 0 n (by omega)
  unfold memcpy
  rw [hl]
  simp [slice]

theorem takeWhile_length_all (l : List Nat) (p : Nat → Bool) (h : ∀ i, i < l.length → p (l.getD i 0) = true) :
    (l.takeWhile p).length = l.length := by
  induction l with
  | nil => rfl
  | cons x xs ih =>
    have hx : p x = true := by simpa using h 0 (by simp)
    rw [List.takeWhile_cons_of_pos hx]
    simp only [List.length_cons]
    rw [ih]
    intro i hi
    simpa using h (i + 1) (by simpa using hi)

theorem takeWhile_length_le (l : List Nat) (p : Nat → Bool) :
    (l.takeWhile p).length ≤ l.length := by
  induction l with
  | nil => simp
  | cons x xs ih =>
    rw [List.takeWhile_cons]
    split
    · simp only [List.length_cons]; omega
    · simp

/-! ## One step of each framer state on a framed sentence -/

theorem work_body_eq (ctx0 : tiny_nmea_ctx_t) :
    tiny_nmea_work_body ctx0 =
      if ctx0.waiting_for_data && ringbuf_len ctx0.ringbuf == 0 then loop_outcome.exit ctx0
      else work_dispatch (work_top_up ctx0) := by
  rfl

theorem discard_zero (ctx : tiny_nmea_ctx_t) (hlen : 0 < ctx.working_buf_len)
    (hwb : ctx.working_buf_len ≤ ctx.working_buf.length) : discard_bytes ctx 0 = ctx := by
  unfold discard_bytes
  have h : ¬ (0 ≥ ctx.working_buf_len) := by omega
  simp only [h, if_false, Nat.sub_zero, memcpy_self _ _ hwb]

theorem find_start_at_zero (ctx : tiny_nmea_ctx_t)
    (h0 : ctx.working_buf.getD 0 0 = 36 ∨ ctx.working_buf.getD 0 0 = 33)
    (hlen : 0 < ctx.working_buf_len) (hwb : ctx.working_buf_len ≤ ctx.working_buf.length) :
    fsm_find_start ctx =
      { ctx with has_checksum := false, parse_pos := 1, computed_checksum := 0,
                 parser_state := TINY_NMEA_PARSE_FIND_TALKER_AND_TYPE } := by
  unfold fsm_find_start
  simp only [h0, if_true]
  rw [discard_zero]
  · exact hlen
  · exact hwb

theorem find_talker_wait (ctx : tiny_nmea_ctx_t) (h : ctx.working_buf_len - ctx.parse_pos < 6) :
    fsm_find_talker_and_type ctx = { ctx with waiting_for_data := true } := by
  unfold fsm_find_talker_and_type
  simp only [h, if_true]

theorem find_talker_ok (ctx : tiny_nmea_ctx_t) (T : List Nat) (d e : Nat) (ck : Bool)
    (tk ty v : Nat) (hf : sentence_frame T d e ck tk ty v) (hm : scratch_matches ctx T)
    (h : ¬ ctx.working_buf_len - ctx.parse_pos < 6) (hp : ctx.parse_pos = 1) :
    fsm_find_talker_and_type ctx =
      { ctx with current_talker := tk, current_type := ty, parse_pos := 7,
                 parser_state := TINY_NMEA_PARSE_FIND_CHECKSUM_OR_END } := by
  have hl := hf.e_lt
  have hd := hf.d_ge
  have hde : d ≤ e := by
    cases ck
    · have := hf.without_ck rfl; omega
    · have := (hf.with_ck rfl).2.1; omega
  have g : ∀ i, i < 7 → ctx.working_buf.getD i 0 = T.getD i 0 := by
    intro i hi
    exact hm.2.2 i (by omega) (by omega)
  unfold fsm_find_talker_and_type
  simp only [h, if_false]
  rw [g 1 (by omega), g 2 (by omega), g 3 (by omega), g 4 (by omega), g 5 (by omega),
    g 6 (by omega), hf.talker, hf.type, hf.comma, hf.talker_valid, hf.type_valid, hp]
  simp

theorem earliest_line_end_some (buf : List Nat) (off n e : Nat) (h : off + n ≤ buf.length)
    (h1 : off ≤ e) (h2 : e < off + n) (h3 : buf.getD e 0 = 13 ∨ buf.getD e 0 = 10)
    (h4 : ∀ j, off ≤ j → j < e → buf.getD j 0 ≠ 13 ∧ buf.getD j 0 ≠ 10) :
    earliest_ptr (memchr buf off 13 n) (memchr buf off 10 n) = some e := by
  rcases h3 with h3 | h3
  · have hcr : memchr buf off 13 n = some e :=
      memchr_eq_some _ _ _ _ _ h h1 h2 h3 (fun j a b => (h4 j a b).1)
    rw [hcr]
    cases hlf : memchr buf off 10 n with
    | none => rfl
    | some l =>
      obtain ⟨a1, a2, a3⟩ := memchr_some_spec _ _ _ _ _ h hlf
      have : e < l := by
        by_contra hc
        have hle : l ≤ e := by omega
        rcases Nat.lt_or_eq_of_le hle with hlt | heq
        · exact (h4 l a1 hlt).2 a3
        · rw [heq] at a3; omega
      simp [earliest_ptr, min_ptr, this]
  · have hlf : memchr buf off 10 n = some e :=
      memchr_eq_some _ _ _ _ _ h h1 h2 h3 (fun j a b => (h4 j a b).2)
    rw [hlf]
    cases hcr : memchr buf off 13 n with
    | none => rfl
    | some l =>
      obtain ⟨a1, a2, a3⟩ := memchr_some_spec _ _ _ _ _ h hcr
      have : ¬ l < e := by
        intro hlt
        exact (h4 l a1 hlt).1 a3
      have hne : l ≠ e := by
        intro heq; rw [heq] at a3; omega
      simp [earliest_ptr, min_ptr, this]

theorem earliest_line_end_none (buf : List Nat) (off n : Nat) (h : off + n ≤ buf.length)
    (h4 : ∀ j, off ≤ j → j < off + n → buf.getD j 0 ≠ 13 ∧ buf.getD j 0 ≠ 10) :
    earliest_ptr (memchr buf off 13 n) (memchr buf off 10 n) = none := by
  rw [memchr_eq_none _ _ _ _ h (fun j a b => (h4 j a b).1),
    memchr_eq_none _ _ _ _ h (fun j a b => (h4 j a b).2)]
  rfl

theorem hex_not_line_end (a b v : Nat) (h : parse_hex_byte a b = some v) :
    (a ≠ 13 ∧ a ≠ 10 ∧ a ≠ 42) ∧ (b ≠ 13 ∧ b ≠ 10 ∧ b ≠ 42) := by
  refine ⟨⟨?_, ?_, ?_⟩, ⟨?_, ?_, ?_⟩⟩ <;> rintro rfl <;>
    simp [parse_hex_byte, parse_hex_char] at h

/-- Facts about the positions of a frame that the step lemmas share. -/
theorem frame_d_le_e {T : List Nat} {d e : Nat} {ck : Bool} {tk ty v : Nat}
    (hf : sentence_frame T d e ck tk ty v) : d ≤ e := by
  cases ck
  · have := hf.without_ck rfl; omega
  · have := (hf.with_ck rfl).2.1; omega

theorem frame_no_line_end {T : List Nat} {d e : Nat} {ck : Bool} {tk ty v : Nat}
    (hf : sentence_frame T d e ck tk ty v) (j : Nat) (h1 : 7 ≤ j) (h2 : j < e) :
    T.getD j 0 ≠ 13 ∧ T.getD j 0 ≠ 10 := by
  by_cases hj : j < d
  · exact ⟨(hf.body j h1 hj).2.1, (hf.body j h1 hj).2.2⟩
  · cases ck
    · have := hf.without_ck rfl; omega
    · obtain ⟨a1, a2, a3⟩ := hf.with_ck rfl
      have hx := hex_not_line_end _ _ _ a3
      have : j = d ∨ j = d + 1 ∨ j = d + 2 := by omega
      rcases this with rfl | rfl | rfl
      · rw [a1]; exact ⟨by decide, by decide⟩
      · exact ⟨hx.1.1, hx.1.2.1⟩
      · exact ⟨hx.2.1, hx.2.2.1⟩

theorem find_checksum_wait (ctx : tiny_nmea_ctx_t) (T : List Nat) (d e : Nat) (ck : Bool)
    (tk ty v : Nat) (hf : sentence_frame T d e ck tk ty v) (hm : scratch_matches ctx T)
    (hp : 7 ≤ ctx.parse_pos) (hp2 : ctx.parse_pos ≤ ctx.working_buf_len)
    (hn : ctx.working_buf_len ≤ d) :
    fsm_find_checksum_or_end ctx =
      { ctx with line_end := none, parse_pos := ctx.working_buf_len,
                 waiting_for_data := true } := by
  obtain ⟨m1, m2, m3⟩ := hm
  have hl := hf.e_lt
  have hde := frame_d_le_e hf
  have hmax : TINY_NMEA_MAX_SENTENCE_LEN = 82 := rfl
  have hwl : TINY_NMEA_WORKING_BUF_LEN = 128 := rfl
  have hb : ∀ j, ctx.parse_pos ≤ j → j < ctx.parse_pos + (ctx.working_buf_len - ctx.parse_pos) →
      ctx.working_buf.getD j 0 ≠ 42 ∧ ctx.working_buf.getD j 0 ≠ 13 ∧
        ctx.working_buf.getD j 0 ≠ 10 := by
    intro j a b
    rw [m3 j (by omega) (by omega)]
    exact hf.body j (by omega) (by omega)
  have hbound : ctx.parse_pos + (ctx.working_buf_len - ctx.parse_pos) ≤ ctx.working_buf.length := by
    omega
  unfold fsm_find_checksum_or_end
  simp only
  rw [earliest_line_end_none _ _ _ hbound (fun j a b => (hb j a b).2),
    memchr_eq_none _ _ _ _ hbound (fun j a b => (hb j a b).1)]
  simp only
  unfold fsm_need_more_data
  have : ¬ (ctx.parse_pos > TINY_NMEA_MAX_SENTENCE_LEN) := by omega
  simp only [this, if_false]

theorem find_checksum_star (ctx : tiny_nmea_ctx_t) (T : List Nat) (d e : Nat)
    (tk ty v : Nat) (hf : sentence_frame T d e true tk ty v) (hm : scratch_matches ctx T)
    (hp : 7 ≤ ctx.parse_pos) (hp2 : ctx.parse_pos ≤ d)
    (hn : d < ctx.working_buf_len) :
    fsm_find_checksum_or_end ctx =
      { ctx with line_end := if e < ctx.working_buf_len then some e else none,
                 parse_pos := d, has_checksum := true, data_end := d,
                 parser_state := TINY_NMEA_PARSE_FIND_END } := by
  obtain ⟨m1, m2, m3⟩ := hm
  have hl := hf.e_lt
  obtain ⟨c1, c2, c3⟩ := hf.with_ck rfl
  have hmax : TINY_NMEA_MAX_SENTENCE_LEN = 82 := rfl
  have hwl : TINY_NMEA_WORKING_BUF_LEN = 128 := rfl
  have hbound : ctx.parse_pos + (ctx.working_buf_len - ctx.parse_pos) ≤ ctx.working_buf.length := by
    omega
  have hstar : memchr ctx.working_buf ctx.parse_pos 42 (ctx.working_buf_len - ctx.parse_pos)
      = some d := by
    apply memchr_eq_some _ _ _ _ _ hbound hp2 (by omega)
    · rw [m3 d (by omega) (by omega)]; exact c1
    · intro j a b
      rw [m3 j (by omega) (by omega)]
      exact (hf.body j (by omega) (by omega)).1
  unfold fsm_find_checksum_or_end
  simp only
  rw [hstar]
  by_cases he : e < ctx.working_buf_len
  · rw [earliest_line_end_some _ _ _ e hbound (by omega) (by omega)]
    · have hde : d < e := by omega
      simp only [he, hde, if_true, decide_True]
    · rw [m3 e (by omega) (by omega)]
      exact hf.term e (Nat.le_refl _) hl
    · intro j a b
      rw [m3 j (by omega) (by omega)]
      exact frame_no_line_end hf j (by omega) b
  · rw [earliest_line_end_none _ _ _ hbound]
    · simp only [he, if_false, if_true]
    · intro j a b
      rw [m3 j (by omega) (by omega)]
      exact frame_no_line_end hf j (by omega) (by omega)

theorem find_checksum_line_end (ctx : tiny_nmea_ctx_t) (T : List Nat) (d e : Nat)
    (tk ty v : Nat) (hf : sentence_frame T d e false tk ty v) (hm : scratch_matches ctx T)
    (hp : 7 ≤ ctx.parse_pos) (hp2 : ctx.parse_pos ≤ d)
    (hn : d < ctx.working_buf_len) :
    fsm_find_checksum_or_end ctx =
      { ctx with line_end := some d, parse_pos := d, has_checksum := false, data_end := d,
                 parser_state := TINY_NMEA_SENTENCE_COMPLETE } := by
  obtain ⟨m1, m2, m3⟩ := hm
  have hl := hf.e_lt
  have hed := hf.without_ck rfl
  subst hed
  have hmax : TINY_NMEA_MAX_SENTENCE_LEN = 82 := rfl
  have hwl : TINY_NMEA_WORKING_BUF_LEN = 128 := rfl
  have hbound : ctx.parse_pos + (ctx.working_buf_len - ctx.parse_pos) ≤ ctx.working_buf.length := by
    omega
  have hte : ctx.working_buf.getD e 0 = 13 ∨ ctx.working_buf.getD e 0 = 10 := by
    rw [m3 e (by omega) (by omega)]
    exact hf.term e (Nat.le_refl _) hl
  unfold fsm_find_checksum_or_end
  simp only
  rw [earliest_line_end_some _ _ _ e hbound (by omega) (by omega) hte]
  · cases hs : memchr ctx.working_buf ctx.parse_pos 42 (ctx.working_buf_len - ctx.parse_pos) with
    | none => simp only [Bool.false_eq_true, if_false]
    | some a =>
      obtain ⟨a1, a2, a3⟩ := memchr_some_spec _ _ _ _ _ hbound hs
      have : ¬ a < e := by
        intro hlt
        have := (hf.body a (by omega) hlt).1
        rw [← m3 a (by omega) (by omega)] at this
        exact this a3
      simp only [this, if_false, decide_False, Bool.false_eq_true]
  · intro j a b
    rw [m3 j (by omega) (by omega)]
    exact frame_no_line_end hf j (by omega) b

theorem slice_congr (a b : List Nat) (off n : Nat) (ha : off + n ≤ a.length)
    (hb : off + n ≤ b.length) (h : ∀ i, off ≤ i → i < off + n → a.getD i 0 = b.getD i 0) :
    slice a off n = slice b off n := by
  apply list_ext_getD
  · rw [slice_length _ _ _ ha, slice_length _ _ _ hb]
  · intro i hi
    rw [slice_length _ _ _ ha] at hi
    rw [slice_getD _ _ _ _ hi, slice_getD _ _ _ _ hi]
    exact h _ (by omega) (by omega)

theorem find_end_wait (ctx : tiny_nmea_ctx_t) (T : List Nat) (d e : Nat)
    (tk ty v : Nat) (hf : sentence_frame T d e true tk ty v) (hm : scratch_matches ctx T)
    (hp : 7 ≤ ctx.parse_pos) (hp2 : ctx.parse_pos ≤ ctx.working_buf_len)
    (hle : ctx.line_end = none) (hn : ctx.working_buf_len ≤ e) :
    fsm_find_end ctx =
      { ctx with line_end := none, parse_pos := ctx.working_buf_len,
                 waiting_for_data := true } := by
  obtain ⟨m1, m2, m3⟩ := hm
  have hl := hf.e_lt
  have hmax : TINY_NMEA_MAX_SENTENCE_LEN = 82 := rfl
  have hwl : TINY_NMEA_WORKING_BUF_LEN = 128 := rfl
  have hbound : ctx.parse_pos + (ctx.working_buf_len - ctx.parse_pos) ≤ ctx.working_buf.length := by
    omega
  unfold fsm_find_end
  simp only [hle, Option.isNone_none, if_true]
  rw [earliest_line_end_none _ _ _ hbound]
  · simp only
    unfold fsm_need_more_data
    have : ¬ (ctx.parse_pos > TINY_NMEA_MAX_SENTENCE_LEN) := by omega
    simp only [this, if_false]
  · intro j a b
    rw [m3 j (by omega) (by omega)]
    exact frame_no_line_end hf j (by omega) (by omega)

/-- The context that `fsm_find_end` works on once the line ending is known. -/
theorem find_end_found (ctx : tiny_nmea_ctx_t) (T : List Nat) (d e : Nat)
    (tk ty v : Nat) (hf : sentence_frame T d e true tk ty v) (hm : scratch_matches ctx T)
    (hp : 7 ≤ ctx.parse_pos) (hp2 : ctx.parse_pos ≤ e)
    (hd : ctx.data_end = d)
    (hle : ctx.line_end = none ∨ ctx.line_end = some e) (hn : e < ctx.working_buf_len) :
    fsm_find_end ctx =
      if nmea_checksum_helper (slice T 1 (d - 1)) = v then
        { ctx with line_end := some e, received_checksum := v,
                   computed_checksum := nmea_checksum_helper (slice T 1 (d - 1)),
                   parser_state := TINY_NMEA_SENTENCE_COMPLETE }
      else
        RESET_TO_START
          { ctx with line_end := some e, received_checksum := v,
                     computed_checksum := nmea_checksum_helper (slice T 1 (d - 1)),
                     stats := { ctx.stats with
                       checksum_errors := incr32 ctx.stats.checksum_errors } } := by
  obtain ⟨m1, m2, m3⟩ := hm
  have hl := hf.e_lt
  obtain ⟨c1, c2, c3⟩ := hf.with_ck rfl
  have hmax : TINY_NMEA_MAX_SENTENCE_LEN = 82 := rfl
  have hwl : TINY_NMEA_WORKING_BUF_LEN = 128 := rfl
  have hbound : ctx.parse_pos + (ctx.working_buf_len - ctx.parse_pos) ≤ ctx.working_buf.length := by
    omega
  have hcs : slice ctx.working_buf 1 (d - 1) = slice T 1 (d - 1) := by
    apply slice_congr _ _ _ _ (by omega) (by omega)
    intro i a b
    exact m3 i (by omega) (by omega)
  have hhex : parse_hex_byte (ctx.working_buf.getD (d + 1) 0) (ctx.working_buf.getD (d + 1 + 1) 0)
      = some v := by
    rw [m3 (d + 1) (by omega) (by omega), m3 (d + 1 + 1) (by omega) (by omega)]
    exact c3
  have hgap : ¬ (e ≤ d + 1 ∨ e - (d + 1) ≠ 2) := by omega
  have key : ∀ c : tiny_nmea_ctx_t, c.line_end = some e → c.data_end = d →
      c.working_buf = ctx.working_buf →
      (match c.line_end with
        | none => fsm_need_more_data c
        | some line_end =>
          if line_end ≤ c.data_end + 1 ∨ line_end - (c.data_end + 1) ≠ 2 then
            RESET_TO_START (count_parse_error c)
          else
            match parse_hex_byte (c.working_buf.getD (c.data_end + 1) 0)
                (c.working_buf.getD (c.data_end + 1 + 1) 0) with
            | none => RESET_TO_START (count_parse_error c)
            | some received =>
              if nmea_checksum_helper (slice c.working_buf 1 (c.data_end - 1)) = received then
                { c with received_checksum := received,
                         computed_checksum :=
                           nmea_checksum_helper (slice c.working_buf 1 (c.data_end - 1)),
                         parser_state := TINY_NMEA_SENTENCE_COMPLETE }
              else
                RESET_TO_START
                  { c with received_checksum := received,
                           computed_checksum :=
                             nmea_checksum_helper (slice c.working_buf 1 (c.data_end - 1)),
                           stats := { c.stats with
                             checksum_errors := incr32 c.stats.checksum_errors } }) =
      if nmea_checksum_helper (slice T 1 (d - 1)) = v then
        { c with line_end := some e, received_checksum := v,
                 computed_checksum := nmea_checksum_helper (slice T 1 (d - 1)),
                 parser_state := TINY_NMEA_SENTENCE_COMPLETE }
      else
        RESET_TO_START
          { c with line_end := some e, received_checksum := v,
                   computed_checksum := nmea_checksum_helper (slice T 1 (d - 1)),
                   stats := { c.stats with
                     checksum_errors := incr32 c.stats.checksum_errors } } := by
    intro c h1 h2 h3
    simp only [h1, h2, h3, hgap, if_false, hhex, hcs]
  unfold fsm_find_end
  rcases hle with hle | hle
  · simp only [hle, Option.isNone_none, if_true]
    have hs : earliest_ptr
        (memchr ctx.working_buf ctx.parse_pos 13 (ctx.working_buf_len - ctx.parse_pos))
        (memchr ctx.working_buf ctx.parse_pos 10 (ctx.working_buf_len - ctx.parse_pos))
        = some e := by
      apply earliest_line_end_some _ _ _ e hbound hp2 (by omega)
      · rw [m3 e (by omega) (by omega)]
        exact hf.term e (Nat.le_refl _) hl
      · intro j a b
        rw [m3 j (by omega) (by omega)]
        exact frame_no_line_end hf j (by omega) b
    rw [hs]
    exact key { ctx with line_end := some e } rfl hd rfl
  · have hnn : ctx.line_end.isNone = false := by rw [hle]; rfl
    simp only [hnn, Bool.false_eq_true, if_false]
    exact key ctx hle hd rfl

theorem strlen_append_nul (pre rest : List Nat) : strlen (pre ++ 0 :: rest) = strlen pre := by
  induction pre with
  | nil => simp [strlen]
  | cons x xs ih =>
    unfold strlen at *
    by_cases hx : x = 0
    · simp [hx]
    · have : (x != 0) = true := by simpa using hx
      simp only [List.cons_append, List.takeWhile_cons, this, if_true, List.length_cons, ih]

theorem strlen_le (pre : List Nat) : strlen pre ≤ pre.length := by
  unfold strlen
  exact takeWhile_length_le _ _

theorem strlen_ge (pre : List Nat) (k : Nat) (hk : k ≤ pre.length)
    (h : ∀ i, i < k → pre.getD i 0 ≠ 0) : k ≤ strlen pre := by
  induction pre generalizing k with
  | nil =>
    simp only [List.length_nil] at hk
    omega
  | cons x xs ih =>
    cases k with
    | zero => omega
    | succ k' =>
      have hx : (x != 0) = true := by
        have := h 0 (by omega)
        simpa using this
      unfold strlen
      rw [List.takeWhile_cons_of_pos (by simpa using hx)]
      simp only [List.length_cons]
      have := ih k' (by simpa using hk) (fun i hi => by simpa using h (i + 1) (by omega))
      unfold strlen at this
      omega

theorem slice_append_left (a b : List Nat) (off n : Nat) (h : off + n ≤ a.length) :
    slice (a ++ b) off n = slice a off n := by
  apply slice_congr _ _ _ _ (by simp; omega) h
  intro i _ hi
  simp only [List.getD_eq_getElem?_getD]
  rw [List.getElem?_append_left (by omega)]

theorem getD_append_left' (a b : List Nat) (i : Nat) (h : i < a.length) :
    (a ++ b).getD i 0 = a.getD i 0 := by
  simp only [List.getD_eq_getElem?_getD]
  rw [List.getElem?_append_left h]

theorem parse_congr (s s' : List Nat) (r : tiny_nmea_type_t)
    (h1 : s.getD 1 0 = s'.getD 1 0) (h2 : s.getD 2 0 = s'.getD 2 0)
    (h3 : s.getD 3 0 = s'.getD 3 0) (h4 : s.getD 4 0 = s'.getD 4 0)
    (h5 : s.getD 5 0 = s'.getD 5 0)
    (hs : parse_field_data s = parse_field_data s') :
    tiny_nmea_parse s r = tiny_nmea_parse s' r := by
  unfold tiny_nmea_parse
  simp only [h1, h2, h3, h4, h5, hs]

/-- For a string of at least 7 bytes, below the size of the address space,
the field bytes are those from offset 7 to the terminator. -/
theorem parse_field_data_eq (s : List Nat) (h7 : 7 ≤ strlen s)
    (hlen : strlen s < 18446744073709551616) :
    parse_field_data s = slice s 7 (strlen s - 7) := by
  unfold parse_field_data parse_field_len
  have hn : (strlen s + 18446744073709551616 - 7) % 18446744073709551616 = strlen s - 7 := by
    rw [show strlen s + 18446744073709551616 - 7 = (strlen s - 7) + 18446744073709551616 by omega]
    rw [Nat.add_mod_right]
    exact Nat.mod_eq_of_lt (by omega)
  simp only [hn]
  rw [if_neg]
  rw [Nat.mod_eq_of_lt (by omega)]
  omega

/-- The decoder sees only the bytes before the terminating NUL. -/
theorem parse_nul_terminated (pre rest : List Nat) (r : tiny_nmea_type_t)
    (h7 : 7 ≤ pre.length) (hnz : ∀ i, i < 7 → pre.getD i 0 ≠ 0)
    (hlen : pre.length < 18446744073709551616) :
    tiny_nmea_parse (pre ++ 0 :: rest) r = tiny_nmea_parse (pre ++ [0]) r := by
  have s1 := strlen_append_nul pre rest
  have s2 := strlen_append_nul pre []
  have s3 := strlen_ge pre 7 h7 hnz
  have s4 := strlen_le pre
  apply parse_congr
  · rw [getD_append_left' _ _ _ (by omega), getD_append_left' _ _ _ (by omega)]
  · rw [getD_append_left' _ _ _ (by omega), getD_append_left' _ _ _ (by omega)]
  · rw [getD_append_left' _ _ _ (by omega), getD_append_left' _ _ _ (by omega)]
  · rw [getD_append_left' _ _ _ (by omega), getD_append_left' _ _ _ (by omega)]
  · rw [getD_append_left' _ _ _ (by omega), getD_append_left' _ _ _ (by omega)]
  · rw [parse_field_data_eq _ (by omega) (by omega), parse_field_data_eq _ (by omega) (by omega),
      s1, s2, slice_append_left _ _ _ _ (by omega), slice_append_left _ _ _ _ (by omega)]

theorem pp_eq (c : tiny_nmea_ctx_t) (r : tiny_nmea_type_t) :
    parse_post_process c r =
      ({ c with zda_century := pp_century c.zda_century r }, pp_record c.zda_century r) := by
  unfold pp_century pp_record parse_post_process
  by_cases h1 : r.type = TINY_NMEA_SENTENCE_ZDA
  · simp only [h1, if_true]
    by_cases h2 : (data_zda r.data).date.valid = true
    · simp only [h2, if_true]
    · simp only [h2, Bool.false_eq_true, if_false]
  · simp only [h1, if_false]
    by_cases h3 : r.type = TINY_NMEA_SENTENCE_RMC
    · simp only [h3, if_true]
      by_cases h4 : c.zda_century > 0
      · simp only [h4, if_true]
      · simp only [h4, if_false]
    · simp only [h3, if_false]

theorem takeWhile_spec (l : List Nat) (p : Nat → Bool) :
    (∀ i, i < (l.takeWhile p).length → p (l.getD i 0) = true) ∧
    ((l.takeWhile p).length < l.length → p (l.getD (l.takeWhile p).length 0) = false) := by
  induction l with
  | nil => simp
  | cons x xs ih =>
    by_cases hx : p x = true
    · rw [List.takeWhile_cons_of_pos hx]
      constructor
      · intro i hi
        cases i with
        | zero => simpa using hx
        | succ j =>
          simp only [List.length_cons] at hi
          simpa using ih.1 j (by omega)
      · intro h
        simp only [List.length_cons] at h ⊢
        simpa using ih.2 (by omega)
    · rw [List.takeWhile_cons_of_neg hx]
      constructor
      · intro i hi; simp at hi
      · intro _; simpa using hx

/-! ## The loop of `tiny_nmea_work` on a framed sentence -/

theorem work_loop_succ (f : Nat) (ctx : tiny_nmea_ctx_t) :
    tiny_nmea_work_loop (f + 1) ctx =
      if work_cond ctx then work_continue f (tiny_nmea_work_body ctx) else some ctx := by
  unfold work_cond
  rw [tiny_nmea_work_loop]
  cases tiny_nmea_work_body ctx <;> rfl

theorem runs_to_refl (a : tiny_nmea_ctx_t) : runs_to a a 0 := fun _ => rfl

theorem runs_to_trans {a b c : tiny_nmea_ctx_t} {j k : Nat} (h1 : runs_to a b j)
    (h2 : runs_to b c k) : runs_to a c (k + j) := by
  intro f
  rw [← Nat.add_assoc, h1, h2]

theorem runs_to_halts {a b c : tiny_nmea_ctx_t} {j k : Nat} (h1 : runs_to a b j)
    (h2 : halts_at b c k) : halts_at a c (k + j) := by
  intro f
  rw [← Nat.add_assoc, h1, h2]

theorem halts_mono {a c : tiny_nmea_ctx_t} {j k : Nat} (h : halts_at a c j) (hk : j ≤ k) :
    halts_at a c k := by
  intro f
  have : f + k = (f + (k - j)) + j := by omega
  rw [this, h]

theorem halts_fuel {a c : tiny_nmea_ctx_t} {j : Nat} (h : halts_at a c j) (fuel : Nat)
    (hk : j ≤ fuel) : tiny_nmea_work_loop fuel a = some c := by
  have : fuel = (fuel - j) + j := by omega
  rw [this, h]

theorem halts_cond_false (a : tiny_nmea_ctx_t) (h : work_cond a = false) : halts_at a a 1 := by
  intro f
  rw [work_loop_succ, h]
  rfl

theorem halts_exit (a c : tiny_nmea_ctx_t) (h : work_cond a = true)
    (hb : tiny_nmea_work_body a = loop_outcome.exit c) : halts_at a c 1 := by
  intro f
  rw [work_loop_succ, h, hb]
  rfl

theorem runs_next (a c : tiny_nmea_ctx_t) (h : work_cond a = true)
    (hb : tiny_nmea_work_body a = loop_outcome.next c) : runs_to a c 1 := by
  intro f
  rw [work_loop_succ, h, hb]
  rfl

theorem waiting_false_eq (ctx : tiny_nmea_ctx_t) (h : ctx.waiting_for_data = false) :
    { ctx with waiting_for_data := false } = ctx := by
  have e : ctx = { ctx with waiting_for_data := ctx.waiting_for_data } := rfl
  rw [h] at e
  exact e.symm

theorem top_up_id (ctx : tiny_nmea_ctx_t) (hw : ctx.waiting_for_data = false)
    (hr : ringbuf_len ctx.ringbuf = 0 ∨ ctx.working_buf_len = TINY_NMEA_MAX_SENTENCE_LEN) :
    work_top_up ctx = ctx := by
  unfold work_top_up min_size
  have : ¬ (if TINY_NMEA_MAX_SENTENCE_LEN - ctx.working_buf_len < ringbuf_len ctx.ringbuf
      then TINY_NMEA_MAX_SENTENCE_LEN - ctx.working_buf_len else ringbuf_len ctx.ringbuf) > 0 := by
    split <;> omega
  simp only [this, if_false, hw, Bool.false_eq_true, and_false]

/-- In a settled state (not waiting, nothing to pop) a pass of the loop is the dispatch. -/
theorem body_settled (ctx : tiny_nmea_ctx_t) (hw : ctx.waiting_for_data = false)
    (hr : ringbuf_len ctx.ringbuf = 0 ∨ ctx.working_buf_len = TINY_NMEA_MAX_SENTENCE_LEN) :
    tiny_nmea_work_body ctx = work_dispatch ctx := by
  rw [work_body_eq, top_up_id ctx hw hr]
  simp only [hw, Bool.false_and, Bool.false_eq_true, if_false]

theorem getD_take' (l : List Nat) (n i : Nat) (h : i < n) : (l.take n).getD i 0 = l.getD i 0 := by
  simp only [List.getD_eq_getElem?_getD, List.getElem?_take, h, if_true]

theorem getD_set_ne (l : List Nat) (i j a : Nat) (h : i ≠ j) :
    (l.set i a).getD j 0 = l.getD j 0 := by
  simp only [List.getD_eq_getElem?_getD, List.getElem?_set_ne h]

theorem getD_set_self (l : List Nat) (i a : Nat) (h : i < l.length) :
    (l.set i a).getD i 0 = a := by
  simp only [List.getD_eq_getElem?_getD, List.getElem?_set_self h, Option.getD_some]

theorem matches_take (ctx : tiny_nmea_ctx_t) (T : List Nat) (hm : scratch_matches ctx T)
    (n : Nat) (h1 : n ≤ ctx.working_buf_len) (h2 : n ≤ T.length) :
    ctx.working_buf.take n = T.take n := by
  obtain ⟨a, b, c⟩ := hm
  unfold TINY_NMEA_WORKING_BUF_LEN at a
  unfold TINY_NMEA_MAX_SENTENCE_LEN at b
  apply list_ext_getD
  · simp only [List.length_take]
    omega
  · intro i hi
    simp only [List.length_take] at hi
    rw [getD_take' _ _ _ (by omega), getD_take' _ _ _ (by omega)]
    exact c i (by omega) (by omega)

theorem crlf0_true (b : Nat) :
    (b == 13 || b == 10 || b == 0) = true ↔ (b = 13 ∨ b = 10 ∨ b = 0) := by
  simp only [Bool.or_eq_true, beq_iff_eq, or_assoc]

theorem crlf0_false (b : Nat) :
    (b == 13 || b == 10 || b == 0) = false ↔ (b ≠ 13 ∧ b ≠ 10 ∧ b ≠ 0) := by
  rw [← Bool.not_eq_true, crlf0_true]
  simp only [not_or]

/-- The count `skip_line_ending` returns: that many CR, LF or NUL bytes follow
`start`, and the byte after them (if inside the buffer) is none of these. -/
theorem skip_line_ending_spec (buf : List Nat) (start len : Nat) (hl : len ≤ buf.length)
    (hs : start ≤ len) :
    skip_line_ending buf start len ≤ len - start ∧
    (∀ i, i < skip_line_ending buf start len →
      (buf.getD (start + i) 0 = 13 ∨ buf.getD (start + i) 0 = 10 ∨ buf.getD (start + i) 0 = 0)) ∧
    (skip_line_ending buf start len < len - start →
      (buf.getD (start + skip_line_ending buf start len) 0 ≠ 13 ∧
       buf.getD (start + skip_line_ending buf start len) 0 ≠ 10 ∧
       buf.getD (start + skip_line_ending buf start len) 0 ≠ 0)) := by
  have hsk := takeWhile_spec (slice buf start (len - start))
    (fun b => b == 13 || b == 10 || b == 0)
  have hsl : (slice buf start (len - start)).length = len - start :=
    slice_length _ _ _ (by omega)
  have hskl := takeWhile_length_le (slice buf start (len - start))
    (fun b => b == 13 || b == 10 || b == 0)
  unfold skip_line_ending
  generalize ((slice buf start (len - start)).takeWhile
      (fun b => b == 13 || b == 10 || b == 0)).length = m at hsk hskl
  rw [hsl] at hskl hsk
  refine ⟨hskl, ?_, ?_⟩
  · intro i hi
    have := hsk.1 i hi
    rw [slice_getD _ _ _ _ (by omega)] at this
    exact (crlf0_true _).1 this
  · intro hlt
    have := hsk.2 hlt
    rw [slice_getD _ _ _ _ (by omega)] at this
    exact (crlf0_false _).1 this

theorem sentence_complete_ok (ctx : tiny_nmea_ctx_t) (T : List Nat) (d e : Nat) (ck : Bool)
    (tk ty v : Nat) (rec : tiny_nmea_type_t)
    (hf : sentence_frame T d e ck tk ty v) (hm : scratch_matches ctx T)
    (hd : ctx.data_end = d) (hle : ctx.line_end = some e) (hn : e < ctx.working_buf_len)
    (htk : ctx.current_talker = tk) (hty : ctx.current_type = ty)
    (hcb : ctx.parse_callback = true)
    (hdec : tiny_nmea_parse (T.take d ++ [0])
      { type := ty, talker := tk, data := tiny_nmea_data_t.zero } = some (TINY_NMEA_OK, rec)) :
    ∃ ctx' k, fsm_sentence_complete ctx = some ctx' ∧ completed rec ctx ctx' e k ∧
      ctx'.waiting_for_data = ctx.waiting_for_data := by
  have hde := frame_d_le_e hf
  have heT := hf.e_lt
  have hTl := hf.len_le
  have hd7 := hf.d_ge
  obtain ⟨hwl, hl82, hpt⟩ := hm
  unfold TINY_NMEA_WORKING_BUF_LEN at hwl
  unfold TINY_NMEA_MAX_SENTENCE_LEN at hl82 hTl
  have hwb : ctx.working_buf.set d 0 = T.take d ++ 0 :: ctx.working_buf.drop (d + 1) := by
    rw [List.set_eq_take_append_cons_drop, if_pos (by omega),
      matches_take ctx T ⟨hwl, hl82, hpt⟩ d (by omega) (by omega)]
  have hp : tiny_nmea_parse (ctx.working_buf.set d 0)
      { type := ctx.current_type, talker := ctx.current_talker, data := tiny_nmea_data_t.zero } =
      some (TINY_NMEA_OK, rec) := by
    rw [htk, hty, hwb, parse_nul_terminated _ _ _ (by simp; omega) _ (by simp; omega)]
    · exact hdec
    · intro i hi
      rw [getD_take' _ _ _ (by omega)]
      exact hf.hdr_nz i hi
  -- the bytes skipped after the line end
  have hsk := skip_line_ending_spec (ctx.working_buf.set d 0) e ctx.working_buf_len
    (by simp; omega) (by omega)
  have hwe : (ctx.working_buf.set d 0).getD e 0 = 13 ∨ (ctx.working_buf.set d 0).getD e 0 = 10 ∨
      (ctx.working_buf.set d 0).getD e 0 = 0 := by
    by_cases hdeq : d = e
    · rw [hdeq, getD_set_self _ _ _ (by omega)]
      exact Or.inr (Or.inr rfl)
    · rw [getD_set_ne _ _ _ _ hdeq, hpt e hn heT]
      rcases hf.term e (le_refl _) heT with h | h
      · exact Or.inl h
      · exact Or.inr (Or.inl h)
  generalize hm' : skip_line_ending (ctx.working_buf.set d 0) e ctx.working_buf_len = m at hsk
  have hm1 : 1 ≤ m := by
    by_contra hc
    have hm0 : m = 0 := by omega
    have := hsk.2.2 (by omega)
    rw [hm0, Nat.add_zero] at this
    rcases hwe with h | h | h
    · exact this.1 h
    · exact this.2.1 h
    · exact this.2.2 h
  have hres : fsm_sentence_complete ctx = some
      (RESET_WORKBUF_BYTES
        (discard_bytes
          { ctx with
            working_buf := ctx.working_buf.set d 0
            stats := { ctx.stats with sentences_parsed := incr32 ctx.stats.sentences_parsed }
            zda_century := pp_century ctx.zda_century rec
            calls := ctx.calls ++
              [tiny_nmea_callback_event.parse (pp_record ctx.zda_century rec)
                { ctx.stats with sentences_parsed := incr32 ctx.stats.sentences_parsed }] }
          (e + m))
        (discard_bytes
          { ctx with
            working_buf := ctx.working_buf.set d 0
            stats := { ctx.stats with sentences_parsed := incr32 ctx.stats.sentences_parsed }
            zda_century := pp_century ctx.zda_century rec
            calls := ctx.calls ++
              [tiny_nmea_callback_event.parse (pp_record ctx.zda_century rec)
                { ctx.stats with sentences_parsed := incr32 ctx.stats.sentences_parsed }] }
          (e + m)).working_buf_len) := by
    unfold fsm_sentence_complete
    simp only [hd]
    simp only [hp, if_true, pp_eq, hcb, hle, hm']
  refine ⟨_, e + m, hres, ?_⟩
  have hskip : ∀ j, e < j → j < e + m → ctx.working_buf.getD j 0 = 13 ∨
      ctx.working_buf.getD j 0 = 10 ∨ ctx.working_buf.getD j 0 = 0 := by
    intro j h1 h2
    have := hsk.2.1 (j - e) (by omega)
    rw [show e + (j - e) = j by omega, getD_set_ne _ _ _ _ (by omega)] at this
    exact this
  have hstop : e + m < ctx.working_buf_len → ctx.working_buf.getD (e + m) 0 ≠ 13 ∧
      ctx.working_buf.getD (e + m) 0 ≠ 10 ∧ ctx.working_buf.getD (e + m) 0 ≠ 0 := by
    intro h
    have := hsk.2.2 (by omega)
    rw [getD_set_ne _ _ _ _ (by omega)] at this
    exact this
  by_cases hc : e + m ≥ ctx.working_buf_len
  · have hlen0 : ctx.working_buf_len - (e + m) = 0 := by omega
    unfold RESET_WORKBUF_BYTES discard_bytes
    simp only [hc, if_true]
    refine ⟨⟨by omega, by omega, hskip, hstop, rfl, by simp, by simp [hlen0], ?_, rfl, rfl, rfl,
      rfl, rfl, rfl, rfl⟩, trivial⟩
    intro i hi
    omega
  · unfold RESET_WORKBUF_BYTES discard_bytes
    simp only [hc, if_false]
    have hsl2 : (slice (ctx.working_buf.set d 0) (e + m) (ctx.working_buf_len - (e + m))).length =
        ctx.working_buf_len - (e + m) := slice_length _ _ _ (by simp; omega)
    refine ⟨⟨by omega, by omega, hskip, hstop, rfl, ?_, rfl, ?_, rfl, rfl, rfl,
      rfl, rfl, rfl, rfl⟩, trivial⟩
    · simp only
      rw [memcpy_length _ _ _ (by simp; omega)]
      simp
    · intro i hi
      simp only
      rw [memcpy_getD _ _ _ _ (by simp; omega), hsl2, if_pos (by omega),
        slice_getD _ _ _ _ (by omega), getD_set_ne _ _ _ _ (by omega)]
      simp

theorem same_data_refl (a : tiny_nmea_ctx_t) : same_data a a :=
  ⟨rfl, rfl, rfl, rfl, rfl, rfl, rfl, rfl⟩

theorem same_data_trans {a b c : tiny_nmea_ctx_t} (h1 : same_data a b) (h2 : same_data b c) :
    same_data a c :=
  ⟨h2.1.trans h1.1, h2.2.trans h1.2, h2.3.trans h1.3, h2.4.trans h1.4, h2.5.trans h1.5,
    h2.6.trans h1.6, h2.7.trans h1.7, h2.8.trans h1.8⟩

theorem same_data_stream {a b : tiny_nmea_ctx_t} (h : same_data a b) : stream b = stream a := by
  unfold stream
  rw [h.ringbuf, h.working_buf, h.working_buf_len]

theorem completed_of_same {rec : tiny_nmea_type_t} {a b c : tiny_nmea_ctx_t} {e k : Nat}
    (h : same_data a b) (hc : completed rec b c e k) : completed rec a c e k := by
  obtain ⟨h1, h2, h3, h4, h5, h6, h7, h8⟩ := h
  obtain ⟨c1, c2, c3, c4, c5, c6, c7, c8, c9, c10, c11, c12, c13, c14, c15⟩ := hc
  rw [h2] at c3 c4 c6 c8
  rw [h3] at c2 c4 c7 c8
  rw [h6, h7, h8] at c14
  exact ⟨c1, c2, c3, c4, c5.trans h1, c6, c7, c8, c9, c10, c11.trans h4, c12.trans h5,
    c13.trans (by rw [h6]), c14, c15.trans (by rw [h8])⟩

theorem rejected_of_same {a b c : tiny_nmea_ctx_t}
    (h : same_data a b) (hc : rejected b c) : rejected a c := by
  obtain ⟨h1, h2, h3, h4, h5, h6, h7, h8⟩ := h
  obtain ⟨c1, c2, c3, c4, c5, c6, c7, c8, c9, c10⟩ := hc
  exact ⟨c1.trans h1, c2.trans (by rw [h2]), c3, c4, c5, c6.trans h4, c7.trans h5,
    c8.trans (by rw [h6]), c9.trans h7, c10.trans h8⟩

theorem finished_of_same {good : Bool} {rec : tiny_nmea_type_t} {e : Nat}
    {a b c : tiny_nmea_ctx_t} (h : same_data a b) (hc : finished good rec e b c) :
    finished good rec e a c := by
  unfold finished at *
  cases good
  · simp only [Bool.false_eq_true, if_false] at hc ⊢
    exact rejected_of_same h hc
  · simp only [if_true] at hc ⊢
    obtain ⟨k, hk⟩ := hc
    exact ⟨k, completed_of_same h hk⟩

/-- One state machine step that changes no data and does not wait carries the
outcome of the next context back. -/
theorem outcome_step {T : List Nat} {d e : Nat} {ck : Bool} {tk ty : Nat} {good : Bool}
    {rec : tiny_nmea_type_t} {n : Nat} {a b : tiny_nmea_ctx_t}
    (hr : runs_to a b 1) (hs : same_data a b)
    (ho : outcome T d e ck tk ty good rec n b) : outcome T d e ck tk ty good rec (n + 1) a := by
  constructor
  · intro hle
    obtain ⟨c, h1, h2, h3⟩ := ho.1 (by rw [hs.working_buf_len]; exact hle)
    exact ⟨c, runs_to_halts hr h1, h2, same_data_trans hs h3⟩
  · intro hlt
    obtain ⟨c, j, h1, h2, h3, h4⟩ := ho.2 (by rw [hs.working_buf_len]; exact hlt)
    exact ⟨c, j + 1, by omega, runs_to_trans hr h2, finished_of_same hs h3, h4⟩

theorem outcome_mono {T : List Nat} {d e : Nat} {ck : Bool} {tk ty : Nat} {good : Bool}
    {rec : tiny_nmea_type_t} {n m : Nat} {a : tiny_nmea_ctx_t} (hnm : n ≤ m)
    (ho : outcome T d e ck tk ty good rec n a) : outcome T d e ck tk ty good rec m a := by
  constructor
  · intro hle
    obtain ⟨c, h1, h2, h3⟩ := ho.1 hle
    exact ⟨c, halts_mono h1 (by omega), h2, h3⟩
  · intro hlt
    obtain ⟨c, j, h1, h2, h3, h4⟩ := ho.2 hlt
    exact ⟨c, j, by omega, h2, h3, h4⟩

theorem cond_of_pos_lt (ctx : tiny_nmea_ctx_t) (h : ctx.parse_pos < ctx.working_buf_len) :
    work_cond ctx = true := by
  unfold work_cond
  simp [h]

theorem halts_waiting (c : tiny_nmea_ctx_t) (hw : c.waiting_for_data = true)
    (hr : ringbuf_len c.ringbuf = 0) : halts_at c c 1 := by
  intro f
  rw [work_loop_succ, work_body_eq]
  simp only [hw, hr, beq_self_eq_true, Bool.and_self, if_true]
  split <;> rfl

theorem halts_idle (c : tiny_nmea_ctx_t) (hwf : ringbuf_wf c.ringbuf)
    (hp : c.working_buf_len ≤ c.parse_pos) (hr : ringbuf_len c.ringbuf = 0) : halts_at c c 1 := by
  apply halts_cond_false
  unfold work_cond
  have := (empty_iff c.ringbuf hwf).2 hr
  simp [this, hp]

/-- A pass of the loop in a settled state with unread scratch bytes. -/
theorem dispatch_settled (ctx : tiny_nmea_ctx_t) (hs : settled ctx)
    (hp : ctx.parse_pos < ctx.working_buf_len) :
    tiny_nmea_work_body ctx =
      match ctx.parser_state with
      | TINY_NMEA_PARSE_FIND_START => loop_outcome.next (fsm_find_start ctx)
      | TINY_NMEA_PARSE_FIND_TALKER_AND_TYPE => loop_outcome.next (fsm_find_talker_and_type ctx)
      | TINY_NMEA_PARSE_FIND_CHECKSUM_OR_END => loop_outcome.next (fsm_find_checksum_or_end ctx)
      | TINY_NMEA_PARSE_FIND_END => loop_outcome.next (fsm_find_end ctx)
      | TINY_NMEA_SENTENCE_COMPLETE =>
        match fsm_sentence_complete ctx with
        | some c => loop_outcome.next c
        | none => loop_outcome.undefined := by
  rw [body_settled ctx hs.1 hs.2]
  unfold work_dispatch
  simp only [waiting_false_eq ctx hs.1]
  rw [if_neg (by omega)]

theorem framing_matches {T : List Nat} {d e : Nat} {ck : Bool} {tk ty : Nat}
    {ctx : tiny_nmea_ctx_t} (h : framing T d e ck tk ty ctx) : scratch_matches ctx T := by
  refine ⟨h.wb_length, h.len_le, ?_⟩
  intro i h1 h2
  have hl := h.wb_length
  have hl2 := h.len_le
  unfold TINY_NMEA_WORKING_BUF_LEN at hl
  unfold TINY_NMEA_MAX_SENTENCE_LEN at hl2
  have := h.agrees i (by unfold stream; simp; omega) h2
  unfold stream at this
  rw [getD_append_left' _ _ _ (by simp; omega), getD_take' _ _ _ h1] at this
  exact this

theorem settled_ring_empty {T : List Nat} {d e : Nat} {ck : Bool} {tk ty v : Nat}
    {ctx : tiny_nmea_ctx_t} (hf : sentence_frame T d e ck tk ty v) (hs : settled ctx)
    (hle : ctx.working_buf_len ≤ e) : ringbuf_len ctx.ringbuf = 0 := by
  have h1 := hf.e_lt
  have h2 := hf.len_le
  rcases hs.2 with h | h
  · exact h
  · omega

/-- The loop from the state `SENTENCE_COMPLETE` of an acceptable sentence. -/
theorem loop_complete (ctx : tiny_nmea_ctx_t) (T : List Nat) (d e : Nat) (ck : Bool)
    (tk ty v : Nat) (rec : tiny_nmea_type_t)
    (hf : sentence_frame T d e ck tk ty v) (hm : scratch_matches ctx T) (hs : settled ctx)
    (hst : ctx.parser_state = TINY_NMEA_SENTENCE_COMPLETE)
    (hd : ctx.data_end = d) (hle : ctx.line_end = some e) (hn : e < ctx.working_buf_len)
    (hpos : ctx.parse_pos < ctx.working_buf_len)
    (htk : ctx.current_talker = tk) (hty : ctx.current_type = ty)
    (hcb : ctx.parse_callback = true)
    (hacc : accepted T d ck tk ty v rec) :
    ∃ c k, runs_to ctx c 1 ∧ completed rec ctx c e k ∧ c.waiting_for_data = false := by
  obtain ⟨c, k, h1, h2, h3⟩ := sentence_complete_ok ctx T d e ck tk ty v rec hf hm hd hle hn
    htk hty hcb hacc.2
  refine ⟨c, k, runs_next ctx c (cond_of_pos_lt ctx hpos) ?_, h2, h3.trans hs.1⟩
  rw [dispatch_settled ctx hs hpos, hst]
  simp only [h1]

theorem stage_find_end {d e : Nat} {ck : Bool} {tk ty : Nat} {ctx : tiny_nmea_ctx_t}
    (h : stage_ok d e ck tk ty ctx) (hst : ctx.parser_state = TINY_NMEA_PARSE_FIND_END) :
    ck = true ∧ 7 ≤ ctx.parse_pos ∧ ctx.parse_pos ≤ e ∧ ctx.data_end = d ∧
    (ctx.line_end = none ∨ (ctx.line_end = some e ∧ e < ctx.working_buf_len)) ∧
    ctx.current_talker = tk ∧ ctx.current_type = ty := by
  unfold stage_ok at h
  rw [hst] at h
  exact h

theorem stage_find_end_intro {d e : Nat} {ck : Bool} {tk ty : Nat} {ctx : tiny_nmea_ctx_t}
    (hst : ctx.parser_state = TINY_NMEA_PARSE_FIND_END)
    (h : ck = true ∧ 7 ≤ ctx.parse_pos ∧ ctx.parse_pos ≤ e ∧ ctx.data_end = d ∧
    (ctx.line_end = none ∨ (ctx.line_end = some e ∧ e < ctx.working_buf_len)) ∧
    ctx.current_talker = tk ∧ ctx.current_type = ty) : stage_ok d e ck tk ty ctx := by
  unfold stage_ok
  rw [hst]
  exact h

/-- The loop from the state `FIND_END`. -/
theorem loop_find_end (ctx : tiny_nmea_ctx_t) (T : List Nat) (d e : Nat) (ck : Bool)
    (tk ty v : Nat) (good : Bool) (rec : tiny_nmea_type_t)
    (hf : sentence_frame T d e ck tk ty v) (hfr : framing T d e ck tk ty ctx)
    (hs : settled ctx) (hst : ctx.parser_state = TINY_NMEA_PARSE_FIND_END)
    (hv : verdict good T d ck tk ty v rec) :
    outcome T d e ck tk ty good rec 2 ctx := by
  obtain ⟨hck, hp7, hpe, hd, hle, htk, hty⟩ := stage_find_end hfr.stage hst
  subst hck
  have hm := framing_matches hfr
  have hpl := hfr.pos_le
  constructor
  · intro hlen
    have hnone : ctx.line_end = none := by
      rcases hle with h | h
      · exact h
      · omega
    have hring := settled_ring_empty hf hs hlen
    by_cases hp : ctx.parse_pos < ctx.working_buf_len
    · have hstep := find_end_wait ctx T d e tk ty v hf hm hp7 hpl hnone hlen
      refine ⟨_, halts_mono (runs_to_halts (runs_next ctx _ (cond_of_pos_lt ctx hp)
        (by rw [dispatch_settled ctx hs hp, hst])) (halts_waiting _ ?_ ?_)) (by omega), ?_, ?_⟩
      · rw [hstep]
      · rw [hstep]; exact hring
      · rw [hstep]
        refine ⟨hfr.wf, hfr.wb_length, hfr.len_le, le_refl _, hfr.agrees, hfr.cb, ?_⟩
        exact stage_find_end_intro hst
          ⟨rfl, by show 7 ≤ ctx.working_buf_len; omega, hlen, hd, Or.inl rfl, htk, hty⟩
      · rw [hstep]
        exact ⟨rfl, rfl, rfl, rfl, rfl, rfl, rfl, rfl⟩
    · exact ⟨ctx, halts_mono (halts_idle ctx hfr.wf (by omega) hring) (by omega), hfr,
        same_data_refl ctx⟩
  · intro hlen
    have hstep := find_end_found ctx T d e tk ty v hf hm hp7 hpe hd
      (by rcases hle with h | h
          · exact Or.inl h
          · exact Or.inr h.1) hlen
    have hp : ctx.parse_pos < ctx.working_buf_len := by omega
    have hrun := runs_next ctx _ (cond_of_pos_lt ctx hp)
      (by rw [dispatch_settled ctx hs hp, hst])
    rw [hstep] at hrun
    cases good
    · have hbad : nmea_checksum_helper (slice T 1 (d - 1)) ≠ v := by
        unfold verdict corrupted at hv
        simp only [Bool.false_eq_true, if_false] at hv
        exact hv.2
      rw [if_neg hbad] at hrun
      refine ⟨_, 1, by omega, hrun, ?_, hs.1⟩
      unfold finished
      simp only [Bool.false_eq_true, if_false]
      exact ⟨rfl, rfl, rfl, rfl, rfl, rfl, rfl, rfl, rfl, rfl⟩
    · have hacc : accepted T d true tk ty v rec := by
        unfold verdict at hv
        simpa using hv
      rw [if_pos (hacc.1 rfl)] at hrun
      obtain ⟨c, k, h1, h2, h3⟩ := loop_complete
        { ctx with line_end := some e, received_checksum := v,
                   computed_checksum := nmea_checksum_helper (slice T 1 (d - 1)),
                   parser_state := TINY_NMEA_SENTENCE_COMPLETE }
        T d e true tk ty v rec hf hm hs rfl hd rfl hlen hp htk hty hfr.cb hacc
      refine ⟨c, 2, by omega, runs_to_trans hrun h1, ?_, h3⟩
      unfold finished
      simp only [if_true]
      exact ⟨k, completed_of_same (a := ctx) (by exact ⟨rfl, rfl, rfl, rfl, rfl, rfl, rfl, rfl⟩) h2⟩

theorem stage_find_checksum {d e : Nat} {ck : Bool} {tk ty : Nat} {ctx : tiny_nmea_ctx_t}
    (hst : ctx.parser_state = TINY_NMEA_PARSE_FIND_CHECKSUM_OR_END) :
    stage_ok d e ck tk ty ctx ↔
    (7 ≤ ctx.parse_pos ∧ ctx.parse_pos ≤ d ∧ ctx.current_talker = tk ∧ ctx.current_type = ty) := by
  unfold stage_ok
  rw [hst]

theorem stage_find_talker {d e : Nat} {ck : Bool} {tk ty : Nat} {ctx : tiny_nmea_ctx_t}
    (hst : ctx.parser_state = TINY_NMEA_PARSE_FIND_TALKER_AND_TYPE) :
    stage_ok d e ck tk ty ctx ↔ ctx.parse_pos = 1 := by
  unfold stage_ok
  rw [hst]

theorem stage_find_start {d e : Nat} {ck : Bool} {tk ty : Nat} {ctx : tiny_nmea_ctx_t}
    (hst : ctx.parser_state = TINY_NMEA_PARSE_FIND_START) :
    stage_ok d e ck tk ty ctx ↔ ctx.parse_pos = 0 := by
  unfold stage_ok
  rw [hst]

theorem stage_complete {d e : Nat} {ck : Bool} {tk ty : Nat} {ctx : tiny_nmea_ctx_t}
    (hst : ctx.parser_state = TINY_NMEA_SENTENCE_COMPLETE) :
    ¬ stage_ok d e ck tk ty ctx := by
  unfold stage_ok
  rw [hst]
  exact fun h => h

/-- The loop from the state `FIND_CHECKSUM_OR_END`. -/
theorem loop_find_checksum (ctx : tiny_nmea_ctx_t) (T : List Nat) (d e : Nat) (ck : Bool)
    (tk ty v : Nat) (good : Bool) (rec : tiny_nmea_type_t)
    (hf : sentence_frame T d e ck tk ty v) (hfr : framing T d e ck tk ty ctx)
    (hs : settled ctx) (hst : ctx.parser_state = TINY_NMEA_PARSE_FIND_CHECKSUM_OR_END)
    (hv : verdict good T d ck tk ty v rec) :
    outcome T d e ck tk ty good rec 3 ctx := by
  obtain ⟨hp7, hpd, htk, hty⟩ := (stage_find_checksum hst).1 hfr.stage
  have hm := framing_matches hfr
  have hpl := hfr.pos_le
  have hde := frame_d_le_e hf
  by_cases hlen : ctx.working_buf_len ≤ d
  · constructor
    · intro _
      have hring := settled_ring_empty hf hs (by omega)
      by_cases hp : ctx.parse_pos < ctx.working_buf_len
      · have hstep := find_checksum_wait ctx T d e ck tk ty v hf hm hp7 hpl hlen
        refine ⟨_, halts_mono (runs_to_halts (runs_next ctx _ (cond_of_pos_lt ctx hp)
          (by rw [dispatch_settled ctx hs hp, hst])) (halts_waiting _ ?_ ?_)) (by omega), ?_, ?_⟩
        · rw [hstep]
        · rw [hstep]; exact hring
        · rw [hstep]
          refine ⟨hfr.wf, hfr.wb_length, hfr.len_le, le_refl _, hfr.agrees, hfr.cb, ?_⟩
          refine (stage_find_checksum ?_).2
            ⟨by show 7 ≤ ctx.working_buf_len; omega, hlen, htk, hty⟩
          exact hst
        · rw [hstep]
          exact ⟨rfl, rfl, rfl, rfl, rfl, rfl, rfl, rfl⟩
      · exact ⟨ctx, halts_mono (halts_idle ctx hfr.wf (by omega) hring) (by omega), hfr,
          same_data_refl ctx⟩
    · intro h
      omega
  · have hp : ctx.parse_pos < ctx.working_buf_len := by omega
    have hrun := runs_next ctx _ (cond_of_pos_lt ctx hp)
      (by rw [dispatch_settled ctx hs hp, hst])
    cases ck
    · -- no checksum: the line end is the data end
      have hed : e = d := hf.without_ck rfl
      subst hed
      have hstep := find_checksum_line_end ctx T e e tk ty v hf hm hp7 hpd (by omega)
      rw [hstep] at hrun
      constructor
      · intro h
        omega
      · intro hlt
        cases good
        · unfold verdict corrupted at hv
          simp at hv
        · have hacc : accepted T e false tk ty v rec := by
            unfold verdict at hv
            simpa using hv
          obtain ⟨c, k, h1, h2, h3⟩ := loop_complete
            { ctx with line_end := some e, parse_pos := e, has_checksum := false, data_end := e,
                       parser_state := TINY_NMEA_SENTENCE_COMPLETE }
            T e e false tk ty v rec hf hm hs rfl rfl rfl hlt hlt htk hty hfr.cb hacc
          refine ⟨c, 2, by omega, runs_to_trans hrun h1, ?_, h3⟩
          unfold finished
          simp only [if_true]
          exact ⟨k, completed_of_same (a := ctx)
            (by exact ⟨rfl, rfl, rfl, rfl, rfl, rfl, rfl, rfl⟩) h2⟩
    · have hstep := find_checksum_star ctx T d e tk ty v hf hm hp7 hpd (by omega)
      rw [hstep] at hrun
      refine outcome_step hrun (by exact ⟨rfl, rfl, rfl, rfl, rfl, rfl, rfl, rfl⟩)
        (loop_find_end _ T d e true tk ty v good rec hf ?_ hs rfl hv)
      refine ⟨hfr.wf, hfr.wb_length, hfr.len_le, by show d ≤ ctx.working_buf_len; omega,
        hfr.agrees, hfr.cb, ?_⟩
      apply stage_find_end_intro rfl
      refine ⟨rfl, hf.d_ge, hde, rfl, ?_, htk, hty⟩
      by_cases he : e < ctx.working_buf_len
      · exact Or.inr ⟨by show (if e < ctx.working_buf_len then some e else none) = some e
                         rw [if_pos he], he⟩
      · exact Or.inl (by show (if e < ctx.working_buf_len then some e else none) = none
                         rw [if_neg he])

/-- The loop from the state `FIND_TALKER_AND_TYPE`. -/
theorem loop_find_talker (ctx : tiny_nmea_ctx_t) (T : List Nat) (d e : Nat) (ck : Bool)
    (tk ty v : Nat) (good : Bool) (rec : tiny_nmea_type_t)
    (hf : sentence_frame T d e ck tk ty v) (hfr : framing T d e ck tk ty ctx)
    (hs : settled ctx) (hst : ctx.parser_state = TINY_NMEA_PARSE_FIND_TALKER_AND_TYPE)
    (hv : verdict good T d ck tk ty v rec) :
    outcome T d e ck tk ty good rec 4 ctx := by
  have hp1 := (stage_find_talker hst).1 hfr.stage
  have hm := framing_matches hfr
  have hpl := hfr.pos_le
  have hde := frame_d_le_e hf
  have hd7 := hf.d_ge
  by_cases hlen : ctx.working_buf_len - ctx.parse_pos < 6
  · constructor
    · intro _
      have hring := settled_ring_empty hf hs (by omega)
      by_cases hp : ctx.parse_pos < ctx.working_buf_len
      · have hstep := find_talker_wait ctx hlen
        refine ⟨_, halts_mono (runs_to_halts (runs_next ctx _ (cond_of_pos_lt ctx hp)
          (by rw [dispatch_settled ctx hs hp, hst])) (halts_waiting _ ?_ ?_)) (by omega), ?_, ?_⟩
        · rw [hstep]
        · rw [hstep]; exact hring
        · rw [hstep]
          refine ⟨hfr.wf, hfr.wb_length, hfr.len_le, hfr.pos_le, hfr.agrees, hfr.cb,
            (stage_find_talker ?_).2 hp1⟩
          exact hst
        · rw [hstep]
          exact ⟨rfl, rfl, rfl, rfl, rfl, rfl, rfl, rfl⟩
      · exact ⟨ctx, halts_mono (halts_idle ctx hfr.wf (by omega) hring) (by omega), hfr,
          same_data_refl ctx⟩
    · intro h
      omega
  · have hp : ctx.parse_pos < ctx.working_buf_len := by omega
    have hrun := runs_next ctx _ (cond_of_pos_lt ctx hp)
      (by rw [dispatch_settled ctx hs hp, hst])
    have hstep := find_talker_ok ctx T d e ck tk ty v hf hm hlen hp1
    rw [hstep] at hrun
    refine outcome_step hrun (by exact ⟨rfl, rfl, rfl, rfl, rfl, rfl, rfl, rfl⟩)
      (loop_find_checksum _ T d e ck tk ty v good rec hf ?_ hs rfl hv)
    refine ⟨hfr.wf, hfr.wb_length, hfr.len_le, by show 7 ≤ ctx.working_buf_len; omega,
      hfr.agrees, hfr.cb, ?_⟩
    exact (stage_find_checksum rfl).2 ⟨le_refl _, hd7, rfl, rfl⟩

/-- The loop from the state `FIND_START` with the start character first. -/
theorem loop_find_start (ctx : tiny_nmea_ctx_t) (T : List Nat) (d e : Nat) (ck : Bool)
    (tk ty v : Nat) (good : Bool) (rec : tiny_nmea_type_t)
    (hf : sentence_frame T d e ck tk ty v) (hfr : framing T d e ck tk ty ctx)
    (hs : settled ctx) (hst : ctx.parser_state = TINY_NMEA_PARSE_FIND_START)
    (hv : verdict good T d ck tk ty v rec) :
    outcome T d e ck tk ty good rec 5 ctx := by
  have hp0 := (stage_find_start hst).1 hfr.stage
  have hm := framing_matches hfr
  have hde := frame_d_le_e hf
  have hd7 := hf.d_ge
  have heT := hf.e_lt
  by_cases hlen : ctx.working_buf_len = 0
  · constructor
    · intro _
      have hring := settled_ring_empty hf hs (by omega)
      exact ⟨ctx, halts_mono (halts_idle ctx hfr.wf (by omega) hring) (by omega), hfr,
        same_data_refl ctx⟩
    · intro h
      omega
  · have hp : ctx.parse_pos < ctx.working_buf_len := by omega
    have hrun := runs_next ctx _ (cond_of_pos_lt ctx hp)
      (by rw [dispatch_settled ctx hs hp, hst])
    have hwl := hfr.wb_length
    have hl82 := hfr.len_le
    unfold TINY_NMEA_WORKING_BUF_LEN at hwl
    unfold TINY_NMEA_MAX_SENTENCE_LEN at hl82
    have h0 : ctx.working_buf.getD 0 0 = 36 ∨ ctx.working_buf.getD 0 0 = 33 := by
      rw [hm.2.2 0 (by omega) (by omega)]
      exact hf.start
    have hstep := find_start_at_zero ctx h0 (by omega) (by omega)
    rw [hstep] at hrun
    refine outcome_step hrun (by exact ⟨rfl, rfl, rfl, rfl, rfl, rfl, rfl, rfl⟩)
      (loop_find_talker _ T d e ck tk ty v good rec hf ?_ hs rfl hv)
    refine ⟨hfr.wf, hfr.wb_length, hfr.len_le, by show 1 ≤ ctx.working_buf_len; omega,
      hfr.agrees, hfr.cb, ?_⟩
    exact (stage_find_talker rfl).2 rfl

/-- The loop of `tiny_nmea_work` on a settled context that is framing `T`. -/
theorem loop_framing (ctx : tiny_nmea_ctx_t) (T : List Nat) (d e : Nat) (ck : Bool)
    (tk ty v : Nat) (good : Bool) (rec : tiny_nmea_type_t)
    (hf : sentence_frame T d e ck tk ty v) (hfr : framing T d e ck tk ty ctx)
    (hs : settled ctx) (hv : verdict good T d ck tk ty v rec) :
    outcome T d e ck tk ty good rec 5 ctx := by
  cases hst : ctx.parser_state
  · exact loop_find_start ctx T d e ck tk ty v good rec hf hfr hs hst hv
  · exact outcome_mono (by omega) (loop_find_talker ctx T d e ck tk ty v good rec hf hfr hs hst hv)
  · exact outcome_mono (by omega)
      (loop_find_checksum ctx T d e ck tk ty v good rec hf hfr hs hst hv)
  · exact outcome_mono (by omega) (loop_find_end ctx T d e ck tk ty v good rec hf hfr hs hst hv)
  · exact absurd hfr.stage (stage_complete hst)

theorem copy_out_length (d buf : List Nat) (size start n : Nat)
    (hb : buf.length = size) (hs : start < size) (hn : n ≤ size) (hd : n ≤ d.length) :
    (ringbuf_copy_out d buf size start n).length = d.length := by
  unfold ringbuf_copy_out
  split
  · rw [memcpy_length _ _ _ (by rw [slice_length _ _ _ (by omega)]; omega)]
  · have h1 : (slice buf start (size - start)).length = size - start :=
      slice_length _ _ _ (by omega)
    have h2 : (slice buf 0 (n - (size - start))).length = n - (size - start) :=
      slice_length _ _ _ (by omega)
    have h3 : (memcpy d 0 (slice buf start (size - start))).length = d.length :=
      memcpy_length _ _ _ (by rw [h1]; omega)
    rw [memcpy_length _ _ _ (by rw [h2, h3]; omega), h3]

/-- The top-up block when it pops: `k` bytes move from the ring buffer to the
end of the scratch buffer. -/
theorem top_up_pop (ctx : tiny_nmea_ctx_t) (hwf : ringbuf_wf ctx.ringbuf)
    (hk : 0 < min_size (TINY_NMEA_MAX_SENTENCE_LEN - ctx.working_buf_len)
      (ringbuf_len ctx.ringbuf)) :
    work_top_up ctx =
      { ctx with
        ringbuf := ringbuf_advance ctx.ringbuf
          (min_size (TINY_NMEA_MAX_SENTENCE_LEN - ctx.working_buf_len) (ringbuf_len ctx.ringbuf))
        working_buf := ctx.working_buf.take ctx.working_buf_len ++
          ringbuf_copy_out (ctx.working_buf.drop ctx.working_buf_len) ctx.ringbuf.buf
            ctx.ringbuf.size ctx.ringbuf.tail
            (min_size (TINY_NMEA_MAX_SENTENCE_LEN - ctx.working_buf_len)
              (ringbuf_len ctx.ringbuf))
        working_buf_len := ctx.working_buf_len +
          min_size (TINY_NMEA_MAX_SENTENCE_LEN - ctx.working_buf_len)
            (ringbuf_len ctx.ringbuf) } := by
  have hmin : min (min_size (TINY_NMEA_MAX_SENTENCE_LEN - ctx.working_buf_len)
      (ringbuf_len ctx.ringbuf)) (ringbuf_len ctx.ringbuf) =
      min_size (TINY_NMEA_MAX_SENTENCE_LEN - ctx.working_buf_len) (ringbuf_len ctx.ringbuf) := by
    unfold min_size
    split <;> omega
  have hne : ¬ min_size (TINY_NMEA_MAX_SENTENCE_LEN - ctx.working_buf_len)
      (ringbuf_len ctx.ringbuf) = 0 := by omega
  unfold work_top_up
  simp only [hk, if_true, pop_eq _ _ _ hwf, hmin, hne, if_false, Option.getD_some]

theorem activate_topped (ctx : tiny_nmea_ctx_t) (hwf : ringbuf_wf ctx.ringbuf)
    (hwl : ctx.working_buf.length = TINY_NMEA_WORKING_BUF_LEN)
    (hl : ctx.working_buf_len ≤ TINY_NMEA_MAX_SENTENCE_LEN)
    (hno : ctx.working_buf_len < TINY_NMEA_MAX_SENTENCE_LEN ∨ ctx.waiting_for_data = false) :
    topped ctx (activate ctx) := by
  unfold TINY_NMEA_WORKING_BUF_LEN at hwl
  have hlt := len_lt_size ctx.ringbuf hwf
  obtain ⟨w1, w2, w3, w4⟩ := hwf
  by_cases hk : 0 < min_size (TINY_NMEA_MAX_SENTENCE_LEN - ctx.working_buf_len)
      (ringbuf_len ctx.ringbuf)
  · unfold activate
    rw [top_up_pop ctx ⟨w1, w2, w3, w4⟩ hk]
    generalize hkk : min_size (TINY_NMEA_MAX_SENTENCE_LEN - ctx.working_buf_len)
      (ringbuf_len ctx.ringbuf) = k at hk
    have hk1 : k ≤ ringbuf_len ctx.ringbuf := by
      rw [← hkk]; unfold min_size; split <;> omega
    have hk2 : k ≤ TINY_NMEA_MAX_SENTENCE_LEN - ctx.working_buf_len := by
      rw [← hkk]; unfold min_size; split <;> omega
    have hk3 : k = ringbuf_len ctx.ringbuf ∨
        k = TINY_NMEA_MAX_SENTENCE_LEN - ctx.working_buf_len := by
      rw [← hkk]; unfold min_size; split
      · exact Or.inr rfl
      · exact Or.inl rfl
    unfold TINY_NMEA_MAX_SENTENCE_LEN at *
    have hcl : (ringbuf_copy_out (ctx.working_buf.drop ctx.working_buf_len) ctx.ringbuf.buf
        ctx.ringbuf.size ctx.ringbuf.tail k).length = 128 - ctx.working_buf_len := by
      rw [copy_out_length _ _ _ _ _ w2 w4 (by omega) (by simp; omega)]
      simp [hwl]
    have hal := advance_len ctx.ringbuf k ⟨w1, w2, w3, w4⟩ hk1
    refine ⟨advance_wf _ _ ⟨w1, w2, w3, w4⟩, rfl, ?_, ?_, ?_, ?_, rfl, rfl, rfl, rfl, rfl, rfl,
      rfl, rfl, rfl, rfl, rfl, rfl⟩
    · simp only [List.length_append, List.length_take, hcl]
      omega
    · show ctx.working_buf_len + k = min 82 (ctx.working_buf_len + ringbuf_len ctx.ringbuf)
      omega
    · show ringbuf_len (ringbuf_advance ctx.ringbuf k) =
        ctx.working_buf_len + ringbuf_len ctx.ringbuf - (ctx.working_buf_len + k)
      omega
    · unfold stream
      simp only
      rw [advance_contents _ _ ⟨w1, w2, w3, w4⟩ hk1]
      have ht : (ctx.working_buf.take ctx.working_buf_len ++
          ringbuf_copy_out (ctx.working_buf.drop ctx.working_buf_len) ctx.ringbuf.buf
            ctx.ringbuf.size ctx.ringbuf.tail k).take (ctx.working_buf_len + k) =
          ctx.working_buf.take ctx.working_buf_len ++
            (ringbuf_contents ctx.ringbuf).take k := by
        rw [List.take_append_eq_append_take, List.take_take]
        simp only [List.length_take]
        rw [show min ctx.working_buf_len ctx.working_buf.length = ctx.working_buf_len by omega,
          show ctx.working_buf_len + k - ctx.working_buf_len = k by omega,
          copy_out_take _ _ _ _ _ w2 w4 (by omega),
          show min (ctx.working_buf_len + k) ctx.working_buf_len = ctx.working_buf_len by omega]
        have := read_eq_contents ctx.ringbuf ⟨w1, w2, w3, w4⟩ 0 k (by omega)
        rw [Nat.add_zero, Nat.mod_eq_of_lt w4, List.drop_zero] at this
        rw [this]
      rw [ht, List.append_assoc, List.take_append_drop]
  · have hk0 : min_size (TINY_NMEA_MAX_SENTENCE_LEN - ctx.working_buf_len)
        (ringbuf_len ctx.ringbuf) = 0 := by omega
    have hid : work_top_up ctx = ctx := by
      unfold work_top_up
      simp only [hk0, lt_irrefl, gt_iff_lt, if_false]
      rw [if_neg]
      rintro ⟨h1, h2⟩
      rcases hno with h | h
      · omega
      · rw [h2] at h; exact Bool.noConfusion h
    unfold activate
    rw [hid]
    have hk3 : ringbuf_len ctx.ringbuf = 0 ∨ ctx.working_buf_len = TINY_NMEA_MAX_SENTENCE_LEN := by
      unfold min_size at hk0
      split at hk0 <;> omega
    unfold TINY_NMEA_MAX_SENTENCE_LEN at *
    refine ⟨⟨w1, w2, w3, w4⟩, rfl, rfl, ?_, ?_, rfl, rfl, rfl, rfl, rfl, rfl, rfl,
      rfl, rfl, rfl, rfl, rfl, rfl⟩
    · show ctx.working_buf_len = min 82 (ctx.working_buf_len + ringbuf_len ctx.ringbuf)
      omega
    · show ringbuf_len ctx.ringbuf =
        ctx.working_buf_len + ringbuf_len ctx.ringbuf - ctx.working_buf_len
      omega

theorem topped_settled {a b : tiny_nmea_ctx_t} (h : topped a b) : settled b := by
  refine ⟨h.waiting, ?_⟩
  have h1 := h.len
  have h2 := h.ring_len
  unfold TINY_NMEA_MAX_SENTENCE_LEN at *
  omega

theorem stream_length (ctx : tiny_nmea_ctx_t)
    (h : ctx.working_buf_len ≤ ctx.working_buf.length) :
    (stream ctx).length = ctx.working_buf_len + ringbuf_len ctx.ringbuf := by
  unfold stream
  simp only [List.length_append, List.length_take, contents_length]
  omega

theorem dispatch_waiting (c : tiny_nmea_ctx_t) :
    work_dispatch { c with waiting_for_data := false } = work_dispatch c := rfl

/-- Moving the top-up block of the next pass in front of the loop changes nothing. -/
theorem activate_runs (ctx : tiny_nmea_ctx_t) (hwf : ringbuf_wf ctx.ringbuf)
    (hwl : ctx.working_buf.length = TINY_NMEA_WORKING_BUF_LEN)
    (hl : ctx.working_buf_len ≤ TINY_NMEA_MAX_SENTENCE_LEN)
    (hno : ctx.working_buf_len < TINY_NMEA_MAX_SENTENCE_LEN ∨ ctx.waiting_for_data = false)
    (hpos : ctx.parse_pos ≤ ctx.working_buf_len)
    (hgo : 0 < ringbuf_len ctx.ringbuf ∨ ctx.waiting_for_data = false) :
    runs_to ctx (activate ctx) 0 := by
  have ht := activate_topped ctx hwf hwl hl hno
  have hs := topped_settled ht
  by_cases hr : ringbuf_len ctx.ringbuf = 0
  · have hw : ctx.waiting_for_data = false := by
      rcases hgo with h | h
      · omega
      · exact h
    have : activate ctx = ctx := by
      unfold activate
      rw [top_up_id ctx hw (Or.inl hr), waiting_false_eq ctx hw]
    rw [this]
    exact runs_to_refl ctx
  · intro f
    cases f with
    | zero => rfl
    | succ f =>
      have hc1 : work_cond ctx = true := by
        unfold work_cond
        have : ringbuf_empty ctx.ringbuf = false := by
          by_contra hc
          have := (empty_iff ctx.ringbuf hwf).1 (by simpa using hc)
          omega
        simp [this]
      have hc2 : work_cond (activate ctx) = true := by
        unfold work_cond
        by_cases hr2 : ringbuf_len (activate ctx).ringbuf = 0
        · have h1 := ht.len
          have h2 := ht.ring_len
          have h3 := ht.pos
          unfold TINY_NMEA_MAX_SENTENCE_LEN at *
          have : (activate ctx).working_buf_len > (activate ctx).parse_pos := by omega
          simp [this]
        · have : ringbuf_empty (activate ctx).ringbuf = false := by
            by_contra hc
            have := (empty_iff (activate ctx).ringbuf ht.wf).1 (by simpa using hc)
            omega
          simp [this]
      have hb1 : tiny_nmea_work_body ctx = work_dispatch (work_top_up ctx) := by
        rw [work_body_eq]
        have : (ringbuf_len ctx.ringbuf == 0) = false := by simpa using hr
        simp only [this, Bool.and_false, Bool.false_eq_true, if_false]
      have hb2 : tiny_nmea_work_body (activate ctx) = work_dispatch (work_top_up ctx) := by
        rw [body_settled _ hs.1 hs.2]
        rfl
      show tiny_nmea_work_loop (f + 1) ctx = tiny_nmea_work_loop (f + 1) (activate ctx)
      rw [work_loop_succ, work_loop_succ, hc1, hc2, hb1, hb2]
      rfl

theorem framing_topped {T : List Nat} {d e : Nat} {ck : Bool} {tk ty : Nat}
    {a b : tiny_nmea_ctx_t} (h : framing T d e ck tk ty a) (ht : topped a b) :
    framing T d e ck tk ty b := by
  have h1 := ht.len
  have h2 := h.len_le
  have h3 := h.pos_le
  have h4 := ht.pos
  unfold TINY_NMEA_MAX_SENTENCE_LEN at *
  refine ⟨ht.wf, ht.wb_length.trans h.wb_length,
    by unfold TINY_NMEA_MAX_SENTENCE_LEN; omega, by omega, ?_, ht.parse_cb.trans h.cb, ?_⟩
  · unfold stream_matches
    rw [ht.stream_eq]
    exact h.agrees
  · have hst := h.stage
    unfold stage_ok at hst ⊢
    rw [ht.state, ht.pos, ht.data_end, ht.line_end, ht.talker, ht.type]
    cases hs : a.parser_state <;> rw [hs] at hst <;> simp only at hst ⊢
    · exact hst
    · exact hst
    · exact hst
    · obtain ⟨q1, q2, q3, q4, q5, q6, q7⟩ := hst
      refine ⟨q1, q2, q3, q4, ?_, q6, q7⟩
      rcases q5 with q | q
      · exact Or.inl q
      · exact Or.inr ⟨q.1, by omega⟩

/-- The call `tiny_nmea_feed` when the ring buffer has room for all of `data`. -/
theorem feed_fits (ctx : tiny_nmea_ctx_t) (data : List Nat) (hwf : ringbuf_wf ctx.ringbuf)
    (hfit : data.length ≤ ringbuf_free ctx.ringbuf) :
    tiny_nmea_feed ctx data =
      (TINY_NMEA_OK, { ctx with ringbuf := ringbuf_write ctx.ringbuf data }) := by
  unfold tiny_nmea_feed
  simp only [push_drop_eq _ _ hwf, List.take_of_length_le hfit, min_eq_left hfit, if_true]

theorem write_size (rb : ringbuf_t) (data : List Nat) :
    (ringbuf_write rb data).size = rb.size := rfl

theorem stream_feed (ctx : tiny_nmea_ctx_t) (data : List Nat) (hwf : ringbuf_wf ctx.ringbuf)
    (hfit : data.length ≤ ringbuf_free ctx.ringbuf) :
    stream { ctx with ringbuf := ringbuf_write ctx.ringbuf data } = stream ctx ++ data := by
  unfold stream
  simp only [write_contents _ _ hwf hfit, List.append_assoc]

theorem getD_append_right' (a b : List Nat) (i : Nat) (h : a.length ≤ i) :
    (a ++ b).getD i 0 = b.getD (i - a.length) 0 := by
  simp only [List.getD_eq_getElem?_getD]
  rw [List.getElem?_append_right h]

theorem getD_drop' (l : List Nat) (n i : Nat) : (l.drop n).getD i 0 = l.getD (n + i) 0 := by
  simp only [List.getD_eq_getElem?_getD, List.getElem?_drop]

/-- A sentence whose line end is in the scratch buffer, with nothing but the
sentence in the scratch buffer and nothing in the ring buffer, is finished and
the loop ends with an empty scratch buffer. -/
theorem loop_finish (a : tiny_nmea_ctx_t) (T : List Nat) (d e : Nat) (ck : Bool)
    (tk ty v : Nat) (good : Bool) (rec : tiny_nmea_type_t)
    (hf : sentence_frame T d e ck tk ty v) (hfr : framing T d e ck tk ty a)
    (hs : settled a) (hv : verdict good T d ck tk ty v rec)
    (hring : ringbuf_len a.ringbuf = 0) (he : e < a.working_buf_len)
    (hT : a.working_buf_len ≤ T.length) :
    ∃ c, halts_at a c 6 ∧ finished good rec e a c ∧ c.working_buf_len = 0 ∧
      c.waiting_for_data = false := by
  obtain ⟨c, j, hj, hrun, hfin, hw⟩ := (loop_framing a T d e ck tk ty v good rec hf hfr hs hv).2 he
  have hm := framing_matches hfr
  have hlen0 : c.working_buf_len = 0 := by
    unfold finished at hfin
    cases good
    · simp only [Bool.false_eq_true, if_false] at hfin
      exact hfin.len
    · simp only [if_true] at hfin
      obtain ⟨k, hk⟩ := hfin
      have hkl : ¬ k < a.working_buf_len := by
        intro hlt
        have h1 := hk.stop hlt
        rw [hm.2.2 k hlt (by omega)] at h1
        have hkg := hk.k_gt
        rcases hf.term k (by omega) (by omega) with h | h
        · exact h1.1 h
        · exact h1.2.1 h
      rw [hk.len]
      omega
  have hrc : c.ringbuf = a.ringbuf := by
    unfold finished at hfin
    cases good
    · simp only [Bool.false_eq_true, if_false] at hfin
      exact hfin.ringbuf
    · simp only [if_true] at hfin
      obtain ⟨k, hk⟩ := hfin
      exact hk.ringbuf
  refine ⟨c, halts_mono (runs_to_halts hrun (halts_idle c ?_ ?_ ?_)) (by omega), hfin, hlen0, hw⟩
  · rw [hrc]; exact hfr.wf
  · omega
  · rw [hrc]; exact hring

theorem finished_fields {good : Bool} {rec : tiny_nmea_type_t} {e : Nat}
    {a c : tiny_nmea_ctx_t} (h : finished good rec e a c) :
    c.ringbuf = a.ringbuf ∧ c.working_buf.length = a.working_buf.length ∧ c.parse_pos = 0 ∧
    c.parser_state = TINY_NMEA_PARSE_FIND_START ∧ user_done good rec a c := by
  unfold finished at h
  cases good
  · simp only [Bool.false_eq_true, if_false] at h
    exact ⟨h.ringbuf, h.wb_length, h.pos, h.state,
      ⟨h.parse_cb, h.error_cb, by simpa using h.stats, by simpa using h.calls,
        by simpa using h.century⟩⟩
  · simp only [if_true] at h
    obtain ⟨k, h⟩ := h
    exact ⟨h.ringbuf, h.wb_length, h.pos, h.state,
      ⟨h.parse_cb, h.error_cb, by simpa using h.stats, by simpa using h.calls,
        by simpa using h.century⟩⟩

theorem user_done_of_same {good : Bool} {rec : tiny_nmea_type_t}
    {a b c : tiny_nmea_ctx_t} (h : user_same a b) (hd : user_done good rec b c) :
    user_done good rec a c := by
  obtain ⟨h1, h2, h3, h4, h5⟩ := h
  obtain ⟨d1, d2, d3, d4, d5⟩ := hd
  rw [h3] at d3 d4
  rw [h4, h5] at d4
  rw [h5] at d5
  exact ⟨d1.trans h1, d2.trans h2, d3, d4, d5⟩

theorem contents_nil_of_len (rb : ringbuf_t) (h : ringbuf_len rb = 0) :
    ringbuf_contents rb = [] := by
  apply List.eq_nil_of_length_eq_zero
  rw [contents_length, h]

/-- An empty framer frames whatever comes. -/
theorem framing_at_start (T : List Nat) (d e : Nat) (ck : Bool) (tk ty : Nat)
    (c : tiny_nmea_ctx_t) (h : at_start c) (hr : ringbuf_len c.ringbuf = 0)
    (hcb : c.parse_callback = true) : framing T d e ck tk ty c := by
  refine ⟨h.wf, h.wb_length, by rw [h.len]; exact Nat.zero_le _, by rw [h.pos]; exact Nat.zero_le _,
    ?_, hcb, (stage_find_start h.state).2 h.pos⟩
  intro i hi
  unfold stream at hi
  rw [h.len, contents_nil_of_len _ hr] at hi
  simp at hi

/-- One `tiny_nmea_feed` of the next piece `c` of the sentence `T` and one
`tiny_nmea_work`, from a context at rest that holds the bytes of `T` before `c`. -/
theorem chunk_step (ctx : tiny_nmea_ctx_t) (T : List Nat) (d e : Nat) (ck : Bool)
    (tk ty v : Nat) (good : Bool) (rec : tiny_nmea_type_t) (c R : List Nat)
    (hf : sentence_frame T d e ck tk ty v) (hfr : framing T d e ck tk ty ctx)
    (hv : verdict good T d ck tk ty v rec)
    (hring : ringbuf_len ctx.ringbuf = 0) (hcap : T.length < ctx.ringbuf.size)
    (hne : c ≠ []) (hT : T.drop ctx.working_buf_len = c ++ R) :
    (ctx.working_buf_len + c.length ≤ e →
      ∃ c', halts_at (tiny_nmea_feed ctx c).2 c' 6 ∧ framing T d e ck tk ty c' ∧
        ringbuf_len c'.ringbuf = 0 ∧ c'.ringbuf.size = ctx.ringbuf.size ∧
        c'.working_buf_len = ctx.working_buf_len + c.length ∧ user_same ctx c') ∧
    (e < ctx.working_buf_len + c.length →
      ∃ c', halts_at (tiny_nmea_feed ctx c).2 c' 6 ∧ user_done good rec ctx c' ∧
        at_start c' ∧ ringbuf_len c'.ringbuf = 0 ∧ c'.ringbuf.size = ctx.ringbuf.size) := by
  have hTl := hf.len_le
  have hwl := hfr.wb_length
  have hl82 := hfr.len_le
  unfold TINY_NMEA_MAX_SENTENCE_LEN at hTl hl82
  unfold TINY_NMEA_WORKING_BUF_LEN at hwl
  have hcl : ctx.working_buf_len + c.length + R.length = T.length ∧
      ctx.working_buf_len ≤ T.length := by
    have := congrArg List.length hT
    simp only [List.length_drop, List.length_append] at this
    have hc : 0 < c.length := List.length_pos.2 hne
    omega
  have hc0 : 0 < c.length := List.length_pos.2 hne
  have hfree := len_add_free ctx.ringbuf hfr.wf
  have hfit : c.length ≤ ringbuf_free ctx.ringbuf := by omega
  rw [feed_fits ctx c hfr.wf hfit]
  -- the context after the feed still frames `T`
  have hfr1 : framing T d e ck tk ty { ctx with ringbuf := ringbuf_write ctx.ringbuf c } := by
    refine ⟨write_wf _ _ hfr.wf hfit, hfr.wb_length, hfr.len_le, hfr.pos_le, ?_, hfr.cb,
      hfr.stage⟩
    intro i hi hiT
    rw [stream_feed ctx c hfr.wf hfit] at hi ⊢
    have hsl := stream_length ctx (by omega)
    by_cases hlt : i < (stream ctx).length
    · rw [getD_append_left' _ _ _ hlt]
      exact hfr.agrees i hlt hiT
    · rw [getD_append_right' _ _ _ (by omega), hsl, hring, Nat.add_zero]
      have h1 : (T.drop ctx.working_buf_len).getD (i - ctx.working_buf_len) 0 =
          c.getD (i - ctx.working_buf_len) 0 := by
        rw [hT, getD_append_left' _ _ _ _]
        simp only [List.length_append] at hi
        omega
      rw [← h1, getD_drop']
      congr 1
      omega
  have hwlen : ringbuf_len (ringbuf_write ctx.ringbuf c) = c.length := by
    rw [write_len _ _ hfr.wf hfit, hring, Nat.zero_add]
  have htop := activate_topped { ctx with ringbuf := ringbuf_write ctx.ringbuf c } hfr1.wf
    hfr1.wb_length hfr1.len_le (Or.inl (by
      show ctx.working_buf_len < TINY_NMEA_MAX_SENTENCE_LEN
      unfold TINY_NMEA_MAX_SENTENCE_LEN; omega))
  have hrun := activate_runs { ctx with ringbuf := ringbuf_write ctx.ringbuf c } hfr1.wf
    hfr1.wb_length hfr1.len_le (Or.inl (by
      show ctx.working_buf_len < TINY_NMEA_MAX_SENTENCE_LEN
      unfold TINY_NMEA_MAX_SENTENCE_LEN; omega)) hfr1.pos_le (Or.inl (by
      show 0 < ringbuf_len (ringbuf_write ctx.ringbuf c)
      omega))
  generalize activate { ctx with ringbuf := ringbuf_write ctx.ringbuf c } = a at htop hrun
  have hfra := framing_topped hfr1 htop
  have hsa := topped_settled htop
  have hal : a.working_buf_len = ctx.working_buf_len + c.length := by
    have := htop.len
    unfold TINY_NMEA_MAX_SENTENCE_LEN at this
    simp only [hwlen] at this
    omega
  have har : ringbuf_len a.ringbuf = 0 := by
    have := htop.ring_len
    simp only [hwlen] at this
    omega
  have hasz : a.ringbuf.size = ctx.ringbuf.size := htop.size
  have hus : user_same ctx a := ⟨htop.parse_cb, htop.error_cb, htop.stats, htop.calls,
    htop.century⟩
  constructor
  · intro hle
    obtain ⟨c', h1, h2, h3⟩ :=
      (loop_framing a T d e ck tk ty v good rec hf hfra hsa hv).1 (by omega)
    refine ⟨c', runs_to_halts hrun h1, h2, ?_, ?_, ?_, ?_⟩
    · rw [h3.ringbuf]; exact har
    · rw [h3.ringbuf]; exact hasz
    · rw [h3.working_buf_len]; exact hal
    · exact ⟨h3.parse_cb.trans hus.parse_cb, h3.error_cb.trans hus.error_cb,
        h3.stats.trans hus.stats, h3.calls.trans hus.calls, h3.century.trans hus.century⟩
  · intro hlt
    obtain ⟨c', h1, h2, h3, h4⟩ := loop_finish a T d e ck tk ty v good rec hf hfra hsa hv har
      (by omega) (by omega)
    obtain ⟨f1, f2, f3, f4, f5⟩ := finished_fields h2
    refine ⟨c', runs_to_halts hrun h1, user_done_of_same hus f5, ?_, ?_, ?_⟩
    · exact ⟨by rw [f1]; exact hfra.wf, f2.trans hfra.wb_length, h3, f3, f4, h4⟩
    · rw [f1]; exact har
    · rw [f1]; exact hasz

theorem earliest_start_some (buf : List Nat) (off n e : Nat) (h : off + n ≤ buf.length)
    (h1 : off ≤ e) (h2 : e < off + n) (h3 : buf.getD e 0 = 36 ∨ buf.getD e 0 = 33)
    (h4 : ∀ j, off ≤ j → j < e → buf.getD j 0 ≠ 36 ∧ buf.getD j 0 ≠ 33) :
    earliest_ptr (memchr buf off 36 n) (memchr buf off 33 n) = some e := by
  rcases h3 with h3 | h3
  · have hcr : memchr buf off 36 n = some e :=
      memchr_eq_some _ _ _ _ _ h h1 h2 h3 (fun j a b => (h4 j a b).1)
    rw [hcr]
    cases hlf : memchr buf off 33 n with
    | none => rfl
    | some l =>
      obtain ⟨a1, a2, a3⟩ := memchr_some_spec _ _ _ _ _ h hlf
      have : e < l := by
        by_contra hc
        have hle : l ≤ e := by omega
        rcases Nat.lt_or_eq_of_le hle with hlt | heq
        · exact (h4 l a1 hlt).2 a3
        · rw [heq] at a3; omega
      simp [earliest_ptr, min_ptr, this]
  · have hlf : memchr buf off 33 n = some e :=
      memchr_eq_some _ _ _ _ _ h h1 h2 h3 (fun j a b => (h4 j a b).2)
    rw [hlf]
    cases hcr : memchr buf off 36 n with
    | none => rfl
    | some l =>
      obtain ⟨a1, a2, a3⟩ := memchr_some_spec _ _ _ _ _ h hcr
      have : ¬ l < e := by
        intro hlt
        exact (h4 l a1 hlt).1 a3
      have hne : l ≠ e := by
        intro heq; rw [heq] at a3; omega
      simp [earliest_ptr, min_ptr, this]

theorem earliest_start_none (buf : List Nat) (off n : Nat) (h : off + n ≤ buf.length)
    (h4 : ∀ j, off ≤ j → j < off + n → buf.getD j 0 ≠ 36 ∧ buf.getD j 0 ≠ 33) :
    earliest_ptr (memchr buf off 36 n) (memchr buf off 33 n) = none := by
  rw [memchr_eq_none _ _ _ _ h (fun j a b => (h4 j a b).1),
    memchr_eq_none _ _ _ _ h (fun j a b => (h4 j a b).2)]
  rfl

/-- The state `FIND_START` with no start character in the scratch buffer. -/
theorem find_start_none (ctx : tiny_nmea_ctx_t)
    (hwb : ctx.working_buf_len ≤ ctx.working_buf.length) (hlen : 0 < ctx.working_buf_len)
    (h : ∀ j, j < ctx.working_buf_len →
      ctx.working_buf.getD j 0 ≠ 36 ∧ ctx.working_buf.getD j 0 ≠ 33) :
    fsm_find_start ctx = RESET_TO_START { ctx with has_checksum := false } := by
  unfold fsm_find_start
  have h0 := h 0 hlen
  have hn : ¬ (ctx.working_buf.getD 0 0 = 36 ∨ ctx.working_buf.getD 0 0 = 33) := by
    rintro (q | q)
    · exact h0.1 q
    · exact h0.2 q
  simp only [hn, if_false]
  rw [earliest_start_none _ _ _ (by omega) (fun j _ b => h j (by omega))]

/-- The state `FIND_START` with the first start character at offset `s > 0`. -/
theorem find_start_skip (ctx : tiny_nmea_ctx_t) (s : Nat)
    (hwb : ctx.working_buf_len ≤ ctx.working_buf.length) (hs0 : 0 < s)
    (hs : s < ctx.working_buf_len)
    (h3 : ctx.working_buf.getD s 0 = 36 ∨ ctx.working_buf.getD s 0 = 33)
    (h : ∀ j, j < s → ctx.working_buf.getD j 0 ≠ 36 ∧ ctx.working_buf.getD j 0 ≠ 33) :
    fsm_find_start ctx =
      { discard_bytes { ctx with has_checksum := false } s with
        parse_pos := 1
        computed_checksum := 0
        parser_state := TINY_NMEA_PARSE_FIND_TALKER_AND_TYPE } := by
  unfold fsm_find_start
  have h0 := h 0 hs0
  have hn : ¬ (ctx.working_buf.getD 0 0 = 36 ∨ ctx.working_buf.getD 0 0 = 33) := by
    rintro (q | q)
    · exact h0.1 q
    · exact h0.2 q
  simp only [hn, if_false]
  rw [earliest_start_some _ _ _ s (by omega) (by omega) (by omega) h3 (fun j _ b => h j b)]

theorem append_split (l1 l2 L : List Nat) (h : l1 ++ l2 = L) :
    l1 = L.take l1.length ∧ l2 = L.drop l1.length := by
  subst h
  simp

theorem stream_split (a : tiny_nmea_ctx_t) (L : List Nat) (h : stream a = L)
    (hl : a.working_buf_len ≤ a.working_buf.length) :
    a.working_buf.take a.working_buf_len = L.take a.working_buf_len ∧
    ringbuf_contents a.ringbuf = L.drop a.working_buf_len := by
  unfold stream at h
  have := append_split _ _ _ h
  simp only [List.length_take] at this
  rw [show min a.working_buf_len a.working_buf.length = a.working_buf_len by omega] at this
  exact this

theorem stream_getD (a : tiny_nmea_ctx_t) (i : Nat) (hi : i < a.working_buf_len)
    (hl : a.working_buf_len ≤ a.working_buf.length) :
    a.working_buf.getD i 0 = (stream a).getD i 0 := by
  unfold stream
  rw [getD_append_left' _ _ _ (by simp; omega), getD_take' _ _ _ hi]

theorem slice_eq_drop_take (l : List Nat) (off n : Nat) (h : off + n ≤ l.length) :
    slice l off n = (l.take (off + n)).drop off := by
  apply list_ext_getD
  · rw [slice_length _ _ _ h]
    simp only [List.length_drop, List.length_take]
    omega
  · intro i hi
    rw [slice_length _ _ _ h] at hi
    rw [slice_getD _ _ _ _ hi, getD_drop', getD_take' _ _ _ (by omega)]

/-- The bytes the framer holds after `discard_bytes`. -/
theorem stream_discard (a : tiny_nmea_ctx_t) (s : Nat) (hs : s < a.working_buf_len)
    (hl : a.working_buf_len ≤ a.working_buf.length) :
    stream (discard_bytes a s) = (stream a).drop s := by
  unfold discard_bytes
  rw [if_neg (by omega)]
  unfold stream
  simp only
  have h1 : (slice a.working_buf s (a.working_buf_len - s)).length = a.working_buf_len - s :=
    slice_length _ _ _ (by omega)
  have h2 := memcpy_take_one a.working_buf (slice a.working_buf s (a.working_buf_len - s))
  rw [h1] at h2
  rw [h2, slice_eq_drop_take _ _ _ (by omega), List.drop_append_eq_append_drop]
  simp only [List.length_take]
  rw [show s + (a.working_buf_len - s) = a.working_buf_len by omega,
    show s - min a.working_buf_len a.working_buf.length = 0 by omega, List.drop_zero]

/-- Bytes without a start character in front of the framer are dropped: the
loop comes to a context that holds what follows them. -/
theorem skip_garbage (n : Nat) : ∀ (ctx : tiny_nmea_ctx_t) (G Y : List Nat), G.length ≤ n →
    fresh ctx → ctx.parser_state = TINY_NMEA_PARSE_FIND_START →
    stream ctx = G ++ Y → (∀ i, i < G.length → G.getD i 0 ≠ 36 ∧ G.getD i 0 ≠ 33) →
    (Y = [] ∨ Y.getD 0 0 = 36 ∨ Y.getD 0 0 = 33) →
    ∃ c j, j ≤ (G.length + 81) / 82 ∧ runs_to ctx c j ∧ stream c = Y ∧ fresh c ∧
      user_same ctx c ∧ c.ringbuf.size = ctx.ringbuf.size := by
  induction n with
  | zero =>
    intro ctx G Y hn hfr hst hstr hG hY
    have : G = [] := List.eq_nil_of_length_eq_zero (by omega)
    subst this
    exact ⟨ctx, 0, by omega, runs_to_refl ctx, by simpa using hstr, hfr,
      ⟨rfl, rfl, rfl, rfl, rfl⟩, rfl⟩
  | succ n ih =>
    intro ctx G Y hn hfr hst hstr hG hY
    by_cases hG0 : G.length = 0
    · have : G = [] := List.eq_nil_of_length_eq_zero hG0
      subst this
      exact ⟨ctx, 0, by omega, runs_to_refl ctx, by simpa using hstr, hfr,
        ⟨rfl, rfl, rfl, rfl, rfl⟩, rfl⟩
    have hpos : ctx.parse_pos = 0 := by
      rcases hfr.stage with h | h
      · exact h.2
      · rw [hst] at h; exact absurd h.1 (by decide)
    have hwl := hfr.wb_length
    have hl82 := hfr.len_le
    have htop := activate_topped ctx hfr.wf hfr.wb_length hfr.len_le (Or.inr hfr.waiting)
    have hrun := activate_runs ctx hfr.wf hfr.wb_length hfr.len_le (Or.inr hfr.waiting)
      (by omega) (Or.inr hfr.waiting)
    generalize activate ctx = a at htop hrun
    have hsa := topped_settled htop
    have hsl := stream_length ctx (by rw [hwl]; unfold TINY_NMEA_WORKING_BUF_LEN
                                      unfold TINY_NMEA_MAX_SENTENCE_LEN at hl82; omega)
    have hal := htop.len
    have hawl := htop.wb_length
    have hstra : stream a = G ++ Y := htop.stream_eq.trans hstr
    rw [hstr] at hsl
    simp only [List.length_append] at hsl
    unfold TINY_NMEA_MAX_SENTENCE_LEN at hal hl82
    unfold TINY_NMEA_WORKING_BUF_LEN at hwl
    have hapos : a.parse_pos = 0 := htop.pos.trans hpos
    have hast : a.parser_state = TINY_NMEA_PARSE_FIND_START := htop.state.trans hst
    have hp : a.parse_pos < a.working_buf_len := by omega
    have hstep := runs_next a _ (cond_of_pos_lt a hp) (by rw [dispatch_settled a hsa hp, hast])
    have hget : ∀ i, i < a.working_buf_len → a.working_buf.getD i 0 = (G ++ Y).getD i 0 := by
      intro i hi
      rw [stream_getD a i hi (by omega), hstra]
    by_cases hcase : G.length < a.working_buf_len
    · -- the start character of what follows is in the scratch buffer
      have hYne : Y ≠ [] := by
        intro h
        rw [h] at hsl
        simp at hsl
        omega
      have h3 : a.working_buf.getD G.length 0 = 36 ∨ a.working_buf.getD G.length 0 = 33 := by
        rw [hget _ hcase, getD_append_right' _ _ _ (le_refl _), Nat.sub_self]
        rcases hY with h | h
        · exact absurd h hYne
        · exact h
      have hbefore : ∀ j, j < G.length →
          a.working_buf.getD j 0 ≠ 36 ∧ a.working_buf.getD j 0 ≠ 33 := by
        intro j hj
        rw [hget _ (by omega), getD_append_left' _ _ _ hj]
        exact hG j hj
      rw [find_start_skip a G.length (by omega) (by omega) hcase h3 hbefore] at hstep
      refine ⟨_, 1, by omega, runs_to_trans hrun hstep, ?_, ?_, ?_, ?_⟩
      · have := stream_discard { a with has_checksum := false } G.length hcase (by
          show a.working_buf_len ≤ a.working_buf.length
          omega)
        have hs2 : stream { a with has_checksum := false } = stream a := rfl
        rw [hs2, hstra, List.drop_left] at this
        rw [← this]
        rfl
      · unfold discard_bytes
        rw [if_neg (by show ¬ G.length ≥ a.working_buf_len; omega)]
        refine ⟨htop.wf, ?_, ?_, htop.waiting, Or.inr ⟨rfl, rfl, ?_⟩⟩
        · show (memcpy a.working_buf 0
            (slice a.working_buf G.length (a.working_buf_len - G.length))).length = _
          rw [memcpy_length _ _ _ (by rw [slice_length _ _ _ (by omega)]; omega), hawl]
          exact hfr.wb_length
        · show a.working_buf_len - G.length ≤ TINY_NMEA_MAX_SENTENCE_LEN
          unfold TINY_NMEA_MAX_SENTENCE_LEN
          omega
        · show 1 ≤ a.working_buf_len - G.length
          omega
      · unfold discard_bytes
        rw [if_neg (by show ¬ G.length ≥ a.working_buf_len; omega)]
        exact ⟨htop.parse_cb, htop.error_cb, htop.stats, htop.calls, htop.century⟩
      · unfold discard_bytes
        rw [if_neg (by show ¬ G.length ≥ a.working_buf_len; omega)]
        exact htop.size
    · -- nothing but garbage in the scratch buffer
      have hnone : ∀ j, j < a.working_buf_len →
          a.working_buf.getD j 0 ≠ 36 ∧ a.working_buf.getD j 0 ≠ 33 := by
        intro j hj
        rw [hget _ hj, getD_append_left' _ _ _ (by omega)]
        exact hG j (by omega)
      rw [find_start_none a (by omega) (by omega) hnone] at hstep
      have hsp := stream_split a (G ++ Y) hstra (by omega)
      have hstr1 : stream (RESET_TO_START { a with has_checksum := false }) =
          G.drop a.working_buf_len ++ Y := by
        unfold stream RESET_TO_START RESET_WORKBUF_BYTES
        simp only [List.take_zero, List.nil_append]
        rw [hsp.2, List.drop_append_eq_append_drop]
        rw [show a.working_buf_len - G.length = 0 by omega, List.drop_zero]
      have hfr1 : fresh (RESET_TO_START { a with has_checksum := false }) :=
        ⟨htop.wf, hawl.trans hfr.wb_length, Nat.zero_le _, htop.waiting, Or.inl ⟨rfl, rfl⟩⟩
      obtain ⟨c, j, h1, h2, h3, h4, h5, h6⟩ := ih _ (G.drop a.working_buf_len) Y
        (by simp only [List.length_drop]; omega) hfr1 rfl hstr1
        (by
          intro i hi
          simp only [List.length_drop] at hi
          rw [getD_drop']
          exact hG _ (by omega))
        hY
      simp only [List.length_drop] at h1
      refine ⟨c, j + 1, by omega, runs_to_trans (runs_to_trans hrun hstep) h2, h3, h4, ?_, ?_⟩
      · exact ⟨h5.parse_cb.trans htop.parse_cb, h5.error_cb.trans htop.error_cb,
          h5.stats.trans htop.stats, h5.calls.trans htop.calls, h5.century.trans htop.century⟩
      · exact h6.trans htop.size

/-! ## Feeding sentences in chunks -/

theorem at_start_fresh {c : tiny_nmea_ctx_t} (h : at_start c) : fresh c :=
  ⟨h.wf, h.wb_length, by rw [h.len]; exact Nat.zero_le _, h.waiting, Or.inl ⟨h.state, h.pos⟩⟩

theorem stream_nil (c : tiny_nmea_ctx_t) (h : stream c = [])
    (hl : c.working_buf_len ≤ c.working_buf.length) :
    c.working_buf_len = 0 ∧ ringbuf_len c.ringbuf = 0 := by
  have := stream_length c hl
  rw [h] at this
  simp only [List.length_nil] at this
  omega

theorem fresh_at_start {c : tiny_nmea_ctx_t} (h : fresh c) (hl : c.working_buf_len = 0) :
    at_start c := by
  refine ⟨h.wf, h.wb_length, hl, ?_, ?_, h.waiting⟩
  · rcases h.stage with q | q
    · exact q.2
    · omega
  · rcases h.stage with q | q
    · exact q.1
    · omega

/-- One `tiny_nmea_feed` of bytes without a start character and one
`tiny_nmea_work`, from an empty framer: the bytes are dropped. -/
theorem garbage_step (ctx : tiny_nmea_ctx_t) (G : List Nat) (hs : at_start ctx)
    (hring : ringbuf_len ctx.ringbuf = 0) (hcap : G.length < ctx.ringbuf.size)
    (hG : ∀ i, i < G.length → G.getD i 0 ≠ 36 ∧ G.getD i 0 ≠ 33) :
    ∃ c', halts_at (tiny_nmea_feed ctx G).2 c' ((G.length + 81) / 82 + 1) ∧ user_same ctx c' ∧
      at_start c' ∧ ringbuf_len c'.ringbuf = 0 ∧ c'.ringbuf.size = ctx.ringbuf.size := by
  have hfree := len_add_free ctx.ringbuf hs.wf
  have hfit : G.length ≤ ringbuf_free ctx.ringbuf := by omega
  rw [feed_fits ctx G hs.wf hfit]
  have hstr : stream { ctx with ringbuf := ringbuf_write ctx.ringbuf G } = G ++ [] := by
    rw [stream_feed ctx G hs.wf hfit]
    unfold stream
    rw [hs.len, contents_nil_of_len _ hring]
    simp
  have hfr : fresh { ctx with ringbuf := ringbuf_write ctx.ringbuf G } :=
    ⟨write_wf _ _ hs.wf hfit, hs.wb_length, by show ctx.working_buf_len ≤ _; rw [hs.len]; exact Nat.zero_le _,
      hs.waiting, Or.inl ⟨hs.state, hs.pos⟩⟩
  obtain ⟨c, j, h1, h2, h3, h4, h5, h6⟩ := skip_garbage G.length _ G [] (le_refl _) hfr hs.state
    hstr hG (Or.inl rfl)
  have hwl := h4.wb_length
  have hl82 := h4.len_le
  unfold TINY_NMEA_WORKING_BUF_LEN at hwl
  unfold TINY_NMEA_MAX_SENTENCE_LEN at hl82
  obtain ⟨z1, z2⟩ := stream_nil c h3 (by omega)
  refine ⟨c, halts_mono (runs_to_halts h2 (halts_idle c h4.wf (by omega) z2)) (by omega), ?_,
    fresh_at_start h4 z1, z2, h6⟩
  exact ⟨h5.parse_cb, h5.error_cb, h5.stats, h5.calls, h5.century⟩

theorem user_done_same {good : Bool} {rec : tiny_nmea_type_t}
    {a b c : tiny_nmea_ctx_t} (hd : user_done good rec a b) (h : user_same b c) :
    user_done good rec a c :=
  ⟨h.parse_cb.trans hd.parse_cb, h.error_cb.trans hd.error_cb, h.stats.trans hd.stats,
    h.calls.trans hd.calls, h.century.trans hd.century⟩

theorem user_same_trans {a b c : tiny_nmea_ctx_t} (h1 : user_same a b) (h2 : user_same b c) :
    user_same a c :=
  ⟨h2.parse_cb.trans h1.parse_cb, h2.error_cb.trans h1.error_cb, h2.stats.trans h1.stats,
    h2.calls.trans h1.calls, h2.century.trans h1.century⟩

theorem feed_work_cons (fuel : Nat) (ctx c' : tiny_nmea_ctx_t) (c : List Nat)
    (rest : List (List Nat)) (j : Nat) (h : halts_at (tiny_nmea_feed ctx c).2 c' j)
    (hj : j ≤ fuel) :
    feed_work_chunks fuel ctx (c :: rest) = feed_work_chunks fuel c' rest := by
  rw [feed_work_chunks]
  unfold tiny_nmea_work
  rw [halts_fuel h fuel hj]

/-- Chunks of line-ending bytes fed to an empty framer leave it as it is. -/
theorem trailing_chunks (fuel : Nat) (hfuel : 2 ≤ fuel) (a : tiny_nmea_ctx_t) (good : Bool)
    (rec : tiny_nmea_type_t) :
    ∀ (chunks : List (List Nat)) (ctx : tiny_nmea_ctx_t),
    at_start ctx → ringbuf_len ctx.ringbuf = 0 →
    chunks.flatten.length ≤ 82 → chunks.flatten.length < ctx.ringbuf.size →
    (∀ i, i < chunks.flatten.length →
      chunks.flatten.getD i 0 ≠ 36 ∧ chunks.flatten.getD i 0 ≠ 33) →
    user_done good rec a ctx →
    ∃ ctx', feed_work_chunks fuel ctx chunks = some ctx' ∧ user_done good rec a ctx' ∧
      at_start ctx' ∧ ringbuf_len ctx'.ringbuf = 0 ∧ ctx'.ringbuf.size = ctx.ringbuf.size := by
  intro chunks
  induction chunks with
  | nil =>
    intro ctx hs hr _ _ _ hd
    exact ⟨ctx, rfl, hd, hs, hr, rfl⟩
  | cons c rest ih =>
    intro ctx hs hring h82 hcap hG hd
    simp only [List.flatten_cons, List.length_append] at h82 hcap hG
    obtain ⟨c', h1, h2, h3, h4, h5⟩ := garbage_step ctx c hs hring (by omega) (by
      intro i hi
      have := hG i (by omega)
      rw [getD_append_left' _ _ _ hi] at this
      exact this)
    rw [feed_work_cons fuel ctx c' c rest _ h1 (by omega)]
    obtain ⟨ctx', g1, g2, g3, g4, g5⟩ := ih c' h3 h4 (by omega) (by omega) (by
      intro i hi
      have := hG (c.length + i) (by omega)
      rw [getD_append_right' _ _ _ (by omega), Nat.add_sub_cancel_left] at this
      exact this) (user_done_same hd h2)
    exact ⟨ctx', g1, g2, g3, g4, g5.trans h5⟩

/-- Feeding the rest of the sentence `T` in chunks, with `tiny_nmea_work`
after each, finishes exactly this sentence. -/
theorem framing_chunks (fuel : Nat) (hfuel : 6 ≤ fuel) (a : tiny_nmea_ctx_t) (T : List Nat)
    (d e : Nat) (ck : Bool) (tk ty v : Nat) (good : Bool) (rec : tiny_nmea_type_t)
    (hf : sentence_frame T d e ck tk ty v) (hv : verdict good T d ck tk ty v rec) :
    ∀ (chunks : List (List Nat)) (ctx : tiny_nmea_ctx_t),
    (∀ c, c ∈ chunks → c ≠ []) → framing T d e ck tk ty ctx → ringbuf_len ctx.ringbuf = 0 →
    T.length < ctx.ringbuf.size → ctx.working_buf_len ≤ e →
    T.drop ctx.working_buf_len = chunks.flatten → user_same a ctx →
    ∃ ctx', feed_work_chunks fuel ctx chunks = some ctx' ∧ user_done good rec a ctx' ∧
      at_start ctx' ∧ ringbuf_len ctx'.ringbuf = 0 ∧ ctx'.ringbuf.size = ctx.ringbuf.size := by
  have heT := hf.e_lt
  have hTl := hf.len_le
  unfold TINY_NMEA_MAX_SENTENCE_LEN at hTl
  intro chunks
  induction chunks with
  | nil =>
    intro ctx _ _ _ _ hle hT _
    have := congrArg List.length hT
    simp only [List.length_drop, List.flatten_nil, List.length_nil] at this
    omega
  | cons c rest ih =>
    intro ctx hne hfr hring hcap hle hT hus
    rw [List.flatten_cons] at hT
    have hlen := congrArg List.length hT
    simp only [List.length_drop, List.length_append] at hlen
    have hrest : T.drop (ctx.working_buf_len + c.length) = rest.flatten := by
      rw [← List.drop_drop, hT, List.drop_left]
    obtain ⟨s1, s2⟩ := chunk_step ctx T d e ck tk ty v good rec c rest.flatten hf hfr hv hring
      hcap (hne c (List.mem_cons_self _ _)) hT
    by_cases hcase : ctx.working_buf_len + c.length ≤ e
    · obtain ⟨c', h1, h2, h3, h4, h5, h6⟩ := s1 hcase
      rw [feed_work_cons fuel ctx c' c rest _ h1 hfuel]
      obtain ⟨ctx', g1, g2, g3, g4, g5⟩ := ih c' (fun x hx => hne x (List.mem_cons_of_mem _ hx))
        h2 h3 (by omega) (by omega) (by rw [h5]; exact hrest) (user_same_trans hus h6)
      exact ⟨ctx', g1, g2, g3, g4, g5.trans h4⟩
    · obtain ⟨c', h1, h2, h3, h4, h5⟩ := s2 (by omega)
      rw [feed_work_cons fuel ctx c' c rest _ h1 hfuel]
      have hrl : rest.flatten.length = T.length - (ctx.working_buf_len + c.length) := by
        rw [← hrest, List.length_drop]
      obtain ⟨ctx', g1, g2, g3, g4, g5⟩ := trailing_chunks fuel (by omega) a good rec rest c'
        h3 h4 (by omega) (by omega) (by
          intro i hi
          rw [← hrest, getD_drop']
          rcases hf.term (ctx.working_buf_len + c.length + i) (by omega) (by omega) with q | q
          · rw [q]; exact ⟨by decide, by decide⟩
          · rw [q]; exact ⟨by decide, by decide⟩)
        (user_done_of_same hus h2)
      exact ⟨ctx', g1, g2, g3, g4, g5.trans h5⟩

theorem pp_record_zero (rec : tiny_nmea_type_t) : pp_record 0 rec = rec := by
  unfold pp_record parse_post_process
  split
  · split <;> rfl
  · split
    · rfl
    · rfl

/-- The context that `tiny_nmea_init_callbacks` sets up. -/
theorem init_at_start (mem : tiny_nmea_ctx_t) (buffer : List Nat) (pcb ecb : Bool)
    (h : 0 < buffer.length) :
    at_start (tiny_nmea_init_callbacks mem buffer buffer.length pcb ecb) ∧
    ringbuf_len (tiny_nmea_init_callbacks mem buffer buffer.length pcb ecb).ringbuf = 0 := by
  refine ⟨⟨⟨h, rfl, h, h⟩, ?_, rfl, rfl, rfl, rfl⟩, ?_⟩
  · show (List.replicate TINY_NMEA_WORKING_BUF_LEN 0).length = TINY_NMEA_WORKING_BUF_LEN
    exact List.length_replicate _ _
  · show RINGBUF_COMPUTE_LENGTH _ 0 0 = 0
    unfold RINGBUF_COMPUTE_LENGTH
    simp

/-- Sentences fed whole or in pieces to a freshly initialised parser: the
first sentence `T`, cut into `chunks`. -/
theorem init_chunks (fuel : Nat) (hfuel : 6 ≤ fuel) (mem : tiny_nmea_ctx_t) (buffer : List Nat)
    (ecb : Bool) (T : List Nat) (d e : Nat) (ck : Bool) (tk ty v : Nat) (good : Bool)
    (rec : tiny_nmea_type_t) (chunks : List (List Nat))
    (hf : sentence_frame T d e ck tk ty v) (hv : verdict good T d ck tk ty v rec)
    (hcap : T.length < buffer.length) (hne : ∀ c, c ∈ chunks → c ≠ [])
    (hsplit : chunks.flatten = T) :
    ∃ ctx, feed_work_chunks fuel (tiny_nmea_init_callbacks mem buffer buffer.length true ecb)
        chunks = some ctx ∧
      user_done good rec (tiny_nmea_init_callbacks mem buffer buffer.length true ecb) ctx := by
  obtain ⟨h1, h2⟩ := init_at_start mem buffer true ecb (by omega)
  obtain ⟨ctx, g1, g2, _⟩ := framing_chunks fuel hfuel
    (tiny_nmea_init_callbacks mem buffer buffer.length true ecb) T d e ck tk ty v good rec hf hv
    chunks (tiny_nmea_init_callbacks mem buffer buffer.length true ecb) hne
    (framing_at_start T d e ck tk ty _ h1 h2 rfl) h2 hcap (Nat.zero_le _)
    (by rw [hsplit]; rfl) ⟨rfl, rfl, rfl, rfl, rfl⟩
  exact ⟨ctx, g1, g2⟩

/-- The bytes the framer holds after a sentence is completed. -/
theorem completed_stream {rec : tiny_nmea_type_t} {a c : tiny_nmea_ctx_t} {e k : Nat}
    (h : completed rec a c e k) (hl : a.working_buf_len ≤ a.working_buf.length) :
    stream c = (stream a).drop k := by
  have hk := h.k_le
  unfold stream
  rw [h.ringbuf, h.len, List.drop_append_eq_append_drop]
  simp only [List.length_take]
  rw [show k - min a.working_buf_len a.working_buf.length = 0 by omega, List.drop_zero]
  congr 1
  apply list_ext_getD
  · simp only [List.length_take, List.length_drop, h.wb_length]
    omega
  · intro i hi
    simp only [List.length_take, h.wb_length] at hi
    rw [getD_take' _ _ _ (by omega), getD_drop', getD_take' _ _ _ (by omega)]
    exact h.shift i (by omega)

theorem framing_fresh (T : List Nat) (d e : Nat) (ck : Bool) (tk ty : Nat)
    (c : tiny_nmea_ctx_t) (h : fresh c) (hcb : c.parse_callback = true)
    (hm : stream_matches c T) : framing T d e ck tk ty c := by
  refine ⟨h.wf, h.wb_length, h.len_le, ?_, hm, hcb, ?_⟩
  · rcases h.stage with q | q
    · rw [q.2]; exact Nat.zero_le _
    · rw [q.2.1]; exact q.2.2
  · rcases h.stage with q | q
    · exact (stage_find_start q.1).2 q.2
    · exact (stage_find_talker q.1).2 q.2.1

/-- An acceptable sentence at the front of the bytes the framer holds is
completed within five passes, whatever follows it. -/
theorem front_sentence (ctx : tiny_nmea_ctx_t) (T X : List Nat) (d e : Nat) (ck : Bool)
    (tk ty v : Nat) (rec : tiny_nmea_type_t)
    (hf : sentence_frame T d e ck tk ty v) (hacc : accepted T d ck tk ty v rec)
    (hfr : fresh ctx) (hcb : ctx.parse_callback = true) (hstr : stream ctx = T ++ X) :
    ∃ c k j, j ≤ 5 ∧ runs_to ctx c j ∧ user_done true rec ctx c ∧ fresh c ∧
      c.parser_state = TINY_NMEA_PARSE_FIND_START ∧ c.ringbuf.size = ctx.ringbuf.size ∧
      stream c = (T ++ X).drop k ∧ T.length ≤ k ∧ k ≤ (T ++ X).length ∧
      (∀ i, T.length ≤ i → i < k →
        ((T ++ X).getD i 0 = 13 ∨ (T ++ X).getD i 0 = 10 ∨ (T ++ X).getD i 0 = 0)) := by
  have heT := hf.e_lt
  have hTl := hf.len_le
  have hwl := hfr.wb_length
  have hl82 := hfr.len_le
  have hfr0 : framing T d e ck tk ty ctx := by
    apply framing_fresh T d e ck tk ty ctx hfr hcb
    intro i _ hi
    rw [hstr, getD_append_left' _ _ _ hi]
  have hpos := hfr0.pos_le
  have htop := activate_topped ctx hfr.wf hfr.wb_length hfr.len_le (Or.inr hfr.waiting)
  have hrun := activate_runs ctx hfr.wf hfr.wb_length hfr.len_le (Or.inr hfr.waiting)
    hpos (Or.inr hfr.waiting)
  generalize activate ctx = a at htop hrun
  have hfra := framing_topped hfr0 htop
  have hsa := topped_settled htop
  have hsl := stream_length ctx (by
    rw [hwl]; unfold TINY_NMEA_WORKING_BUF_LEN
    unfold TINY_NMEA_MAX_SENTENCE_LEN at hl82; omega)
  have hal := htop.len
  have hawl := htop.wb_length
  have hstra : stream a = T ++ X := htop.stream_eq.trans hstr
  rw [hstr] at hsl
  simp only [List.length_append] at hsl
  unfold TINY_NMEA_MAX_SENTENCE_LEN at hal hl82 hTl
  unfold TINY_NMEA_WORKING_BUF_LEN at hwl
  have hea : e < a.working_buf_len := by omega
  obtain ⟨c, j, hj, hr2, hfin, hw⟩ :=
    (loop_framing a T d e ck tk ty v true rec hf hfra hsa (by unfold verdict; simpa using hacc)).2
      hea
  obtain ⟨f1, f2, f3, f4, f5⟩ := finished_fields hfin
  unfold finished at hfin
  simp only [if_true] at hfin
  obtain ⟨k, hk⟩ := hfin
  have hget : ∀ i, i < a.working_buf_len → a.working_buf.getD i 0 = (T ++ X).getD i 0 := by
    intro i hi
    rw [stream_getD a i hi (by omega), hstra]
  have hkT : T.length ≤ k := by
    by_contra hc
    have hlt : k < a.working_buf_len := by omega
    have h1 := hk.stop hlt
    rw [hget k hlt, getD_append_left' _ _ _ (by omega)] at h1
    have hkg := hk.k_gt
    rcases hf.term k (by omega) (by omega) with h | h
    · exact h1.1 h
    · exact h1.2.1 h
  have hkl := hk.k_le
  have hkg := hk.k_gt
  refine ⟨c, k, j, hj, runs_to_trans hrun hr2, ?_, ?_, f4, f1 ▸ htop.size, ?_, hkT, ?_, ?_⟩
  · exact user_done_of_same ⟨htop.parse_cb, htop.error_cb, htop.stats, htop.calls,
      htop.century⟩ f5
  · refine ⟨f1 ▸ htop.wf, f2.trans (hawl.trans hfr.wb_length), ?_, hw, Or.inl ⟨f4, f3⟩⟩
    rw [hk.len]
    unfold TINY_NMEA_MAX_SENTENCE_LEN
    omega
  · rw [completed_stream hk (by omega), hstra]
  · simp only [List.length_append]
    omega
  · intro i hi1 hi2
    have := hk.skipped i (by omega) hi2
    rw [hget i (by omega)] at this
    exact this

/-- Two acceptable sentences with bytes free of start characters between
them, fed in one piece to an empty framer: both are completed, in order. -/
theorem two_sentences_run (ctx : tiny_nmea_ctx_t) (A G B : List Nat)
    (dA eA : Nat) (ckA : Bool) (tkA tyA vA : Nat) (recA : tiny_nmea_type_t)
    (dB eB : Nat) (ckB : Bool) (tkB tyB vB : Nat) (recB : tiny_nmea_type_t)
    (hfA : sentence_frame A dA eA ckA tkA tyA vA) (haA : accepted A dA ckA tkA tyA vA recA)
    (hfB : sentence_frame B dB eB ckB tkB tyB vB) (haB : accepted B dB ckB tkB tyB vB recB)
    (hG : ∀ i, i < G.length → G.getD i 0 ≠ 36 ∧ G.getD i 0 ≠ 33)
    (hs : at_start ctx) (hring : ringbuf_len ctx.ringbuf = 0) (hcb : ctx.parse_callback = true)
    (hcap : (A ++ G ++ B).length < ctx.ringbuf.size) :
    ∃ c1 c3, halts_at (tiny_nmea_feed ctx (A ++ G ++ B)).2 c3 ((G.length + 81) / 82 + 11) ∧
      user_done true recA ctx c1 ∧ user_done true recB c1 c3 := by
  have hfree := len_add_free ctx.ringbuf hs.wf
  have hfit : (A ++ G ++ B).length ≤ ringbuf_free ctx.ringbuf := by omega
  rw [feed_fits ctx _ hs.wf hfit]
  have hstr : stream { ctx with ringbuf := ringbuf_write ctx.ringbuf (A ++ G ++ B) } =
      A ++ (G ++ B) := by
    rw [stream_feed ctx _ hs.wf hfit]
    unfold stream
    rw [hs.len, contents_nil_of_len _ hring]
    simp
  have hfr : fresh { ctx with ringbuf := ringbuf_write ctx.ringbuf (A ++ G ++ B) } :=
    ⟨write_wf _ _ hs.wf hfit, hs.wb_length,
      by show ctx.working_buf_len ≤ _; rw [hs.len]; exact Nat.zero_le _,
      hs.waiting, Or.inl ⟨hs.state, hs.pos⟩⟩
  obtain ⟨c1, k, j1, hj1, hr1, hd1, hfr1, hst1, _, hstr1, hk1, hk2, hk3⟩ :=
    front_sentence _ A (G ++ B) dA eA ckA tkA tyA vA recA hfA haA hfr hcb hstr
  have heB := hfB.e_lt
  have hkG : k ≤ A.length + G.length := by
    by_contra hc
    have := hk3 (A.length + G.length) (by omega) (by omega)
    rw [getD_append_right' _ _ _ (by omega), getD_append_right' _ _ _ (by omega)] at this
    rw [show A.length + G.length - A.length - G.length = 0 by omega] at this
    rcases hfB.start with q | q <;> rw [q] at this <;> omega
  have hstr1' : stream c1 = G.drop (k - A.length) ++ B := by
    rw [hstr1, List.drop_append_eq_append_drop, List.drop_append_eq_append_drop]
    rw [List.drop_of_length_le (by omega : A.length ≤ k)]
    rw [show k - A.length - G.length = 0 by omega, List.drop_zero, List.nil_append]
  obtain ⟨c2, j2, hj2, hr2, hstr2, hfr2, hus2, _⟩ := skip_garbage (G.drop (k - A.length)).length
    c1 (G.drop (k - A.length)) B (le_refl _) hfr1 hst1 hstr1'
    (by
      intro i hi
      simp only [List.length_drop] at hi
      rw [getD_drop']
      exact hG _ (by omega))
    (Or.inr hfB.start)
  simp only [List.length_drop] at hj2
  have hcb2 : c2.parse_callback = true := by
    rw [hus2.parse_cb, hd1.parse_cb]
    exact hcb
  obtain ⟨c3, k3, j3, hj3, hr3, hd3, hfr3, _, _, hstr3, hk4, _, _⟩ :=
    front_sentence c2 B [] dB eB ckB tkB tyB vB recB hfB haB hfr2 hcb2 (by simpa using hstr2)
  have hnil : stream c3 = [] := by
    rw [hstr3]
    apply List.drop_of_length_le
    simp only [List.append_nil]
    exact hk4
  have hwl := hfr3.wb_length
  have hl82 := hfr3.len_le
  unfold TINY_NMEA_WORKING_BUF_LEN at hwl
  unfold TINY_NMEA_MAX_SENTENCE_LEN at hl82
  obtain ⟨z1, z2⟩ := stream_nil c3 hnil (by omega)
  refine ⟨c1, c3, ?_, user_done_of_same (a := ctx) (by exact ⟨rfl, rfl, rfl, rfl, rfl⟩) hd1, ?_⟩
  · exact halts_mono (runs_to_halts hr1 (runs_to_halts hr2 (runs_to_halts hr3
      (halts_idle c3 hfr3.wf (by omega) z2)))) (by omega)
  · exact user_done_of_same hus2 hd3

theorem feed_work_append (fuel : Nat) (l1 l2 : List (List Nat)) :
    ∀ (ctx c1 : tiny_nmea_ctx_t), feed_work_chunks fuel ctx l1 = some c1 →
    feed_work_chunks fuel ctx (l1 ++ l2) = feed_work_chunks fuel c1 l2 := by
  induction l1 with
  | nil =>
    intro ctx c1 h
    rw [feed_work_chunks] at h
    injection h with h
    rw [List.nil_append, h]
  | cons c rest ih =>
    intro ctx c1 h
    rw [List.cons_append, feed_work_chunks]
    rw [feed_work_chunks] at h
    cases hw : tiny_nmea_work fuel (tiny_nmea_feed ctx c).2 with
    | none => rw [hw] at h; exact Option.noConfusion h
    | some c' =>
      rw [hw] at h
      simp only at h ⊢
      exact ih c' c1 h

/-- Sentences fed one after the other, each in chunks of its own and drained
before the next: every good one is counted as parsed and every one with a
wrong checksum as a checksum error. -/
theorem sentences_run (fuel : Nat) (hfuel : 6 ≤ fuel) :
    ∀ (parts : List (List (List Nat) × Bool)) (ctx : tiny_nmea_ctx_t),
    at_start ctx → ringbuf_len ctx.ringbuf = 0 → ctx.parse_callback = true →
    ctx.stats.sentences_parsed < 4294967296 → ctx.stats.checksum_errors < 4294967296 →
    (∀ p, p ∈ parts → (∀ c, c ∈ p.1 → c ≠ []) ∧ p.1.flatten.length < ctx.ringbuf.size ∧
      (if p.2 then well_formed p.1.flatten else wrong_checksum p.1.flatten)) →
    ∃ ctx', feed_work_chunks fuel ctx (parts.map Prod.fst).flatten = some ctx' ∧
      ctx'.stats.sentences_parsed =
        (ctx.stats.sentences_parsed + (parts.filter fun p => p.2).length) % 4294967296 ∧
      ctx'.stats.checksum_errors =
        (ctx.stats.checksum_errors + (parts.filter fun p => !p.2).length) % 4294967296 ∧
      ctx'.stats.parse_errors = ctx.stats.parse_errors ∧
      ctx'.stats.buffer_overflows = ctx.stats.buffer_overflows := by
  intro parts
  induction parts with
  | nil =>
    intro ctx _ _ _ h1 h2 _
    refine ⟨ctx, rfl, ?_, ?_, rfl, rfl⟩
    · simp only [List.filter_nil, List.length_nil, Nat.add_zero]
      exact (Nat.mod_eq_of_lt h1).symm
    · simp only [List.filter_nil, List.length_nil, Nat.add_zero]
      exact (Nat.mod_eq_of_lt h2).symm
  | cons p rest ih =>
    intro ctx hs hring hcb hb1 hb2 hall
    obtain ⟨hne, hcap, hp⟩ := hall p (List.mem_cons_self _ _)
    have hstep : ∃ c1 rec, feed_work_chunks fuel ctx p.1 = some c1 ∧
        user_done p.2 rec ctx c1 ∧ at_start c1 ∧ ringbuf_len c1.ringbuf = 0 ∧
        c1.ringbuf.size = ctx.ringbuf.size := by
      cases hg : p.2
      · rw [hg] at hp
        simp only [Bool.false_eq_true, if_false] at hp
        obtain ⟨d, e, tk, ty, v, hf, hc⟩ := hp
        obtain ⟨c1, g1, g2, g3, g4, g5⟩ := framing_chunks fuel hfuel ctx p.1.flatten d e true
          tk ty v false { } hf (by unfold verdict; simpa using hc) p.1 ctx hne
          (framing_at_start _ d e true tk ty ctx hs hring hcb) hring hcap
          (by rw [hs.len]; exact Nat.zero_le _) (by rw [hs.len]; rfl) ⟨rfl, rfl, rfl, rfl, rfl⟩
        exact ⟨c1, _, g1, g2, g3, g4, g5⟩
      · rw [hg] at hp
        simp only [if_true] at hp
        obtain ⟨d, e, ck, tk, ty, v, rec, hf, hc⟩ := hp
        obtain ⟨c1, g1, g2, g3, g4, g5⟩ := framing_chunks fuel hfuel ctx p.1.flatten d e ck
          tk ty v true rec hf (by unfold verdict; simpa using hc) p.1 ctx hne
          (framing_at_start _ d e ck tk ty ctx hs hring hcb) hring hcap
          (by rw [hs.len]; exact Nat.zero_le _) (by rw [hs.len]; rfl) ⟨rfl, rfl, rfl, rfl, rfl⟩
        exact ⟨c1, _, g1, g2, g3, g4, g5⟩
    obtain ⟨c1, rec, g1, g2, g3, g4, g5⟩ := hstep
    have hst := g2.stats
    have hb1' : c1.stats.sentences_parsed < 4294967296 := by
      rw [hst]
      cases p.2
      · exact hb1
      · show incr32 _ < _
        unfold incr32 to_uint32
        omega
    have hb2' : c1.stats.checksum_errors < 4294967296 := by
      rw [hst]
      cases p.2
      · show incr32 _ < _
        unfold incr32 to_uint32
        omega
      · exact hb2
    obtain ⟨ctx', q1, q2, q3, q4, q5⟩ := ih c1 g3 g4 (g2.parse_cb.trans hcb) hb1' hb2'
      (fun x hx => by
        rw [g5]
        exact hall x (List.mem_cons_of_mem _ hx))
    refine ⟨ctx', ?_, ?_, ?_, ?_, ?_⟩
    · rw [List.map_cons, List.flatten_cons, feed_work_append fuel _ _ ctx c1 g1]
      exact q1
    · rw [q2, hst, List.filter_cons]
      cases p.2
      · simp only [Bool.false_eq_true, if_false]
      · simp only [if_true, List.length_cons]
        show (incr32 _ + _) % _ = _
        unfold incr32 to_uint32
        omega
    · rw [q3, hst, List.filter_cons]
      cases p.2
      · simp only [Bool.not_false, if_true, List.length_cons]
        show (incr32 _ + _) % _ = _
        unfold incr32 to_uint32
        omega
      · simp only [Bool.not_true, Bool.false_eq_true, if_false, if_true]
    · rw [q4, hst]
      cases p.2 <;> rfl
    · rw [q5, hst]
      cases p.2 <;> rfl

/-! ## Sample sentences and the freshly initialised parser -/


theorem sample_gga_frame : sentence_frame sample_gga 62 65 true 1 2 71 :=
  ⟨⟨by decide, by decide, by decide, by decide, by decide, by decide, by decide, by decide,
    by decide, by decide, by decide, by decide, by decide⟩, by decide⟩

theorem sample_gga_accepted : accepted sample_gga 62 true 1 2 71 sample_gga_record :=
  ⟨fun _ => by decide, by decide⟩

theorem sample_gsa_frame : sentence_frame sample_gsa 44 47 true 1 4 57 :=
  ⟨⟨by decide, by decide, by decide, by decide, by decide, by decide, by decide, by decide,
    by decide, by decide, by decide, by decide, by decide⟩, by decide⟩

theorem sample_gsa_accepted : accepted sample_gsa 44 true 1 4 57 sample_gsa_record :=
  ⟨fun _ => by decide, by decide⟩

theorem sample_rmc_bad_frame : sentence_frame sample_rmc_bad 65 68 true 1 1 255 :=
  ⟨⟨by decide, by decide, by decide, by decide, by decide, by decide, by decide, by decide,
    by decide, by decide, by decide, by decide, by decide⟩, by decide⟩

theorem sample_rmc_bad_corrupted : corrupted sample_rmc_bad 65 true 255 :=
  ⟨rfl, by decide⟩

theorem sample_rmc_long_shape : sentence_shape sample_rmc_long 90 93 true 1 1 75 :=
  ⟨by decide, by decide, by decide, by decide, by decide, by decide, by decide, by decide,
    by decide, by decide, by decide, by decide, by decide⟩

theorem sample_rmc_long_accepted :
    accepted sample_rmc_long 90 true 1 1 75 sample_rmc_long_record :=
  ⟨fun _ => by decide, by decide⟩

/-- What the user observes after one good sentence on a fresh parser. -/
theorem init_user_done_good (mem : tiny_nmea_ctx_t) (buffer : List Nat) (n : Nat) (ecb : Bool)
    (rec : tiny_nmea_type_t) (c : tiny_nmea_ctx_t)
    (h : user_done true rec (tiny_nmea_init_callbacks mem buffer n true ecb) c) :
    c.calls = [tiny_nmea_callback_event.parse rec
      { sentences_parsed := 1, checksum_errors := 0, parse_errors := 0, buffer_overflows := 0 }] ∧
    c.stats =
      { sentences_parsed := 1, checksum_errors := 0, parse_errors := 0, buffer_overflows := 0 } ∧
    c.zda_century = pp_century 0 rec := by
  refine ⟨?_, ?_, ?_⟩
  · rw [h.calls]
    show [] ++ [tiny_nmea_callback_event.parse (pp_record 0 rec) _] = _
    rw [pp_record_zero]
    rfl
  · rw [h.stats]
    rfl
  · rw [h.century]
    rfl

/-- What the user observes after one sentence with a wrong checksum on a fresh parser. -/
theorem init_user_done_bad (mem : tiny_nmea_ctx_t) (buffer : List Nat) (n : Nat) (ecb : Bool)
    (rec : tiny_nmea_type_t) (c : tiny_nmea_ctx_t)
    (h : user_done false rec (tiny_nmea_init_callbacks mem buffer n true ecb) c) :
    c.calls = [] ∧
    c.stats =
      { sentences_parsed := 0, checksum_errors := 1, parse_errors := 0, buffer_overflows := 0 } := by
  refine ⟨?_, ?_⟩
  · rw [h.calls]
    rfl
  · rw [h.stats]
    rfl

theorem feed_work_single (fuel : Nat) (ctx c : tiny_nmea_ctx_t) (T : List Nat)
    (h : feed_work_chunks fuel ctx [T] = some c) :
    tiny_nmea_work fuel (tiny_nmea_feed ctx T).2 = some c := by
  rw [feed_work_chunks] at h
  cases hw : tiny_nmea_work fuel (tiny_nmea_feed ctx T).2 with
  | none => rw [hw] at h; exact Option.noConfusion h
  | some c' =>
    rw [hw] at h
    simp only [feed_work_chunks] at h
    exact h

/-! ## Field decoders: numbers -/

theorem IS_DIGIT_iff (c : Nat) (h : c < 256) : IS_DIGIT c = true ↔ is_ascii_digit c := by
  unfold IS_DIGIT is_ascii_digit
  simp only [decide_eq_true_eq]
  omega

theorem is_ndigits_all (f : List Nat) (hb : ∀ c, c ∈ f → c < 256) :
    is_ndigits f f.length = true ↔ ∀ c, c ∈ f → is_ascii_digit c := by
  unfold is_ndigits
  rw [List.take_length, List.all_eq_true]
  constructor
  · intro h c hc
    exact (IS_DIGIT_iff c (hb c hc)).1 (h c hc)
  · intro h c hc
    exact (IS_DIGIT_iff c (hb c hc)).2 (h c hc)

theorem digits_foldl_ge (ds : List Nat) (v : Nat) :
    v ≤ ds.foldl (fun acc c => acc * 10 + (c - 48)) v := by
  induction ds generalizing v with
  | nil => exact le_refl _
  | cons c cs ih =>
    simp only [List.foldl_cons]
    exact le_trans (by omega) (ih _)

/-- The accumulation loop of `parse_uint` on digits: the value, unless it
exceeds `UINT32_MAX`. -/
theorem parse_uint_loop_spec (ds : List Nat) :
    ∀ val, (∀ c, c ∈ ds → is_ascii_digit c) → val ≤ 4294967295 →
    parse_uint_loop ds val =
      if ds.foldl (fun acc c => acc * 10 + (c - 48)) val ≤ 4294967295 then
        some (ds.foldl (fun acc c => acc * 10 + (c - 48)) val)
      else none := by
  induction ds with
  | nil =>
    intro val _ hv
    simp only [parse_uint_loop, List.foldl_nil, hv, if_true]
  | cons c cs ih =>
    intro val hd hv
    have hc := hd c (List.mem_cons_self _ _)
    unfold is_ascii_digit at hc
    have hdig : to_uint8 (c + 256 - 48) = c - 48 := by
      unfold to_uint8
      omega
    simp only [parse_uint_loop, List.foldl_cons, hdig]
    by_cases ho : WOULD_OVERFLOW_U32 val (c - 48) = true
    · rw [if_pos ho]
      have hgt : val * 10 + (c - 48) > 4294967295 := by
        unfold WOULD_OVERFLOW_U32 UINT32_MAX at ho
        simp only [Bool.or_eq_true, Bool.and_eq_true, decide_eq_true_eq] at ho
        omega
      have := digits_foldl_ge cs (val * 10 + (c - 48))
      rw [if_neg (by omega)]
    · rw [if_neg ho]
      have hle : val * 10 + (c - 48) ≤ 4294967295 := by
        unfold WOULD_OVERFLOW_U32 UINT32_MAX at ho
        simp only [Bool.or_eq_true, Bool.and_eq_true, decide_eq_true_eq] at ho
        omega
      exact ih _ (fun x hx => hd x (List.mem_cons_of_mem _ hx)) hle

/-- The function `parse_uint` on bytes: success exactly on non-empty digit
strings of value at most `UINT32_MAX`, with that value. -/
theorem parse_uint_spec (f : List Nat) (hb : ∀ c, c ∈ f → c < 256) (v : Nat) :
    parse_uint f = some v ↔
      (f ≠ [] ∧ (∀ c, c ∈ f → is_ascii_digit c) ∧ decimal_value f ≤ 4294967295 ∧
        v = decimal_value f) := by
  unfold parse_uint field_empty
  by_cases he : f = []
  · subst he
    simp
  · have hl : (f.length == 0) = false := by
      simpa using he
    simp only [hl, Bool.false_eq_true, if_false]
    by_cases hd : is_ndigits f f.length = true
    · have hall := (is_ndigits_all f hb).1 hd
      simp only [hd, Bool.not_true, Bool.false_eq_true, if_false]
      rw [parse_uint_loop_spec f 0 hall (by omega)]
      unfold decimal_value
      by_cases hv : f.foldl (fun acc c => acc * 10 + (c - 48)) 0 ≤ 4294967295
      · rw [if_pos hv]
        constructor
        · intro h
          injection h with h
          exact ⟨he, hall, hv, h.symm⟩
        · intro h
          rw [h.2.2.2]
      · rw [if_neg hv]
        constructor
        · intro h
          exact Option.noConfusion h
        · intro h
          exact absurd h.2.2.1 hv
    · have hnot : ¬ ∀ c, c ∈ f → is_ascii_digit c := fun h => hd ((is_ndigits_all f hb).2 h)
      have hd' : is_ndigits f f.length = false := by simpa using hd
      simp only [hd', Bool.not_false, if_true]
      constructor
      · intro h
        exact Option.noConfusion h
      · intro h
        exact absurd h.2.1 hnot

/-- The function `parse_int` on bytes: success exactly on an optional sign
followed by digits whose signed value fits `int32_t`, with that value. -/
theorem parse_int_spec (f : List Nat) (hb : ∀ c, c ∈ f → c < 256) (z : Int) :
    parse_int f = some z ↔
      ∃ sign ds, f = sign ++ ds ∧ (sign = [] ∨ sign = [43] ∨ sign = [45]) ∧ ds ≠ [] ∧
        (∀ c, c ∈ ds → is_ascii_digit c) ∧
        z = (if sign = [45] then -(decimal_value ds : Int) else (decimal_value ds : Int)) ∧
        -2147483648 ≤ z ∧ z ≤ 2147483647 := by
  cases f with
  | nil =>
    constructor
    · intro h
      simp [parse_int, field_empty] at h
    · rintro ⟨sign, ds, h1, _, h3, _⟩
      have := congrArg List.length h1
      simp only [List.length_nil, List.length_append] at this
      have : ds = [] := List.eq_nil_of_length_eq_zero (by omega)
      exact absurd this h3
  | cons c t =>
    have hbt : ∀ x, x ∈ t → x < 256 := fun x hx => hb x (List.mem_cons_of_mem _ hx)
    have hhead : (c :: t).headD 0 = c := rfl
    have hne : field_empty (c :: t) = false := rfl
    unfold parse_int
    simp only [hne, Bool.false_eq_true, if_false, hhead, List.tail_cons]
    by_cases h45 : c = 45
    · subst h45
      simp only [beq_self_eq_true, if_true]
      constructor
      · intro h
        cases hp : parse_uint t with
        | none => rw [hp] at h; exact Option.noConfusion h
        | some u =>
          rw [hp] at h
          simp only at h
          obtain ⟨p1, p2, p3, p4⟩ := (parse_uint_spec t hbt u).1 hp
          by_cases hu : u > INT32_MAX + 1
          · rw [if_pos hu] at h; exact Option.noConfusion h
          · rw [if_neg hu] at h
            injection h with h
            unfold INT32_MAX at hu
            refine ⟨[45], t, rfl, Or.inr (Or.inr rfl), p1, p2, ?_, ?_, ?_⟩
            · simp only [if_true]
              rw [← h, ← p4]
              unfold to_int32
              omega
            · rw [← h]; unfold to_int32; omega
            · rw [← h]; unfold to_int32; omega
      · rintro ⟨sign, ds, h1, h2, h3, h4, h5, h6, h7⟩
        have hds : sign = [45] ∧ ds = t := by
          rcases h2 with q | q | q
          · subst q
            simp only [List.nil_append] at h1
            have := h4 45 (by rw [← h1]; exact List.mem_cons_self _ _)
            unfold is_ascii_digit at this
            omega
          · subst q
            simp only [List.singleton_append, List.cons.injEq] at h1
            omega
          · subst q
            simp only [List.singleton_append, List.cons.injEq] at h1
            exact ⟨rfl, h1.2.symm⟩
        obtain ⟨q1, q2⟩ := hds
        subst q1 q2
        simp only [if_true] at h5
        have hp : parse_uint ds = some (decimal_value ds) :=
          (parse_uint_spec ds hbt _).2 ⟨h3, h4, by omega, rfl⟩
        rw [hp]
        simp only
        rw [if_neg (by unfold INT32_MAX; omega)]
        congr 1
        rw [h5]
        unfold to_int32
        omega
    · have h45' : (c == 45) = false := by simpa using h45
      simp only [h45', Bool.false_eq_true, if_false]
      by_cases h43 : c = 43
      · subst h43
        simp only [beq_self_eq_true, if_true]
        constructor
        · intro h
          cases hp : parse_uint t with
          | none => rw [hp] at h; exact Option.noConfusion h
          | some u =>
            rw [hp] at h
            simp only at h
            obtain ⟨p1, p2, p3, p4⟩ := (parse_uint_spec t hbt u).1 hp
            by_cases hu : u > INT32_MAX
            · rw [if_pos hu] at h; exact Option.noConfusion h
            · rw [if_neg hu] at h
              injection h with h
              unfold INT32_MAX at hu
              refine ⟨[43], t, rfl, Or.inr (Or.inl rfl), p1, p2, ?_, ?_, ?_⟩
              · rw [if_neg (by decide), ← h, ← p4]
              · rw [← h]; omega
              · rw [← h]; omega
        · rintro ⟨sign, ds, h1, h2, h3, h4, h5, h6, h7⟩
          have hds : sign = [43] ∧ ds = t := by
            rcases h2 with q | q | q
            · subst q
              simp only [List.nil_append] at h1
              have := h4 43 (by rw [← h1]; exact List.mem_cons_self _ _)
              unfold is_ascii_digit at this
              omega
            · subst q
              simp only [List.singleton_append, List.cons.injEq] at h1
              exact ⟨rfl, h1.2.symm⟩
            · subst q
              simp only [List.singleton_append, List.cons.injEq] at h1
              omega
          obtain ⟨q1, q2⟩ := hds
          subst q1 q2
          rw [if_neg (by decide)] at h5
          have hp : parse_uint ds = some (decimal_value ds) :=
            (parse_uint_spec ds hbt _).2 ⟨h3, h4, by omega, rfl⟩
          rw [hp]
          simp only
          rw [if_neg (by unfold INT32_MAX; omega), h5]
      · have h43' : (c == 43) = false := by simpa using h43
        simp only [h43', Bool.false_eq_true, if_false]
        constructor
        · intro h
          cases hp : parse_uint (c :: t) with
          | none => rw [hp] at h; exact Option.noConfusion h
          | some u =>
            rw [hp] at h
            simp only at h
            obtain ⟨p1, p2, p3, p4⟩ := (parse_uint_spec (c :: t) hb u).1 hp
            by_cases hu : u > INT32_MAX
            · rw [if_pos hu] at h; exact Option.noConfusion h
            · rw [if_neg hu] at h
              injection h with h
              unfold INT32_MAX at hu
              refine ⟨[], c :: t, rfl, Or.inl rfl, p1, p2, ?_, ?_, ?_⟩
              · rw [if_neg (by decide), ← h, ← p4]
              · rw [← h]; omega
              · rw [← h]; omega
        · rintro ⟨sign, ds, h1, h2, h3, h4, h5, h6, h7⟩
          have hds : sign = [] ∧ ds = c :: t := by
            rcases h2 with q | q | q
            · subst q
              simp only [List.nil_append] at h1
              exact ⟨rfl, h1.symm⟩
            · subst q
              simp only [List.singleton_append, List.cons.injEq] at h1
              omega
            · subst q
              simp only [List.singleton_append, List.cons.injEq] at h1
              omega
          obtain ⟨q1, q2⟩ := hds
          subst q1 q2
          rw [if_neg (by decide)] at h5
          have hp : parse_uint (c :: t) = some (decimal_value (c :: t)) :=
            (parse_uint_spec (c :: t) hb _).2 ⟨h3, h4, by omega, rfl⟩
          rw [hp]
          simp only
          rw [if_neg (by unfold INT32_MAX; omega), h5]

theorem parse_fixedpoint_float_eq (f : List Nat) :
    parse_fixedpoint_float f =
      if field_empty f then some (false, {})
      else fixedpoint_body (f.headD 0 == 45)
        (if f.headD 0 == 45 then f.tail else if f.headD 0 == 43 then f.tail else f) := rfl

theorem memchr_list_point (I F : List Nat) (hI : ∀ c, c ∈ I → is_ascii_digit c) :
    memchr_list (I ++ 46 :: F) 46 = some I.length := by
  induction I with
  | nil => simp [memchr_list]
  | cons c cs ih =>
    have hc := hI c (List.mem_cons_self _ _)
    unfold is_ascii_digit at hc
    have hne : ¬ c = 46 := by omega
    show (if c = 46 then some 0 else (memchr_list (cs ++ 46 :: F) 46).map (· + 1)) = _
    rw [if_neg hne, ih (fun x hx => hI x (List.mem_cons_of_mem _ hx))]
    rfl

theorem memchr_list_no_point (ds : List Nat) (hI : ∀ c, c ∈ ds → is_ascii_digit c) :
    memchr_list ds 46 = none := by
  induction ds with
  | nil => rfl
  | cons c cs ih =>
    have hc := hI c (List.mem_cons_self _ _)
    unfold is_ascii_digit at hc
    have hne : ¬ c = 46 := by omega
    show (if c = 46 then some 0 else (memchr_list cs 46).map (· + 1)) = _
    rw [if_neg hne, ih (fun x hx => hI x (List.mem_cons_of_mem _ hx))]
    rfl

theorem scale_loop_eq (k : Nat) : ∀ s, s < 4294967296 →
    scale_loop k s = (s * 10 ^ k) % 4294967296 := by
  induction k with
  | zero =>
    intro s hs
    simp only [scale_loop, pow_zero, Nat.mul_one]
    exact (Nat.mod_eq_of_lt hs).symm
  | succ k ih =>
    intro s hs
    simp only [scale_loop]
    rw [ih _ (by unfold to_uint32; exact Nat.mod_lt _ (by omega))]
    unfold to_uint32
    rw [pow_succ, Nat.mod_mul_mod]
    congr 1
    ring

theorem pow10_le (k : Nat) (hk : k ≤ 9) : 10 ^ k ≤ 1000000000 := by
  calc 10 ^ k ≤ 10 ^ 9 := Nat.pow_le_pow_right (by omega) hk
    _ = 1000000000 := by norm_num

theorem scale_loop_small (k : Nat) (hk : k ≤ 9) : scale_loop k 1 = 10 ^ k := by
  rw [scale_loop_eq k 1 (by omega), Nat.one_mul]
  exact Nat.mod_eq_of_lt (lt_of_le_of_lt (pow10_le k hk) (by omega))

theorem digits_foldl_lt (ds : List Nat) (hd : ∀ c, c ∈ ds → is_ascii_digit c) :
    ∀ v, ds.foldl (fun acc c => acc * 10 + (c - 48)) v < (v + 1) * 10 ^ ds.length := by
  induction ds with
  | nil =>
    intro v
    simp
  | cons c cs ih =>
    intro v
    have hc := hd c (List.mem_cons_self _ _)
    unfold is_ascii_digit at hc
    simp only [List.foldl_cons, List.length_cons]
    have := ih (fun x hx => hd x (List.mem_cons_of_mem _ hx)) (v * 10 + (c - 48))
    calc _ < (v * 10 + (c - 48) + 1) * 10 ^ cs.length := this
      _ ≤ ((v + 1) * 10) * 10 ^ cs.length := Nat.mul_le_mul_right _ (by omega)
      _ = (v + 1) * 10 ^ (cs.length + 1) := by rw [pow_succ]; ring

theorem decimal_value_lt (ds : List Nat) (hd : ∀ c, c ∈ ds → is_ascii_digit c) :
    decimal_value ds < 10 ^ ds.length := by
  have := digits_foldl_lt ds hd 0
  simpa using this

theorem to_int32_small (x : Nat) (h : x ≤ 2147483647) : to_int32 (x : Int) = (x : Int) := by
  unfold to_int32
  omega

/-- The last part of `parse_fixedpoint_float`, with integer part `vI`, fraction
`vF` and a scale `S` that has not wrapped. -/
theorem fixedpoint_finish (negative : Bool) (vI vF S : Nat) (hS1 : 1 ≤ S)
    (hS2 : S ≤ 1000000000) (hvF : vF < S) :
    (if S = 0 then none
     else if vI > to_uint32 (INT32_MAX / S) then some (false, ({} : tiny_nmea_float_t))
     else
       if to_uint32 (vI * S + vF) > INT32_MAX then some (false, {})
       else
         some (true, { value := if negative then -((to_uint32 (vI * S + vF) : Nat) : Int)
                                else ((to_uint32 (vI * S + vF) : Nat) : Int),
                       scale := to_int32 (S : Int) })) =
    some (if vI * S + vF ≤ 2147483647 then
        (true, { value := if negative then -((vI * S + vF : Nat) : Int)
                          else ((vI * S + vF : Nat) : Int),
                 scale := (S : Int) })
      else (false, {})) := by
  have hdiv : ∀ x, x ≤ 2147483647 / S ↔ x * S ≤ 2147483647 :=
    fun x => Nat.le_div_iff_mul_le (by omega)
  have hq : 2147483647 / S ≤ 2147483647 := Nat.div_le_self _ _
  rw [if_neg (by omega)]
  unfold INT32_MAX
  have hu : to_uint32 (2147483647 / S) = 2147483647 / S :=
    Nat.mod_eq_of_lt (by omega)
  rw [hu]
  by_cases h1 : vI > 2147483647 / S
  · rw [if_pos h1]
    have : ¬ vI * S ≤ 2147483647 := fun h => absurd ((hdiv vI).2 h) (by omega)
    rw [if_neg (by omega)]
  · rw [if_neg h1]
    have h2 : vI * S ≤ 2147483647 := (hdiv vI).1 (by omega)
    have hu2 : to_uint32 (vI * S + vF) = vI * S + vF :=
      Nat.mod_eq_of_lt (by omega)
    rw [hu2]
    by_cases h3 : vI * S + vF > 2147483647
    · rw [if_pos h3, if_neg (show ¬ vI * S + vF ≤ 2147483647 by omega)]
    · rw [if_neg h3, if_pos (show vI * S + vF ≤ 2147483647 by omega),
        to_int32_small S (by omega)]

/-- The function `parse_fixedpoint_float` after the sign, on digits, a point
and at most nine digits. -/
theorem fixedpoint_body_point (negative : Bool) (I F : List Nat)
    (hI : ∀ c, c ∈ I → is_ascii_digit c) (hF : ∀ c, c ∈ F → is_ascii_digit c)
    (hk : F.length ≤ 9) (hne : I ≠ [] ∨ F ≠ []) :
    fixedpoint_body negative (I ++ 46 :: F) =
      some (if decimal_value I * 10 ^ F.length + decimal_value F ≤ 2147483647 then
          (true, { value := if negative
                     then -((decimal_value I * 10 ^ F.length + decimal_value F : Nat) : Int)
                     else ((decimal_value I * 10 ^ F.length + decimal_value F : Nat) : Int),
                   scale := ((10 ^ F.length : Nat) : Int) })
        else (false, {})) := by
  have hbI : ∀ c, c ∈ I → c < 256 := fun c hc => by
    have := hI c hc; unfold is_ascii_digit at this; omega
  have hbF : ∀ c, c ∈ F → c < 256 := fun c hc => by
    have := hF c hc; unfold is_ascii_digit at this; omega
  have hS2 := pow10_le F.length hk
  have hS1 : 1 ≤ 10 ^ F.length := Nat.one_le_pow _ _ (by omega)
  have hvF := decimal_value_lt F hF
  have hlen : ¬ (I ++ 46 :: F).length = 0 := by simp
  have htake : (I ++ 46 :: F).take I.length = I := by simp
  have hdrop : (I ++ 46 :: F).drop (I.length + 1) = F := by
    rw [← List.drop_drop, List.drop_left]
    rfl
  unfold fixedpoint_body
  simp only [hlen, if_false, memchr_list_point I F hI, htake, hdrop]
  -- the fractional part
  have hafter : ∀ hd : Bool, (hd = true ∨ F ≠ []) →
      (if F.length > 0 then
        match parse_uint F with
        | none => none
        | some v => some (v, scale_loop F.length 1, true)
       else some (0, 1, hd)) = some (decimal_value F, 10 ^ F.length, true) := by
    intro hd hor
    by_cases hF0 : F = []
    · subst hF0
      rcases hor with h | h
      · subst h; rfl
      · exact absurd rfl h
    · have hpos : F.length > 0 := List.length_pos.2 hF0
      rw [if_pos hpos, (parse_uint_spec F hbF _).2 ⟨hF0, hF, by omega, rfl⟩,
        scale_loop_small _ hk]
  by_cases hI0 : I = []
  · subst hI0
    have hFne : F ≠ [] := by
      rcases hne with h | h
      · exact absurd rfl h
      · exact h
    simp only [List.length_nil, gt_iff_lt, lt_irrefl, if_false]
    rw [hafter false (Or.inr hFne)]
    simp only [Bool.not_true, Bool.false_eq_true, if_false]
    have := fixedpoint_finish negative 0 (decimal_value F) (10 ^ F.length) hS1 hS2 hvF
    rw [show decimal_value ([] : List Nat) = 0 from rfl]
    exact this
  · have hpos : I.length > 0 := List.length_pos.2 hI0
    simp only [hpos, if_true]
    by_cases hvI : decimal_value I ≤ 4294967295
    · rw [(parse_uint_spec I hbI _).2 ⟨hI0, hI, hvI, rfl⟩]
      simp only
      rw [hafter true (Or.inl rfl)]
      simp only [Bool.not_true, Bool.false_eq_true, if_false]
      exact fixedpoint_finish negative (decimal_value I) (decimal_value F) (10 ^ F.length)
        hS1 hS2 hvF
    · have hnone : parse_uint I = none := by
        cases hp : parse_uint I with
        | none => rfl
        | some u => exact absurd ((parse_uint_spec I hbI u).1 hp).2.2.1 hvI
      rw [hnone]
      simp only
      have : decimal_value I ≤ decimal_value I * 10 ^ F.length := Nat.le_mul_of_pos_right _ hS1
      rw [if_neg (by omega)]

/-- The function `parse_fixedpoint_float` after the sign, on one to nine
digits without a point: all digits count as fractional. -/
theorem fixedpoint_body_digits (negative : Bool) (ds : List Nat)
    (hd : ∀ c, c ∈ ds → is_ascii_digit c) (h1 : 1 ≤ ds.length) (h9 : ds.length ≤ 9) :
    fixedpoint_body negative ds =
      some (true, { value := if negative then -((decimal_value ds : Nat) : Int)
                             else ((decimal_value ds : Nat) : Int),
                    scale := ((10 ^ ds.length : Nat) : Int) }) := by
  have hb : ∀ c, c ∈ ds → c < 256 := fun c hc => by
    have := hd c hc; unfold is_ascii_digit at this; omega
  have hS2 := pow10_le ds.length h9
  have hS1 : 1 ≤ 10 ^ ds.length := Nat.one_le_pow _ _ (by omega)
  have hv := decimal_value_lt ds hd
  have hne : ds ≠ [] := List.length_pos.1 (by omega)
  unfold fixedpoint_body
  simp only [show ¬ ds.length = 0 by omega, if_false, memchr_list_no_point ds hd,
    show ds.length > 0 by omega, if_true,
    (parse_uint_spec ds hb _).2 ⟨hne, hd, by omega, rfl⟩, scale_loop_small _ h9,
    Bool.not_true, Bool.false_eq_true]
  have := fixedpoint_finish negative 0 (decimal_value ds) (10 ^ ds.length) hS1 hS2 hv
  simp only [Nat.zero_mul, Nat.zero_add] at this ⊢
  rw [this, if_pos (by omega)]

/-- The sign handling of `parse_fixedpoint_float`. -/
theorem fixedpoint_sign (sign p : List Nat) (hs : sign = [] ∨ sign = [43] ∨ sign = [45])
    (hne : p ≠ []) (h45 : p.headD 0 ≠ 45) (h43 : p.headD 0 ≠ 43) :
    parse_fixedpoint_float (sign ++ p) = fixedpoint_body (decide (sign = [45])) p := by
  rw [parse_fixedpoint_float_eq]
  cases p with
  | nil => exact absurd rfl hne
  | cons c t =>
    simp only [List.headD_cons] at h45 h43
    rcases hs with q | q | q
    · subst q
      have e1 : (c == 45) = false := by simpa using h45
      have e2 : (c == 43) = false := by simpa using h43
      simp only [List.nil_append, field_empty, List.length_cons, List.headD_cons, e1, e2,
        Bool.false_eq_true, if_false]
      rfl
    · subst q
      rfl
    · subst q
      rfl

theorem fixed_digits_length (k : Nat) : ∀ n, (fixed_digits k n).length = k := by
  induction k with
  | zero => intro n; rfl
  | succ k ih => intro n; simp [fixed_digits, ih]

theorem fixed_digits_digit (k : Nat) : ∀ n c, c ∈ fixed_digits k n → is_ascii_digit c := by
  induction k with
  | zero => intro n c h; simp [fixed_digits] at h
  | succ k ih =>
    intro n c h
    simp only [fixed_digits, List.mem_append, List.mem_singleton] at h
    rcases h with h | h
    · exact ih _ c h
    · subst h
      unfold is_ascii_digit
      omega

theorem decimal_value_append (a b : List Nat) :
    decimal_value (a ++ b) = b.foldl (fun acc c => acc * 10 + (c - 48)) (decimal_value a) := by
  unfold decimal_value
  rw [List.foldl_append]

theorem fixed_digits_value (k : Nat) : ∀ n, decimal_value (fixed_digits k n) = n % 10 ^ k := by
  induction k with
  | zero => intro n; simp [fixed_digits, decimal_value, Nat.mod_one]
  | succ k ih =>
    intro n
    rw [fixed_digits, decimal_value_append, ih]
    simp only [List.foldl_cons, List.foldl_nil]
    rw [pow_succ, Nat.mul_comm (10 ^ k) 10, Nat.mod_mul]
    omega

theorem decimal_value_zero_cons (t : List Nat) : decimal_value (48 :: t) = decimal_value t := by
  unfold decimal_value
  rfl

theorem decimal_value_dropWhile (l : List Nat) :
    decimal_value (l.dropWhile (fun c => c == 48)) = decimal_value l := by
  induction l with
  | nil => rfl
  | cons a t ih =>
    by_cases h : a = 48
    · subst h
      rw [List.dropWhile_cons_of_pos (by rfl), ih, decimal_value_zero_cons]
    · rw [List.dropWhile_cons_of_neg (by simpa using h)]

theorem integer_digits_value (n : Nat) (h : n < 10 ^ 10) :
    decimal_value (integer_digits n) = n := by
  have hv : decimal_value ((fixed_digits 10 n).dropWhile (fun c => c == 48)) = n := by
    rw [decimal_value_dropWhile, fixed_digits_value, Nat.mod_eq_of_lt h]
  unfold integer_digits
  split
  · rename_i he
    rw [he] at hv
    rw [← hv]
    rfl
  · exact hv

theorem integer_digits_digit (n c : Nat) (h : c ∈ integer_digits n) : is_ascii_digit c := by
  unfold integer_digits at h
  split at h
  · simp only [List.mem_singleton] at h
    subst h
    unfold is_ascii_digit
    omega
  · exact fixed_digits_digit 10 n c ((List.dropWhile_sublist _).subset h)

theorem integer_digits_ne_nil (n : Nat) : integer_digits n ≠ [] := by
  unfold integer_digits
  split
  · simp
  · assumption

theorem digit_head (ds rest : List Nat) (hd : ∀ c, c ∈ ds → is_ascii_digit c)
    (hr : rest.headD 0 ≠ 45 ∧ rest.headD 0 ≠ 43) :
    (ds ++ rest).headD 0 ≠ 45 ∧ (ds ++ rest).headD 0 ≠ 43 := by
  cases ds with
  | nil => simpa using hr
  | cons c t =>
    have := hd c (List.mem_cons_self _ _)
    unfold is_ascii_digit at this
    simp only [List.cons_append, List.headD_cons]
    omega

/-- The function `parse_fixedpoint_float` on a sign, digits, a point and at most nine digits. -/
theorem fixedpoint_point (sign I F : List Nat) (hs : sign = [] ∨ sign = [43] ∨ sign = [45])
    (hI : ∀ c, c ∈ I → is_ascii_digit c) (hF : ∀ c, c ∈ F → is_ascii_digit c)
    (hk : F.length ≤ 9) (hne : I ≠ [] ∨ F ≠ []) :
    parse_fixedpoint_float (sign ++ (I ++ 46 :: F)) =
      some (if decimal_value I * 10 ^ F.length + decimal_value F ≤ 2147483647 then
              (true, { value := if sign = [45]
                         then -((decimal_value I * 10 ^ F.length + decimal_value F : Nat) : Int)
                         else ((decimal_value I * 10 ^ F.length + decimal_value F : Nat) : Int),
                       scale := ((10 ^ F.length : Nat) : Int) })
            else (false, {})) := by
  have hh := digit_head I (46 :: F) hI (by simp)
  rw [fixedpoint_sign sign _ hs (by simp) hh.1 hh.2, fixedpoint_body_point _ I F hI hF hk hne]
  simp only [decide_eq_true_eq]

/-- The function `parse_fixedpoint_float` on a sign and one to nine digits. -/
theorem fixedpoint_digits (sign ds : List Nat) (hs : sign = [] ∨ sign = [43] ∨ sign = [45])
    (hd : ∀ c, c ∈ ds → is_ascii_digit c) (h1 : 1 ≤ ds.length) (h9 : ds.length ≤ 9) :
    parse_fixedpoint_float (sign ++ ds) =
      some (true, { value := if sign = [45] then -((decimal_value ds : Nat) : Int)
                             else ((decimal_value ds : Nat) : Int),
                    scale := ((10 ^ ds.length : Nat) : Int) }) := by
  have hh := digit_head ds [] hd (by simp)
  rw [List.append_nil] at hh
  rw [fixedpoint_sign sign _ hs (List.length_pos.1 (by omega)) hh.1 hh.2,
    fixedpoint_body_digits _ ds hd h1 h9]
  simp only [decide_eq_true_eq]

/-- Parsing the written form of a fixed-point number gives the number back. -/
theorem write_fixedpoint_parse (v : Int) (k : Nat) (hk : k ≤ 9) (hv : v.natAbs ≤ 2147483647) :
    parse_fixedpoint_float (write_fixedpoint v k) =
      some (true, { value := v, scale := ((10 ^ k : Nat) : Int) }) := by
  have hp : 0 < 10 ^ k := Nat.pow_pos (by omega)
  have hq : v.natAbs / 10 ^ k < 10 ^ 10 :=
    lt_of_le_of_lt (Nat.div_le_self _ _) (by omega)
  have hs : (if v < 0 then [45] else []) = ([] : List Nat) ∨
      (if v < 0 then [45] else []) = [43] ∨ (if v < 0 then [45] else []) = [45] := by
    split
    · exact Or.inr (Or.inr rfl)
    · exact Or.inl rfl
  unfold write_fixedpoint
  rw [fixedpoint_point _ _ _ hs (integer_digits_digit _) (fixed_digits_digit k _)
    (by rw [fixed_digits_length]; exact hk) (Or.inl (integer_digits_ne_nil _))]
  rw [fixed_digits_length, integer_digits_value _ hq, fixed_digits_value, Nat.mod_mod,
    Nat.div_add_mod', if_pos hv]
  congr 3
  by_cases h : v < 0
  · rw [if_pos h, if_pos rfl]
    omega
  · rw [if_neg h, if_neg (by simp)]
    omega

/-! ## Field decoders: time and date -/

theorem six_split (f : List Nat) (h : 6 ≤ f.length) :
    ∃ a b c d e g rest, f = a :: b :: c :: d :: e :: g :: rest := by
  rcases f with _ | ⟨a, _ | ⟨b, _ | ⟨c, _ | ⟨d, _ | ⟨e, _ | ⟨g, rest⟩⟩⟩⟩⟩⟩ <;>
    simp only [List.length_nil, List.length_cons] at h <;> try omega
  exact ⟨a, b, c, d, e, g, rest, rfl⟩

theorem two_digits_value (a b : Nat) :
    decimal_value [a, b] = (a - 48) * 10 + (b - 48) := by
  unfold decimal_value
  simp only [List.foldl_cons, List.foldl_nil]
  omega

theorem is_ndigits_six (a b c d e g : Nat) (rest : List Nat)
    (hb : ∀ x, x ∈ [a, b, c, d, e, g] → x < 256) :
    is_ndigits (a :: b :: c :: d :: e :: g :: rest) 6 = true ↔
      ∀ x, x ∈ [a, b, c, d, e, g] → is_ascii_digit x := by
  have : is_ndigits (a :: b :: c :: d :: e :: g :: rest) 6 =
      is_ndigits [a, b, c, d, e, g] [a, b, c, d, e, g].length := rfl
  rw [this]
  exact is_ndigits_all _ hb

/-- The fractional-seconds loop of `parse_time` on a run of digits followed by
a byte that is no digit (or by the end of the field). -/
theorem parse_time_frac_run (ds rest : List Nat) (hd : ∀ c, c ∈ ds → is_ascii_digit c)
    (hr : ¬ is_ascii_digit (rest.headD 0)) (hr2 : rest.headD 0 < 256) :
    ∀ fr dg, dg ≤ 6 → fr < 10 ^ dg →
      parse_time_frac (ds ++ rest) fr dg =
        ((ds.take (6 - dg)).foldl (fun acc c => acc * 10 + (c - 48)) fr,
          dg + min ds.length (6 - dg)) := by
  induction ds with
  | nil =>
    intro fr dg _ _
    simp only [List.nil_append, List.take_nil, List.foldl_nil, List.length_nil, Nat.zero_min,
      Nat.add_zero]
    cases rest with
    | nil => rfl
    | cons c cs =>
      have hc : IS_DIGIT c = false := by
        cases h : IS_DIGIT c with
        | false => rfl
        | true => exact absurd ((IS_DIGIT_iff c hr2).1 h) hr
      unfold parse_time_frac
      simp only [hc, Bool.not_false, if_true, ite_self]
  | cons c t ih =>
    intro fr dg h6 hfr
    have hc := hd c (List.mem_cons_self _ _)
    have hc2 : IS_DIGIT c = true :=
      (IS_DIGIT_iff c (by unfold is_ascii_digit at hc; omega)).2 hc
    have ht : ∀ x, x ∈ t → is_ascii_digit x := fun x hx => hd x (List.mem_cons_of_mem _ hx)
    rw [List.cons_append]
    unfold parse_time_frac
    by_cases h : dg < 6
    · have hp : (10 : Nat) ^ (dg + 1) ≤ 10 ^ 6 := Nat.pow_le_pow_right (by omega) (by omega)
      have hp2 : (10 : Nat) ^ (dg + 1) = 10 ^ dg * 10 := pow_succ 10 dg
      unfold is_ascii_digit at hc
      have hw : to_uint32 (fr * 10 + (c - 48)) = fr * 10 + (c - 48) := by
        unfold to_uint32
        exact Nat.mod_eq_of_lt (by omega)
      simp only [h, if_true, hc2, Bool.not_true, Bool.false_eq_true, if_false, hw]
      rw [ih ht _ _ (by omega) (by omega)]
      have e : 6 - dg = (6 - (dg + 1)) + 1 := by omega
      rw [e, List.take_succ_cons, List.foldl_cons, List.length_cons]
      congr 1
      omega
    · have e : 6 - dg = 0 := by omega
      simp only [h, if_false, e, List.take_zero, List.foldl_nil, Nat.min_zero, Nat.add_zero]

/-- The padding loop of `parse_time`. -/
theorem parse_time_pad_eq (n : Nat) :
    ∀ fr dg, dg ≤ 6 → 6 - dg ≤ n → fr < 10 ^ dg →
      parse_time_pad n fr dg = fr * 10 ^ (6 - dg) := by
  induction n with
  | zero =>
    intro fr dg h6 hn _
    have e : 6 - dg = 0 := by omega
    simp only [parse_time_pad, e, pow_zero, Nat.mul_one]
  | succ n ih =>
    intro fr dg h6 hn hfr
    unfold parse_time_pad
    by_cases h : dg < 6
    · have hp : (10 : Nat) ^ (dg + 1) ≤ 10 ^ 6 := Nat.pow_le_pow_right (by omega) (by omega)
      have hp2 : (10 : Nat) ^ (dg + 1) = 10 ^ dg * 10 := pow_succ 10 dg
      have hw : to_uint32 (fr * 10) = fr * 10 := by
        unfold to_uint32
        exact Nat.mod_eq_of_lt (by omega)
      simp only [h, if_true, hw]
      rw [ih _ _ (by omega) (by omega) (by omega)]
      have e : 6 - dg = (6 - (dg + 1)) + 1 := by omega
      rw [e, pow_succ]
      ring
    · have e : 6 - dg = 0 := by omega
      simp only [h, if_false, e, pow_zero, Nat.mul_one]

/-- The microseconds computed by `parse_time` from the bytes after the point. -/
theorem parse_time_micros (ds rest : List Nat) (hd : ∀ c, c ∈ ds → is_ascii_digit c)
    (hr : ¬ is_ascii_digit (rest.headD 0)) (hr2 : rest.headD 0 < 256) :
    parse_time_pad 6 (parse_time_frac (ds ++ rest) 0 0).1 (parse_time_frac (ds ++ rest) 0 0).2 =
        decimal_value (ds.take 6) * 10 ^ (6 - min ds.length 6) ∧
      decimal_value (ds.take 6) * 10 ^ (6 - min ds.length 6) ≤ 999999 := by
  have hrun := parse_time_frac_run ds rest hd hr hr2 0 0 (by omega) (by norm_num)
  have ht : ∀ c, c ∈ ds.take 6 → is_ascii_digit c := fun c hc => hd c (List.mem_of_mem_take hc)
  have hv := decimal_value_lt (ds.take 6) ht
  rw [List.length_take] at hv
  have hm : min 6 ds.length = min ds.length 6 := Nat.min_comm _ _
  rw [hm] at hv
  have hle : min ds.length 6 ≤ 6 := Nat.min_le_right _ _
  rw [hrun]
  simp only [Nat.sub_zero, Nat.zero_add]
  constructor
  · exact parse_time_pad_eq 6 (decimal_value (ds.take 6)) _ hle (by omega) hv
  · have h2 : decimal_value (ds.take 6) * 10 ^ (6 - min ds.length 6) <
        10 ^ min ds.length 6 * 10 ^ (6 - min ds.length 6) :=
      Nat.mul_lt_mul_of_pos_right hv (Nat.pow_pos (by omega))
    rw [← pow_add, Nat.add_sub_cancel' hle] at h2
    omega

theorem digit_run_split (l : List Nat) :
    ∃ ds rest, l = ds ++ rest ∧ (∀ c, c ∈ ds → is_ascii_digit c) ∧
      ¬ is_ascii_digit (rest.headD 0) := by
  induction l with
  | nil => exact ⟨[], [], rfl, fun c hc => absurd hc (List.not_mem_nil c), by decide⟩
  | cons c t ih =>
    by_cases h : is_ascii_digit c
    · obtain ⟨ds, rest, h1, h2, h3⟩ := ih
      refine ⟨c :: ds, rest, by rw [h1]; rfl, ?_, h3⟩
      intro x hx
      rcases List.mem_cons.1 hx with q | q
      · rw [q]; exact h
      · exact h2 x q
    · exact ⟨[], c :: t, rfl, fun c hc => absurd hc (List.not_mem_nil c), h⟩

theorem headD_lt (l : List Nat) (hb : ∀ c, c ∈ l → c < 256) : l.headD 0 < 256 := by
  cases l with
  | nil => exact Nat.zero_lt_succ _
  | cons c t => exact hb c (List.mem_cons_self _ _)

theorem to_uint8_two_digits (a b : Nat) (ha : is_ascii_digit a) (hb : is_ascii_digit b) :
    to_uint8 ((a - 48) * 10 + (b - 48)) = decimal_value [a, b] := by
  rw [two_digits_value]
  unfold is_ascii_digit at ha hb
  unfold to_uint8
  exact Nat.mod_eq_of_lt (by omega)

/-- The function `parse_time` on a field shorter than six bytes. -/
theorem parse_time_short (f : List Nat) (h : f.length < 6) : parse_time f = (false, {}) := by
  unfold parse_time
  simp only [h, decide_True, Bool.or_true, if_true]

/-- The function `parse_time` when one of the first six bytes is no digit. -/
theorem parse_time_nondigit (f : List Nat) (h : is_ndigits f 6 = false) :
    parse_time f = (false, {}) := by
  unfold parse_time
  simp only [h, Bool.not_false, if_true, ite_self]

/-- The function `parse_time` on six digits followed by `rest`. -/
theorem parse_time_six (a b c d e g : Nat) (rest : List Nat)
    (hd : ∀ x, x ∈ [a, b, c, d, e, g] → is_ascii_digit x) :
    parse_time (a :: b :: c :: d :: e :: g :: rest) =
      if decimal_value [a, b] > 23 ∨ decimal_value [c, d] > 59 ∨ decimal_value [e, g] > 60 then
        (false, { hours := decimal_value [a, b], minutes := decimal_value [c, d],
                  seconds := decimal_value [e, g] })
      else
        (true, { hours := decimal_value [a, b], minutes := decimal_value [c, d],
                 seconds := decimal_value [e, g],
                 microseconds :=
                   if rest.length > 1 ∧ rest.headD 0 = 46 then
                     parse_time_pad 6 (parse_time_frac (rest.drop 1) 0 0).1
                       (parse_time_frac (rest.drop 1) 0 0).2
                   else 0,
                 valid := true }) := by
  have hb : ∀ x, x ∈ [a, b, c, d, e, g] → x < 256 := fun x hx => by
    have := hd x hx; unfold is_ascii_digit at this; omega
  have hn := (is_ndigits_six a b c d e g rest hb).2 hd
  have h1 := to_uint8_two_digits a b (hd a (by simp)) (hd b (by simp))
  have h2 := to_uint8_two_digits c d (hd c (by simp)) (hd d (by simp))
  have h3 := to_uint8_two_digits e g (hd e (by simp)) (hd g (by simp))
  have hg : rest.getD 0 0 = rest.headD 0 := by
    cases rest <;> rfl
  have hlen : (rest.length + 1 + 1 + 1 + 1 + 1 + 1 > 7) ↔ (rest.length > 1) := by
    omega
  have hdrop : (a :: b :: c :: d :: e :: g :: rest).drop 7 = rest.drop 1 := by
    cases rest <;> rfl
  have hl2 : ¬ (rest.length + 1 + 1 + 1 + 1 + 1 + 1 < 6) := by omega
  unfold parse_time
  rw [hdrop]
  simp only [field_empty, List.length_cons, hn, Bool.not_true, Bool.false_eq_true, if_false,
    List.getD_cons_zero, List.getD_cons_succ, h1, h2, h3, hg, hlen, hl2, decide_False,
    Bool.or_false, Nat.add_eq_zero, one_ne_zero, and_false, beq_iff_eq]

/-- The microseconds field that `parse_time` computes from the bytes `rest`
after the six digits. -/
theorem parse_time_fraction (rest : List Nat) (hb : ∀ c, c ∈ rest → c < 256) :
    (if rest.length > 1 ∧ rest.headD 0 = 46 then
        parse_time_pad 6 (parse_time_frac (rest.drop 1) 0 0).1
          (parse_time_frac (rest.drop 1) 0 0).2
      else 0) ≤ 999999 ∧
    (rest.headD 0 ≠ 46 →
      (if rest.length > 1 ∧ rest.headD 0 = 46 then
        parse_time_pad 6 (parse_time_frac (rest.drop 1) 0 0).1
          (parse_time_frac (rest.drop 1) 0 0).2
      else 0) = 0) ∧
    (∀ ds tl, rest = 46 :: (ds ++ tl) → (∀ c, c ∈ ds → is_ascii_digit c) →
      ¬ is_ascii_digit (tl.headD 0) →
      (if rest.length > 1 ∧ rest.headD 0 = 46 then
        parse_time_pad 6 (parse_time_frac (rest.drop 1) 0 0).1
          (parse_time_frac (rest.drop 1) 0 0).2
      else 0) = decimal_value (ds.take 6) * 10 ^ (6 - min ds.length 6)) := by
  have key : ∀ ds tl, rest.drop 1 = ds ++ tl → (∀ c, c ∈ ds → is_ascii_digit c) →
      ¬ is_ascii_digit (tl.headD 0) →
      parse_time_pad 6 (parse_time_frac (rest.drop 1) 0 0).1
          (parse_time_frac (rest.drop 1) 0 0).2 =
        decimal_value (ds.take 6) * 10 ^ (6 - min ds.length 6) ∧
      decimal_value (ds.take 6) * 10 ^ (6 - min ds.length 6) ≤ 999999 := by
    intro ds tl h1 h2 h3
    have htl : ∀ c, c ∈ tl → c < 256 := fun c hc =>
      hb c (List.mem_of_mem_drop (by rw [h1]; exact List.mem_append_right _ hc))
    rw [h1]
    exact parse_time_micros ds tl h2 h3 (headD_lt tl htl)
  refine ⟨?_, ?_, ?_⟩
  · split
    · obtain ⟨ds, tl, h1, h2, h3⟩ := digit_run_split (rest.drop 1)
      have := key ds tl h1 h2 h3
      omega
    · omega
  · intro h
    rw [if_neg (fun q => h q.2)]
  · intro ds tl h1 h2 h3
    have hdrop : rest.drop 1 = ds ++ tl := by rw [h1]; rfl
    have k := (key ds tl hdrop h2 h3).1
    by_cases hl : rest.length > 1
    · rw [if_pos ⟨hl, by rw [h1]; rfl⟩]
      exact k
    · rw [if_neg (fun q => hl q.1), ← k]
      have : rest.drop 1 = [] := List.drop_eq_nil_of_le (by omega)
      rw [this]
      rfl

/-- The function `parse_date` on a field shorter than six bytes. -/
theorem parse_date_short (f : List Nat) (h : f.length < 6) : parse_date f = (false, {}) := by
  unfold parse_date
  simp only [h, decide_True, Bool.or_true, if_true]

/-- The function `parse_date` when one of the first six bytes is no digit. -/
theorem parse_date_nondigit (f : List Nat) (h : is_ndigits f 6 = false) :
    parse_date f = (false, {}) := by
  unfold parse_date
  simp only [h, Bool.not_false, if_true, ite_self]

/-- The function `parse_date` on six digits followed by `rest`. -/
theorem parse_date_six (a b c d e g : Nat) (rest : List Nat)
    (hd : ∀ x, x ∈ [a, b, c, d, e, g] → is_ascii_digit x) :
    parse_date (a :: b :: c :: d :: e :: g :: rest) =
      if decimal_value [a, b] < 1 ∨ decimal_value [a, b] > 31 ∨ decimal_value [c, d] < 1 ∨
          decimal_value [c, d] > 12 then
        (false, { day := decimal_value [a, b], month := decimal_value [c, d],
                  year_yy := decimal_value [e, g] })
      else
        (true, { day := decimal_value [a, b], month := decimal_value [c, d],
                 year_yy := decimal_value [e, g], valid := true }) := by
  have hb : ∀ x, x ∈ [a, b, c, d, e, g] → x < 256 := fun x hx => by
    have := hd x hx; unfold is_ascii_digit at this; omega
  have hn := (is_ndigits_six a b c d e g rest hb).2 hd
  have h1 := to_uint8_two_digits a b (hd a (by simp)) (hd b (by simp))
  have h2 := to_uint8_two_digits c d (hd c (by simp)) (hd d (by simp))
  have h3 := to_uint8_two_digits e g (hd e (by simp)) (hd g (by simp))
  have hl2 : ¬ (rest.length + 1 + 1 + 1 + 1 + 1 + 1 < 6) := by omega
  unfold parse_date
  simp only [field_empty, List.length_cons, hn, Bool.not_true, Bool.false_eq_true, if_false,
    List.getD_cons_zero, List.getD_cons_succ, h1, h2, h3, hl2, decide_False,
    Bool.or_false, Nat.add_eq_zero, one_ne_zero, and_false, beq_iff_eq]

theorem is_ndigits_six_false (a b c d e g : Nat) (rest : List Nat)
    (hb : ∀ x, x ∈ [a, b, c, d, e, g] → x < 256)
    (hd : ¬ ∀ x, x ∈ [a, b, c, d, e, g] → is_ascii_digit x) :
    is_ndigits (a :: b :: c :: d :: e :: g :: rest) 6 = false := by
  cases h : is_ndigits (a :: b :: c :: d :: e :: g :: rest) 6 with
  | false => rfl
  | true => exact absurd ((is_ndigits_six a b c d e g rest hb).1 h) hd

/-! ## Tokenizer -/

theorem memchr_list_not_mem (l : List Nat) (c : Nat) (h : memchr_list l c = none) : c ∉ l := by
  induction l with
  | nil => exact List.not_mem_nil c
  | cons x xs ih =>
    unfold memchr_list at h
    by_cases hx : x = c
    · rw [if_pos hx] at h; exact Option.noConfusion h
    · rw [if_neg hx] at h
      have h2 : memchr_list xs c = none := by
        cases hm : memchr_list xs c with
        | none => rfl
        | some m => rw [hm] at h; exact Option.noConfusion h
      intro hc
      rcases List.mem_cons.1 hc with q | q
      · exact hx q.symm
      · exact ih h2 q

theorem memchr_list_take (l : List Nat) (c : Nat) :
    ∀ i, memchr_list l c = some i →
      c ∉ l.take i ∧ l = l.take i ++ c :: l.drop (i + 1) ∧ i < l.length := by
  induction l with
  | nil => intro i h; exact Option.noConfusion h
  | cons x xs ih =>
    intro i h
    unfold memchr_list at h
    by_cases hx : x = c
    · rw [if_pos hx] at h
      injection h with h
      subst h
      subst hx
      exact ⟨List.not_mem_nil _, rfl, Nat.succ_pos _⟩
    · rw [if_neg hx] at h
      cases hm : memchr_list xs c with
      | none => rw [hm] at h; exact Option.noConfusion h
      | some m =>
        rw [hm] at h
        injection h with h
        subst h
        obtain ⟨a1, a2, a3⟩ := ih m hm
        refine ⟨?_, ?_, Nat.succ_lt_succ a3⟩
        · rw [List.take_succ_cons]
          intro hc
          rcases List.mem_cons.1 hc with q | q
          · exact hx q.symm
          · exact a1 q
        · rw [List.take_succ_cons, List.drop_succ_cons, List.cons_append, ← a2]

/-- Splitting at the first comma. -/
theorem splitOn_comma_first (pre post : List Nat) (h : 44 ∉ pre) :
    (pre ++ 44 :: post).splitOn 44 = pre :: post.splitOn 44 := by
  unfold List.splitOn
  exact List.splitOnP_first (fun x => x == 44) pre (fun x hx q => h (by
    have : x = 44 := by simpa using q
    rw [← this]; exact hx)) 44 (by simp) post

theorem splitOn_comma_single (s : List Nat) (h : 44 ∉ s) : s.splitOn 44 = [s] := by
  unfold List.splitOn
  exact List.splitOnP_eq_single (fun x => x == 44) s (fun x hx q => h (by
    have : x = 44 := by simpa using q
    rw [← this]; exact hx))

/-- The loop of `tokenize` yields the first `n` comma-delimited segments. -/
theorem tokenize_loop_eq (n : Nat) :
    ∀ s : List Nat, s.length ≤ 255 → tokenize_loop n s = (s.splitOn 44).take n := by
  induction n with
  | zero => intro s _; rfl
  | succ n ih =>
    intro s hl
    unfold tokenize_loop
    cases hm : memchr_list s 44 with
    | none =>
      have hno := memchr_list_not_mem s 44 hm
      have e : to_uint8 s.length = s.length := by
        unfold to_uint8; exact Nat.mod_eq_of_lt (by omega)
      simp only [e, List.take_length, splitOn_comma_single s hno, List.take_succ_cons,
        List.take_nil]
    | some i =>
      obtain ⟨a1, a2, a3⟩ := memchr_list_take s 44 i hm
      have e : to_uint8 i = i := by
        unfold to_uint8; exact Nat.mod_eq_of_lt (by omega)
      have hl2 : (s.drop (i + 1)).length ≤ 255 := by
        rw [List.length_drop]; omega
      have hsp : s.splitOn 44 = s.take i :: (s.drop (i + 1)).splitOn 44 := by
        conv_lhs => rw [a2]
        exact splitOn_comma_first _ _ a1
      simp only [e, List.take_take, Nat.min_self, hsp, List.take_succ_cons, ih _ hl2]

/-- The comma-delimited segments of a byte string: their number, that none
contains a comma, and that a trailing comma gives a last empty segment. -/
theorem splitOn_comma_facts (n : Nat) :
    ∀ s : List Nat, s.length ≤ n →
      (s.splitOn 44).length = s.count 44 + 1 ∧
      (∀ f, f ∈ s.splitOn 44 → 44 ∉ f) ∧
      (s.getLast? = some 44 → (s.splitOn 44).getLast? = some []) := by
  induction n with
  | zero =>
    intro s hl
    have : s = [] := List.eq_nil_of_length_eq_zero (by omega)
    subst this
    refine ⟨rfl, ?_, fun h => Option.noConfusion h⟩
    intro f hf
    have : f = [] := by simpa using hf
    rw [this]
    exact List.not_mem_nil _
  | succ n ih =>
    intro s hl
    cases hm : memchr_list s 44 with
    | none =>
      have hno := memchr_list_not_mem s 44 hm
      rw [splitOn_comma_single s hno, List.count_eq_zero_of_not_mem hno]
      refine ⟨rfl, ?_, ?_⟩
      · intro f hf
        rw [List.mem_singleton.1 hf]
        exact hno
      · intro h
        exact absurd (List.mem_of_getLast?_eq_some h) hno
    | some i =>
      obtain ⟨a1, a2, a3⟩ := memchr_list_take s 44 i hm
      have hl2 : (s.drop (i + 1)).length ≤ n := by
        rw [List.length_drop]; omega
      obtain ⟨b1, b2, b3⟩ := ih _ hl2
      have hsp : s.splitOn 44 = s.take i :: (s.drop (i + 1)).splitOn 44 := by
        conv_lhs => rw [a2]
        exact splitOn_comma_first _ _ a1
      have hne : (s.drop (i + 1)).splitOn 44 ≠ [] := List.splitOnP_ne_nil _ _
      refine ⟨?_, ?_, ?_⟩
      · rw [hsp, List.length_cons, b1]
        conv_rhs => rw [a2]
        rw [List.count_append, List.count_cons_self, List.count_eq_zero_of_not_mem a1]
        omega
      · intro f hf
        rw [hsp] at hf
        rcases List.mem_cons.1 hf with q | q
        · rw [q]; exact a1
        · exact b2 f q
      · intro h
        obtain ⟨hd, tl, e⟩ := List.exists_cons_of_ne_nil hne
        rw [hsp, e, List.getLast?_cons_cons, ← e]
        cases hp : s.drop (i + 1) with
        | nil => rfl
        | cons c t =>
          rw [← hp]
          apply b3
          rw [a2, List.getLast?_append_of_ne_nil _ (List.cons_ne_nil _ _)] at h
          rw [hp] at h ⊢
          rw [List.getLast?_cons_cons] at h
          exact h

/-! ## Sentence decoders -/

/-- The function `handle_parse_rmc` on a body with fewer than eleven fields. -/
theorem handle_parse_rmc_few (s : List Nat) (data : tiny_nmea_rmc_t)
    (h : (tokenize s 13).length < 11) :
    handle_parse_rmc s data = some (TINY_NMEA_ERR_TOO_FEW_FIELDS, data) := by
  unfold handle_parse_rmc
  simp only [h, if_true]

/-- A defined result of `handle_parse_rmc` on a body with at least eleven fields
is OK, with the record filled from the field decoders. -/
theorem handle_parse_rmc_defined (s : List Nat) (data : tiny_nmea_rmc_t)
    (r : tiny_nmea_res_t × tiny_nmea_rmc_t) (h : 11 ≤ (tokenize s 13).length)
    (hr : handle_parse_rmc s data = some r) :
    r.1 = TINY_NMEA_OK ∧
    r.2.time = (parse_time ((tokenize s 13).getD 0 [])).2 ∧
    r.2.status_valid = parse_status_valid ((tokenize s 13).getD 1 []) ∧
    (parse_latitude ((tokenize s 13).getD 2 []) ((tokenize s 13).getD 3 [])).map (·.2) =
      some r.2.latitude ∧
    (parse_longitude ((tokenize s 13).getD 4 []) ((tokenize s 13).getD 5 [])).map (·.2) =
      some r.2.longitude ∧
    float_field ((tokenize s 13).getD 6 []) = some r.2.speed_knots ∧
    float_field ((tokenize s 13).getD 7 []) = some r.2.course_deg ∧
    r.2.date = (parse_date ((tokenize s 13).getD 8 [])).2 := by
  unfold handle_parse_rmc at hr
  simp only [show ¬ (tokenize s 13).length < 11 by omega, if_false] at hr
  cases h1 : parse_latitude ((tokenize s 13).getD 2 []) ((tokenize s 13).getD 3 []) with
  | none => rw [h1] at hr; exact Option.noConfusion hr
  | some v1 =>
    cases h2 : parse_longitude ((tokenize s 13).getD 4 []) ((tokenize s 13).getD 5 []) with
    | none => rw [h1, h2] at hr; exact Option.noConfusion hr
    | some v2 =>
      cases h3 : float_field ((tokenize s 13).getD 6 []) with
      | none => rw [h1, h2, h3] at hr; exact Option.noConfusion hr
      | some v3 =>
        cases h4 : float_field ((tokenize s 13).getD 7 []) with
        | none => rw [h1, h2, h3, h4] at hr; exact Option.noConfusion hr
        | some v4 =>
          cases h5 : float_field ((tokenize s 13).getD 9 []) with
          | none => rw [h1, h2, h3, h4, h5] at hr; exact Option.noConfusion hr
          | some v5 =>
            rw [h1, h2, h3, h4, h5] at hr
            simp only [Option.bind_eq_bind, Option.some_bind, Option.some.injEq] at hr
            subst hr
            exact ⟨rfl, rfl, rfl, rfl, rfl, rfl, rfl, rfl⟩

/-- The record that `handle_parse_rmc` yields for a body in the usual form. -/
theorem handle_parse_rmc_example :
    handle_parse_rmc (bytes "123519,A,4807.038,N,01131.000,E,022.4,084.4,230394,003.1,W") {} =
      some (TINY_NMEA_OK,
        { time := { hours := 12, minutes := 35, seconds := 19, microseconds := 0, valid := true },
          date := { day := 23, month := 3, year := 0, year_yy := 94, valid := true },
          status_valid := true,
          latitude := { raw := { value := 4807038, scale := 1000 }, hemisphere := 78 },
          longitude := { raw := { value := 1131000, scale := 1000 }, hemisphere := 69 },
          speed_knots := { value := 224, scale := 10 },
          course_deg := { value := 844, scale := 10 },
          mag_variation := { value := 31, scale := 10 },
          mag_var_dir := 87, faa_mode := 0, nav_status := 0 }) := by
  decide

/-! ## Fixed-point fields: the accepted inputs -/

theorem parse_uint_digits (f : List Nat) (hb : ∀ c, c ∈ f → c < 256) (v : Nat)
    (h : parse_uint f = some v) : f ≠ [] ∧ ∀ c, c ∈ f → is_ascii_digit c :=
  ⟨((parse_uint_spec f hb v).1 h).1, ((parse_uint_spec f hb v).1 h).2.1⟩

/-- A field that `parse_fixedpoint_float` accepts is, after the sign, a digit
string, a point and a digit string (not both empty), or a non-empty digit
string alone. -/
theorem fixedpoint_body_shape (negative : Bool) (p : List Nat) (hb : ∀ c, c ∈ p → c < 256)
    (out : tiny_nmea_float_t) (h : fixedpoint_body negative p = some (true, out)) :
    ∃ I F, (∀ c, c ∈ I → is_ascii_digit c) ∧ (∀ c, c ∈ F → is_ascii_digit c) ∧
      (I ≠ [] ∨ F ≠ []) ∧ (p = I ++ 46 :: F ∨ (I = [] ∧ p = F)) := by
  have nodig : ∀ c, c ∈ ([] : List Nat) → is_ascii_digit c :=
    fun c hc => absurd hc (List.not_mem_nil c)
  have hfalse : ∀ {x : tiny_nmea_float_t}, some (false, x) = some (true, out) → False := by
    intro x q
    injection q with q
    injection q with q _
    exact Bool.noConfusion q
  unfold fixedpoint_body at h
  by_cases hl : p.length = 0
  · rw [if_pos hl] at h
    exact (hfalse h).elim
  · rw [if_neg hl] at h
    cases hm : memchr_list p 46 with
    | none =>
      rw [hm] at h
      simp only [show p.length > 0 by omega, if_true] at h
      cases hu : parse_uint p with
      | none =>
        rw [hu] at h
        exact (hfalse h).elim
      | some v =>
        have hd := parse_uint_digits p hb v hu
        exact ⟨[], p, nodig, hd.2, Or.inr hd.1, Or.inr ⟨rfl, rfl⟩⟩
    | some i =>
      obtain ⟨a1, a2, a3⟩ := memchr_list_take p 46 i hm
      have hbI : ∀ c, c ∈ p.take i → c < 256 := fun c hc => hb c (List.mem_of_mem_take hc)
      have hbF : ∀ c, c ∈ p.drop (i + 1) → c < 256 := fun c hc => hb c (List.mem_of_mem_drop hc)
      rw [hm] at h
      by_cases hi : i > 0
      · simp only [hi, if_true] at h
        cases hu : parse_uint (p.take i) with
        | none =>
          rw [hu] at h
          exact (hfalse h).elim
        | some v =>
          have hd := parse_uint_digits _ hbI v hu
          rw [hu] at h
          simp only at h
          by_cases hl2 : (p.drop (i + 1)).length > 0
          · simp only [hl2, if_true] at h
            cases hu2 : parse_uint (p.drop (i + 1)) with
            | none =>
              rw [hu2] at h
              exact (hfalse h).elim
            | some w =>
              have hd2 := parse_uint_digits _ hbF w hu2
              exact ⟨p.take i, p.drop (i + 1), hd.2, hd2.2, Or.inl hd.1, Or.inl a2⟩
          · have e : p.drop (i + 1) = [] := List.eq_nil_of_length_eq_zero (by omega)
            refine ⟨p.take i, p.drop (i + 1), hd.2, ?_, Or.inl hd.1, Or.inl a2⟩
            rw [e]
            exact nodig
      · simp only [hi, if_false] at h
        have hi0 : i = 0 := by omega
        subst hi0
        by_cases hl2 : (p.drop (0 + 1)).length > 0
        · simp only [hl2, if_true] at h
          cases hu2 : parse_uint (p.drop (0 + 1)) with
          | none =>
            rw [hu2] at h
            exact (hfalse h).elim
          | some w =>
            have hd2 := parse_uint_digits _ hbF w hu2
            exact ⟨[], p.drop (0 + 1), nodig, hd2.2, Or.inr hd2.1, Or.inl a2⟩
        · simp only [hl2, if_false, Bool.not_false, if_true] at h
          exact (hfalse h).elim

/-- A field that `parse_fixedpoint_float` accepts has the form sign, digits,
point, digits or sign, digits; with at most nine digits `F` after the point (or
in all when there is no point) the scale is `10 ^ |F|` and the value is the
signed magnitude, which is at most `INT32_MAX`. -/
theorem fixedpoint_accepts (f : List Nat) (hb : ∀ c, c ∈ f → c < 256)
    (out : tiny_nmea_float_t) (h : parse_fixedpoint_float f = some (true, out)) :
    ∃ sign I F, (sign = [] ∨ sign = [43] ∨ sign = [45]) ∧
      (∀ c, c ∈ I → is_ascii_digit c) ∧ (∀ c, c ∈ F → is_ascii_digit c) ∧
      (I ≠ [] ∨ F ≠ []) ∧ (f = sign ++ (I ++ 46 :: F) ∨ (I = [] ∧ f = sign ++ F)) ∧
      (F.length ≤ 9 →
        decimal_value I * 10 ^ F.length + decimal_value F ≤ 2147483647 ∧
        out.scale = ((10 ^ F.length : Nat) : Int) ∧
        out.value = (if sign = [45]
          then -((decimal_value I * 10 ^ F.length + decimal_value F : Nat) : Int)
          else ((decimal_value I * 10 ^ F.length + decimal_value F : Nat) : Int))) := by
  have key : ∀ sign p, (sign = [] ∨ sign = [43] ∨ sign = [45]) → f = sign ++ p →
      fixedpoint_body (decide (sign = [45])) p = some (true, out) →
      ∃ sign I F, (sign = [] ∨ sign = [43] ∨ sign = [45]) ∧
      (∀ c, c ∈ I → is_ascii_digit c) ∧ (∀ c, c ∈ F → is_ascii_digit c) ∧
      (I ≠ [] ∨ F ≠ []) ∧ (f = sign ++ (I ++ 46 :: F) ∨ (I = [] ∧ f = sign ++ F)) ∧
      (F.length ≤ 9 →
        decimal_value I * 10 ^ F.length + decimal_value F ≤ 2147483647 ∧
        out.scale = ((10 ^ F.length : Nat) : Int) ∧
        out.value = (if sign = [45]
          then -((decimal_value I * 10 ^ F.length + decimal_value F : Nat) : Int)
          else ((decimal_value I * 10 ^ F.length + decimal_value F : Nat) : Int))) := by
    intro sign p hs hf hbody
    have hbp : ∀ c, c ∈ p → c < 256 := fun c hc =>
      hb c (by rw [hf]; exact List.mem_append_right _ hc)
    obtain ⟨I, F, hI, hF, hne, hp⟩ := fixedpoint_body_shape _ p hbp out hbody
    refine ⟨sign, I, F, hs, hI, hF, hne, ?_, ?_⟩
    · rcases hp with q | ⟨q1, q2⟩
      · exact Or.inl (by rw [hf, q])
      · exact Or.inr ⟨q1, by rw [hf, q2]⟩
    · intro h9
      clear hbody
      rcases hp with q | ⟨q1, q2⟩
      · have := fixedpoint_point sign I F hs hI hF h9 hne
        rw [← q, ← hf, h] at this
        by_cases hM : decimal_value I * 10 ^ F.length + decimal_value F ≤ 2147483647
        · rw [if_pos hM] at this
          injection this with this
          injection this with _ this
          rw [this]
          exact ⟨hM, rfl, rfl⟩
        · rw [if_neg hM] at this
          injection this with this
          injection this with this _
          exact Bool.noConfusion this
      · subst q1
        have hF1 : 1 ≤ F.length := by
          rcases hne with q | q
          · exact absurd rfl q
          · exact List.length_pos.2 q
        have := fixedpoint_digits sign F hs hF hF1 h9
        rw [q2] at hf
        rw [← hf, h] at this
        injection this with this
        injection this with _ this
        have hv := decimal_value_lt F hF
        have hp9 := pow10_le F.length h9
        have e0 : decimal_value ([] : List Nat) = 0 := rfl
        rw [this, e0, Nat.zero_mul, Nat.zero_add]
        exact ⟨by omega, rfl, rfl⟩
  rw [parse_fixedpoint_float_eq] at h
  cases f with
  | nil =>
    injection h with h
    injection h with h _
    exact Bool.noConfusion h
  | cons c t =>
    have hne : field_empty (c :: t) = false := rfl
    rw [hne] at h
    simp only [Bool.false_eq_true, if_false, List.headD_cons, List.tail_cons] at h
    by_cases h45 : c = 45
    · subst h45
      simp only [beq_self_eq_true, if_true] at h
      exact key [45] t (Or.inr (Or.inr rfl)) rfl h
    · have e1 : (c == 45) = false := by simpa using h45
      rw [e1] at h
      simp only [Bool.false_eq_true, if_false] at h
      by_cases h43 : c = 43
      · subst h43
        simp only [beq_self_eq_true, if_true] at h
        exact key [43] t (Or.inr (Or.inl rfl)) rfl h
      · have e2 : (c == 43) = false := by simpa using h43
        rw [e2] at h
        simp only [Bool.false_eq_true, if_false] at h
        exact key [] (c :: t) (Or.inl rfl) rfl h

/-- Fields without a digit are rejected by `parse_fixedpoint_float`. -/
theorem fixedpoint_rejects_examples :
    parse_fixedpoint_float (bytes "") = some (false, {}) ∧
    parse_fixedpoint_float (bytes ".") = some (false, {}) ∧
    parse_fixedpoint_float (bytes "+") = some (false, {}) ∧
    parse_fixedpoint_float (bytes "-") = some (false, {}) ∧
    parse_fixedpoint_float (bytes "-.") = some (false, {}) := by
  decide

/-! ## Sentence decoders, satellite tracker and unit conversions: lemmas -/

theorem gsv_sat_loop_count (f : List (List Nat)) (count : Nat) (l : List Nat) :
    ∀ acc : List tiny_nmea_sat_info_t × Nat,
      (gsv_sat_loop f count l acc).2 ≤ acc.2 + l.length := by
  induction l with
  | nil => intro acc; exact Nat.le_refl _
  | cons i rest ih =>
    intro acc
    obtain ⟨sats, n⟩ := acc
    unfold gsv_sat_loop
    simp only [List.length_cons]
    split
    · simp only; omega
    · split
      · have := ih (sats, n); simp only at this ⊢; omega
      · split
        · have := ih (sats.set n { prn := 0, elevation := -128, azimuth := -1, snr := -1 }, n)
          simp only at this ⊢; omega
        · rename_i tmp _
          refine le_trans (ih _) ?_
          simp only; omega

/-- On a body with at least three fields `handle_parse_gsv` returns OK with at
most `TINY_NMEA_MAX_SATS_PER_GSV` satellites. -/
theorem handle_parse_gsv_ok (s : List Nat) (data : tiny_nmea_gsv_t)
    (h : 3 ≤ (tokenize s 20).length) :
    ∃ out, handle_parse_gsv s data = some (TINY_NMEA_OK, out) ∧
      out.sat_count ≤ TINY_NMEA_MAX_SATS_PER_GSV := by
  unfold handle_parse_gsv
  simp only [show ¬ (tokenize s 20).length < 3 by omega, if_false]
  refine ⟨_, rfl, ?_⟩
  have := gsv_sat_loop_count (tokenize s 20) (tokenize s 20).length
    (List.range TINY_NMEA_MAX_SATS_PER_GSV) (List.replicate 4 {}, 0)
  simpa [TINY_NMEA_MAX_SATS_PER_GSV] using this

/-- A GSV record with `2 ≤ msg_number ≤ total_msgs` never reaches the callback
of `tiny_nmea_sat_tracking_update_gsv`: the view buffer is emptied instead. -/
theorem update_gsv_later_message (ctx : tiny_nmea_sats_tracker_ctx_t) (gsv : tiny_nmea_gsv_t)
    (h2 : 2 ≤ gsv.msg_number) (hn : gsv.msg_number ≤ gsv.total_msgs) :
    ∃ c, tiny_nmea_sat_tracking_update_gsv ctx gsv = some (TINY_NMEA_OK, c) ∧
      c.calls = ctx.calls ∧ c.num_sats_in_view = 0 ∧ c.sats_in_view_last_sentence = 0 := by
  unfold tiny_nmea_sat_tracking_update_gsv
  by_cases hr : gsv.msg_number = 1 ∨ gsv.total_msgs ≠ ctx.sats_in_view_last_sentence
  · simp only [hr, if_true]
    rw [if_pos (by omega)]
    exact ⟨_, rfl, rfl, rfl, rfl⟩
  · simp only [hr, if_false]
    have : gsv.total_msgs = ctx.sats_in_view_last_sentence := by
      by_contra q; exact hr (Or.inr q)
    rw [if_pos (by omega)]
    exact ⟨_, rfl, rfl, rfl, rfl⟩

theorem to_int64_id (x : Int) (h1 : -9223372036854775808 ≤ x) (h2 : x ≤ 9223372036854775807) :
    to_int64 x = x := by
  unfold to_int64
  omega

theorem to_int32_id (x : Int) (h1 : -2147483648 ≤ x) (h2 : x ≤ 2147483647) :
    to_int32 x = x := by
  unfold to_int32
  omega

/-- The function `tiny_nmea_knots_to_kph` returns the truncated quotient
`value * 1852 / scale` whenever that quotient fits in `int32_t`. -/
theorem knots_to_kph_exact (v s : Int) (hv1 : -2147483648 ≤ v) (hv2 : v ≤ 2147483647)
    (hs : s ≠ 0)
    (hq1 : -2147483648 ≤ Int.tdiv (v * 1852) s) (hq2 : Int.tdiv (v * 1852) s ≤ 2147483647) :
    tiny_nmea_knots_to_kph { value := v, scale := s } = Int.tdiv (v * 1852) s ∧
    tiny_nmea_knots_to_kph { value := v, scale := 0 } = 0 := by
  unfold tiny_nmea_knots_to_kph
  simp only [hs, if_false, if_true]
  rw [to_int64_id _ (by omega) (by omega), to_int32_id _ hq1 hq2]
  exact ⟨rfl, trivial⟩

/-- The function `tiny_nmea_knots_to_mps` returns the truncated quotient
`value * 514444 / (scale * 1000)` whenever `scale * 1000` fits in `int32_t` and
the quotient fits in `int32_t`. -/
theorem knots_to_mps_small (v s : Int) (hv1 : -2147483648 ≤ v) (hv2 : v ≤ 2147483647)
    (hs : s ≠ 0) (hs1 : -2147483 ≤ s) (hs2 : s ≤ 2147483)
    (hq1 : -2147483648 ≤ Int.tdiv (v * 514444) (s * 1000))
    (hq2 : Int.tdiv (v * 514444) (s * 1000) ≤ 2147483647) :
    tiny_nmea_knots_to_mps { value := v, scale := s } = some (Int.tdiv (v * 514444) (s * 1000)) ∧
    tiny_nmea_knots_to_mps { value := v, scale := 0 } = some 0 := by
  unfold tiny_nmea_knots_to_mps
  simp only [hs, if_false, if_true]
  rw [to_int32_id (s * 1000) (by omega) (by omega), to_int64_id _ (by omega) (by omega)]
  rw [if_neg (by omega), to_int32_id _ hq1 hq2]
  exact ⟨rfl, trivial⟩

theorem parse_time_valid (f : List Nat) (h : (parse_time f).1 = true) :
    (parse_time f).2.valid = true := by
  unfold parse_time at h ⊢
  split
  · rename_i c; rw [if_pos c] at h; exact Bool.noConfusion h
  · rename_i c
    rw [if_neg c] at h
    split
    · rename_i c2; rw [if_pos c2] at h; exact Bool.noConfusion h
    · rename_i c2
      rw [if_neg c2] at h
      simp only at h ⊢
      split
      · rename_i c3; rw [if_pos c3] at h; exact Bool.noConfusion h
      · rfl

/-- The year that `handle_parse_zda` stores for the field `f`: its number
converted to `uint16_t`, or 0 when it is no number. -/
theorem zda_year_field (f : List Nat) :
    (∀ v, parse_uint f = some v → ((parse_uint f).map to_uint16).getD 0 = v % 65536) ∧
    (parse_uint f = none → ((parse_uint f).map to_uint16).getD 0 = 0) ∧
    (f ≠ [] → (∀ c, c ∈ f → is_ascii_digit c) → decimal_value f ≤ 65535 →
      ((parse_uint f).map to_uint16).getD 0 = decimal_value f) := by
  refine ⟨?_, ?_, ?_⟩
  · intro v hv
    rw [hv]
    rfl
  · intro hv
    rw [hv]
    rfl
  · intro hne hd hle
    have hb : ∀ c, c ∈ f → c < 256 := fun c hc => by
      have := hd c hc; unfold is_ascii_digit at this; omega
    rw [(parse_uint_spec f hb (decimal_value f)).2 ⟨hne, hd, by omega, rfl⟩]
    show to_uint16 (decimal_value f) = decimal_value f
    unfold to_uint16
    omega

/-- What the case `TINY_NMEA_SENTENCE_COMPLETE` leaves in the fields that the
user of the library observes. -/
theorem sentence_complete_user (ctx : tiny_nmea_ctx_t) (res : tiny_nmea_res_t)
    (rec : tiny_nmea_type_t) (e : Nat)
    (hdec : complete_decode ctx = some (res, rec)) (hle : ctx.line_end = some e) :
    ∃ c, fsm_sentence_complete ctx = some c ∧
      c.parse_callback = ctx.parse_callback ∧ c.error_callback = ctx.error_callback ∧
      c.parser_state = TINY_NMEA_PARSE_FIND_START ∧ c.parse_pos = 0 ∧
      (res = TINY_NMEA_OK →
        c.stats = { ctx.stats with sentences_parsed := incr32 ctx.stats.sentences_parsed } ∧
        c.zda_century = pp_century ctx.zda_century rec ∧
        c.calls = (if ctx.parse_callback then ctx.calls ++
            [tiny_nmea_callback_event.parse (pp_record ctx.zda_century rec)
              { ctx.stats with sentences_parsed := incr32 ctx.stats.sentences_parsed }]
          else ctx.calls)) ∧
      (res ≠ TINY_NMEA_OK →
        c.stats = { ctx.stats with parse_errors := incr32 ctx.stats.parse_errors } ∧
        c.zda_century = ctx.zda_century ∧
        c.calls = (if ctx.error_callback then ctx.calls ++
            [tiny_nmea_callback_event.error rec
              { ctx.stats with parse_errors := incr32 ctx.stats.parse_errors }]
          else ctx.calls)) := by
  unfold complete_decode at hdec
  unfold fsm_sentence_complete
  simp only [hdec, pp_eq, hle, count_parse_error]
  by_cases hr : res = TINY_NMEA_OK
  · simp only [hr, if_true]
    by_cases hcb : ctx.parse_callback = true
    · simp only [hcb, if_true]
      refine ⟨_, rfl, ?_⟩
      unfold RESET_WORKBUF_BYTES discard_bytes
      split <;> exact ⟨rfl, rfl, rfl, rfl, fun _ => ⟨rfl, rfl, rfl⟩, fun q => absurd rfl q⟩
    · simp only [hcb, Bool.false_eq_true, if_false]
      refine ⟨_, rfl, ?_⟩
      unfold RESET_WORKBUF_BYTES discard_bytes
      split <;> exact ⟨rfl, rfl, rfl, rfl, fun _ => ⟨rfl, rfl, rfl⟩, fun q => absurd rfl q⟩
  · simp only [hr, if_false]
    by_cases hcb : ctx.error_callback = true
    · simp only [hcb, if_true]
      refine ⟨_, rfl, ?_⟩
      unfold RESET_WORKBUF_BYTES discard_bytes
      split <;> exact ⟨rfl, rfl, rfl, rfl, fun q => q.elim, fun _ => ⟨rfl, rfl, rfl⟩⟩
    · simp only [hcb, Bool.false_eq_true, if_false]
      refine ⟨_, rfl, ?_⟩
      unfold RESET_WORKBUF_BYTES discard_bytes
      split <;> exact ⟨rfl, rfl, rfl, rfl, fun q => q.elim, fun _ => ⟨rfl, rfl, rfl⟩⟩

theorem map_header {α : Type} (o : Option (tiny_nmea_res_t × α)) (r0 : tiny_nmea_type_t)
    (mk : α → tiny_nmea_data_t) (res : tiny_nmea_res_t) (rec : tiny_nmea_type_t)
    (h : o.map (fun r => (r.1, { r0 with data := mk r.2 })) = some (res, rec)) :
    rec.type = r0.type ∧ rec.talker = r0.talker := by
  obtain ⟨r, _, hr⟩ := Option.map_eq_some'.1 h
  injection hr with _ hr
  rw [← hr]
  exact ⟨rfl, rfl⟩

/-- With a valid talker and type in `*result`, `tiny_nmea_parse` leaves them
as they are. -/
theorem parse_keeps_header (sentence : List Nat) (r0 : tiny_nmea_type_t)
    (htk : tiny_nmea_talker_valid r0.talker = true)
    (hty : tiny_nmea_sentence_valid r0.type = true)
    (res : tiny_nmea_res_t) (rec : tiny_nmea_type_t)
    (h : tiny_nmea_parse sentence r0 = some (res, rec)) :
    rec.type = r0.type ∧ rec.talker = r0.talker := by
  unfold tiny_nmea_parse at h
  simp only [htk, hty, Bool.not_true, Bool.or_self, Bool.false_eq_true, if_false,
    Bool.false_and] at h
  by_cases cRMC : r0.type = TINY_NMEA_SENTENCE_RMC
  · rw [if_pos cRMC] at h
    exact map_header _ _ _ _ _ h
  rw [if_neg cRMC] at h
  by_cases cGGA : r0.type = TINY_NMEA_SENTENCE_GGA
  · rw [if_pos cGGA] at h
    exact map_header _ _ _ _ _ h
  rw [if_neg cGGA] at h
  by_cases cGNS : r0.type = TINY_NMEA_SENTENCE_GNS
  · rw [if_pos cGNS] at h
    exact map_header _ _ _ _ _ h
  rw [if_neg cGNS] at h
  by_cases cGSA : r0.type = TINY_NMEA_SENTENCE_GSA
  · rw [if_pos cGSA] at h
    exact map_header _ _ _ _ _ h
  rw [if_neg cGSA] at h
  by_cases cGSV : r0.type = TINY_NMEA_SENTENCE_GSV
  · rw [if_pos cGSV] at h
    exact map_header _ _ _ _ _ h
  rw [if_neg cGSV] at h
  by_cases cVTG : r0.type = TINY_NMEA_SENTENCE_VTG
  · rw [if_pos cVTG] at h
    exact map_header _ _ _ _ _ h
  rw [if_neg cVTG] at h
  by_cases cGLL : r0.type = TINY_NMEA_SENTENCE_GLL
  · rw [if_pos cGLL] at h
    exact map_header _ _ _ _ _ h
  rw [if_neg cGLL] at h
  by_cases cZDA : r0.type = TINY_NMEA_SENTENCE_ZDA
  · rw [if_pos cZDA] at h
    exact map_header _ _ _ _ _ h
  rw [if_neg cZDA] at h
  by_cases cGBS : r0.type = TINY_NMEA_SENTENCE_GBS
  · rw [if_pos cGBS] at h
    exact map_header _ _ _ _ _ h
  rw [if_neg cGBS] at h
  by_cases cGST : r0.type = TINY_NMEA_SENTENCE_GST
  · rw [if_pos cGST] at h
    exact map_header _ _ _ _ _ h
  rw [if_neg cGST] at h
  by_cases cA : r0.type = TINY_NMEA_SENTENCE_VDM ∨ r0.type = TINY_NMEA_SENTENCE_VDO
  · rw [if_pos cA] at h
    exact map_header _ _ _ _ _ h
  rw [if_neg cA] at h
  injection h with h
  injection h with _ h
  rw [← h]
  exact ⟨rfl, rfl⟩

/-- The answer of `tiny_nmea_parse` for a record tagged RMC. -/
theorem parse_rmc_eq (sentence : List Nat) (r0 : tiny_nmea_type_t)
    (htk : tiny_nmea_talker_valid r0.talker = true)
    (hty : r0.type = TINY_NMEA_SENTENCE_RMC) :
    tiny_nmea_parse sentence r0 =
      (handle_parse_rmc
        (parse_field_data sentence)
        (data_rmc r0.data)).map fun r => (r.1, { r0 with data := tiny_nmea_data_t.rmc r.2 }) := by
  unfold tiny_nmea_parse
  have hv : tiny_nmea_sentence_valid r0.type = true := by rw [hty]; rfl
  simp only [htk, hv, Bool.not_true, Bool.or_self, Bool.false_eq_true, if_false,
    Bool.false_and]
  rw [if_pos hty]

/-- The answer of `tiny_nmea_parse` for a record tagged ZDA. -/
theorem parse_zda_eq (sentence : List Nat) (r0 : tiny_nmea_type_t)
    (htk : tiny_nmea_talker_valid r0.talker = true)
    (hty : r0.type = TINY_NMEA_SENTENCE_ZDA) :
    tiny_nmea_parse sentence r0 =
      (handle_parse_zda
        (parse_field_data sentence)
        (data_zda r0.data)).map fun r => (r.1, { r0 with data := tiny_nmea_data_t.zda r.2 }) := by
  unfold tiny_nmea_parse
  have hv : tiny_nmea_sentence_valid r0.type = true := by rw [hty]; rfl
  simp only [htk, hv, Bool.not_true, Bool.or_self, Bool.false_eq_true, if_false,
    Bool.false_and]
  rw [if_neg (by rw [hty]; decide), if_neg (by rw [hty]; decide), if_neg (by rw [hty]; decide),
    if_neg (by rw [hty]; decide), if_neg (by rw [hty]; decide), if_neg (by rw [hty]; decide),
    if_neg (by rw [hty]; decide), if_pos hty]

theorem discard_century (ctx : tiny_nmea_ctx_t) (n : Nat) :
    (discard_bytes ctx n).zda_century = ctx.zda_century := by
  unfold discard_bytes
  split <;> rfl

theorem top_up_century (ctx : tiny_nmea_ctx_t) :
    (work_top_up ctx).zda_century = ctx.zda_century := by
  unfold work_top_up
  simp only
  split
  · rfl
  · split <;> rfl

theorem find_start_century (ctx : tiny_nmea_ctx_t) :
    (fsm_find_start ctx).zda_century = ctx.zda_century := by
  unfold fsm_find_start
  simp only
  split
  · simp only [discard_century]
  · rfl

theorem find_talker_century (ctx : tiny_nmea_ctx_t) :
    (fsm_find_talker_and_type ctx).zda_century = ctx.zda_century := by
  unfold fsm_find_talker_and_type
  split
  · rfl
  · simp only
    split
    · simp only [RESET_WORKBUF_BYTES, count_parse_error, discard_century]
    · rfl

theorem need_more_data_century (ctx : tiny_nmea_ctx_t) :
    (fsm_need_more_data ctx).zda_century = ctx.zda_century := by
  unfold fsm_need_more_data
  split
  · simp only [RESET_WORKBUF_BYTES, discard_century, count_parse_error]
  · rfl

theorem find_checksum_century (ctx : tiny_nmea_ctx_t) :
    (fsm_find_checksum_or_end ctx).zda_century = ctx.zda_century := by
  unfold fsm_find_checksum_or_end
  simp only
  split
  · rw [need_more_data_century]
  · rfl

theorem find_end_century (ctx : tiny_nmea_ctx_t) :
    (fsm_find_end ctx).zda_century = ctx.zda_century := by
  unfold fsm_find_end
  by_cases h : ctx.line_end.isNone = true
  · simp only [h, if_true]
    split
    · rw [need_more_data_century]
    · split
      · rfl
      · split
        · rfl
        · split <;> rfl
  · simp only [h, Bool.false_eq_true, if_false]
    split
    · rw [need_more_data_century]
    · split
      · rfl
      · split
        · rfl
        · split <;> rfl

theorem parse_date_year (f : List Nat) :
    (parse_date f).2.year = 0 ∧ (parse_date f).2.year_yy < 256 := by
  unfold parse_date
  split
  · exact ⟨rfl, by decide⟩
  · split
    · exact ⟨rfl, by decide⟩
    · simp only
      split
      · exact ⟨rfl, Nat.mod_lt _ (by decide)⟩
      · exact ⟨rfl, Nat.mod_lt _ (by decide)⟩

/-- A record that the case `TINY_NMEA_SENTENCE_COMPLETE` decodes with OK for
an RMC header holds an RMC payload whose full year is 0. -/
theorem rmc_decoded (ctx : tiny_nmea_ctx_t) (rec : tiny_nmea_type_t)
    (htk : tiny_nmea_talker_valid ctx.current_talker = true)
    (hty : ctx.current_type = TINY_NMEA_SENTENCE_RMC)
    (hdec : complete_decode ctx = some (TINY_NMEA_OK, rec)) :
    ∃ r, rec = { type := TINY_NMEA_SENTENCE_RMC, talker := ctx.current_talker,
                 data := tiny_nmea_data_t.rmc r } ∧
      r.date.year = 0 ∧ r.date.year_yy < 256 := by
  unfold complete_decode at hdec
  rw [parse_rmc_eq _ _ htk hty] at hdec
  obtain ⟨r, hr, hrec⟩ := Option.map_eq_some'.1 hdec
  obtain ⟨res, out⟩ := r
  injection hrec with h1 h2
  simp only at h1 h2
  subst h1
  have hcount : 11 ≤ (tokenize (parse_field_data (ctx.working_buf.set ctx.data_end 0))
      13).length := by
    by_contra hlt
    rw [handle_parse_rmc_few _ _ (by omega)] at hr
    injection hr with hr
    injection hr with hr _
    exact tiny_nmea_res_t.noConfusion hr
  have hd := (handle_parse_rmc_defined _ _ _ hcount hr).2.2.2.2.2.2.2
  simp only at hd
  refine ⟨out, ?_, ?_, ?_⟩
  · rw [← h2, hty]
  · rw [hd]; exact (parse_date_year _).1
  · rw [hd]; exact (parse_date_year _).2

/-- A ZDA body that `handle_parse_zda` accepts yields a valid date. -/
theorem handle_parse_zda_ok (s : List Nat) (data out : tiny_nmea_zda_t)
    (h : handle_parse_zda s data = some (TINY_NMEA_OK, out)) : out.date.valid = true := by
  unfold handle_parse_zda at h
  by_cases hc : (tokenize s 7).length < 6
  · simp only [hc, if_true] at h
    exact tiny_nmea_res_t.noConfusion (congrArg Prod.fst (Option.some.inj h))
  · simp only [hc, if_false] at h
    by_cases ht : (parse_time ((tokenize s 7).getD 0 [])).1 = true
    · simp only [ht, Bool.not_true, Bool.false_eq_true, if_false] at h
      by_cases hd : ((parse_uint ((tokenize s 7).getD 1 [])).map to_uint8).getD 0 < 1 ∨
          ((parse_uint ((tokenize s 7).getD 1 [])).map to_uint8).getD 0 > 31 ∨
          ((parse_uint ((tokenize s 7).getD 2 [])).map to_uint8).getD 0 < 1 ∨
          ((parse_uint ((tokenize s 7).getD 2 [])).map to_uint8).getD 0 > 12
      · rw [if_pos hd] at h
        exact tiny_nmea_res_t.noConfusion (congrArg Prod.fst (Option.some.inj h))
      · rw [if_neg hd] at h
        have h2 := congrArg Prod.snd (Option.some.inj h)
        simp only at h2
        rw [← h2]
    · have ht2 : (parse_time ((tokenize s 7).getD 0 [])).1 = false := by
        cases hq : (parse_time ((tokenize s 7).getD 0 [])).1 with
        | true => exact absurd hq ht
        | false => rfl
      simp only [ht2, Bool.not_false, if_true] at h
      exact tiny_nmea_res_t.noConfusion (congrArg Prod.fst (Option.some.inj h))

/-- A record that the case `TINY_NMEA_SENTENCE_COMPLETE` decodes with OK for a
ZDA header holds a ZDA payload with a valid date. -/
theorem zda_decoded (ctx : tiny_nmea_ctx_t) (rec : tiny_nmea_type_t)
    (htk : tiny_nmea_talker_valid ctx.current_talker = true)
    (hty : ctx.current_type = TINY_NMEA_SENTENCE_ZDA)
    (hdec : complete_decode ctx = some (TINY_NMEA_OK, rec)) :
    ∃ z, rec = { type := TINY_NMEA_SENTENCE_ZDA, talker := ctx.current_talker,
                 data := tiny_nmea_data_t.zda z } ∧
      z.date.valid = true := by
  unfold complete_decode at hdec
  rw [parse_zda_eq _ _ htk hty] at hdec
  obtain ⟨r, hr, hrec⟩ := Option.map_eq_some'.1 hdec
  obtain ⟨res, out⟩ := r
  have h1 := congrArg Prod.fst hrec
  have h2 := congrArg Prod.snd hrec
  simp only at h1 h2
  subst h1
  refine ⟨out, ?_, handle_parse_zda_ok _ _ _ hr⟩
  rw [← h2, hty]

/-- The century that `parse_post_process` leaves for a ZDA record with a valid
date. -/
theorem pp_century_zda (century : Nat) (talker : Nat) (z : tiny_nmea_zda_t)
    (hv : z.date.valid = true) :
    pp_century century
        { type := TINY_NMEA_SENTENCE_ZDA, talker := talker, data := tiny_nmea_data_t.zda z } =
      (if 100 ≤ z.date.year then (z.date.year / 100) % 256 else 0) := by
  unfold pp_century parse_post_process date_get_century_helper
  simp only [if_true, data_zda, hv, Bool.true_and, decide_eq_true_eq, ge_iff_le]
  split <;> rfl

/-- The record that `parse_post_process` leaves for an RMC record. -/
theorem pp_record_rmc (century : Nat) (talker : Nat) (r : tiny_nmea_rmc_t)
    (hc : century < 256) (hy : r.date.year_yy < 256) :
    pp_record century
        { type := TINY_NMEA_SENTENCE_RMC, talker := talker, data := tiny_nmea_data_t.rmc r } =
      (if century = 0 then
        { type := TINY_NMEA_SENTENCE_RMC, talker := talker, data := tiny_nmea_data_t.rmc r }
      else
        { type := TINY_NMEA_SENTENCE_RMC, talker := talker,
          data := tiny_nmea_data_t.rmc { r with date := { r.date with
            year := century * 100 + r.date.year_yy } } }) := by
  unfold pp_record parse_post_process
  rw [if_neg (show ¬ TINY_NMEA_SENTENCE_RMC = TINY_NMEA_SENTENCE_ZDA by decide)]
  simp only [if_true, data_rmc]
  by_cases h0 : century = 0
  · rw [if_neg (by omega), if_pos h0]
  · rw [if_pos (by omega), if_neg h0]
    have e : to_uint16 (to_uint16 century * 100 + r.date.year_yy) =
        century * 100 + r.date.year_yy := by
      unfold to_uint16
      omega
    rw [e]

/-- What the case `TINY_NMEA_SENTENCE_COMPLETE` does to the century: it stays,
unless the decoder accepted a ZDA record with a valid date. -/
theorem complete_century (ctx c : tiny_nmea_ctx_t) (h : fsm_sentence_complete ctx = some c) :
    c.zda_century = ctx.zda_century ∨
    ∃ rec, complete_decode ctx = some (TINY_NMEA_OK, rec) ∧
      rec.type = TINY_NMEA_SENTENCE_ZDA ∧ (data_zda rec.data).date.valid = true ∧
      c.zda_century = (if 100 ≤ (data_zda rec.data).date.year then
        ((data_zda rec.data).date.year / 100) % 256 else 0) := by
  cases hd : complete_decode ctx with
  | none =>
    unfold complete_decode at hd
    unfold fsm_sentence_complete at h
    simp only [hd] at h
    exact Option.noConfusion h
  | some r =>
    obtain ⟨res, rec⟩ := r
    cases hle : ctx.line_end with
    | none =>
      unfold complete_decode at hd
      unfold fsm_sentence_complete at h
      simp only [hd, pp_eq, hle, count_parse_error] at h
      split_ifs at h
    | some e =>
      obtain ⟨c1, h1, _, _, _, _, hok, herr⟩ := sentence_complete_user ctx res rec e hd hle
      rw [h] at h1
      have hc : c = c1 := Option.some.inj h1
      subst hc
      by_cases hr : res = TINY_NMEA_OK
      · subst hr
        have hcen := (hok rfl).2.1
        unfold pp_century parse_post_process at hcen
        by_cases hty : rec.type = TINY_NMEA_SENTENCE_ZDA
        · rw [if_pos hty] at hcen
          by_cases hv : (data_zda rec.data).date.valid = true
          · rw [if_pos hv] at hcen
            refine Or.inr ⟨rec, rfl, hty, hv, ?_⟩
            rw [hcen]
            unfold date_get_century_helper
            simp only [hv, Bool.true_and, decide_eq_true_eq, ge_iff_le]
            split <;> rfl
          · rw [if_neg hv] at hcen
            exact Or.inl hcen
        · rw [if_neg hty] at hcen
          split at hcen
          · split at hcen <;> exact Or.inl hcen
          · exact Or.inl hcen
      · exact Or.inl (herr hr).2.1

/-- What one pass of the loop of `tiny_nmea_work` does to the century. -/
theorem pass_century (a c : tiny_nmea_ctx_t)
    (hpass : tiny_nmea_work_body a = loop_outcome.next c ∨
      tiny_nmea_work_body a = loop_outcome.exit c) :
    c.zda_century = a.zda_century ∨
    ∃ rec, (activate a).parser_state = TINY_NMEA_SENTENCE_COMPLETE ∧
      complete_decode (activate a) = some (TINY_NMEA_OK, rec) ∧
      rec.type = TINY_NMEA_SENTENCE_ZDA ∧ (data_zda rec.data).date.valid = true ∧
      c.zda_century = (if 100 ≤ (data_zda rec.data).date.year then
        ((data_zda rec.data).date.year / 100) % 256 else 0) := by
  have hact : (activate a).zda_century = a.zda_century := top_up_century a
  rw [work_body_eq] at hpass
  by_cases h0 : (a.waiting_for_data && ringbuf_len a.ringbuf == 0) = true
  · rw [if_pos h0] at hpass
    rcases hpass with h | h
    · exact loop_outcome.noConfusion h
    · rw [← loop_outcome.exit.inj h]; exact Or.inl rfl
  · rw [if_neg h0] at hpass
    unfold work_dispatch at hpass
    change (if (activate a).working_buf_len - (activate a).parse_pos = 0 then _ else _) = _ ∨
      (if (activate a).working_buf_len - (activate a).parse_pos = 0 then _ else _) = _ at hpass
    by_cases h1 : (activate a).working_buf_len - (activate a).parse_pos = 0
    · rw [if_pos h1] at hpass
      have : c = activate a := by
        rcases hpass with h | h
        · split at h
          · exact loop_outcome.noConfusion h
          · exact (loop_outcome.next.inj h).symm
        · split at h
          · exact (loop_outcome.exit.inj h).symm
          · exact loop_outcome.noConfusion h
      rw [this]; exact Or.inl hact
    · rw [if_neg h1] at hpass
      cases hs : (activate a).parser_state with
      | TINY_NMEA_PARSE_FIND_START =>
        have hs2 : (work_top_up a).parser_state = _ := hs
        simp only [hs2] at hpass
        rcases hpass with h | h
        · rw [← loop_outcome.next.inj h, find_start_century]; exact Or.inl hact
        · exact loop_outcome.noConfusion h
      | TINY_NMEA_PARSE_FIND_TALKER_AND_TYPE =>
        have hs2 : (work_top_up a).parser_state = _ := hs
        simp only [hs2] at hpass
        rcases hpass with h | h
        · rw [← loop_outcome.next.inj h, find_talker_century]; exact Or.inl hact
        · exact loop_outcome.noConfusion h
      | TINY_NMEA_PARSE_FIND_CHECKSUM_OR_END =>
        have hs2 : (work_top_up a).parser_state = _ := hs
        simp only [hs2] at hpass
        rcases hpass with h | h
        · rw [← loop_outcome.next.inj h, find_checksum_century]; exact Or.inl hact
        · exact loop_outcome.noConfusion h
      | TINY_NMEA_PARSE_FIND_END =>
        have hs2 : (work_top_up a).parser_state = _ := hs
        simp only [hs2] at hpass
        rcases hpass with h | h
        · rw [← loop_outcome.next.inj h, find_end_century]; exact Or.inl hact
        · exact loop_outcome.noConfusion h
      | TINY_NMEA_SENTENCE_COMPLETE =>
        have hs2 : (work_top_up a).parser_state = _ := hs
        simp only [hs2] at hpass
        rcases hpass with h | h
        · split at h
          · rename_i c1 hf
            have hc : c1 = c := loop_outcome.next.inj h
            subst hc
            rcases complete_century _ _ hf with q | ⟨rec, q1, q2, q3, q4⟩
            · exact Or.inl (q.trans hact)
            · exact Or.inr ⟨rec, rfl, q1, q2, q3, q4⟩
          · exact loop_outcome.noConfusion h
        · split at h <;> exact loop_outcome.noConfusion h

/-- The function `tiny_nmea_coord_to_fixed_degrees` on a non-negative raw
value below 21200 degrees-and-minutes with a positive scale, before the sign
is applied: no 64-bit operation wraps and the divisions are floor divisions. -/
theorem coord_fixed_unsigned (r s : Int) (hs0 : 0 < s) (hs1 : s ≤ 2147483647) (hr0 : 0 ≤ r)
    (hr1 : r ≤ 2147483647) (hlt : r < 21200 * s) :
    to_int64 (to_int64 (Int.tdiv r (to_int64 (100 * s)) * 10000000) +
      Int.tdiv (to_int64 (to_int64 (r - to_int64 (to_int64 (Int.tdiv r (to_int64 (100 * s)) * 100) * s))
        * 10000000)) (to_int64 (60 * s))) =
      r / (100 * s) * 10000000 + (r - r / (100 * s) * 100 * s) * 10000000 / (60 * s) ∧
    0 ≤ r / (100 * s) * 10000000 + (r - r / (100 * s) * 100 * s) * 10000000 / (60 * s) ∧
    r / (100 * s) * 10000000 + (r - r / (100 * s) * 100 * s) * 10000000 / (60 * s) ≤ 2126666666 := by
  have e100 : to_int64 (100 * s) = 100 * s := to_int64_id _ (by omega) (by omega)
  have e60 : to_int64 (60 * s) = 60 * s := to_int64_id _ (by omega) (by omega)
  rw [e100, e60, Int.tdiv_eq_ediv hr0 (by omega)]
  have hD0 : 0 ≤ r / (100 * s) := Int.ediv_nonneg hr0 (by omega)
  have hD1 : r / (100 * s) < 212 := Int.ediv_lt_of_lt_mul (by omega) (by omega)
  have hm : r - r / (100 * s) * 100 * s = r % (100 * s) := by
    rw [Int.emod_def]
    ring
  have hm0 : 0 ≤ r % (100 * s) := Int.emod_nonneg _ (by omega)
  have hm1 : r % (100 * s) < 100 * s := Int.emod_lt_of_pos _ (by omega)
  have hm2 : r % (100 * s) ≤ r := by
    have h1 : 0 ≤ 100 * s * (r / (100 * s)) := Int.mul_nonneg (by omega) hD0
    have h2 := Int.emod_def r (100 * s)
    omega
  have eD : to_int64 (r / (100 * s) * 100) = r / (100 * s) * 100 :=
    to_int64_id _ (by omega) (by omega)
  rw [eD, hm]
  have eP : to_int64 (r / (100 * s) * 100 * s) = r / (100 * s) * 100 * s := by
    apply to_int64_id <;> omega
  rw [eP, hm]
  have eM : to_int64 (r % (100 * s)) = r % (100 * s) := to_int64_id _ (by omega) (by omega)
  rw [eM]
  have eM2 : to_int64 (r % (100 * s) * 10000000) = r % (100 * s) * 10000000 :=
    to_int64_id _ (by omega) (by omega)
  rw [eM2, Int.tdiv_eq_ediv (by omega) (by omega)]
  have hq0 : 0 ≤ r % (100 * s) * 10000000 / (60 * s) := Int.ediv_nonneg (by omega) (by omega)
  have hq1 : r % (100 * s) * 10000000 / (60 * s) < 16666667 :=
    Int.ediv_lt_of_lt_mul (by omega) (by omega)
  have eDs : to_int64 (r / (100 * s) * 10000000) = r / (100 * s) * 10000000 :=
    to_int64_id _ (by omega) (by omega)
  rw [eDs]
  refine ⟨to_int64_id _ (by omega) (by omega), by omega, by omega⟩

/-- The floor of a quotient of integers differs from the quotient by less
than 1. -/
theorem floor_div_close (a b : Int) (hb : 0 < b) :
    0 ≤ (a : ℚ) / (b : ℚ) - ((a / b : Int) : ℚ) ∧ (a : ℚ) / (b : ℚ) - ((a / b : Int) : ℚ) < 1 := by
  have hbq : (0 : ℚ) < (b : ℚ) := by exact_mod_cast hb
  have h1 : b * (a / b) ≤ a := Int.mul_ediv_self_le (by omega)
  have h2 : a < b * (a / b) + b := Int.lt_mul_ediv_self_add hb
  have h1q : (b : ℚ) * ((a / b : Int) : ℚ) ≤ (a : ℚ) := by exact_mod_cast h1
  have h2q : (a : ℚ) < (b : ℚ) * ((a / b : Int) : ℚ) + (b : ℚ) := by exact_mod_cast h2
  constructor
  · rw [sub_nonneg, le_div_iff₀ hbq]
    linarith
  · rw [sub_lt_iff_lt_add, div_lt_iff₀ hbq]
    linarith

theorem and_shift_test (x j : Nat) : (x &&& (1 <<< j) != 0) = x.testBit j := by
  rw [Nat.one_shiftLeft]
  have h : x &&& 2 ^ j = if x.testBit j then 2 ^ j else 0 := by
    apply Nat.eq_of_testBit_eq
    intro i
    rw [Nat.testBit_and, Nat.testBit_two_pow]
    by_cases hij : j = i
    · subst hij
      cases hx : x.testBit j <;> simp [Nat.testBit_two_pow_self]
    · cases hx : x.testBit j <;> simp [hij, Nat.testBit_two_pow_of_ne hij]
  rw [h]
  cases hx : x.testBit j
  · simp
  · have : 2 ^ j ≠ 0 := Nat.pos_iff_ne_zero.1 (Nat.pow_pos (by decide))
    simp [this]

theorem check_bit_eq (row : List Nat) (q : Nat) (hq : 0 < q) (hlen : q / 8 < row.length) :
    check_bit row q = some (row_has row q) := by
  unfold check_bit row_has
  rw [if_neg (by omega)]
  simp only [List.get?_eq_getElem?, List.getElem?_eq_getElem hlen, and_shift_test,
    List.getD_eq_getElem?_getD, Option.getD_some]

theorem check_bit_out (row : List Nat) (q : Nat) (hq : 0 < q) (hlen : row.length ≤ q / 8) :
    check_bit row q = none := by
  unfold check_bit
  rw [if_neg (by omega)]
  simp only [List.get?_eq_getElem?, List.getElem?_eq_none hlen]

theorem set_bit_eq (row : List Nat) (p : Nat) (hp : 0 < p) (hlen : p / 8 < row.length) :
    ∃ row1, set_bit row p = some row1 ∧ row1.length = row.length ∧
      ∀ q, row_has row1 q = (row_has row q || decide (q = p)) := by
  unfold set_bit
  rw [if_neg (by omega)]
  simp only [List.get?_eq_getElem?, List.getElem?_eq_getElem hlen]
  refine ⟨_, rfl, List.length_set _ _ _, fun q => ?_⟩
  unfold row_has
  by_cases hqp : q / 8 = p / 8
  · rw [hqp, List.getD_eq_getElem?_getD, List.getElem?_set_self hlen, Option.getD_some,
      List.getD_eq_getElem?_getD, List.getElem?_eq_getElem hlen, Option.getD_some]
    unfold to_uint8
    rw [show (256 : Nat) = 2 ^ 8 from rfl, Nat.testBit_mod_two_pow, Nat.testBit_or,
      Nat.one_shiftLeft, Nat.testBit_two_pow]
    have h8 : q % 8 < 8 := Nat.mod_lt _ (by decide)
    have e : decide (p % 8 = q % 8) = decide (q = p) := by
      apply decide_eq_decide.2
      constructor <;> intro h <;> omega
    simp only [h8, decide_True, Bool.true_and, e]
  · have hne : q ≠ p := fun h => hqp (by rw [h])
    rw [List.getD_eq_getElem?_getD, List.getElem?_set_ne (fun h => hqp h.symm),
      ← List.getD_eq_getElem?_getD]
    simp [hne]

theorem range_filterMap_get (xs : List Nat) :
    ∀ n, n ≤ xs.length → (List.range n).filterMap (fun i => xs.get? i) = xs.take n := by
  intro n
  induction n with
  | zero => intro _; rfl
  | succ n ih =>
    intro h
    rw [List.range_succ, List.filterMap_append, ih (by omega), List.take_succ]
    simp only [List.filterMap_cons, List.filterMap_nil, List.get?_eq_getElem?]
    rw [List.getElem?_eq_getElem (by omega)]
    rfl

theorem idx_prns_range (gsa : tiny_nmea_gsa_t)
    (h : gsa.satellite_count ≤ gsa.satellite_prns.length) :
    idx_prns gsa (List.range gsa.satellite_count) = gsa_prns gsa := by
  unfold idx_prns gsa_prns
  rw [range_filterMap_get _ _ h]

theorem idx_prns_skip (gsa : tiny_nmea_gsa_t) (i prn : Nat) (rest : List Nat)
    (hi : gsa.satellite_prns.get? i = some prn)
    (hs : prn = 0 ∨ prn ≥ TINY_NMEA_MAX_PRN_PER_CONST) :
    idx_prns gsa (i :: rest) = idx_prns gsa rest := by
  unfold idx_prns
  rw [List.filterMap_cons_some hi, List.filter_cons_of_neg]
  simp only [hs, not_true_eq_false, decide_False, Bool.false_eq_true, not_false_eq_true]

theorem idx_prns_keep (gsa : tiny_nmea_gsa_t) (i prn : Nat) (rest : List Nat)
    (hi : gsa.satellite_prns.get? i = some prn)
    (hs : ¬ (prn = 0 ∨ prn ≥ TINY_NMEA_MAX_PRN_PER_CONST)) :
    idx_prns gsa (i :: rest) = prn :: idx_prns gsa rest := by
  unfold idx_prns
  rw [List.filterMap_cons_some hi, List.filter_cons_of_pos]
  simp only [hs, not_false_eq_true, decide_True]

theorem gsa_constellation_lt (gsa : tiny_nmea_gsa_t) (talker : Nat) :
    gsa_constellation gsa talker < TINY_NMEA_CONSTELLATION_COUNT := by
  unfold gsa_constellation
  split
  · split
    · decide
    · split
      · decide
      · split
        · decide
        · split <;> decide
  · simp only
    split
    · rename_i h
      unfold tiny_nmea_const_from_talker at h ⊢
      split
      · rename_i hv
        unfold tiny_nmea_constellation_valid at hv
        simp only [Bool.and_eq_true, decide_eq_true_eq] at hv
        exact hv.2
      · rename_i hv
        rw [if_neg hv] at h
        exact absurd rfl h
    · decide

theorem recorded_row (bitmask : List (List Nat)) (k q : Nat) (row : List Nat)
    (hrow : bitmask.get? k = some row) (hlen : row.length = 31) (hq0 : 0 < q) (hq : q < 248) :
    check_bit row q = some (prn_recorded bitmask k q) ∧
      prn_recorded bitmask k q = row_has row q := by
  have hg : bitmask.getD k [] = row := by
    rw [List.getD_eq_getElem?_getD, ← List.get?_eq_getElem?, hrow]; rfl
  have hc := check_bit_eq row q hq0 (by omega)
  unfold prn_recorded
  rw [hg, hc]
  cases row_has row q <;> exact ⟨rfl, rfl⟩

/-- The conflict loop of `tiny_nmea_sat_tracking_update_gsa` finds a conflict
exactly when one of the PRNs it looks at is recorded in the row of the
constellation. -/
theorem gsa_conflict_spec (ctx : tiny_nmea_sats_tracker_ctx_t) (gsa : tiny_nmea_gsa_t) (k : Nat)
    (hk : k < TINY_NMEA_CONSTELLATION_COUNT) (hwf : tracker_wf ctx) :
    ∀ l : List Nat, (∀ i ∈ l, i < gsa.satellite_prns.length) →
      (∀ p ∈ idx_prns gsa l, p < 248) →
      gsa_conflict ctx gsa k l =
        some ((idx_prns gsa l).any fun p => prn_recorded ctx.sats_active_bitmask k p) := by
  obtain ⟨w1, w2, _, _⟩ := hwf
  intro l
  induction l with
  | nil => intro _ _; rfl
  | cons i rest ih =>
    intro hi hp
    have hget : gsa.satellite_prns.get? i = some (gsa.satellite_prns.get ⟨i, hi i (List.mem_cons_self _ _)⟩) :=
      List.get?_eq_get _
    generalize gsa.satellite_prns.get ⟨i, hi i (List.mem_cons_self _ _)⟩ = prn at hget
    have hi2 : ∀ j ∈ rest, j < gsa.satellite_prns.length := fun j hj => hi j (List.mem_cons_of_mem _ hj)
    rw [gsa_conflict]
    simp only [hget]
    by_cases hs : prn = 0 ∨ prn ≥ TINY_NMEA_MAX_PRN_PER_CONST
    · rw [if_pos hs]
      rw [idx_prns_skip gsa i prn rest hget hs] at hp ⊢
      exact ih hi2 hp
    · rw [if_neg hs]
      rw [idx_prns_keep gsa i prn rest hget hs] at hp ⊢
      have hrow : ctx.sats_active_bitmask.get? k =
          some (ctx.sats_active_bitmask.get ⟨k, by rw [w1]; exact hk⟩) := List.get?_eq_get _
      have hlen : (ctx.sats_active_bitmask.get ⟨k, by rw [w1]; exact hk⟩).length = 31 :=
        w2 _ (List.get_mem _ _ _)
      generalize ctx.sats_active_bitmask.get ⟨k, by rw [w1]; exact hk⟩ = row at hrow hlen
      have hp0 : 0 < prn := by omega
      have hp1 : prn < 248 := hp prn (List.mem_cons_self _ _)
      obtain ⟨hc, _⟩ := recorded_row _ k prn row hrow hlen hp0 hp1
      simp only [hrow, hc, List.any_cons]
      cases hrec : prn_recorded ctx.sats_active_bitmask k prn
      · simp only [Bool.false_or]
        exact ih hi2 (fun p hp2 => hp p (List.mem_cons_of_mem _ hp2))
      · simp only [Bool.true_or]

theorem recorded_zero (r q : Nat) :
    prn_recorded (List.replicate TINY_NMEA_CONSTELLATION_COUNT
      (List.replicate TINY_NMEA_TRACK_PRN_PER_CONST_ARR_SIZE 0)) r q = false := by
  unfold prn_recorded
  have hrow : ∀ row : List Nat, (row = [] ∨ row = List.replicate 31 0) →
      (check_bit row q == some true) = false := by
    intro row hr
    by_cases hq0 : q = 0
    · unfold check_bit; rw [if_pos hq0]; rfl
    · by_cases hlen : q / 8 < row.length
      · rw [check_bit_eq row q (by omega) hlen]
        rcases hr with h | h
        · rw [h] at hlen; simp at hlen
        · unfold row_has
          rw [h, List.getD_eq_getElem?_getD]
          rw [h, List.length_replicate] at hlen
          rw [List.getElem?_replicate, if_pos hlen]
          simp
      · rw [check_bit_out row q (by omega) (by omega)]; rfl
  apply hrow
  by_cases hr : r < 9
  · right
    rw [List.getD_eq_getElem?_getD, List.getElem?_replicate]
    rw [if_pos (show r < TINY_NMEA_CONSTELLATION_COUNT from hr)]
    rfl
  · left
    rw [List.getD_eq_getElem?_getD, List.getElem?_replicate]
    rw [if_neg (show ¬ r < TINY_NMEA_CONSTELLATION_COUNT from hr)]
    rfl

/-- Setting the bit of PRN `p` in row `k` records `p` there and changes
nothing else. -/
theorem recorded_set (bitmask : List (List Nat)) (k p : Nat) (row row1 : List Nat)
    (hrows : ∀ row ∈ bitmask, row.length = 31)
    (hrow : bitmask.get? k = some row) (hp0 : 0 < p) (hp : p < 248)
    (hlen1 : row1.length = row.length)
    (h1 : ∀ q, row_has row1 q = (row_has row q || decide (q = p))) (r q : Nat) :
    prn_recorded (bitmask.set k row1) r q =
      (prn_recorded bitmask r q || (decide (r = k) && decide (q = p))) := by
  have hkl : k < bitmask.length := by
    rw [List.get?_eq_getElem?] at hrow
    exact (List.getElem?_eq_some_iff.1 hrow).1
  have hlen : row.length = 31 := hrows row (List.get?_mem hrow)
  by_cases hrk : r = k
  · subst hrk
    have hg1 : (bitmask.set r row1).getD r [] = row1 := by
      rw [List.getD_eq_getElem?_getD, List.getElem?_set_self hkl]; rfl
    have hg : bitmask.getD r [] = row := by
      rw [List.getD_eq_getElem?_getD, ← List.get?_eq_getElem?, hrow]; rfl
    unfold prn_recorded
    rw [hg1, hg]
    simp only [decide_True, Bool.true_and]
    by_cases hq0 : q = 0
    · have hne : ¬ q = p := by omega
      unfold check_bit
      rw [if_pos hq0, if_pos hq0]
      simp [hne]
    · by_cases hq : q / 8 < 31
      · rw [check_bit_eq row1 q (by omega) (by omega), check_bit_eq row q (by omega) (by omega),
          h1 q]
        cases row_has row q <;> cases decide (q = p) <;> rfl
      · have hne : ¬ q = p := by omega
        rw [check_bit_out row1 q (by omega) (by omega), check_bit_out row q (by omega) (by omega)]
        simp [hne]
  · unfold prn_recorded
    rw [List.getD_eq_getElem?_getD, List.getElem?_set_ne (fun h => hrk h.symm),
      ← List.getD_eq_getElem?_getD]
    simp [hrk]

theorem take_set_succ {α : Type} (xs : List α) (n : Nat) (x : α) (h : n < xs.length) :
    (xs.set n x).take (n + 1) = xs.take n ++ [x] := by
  rw [List.take_succ, List.getElem?_set_self h]
  congr 1
  apply List.ext_getElem?
  intro i
  by_cases hi : i < n
  · rw [List.getElem?_take_of_lt hi, List.getElem?_take_of_lt hi,
      List.getElem?_set_ne (by omega)]
  · rw [List.getElem?_take_eq_none (by omega), List.getElem?_take_eq_none (by omega)]

/-- The accumulation loop of `tiny_nmea_sat_tracking_update_gsa`: every PRN it
looks at is recorded in the row of the constellation, and the PRNs are
appended to the active buffer as long as it has room. -/
theorem gsa_accumulate_spec (gsa : tiny_nmea_gsa_t) (k : Nat)
    (hk : k < TINY_NMEA_CONSTELLATION_COUNT) :
    ∀ (l : List Nat) (ctx : tiny_nmea_sats_tracker_ctx_t),
      (∀ i ∈ l, i < gsa.satellite_prns.length) → tracker_wf ctx →
      (∀ p ∈ idx_prns gsa l, p < 248) →
      ∃ c, gsa_accumulate gsa k l ctx = some c ∧ tracker_wf c ∧ c.calls = ctx.calls ∧
        c.num_sats_active = min 128 (ctx.num_sats_active + (idx_prns gsa l).length) ∧
        c.sats_active_info.take c.num_sats_active =
          (ctx.sats_active_info.take ctx.num_sats_active ++
            (idx_prns gsa l).map (gsa_entry k)).take 128 ∧
        ∀ r q, prn_recorded c.sats_active_bitmask r q =
          (prn_recorded ctx.sats_active_bitmask r q ||
            (decide (r = k) && decide (q ∈ idx_prns gsa l))) := by
  intro l
  induction l with
  | nil =>
    intro ctx _ hwf _
    obtain ⟨w1, w2, w3, w4⟩ := hwf
    unfold TINY_NMEA_MAX_TRACKED_GSA_SATS at w3 w4
    refine ⟨ctx, rfl, ⟨w1, w2, w3, w4⟩, rfl, ?_, ?_, ?_⟩
    · show ctx.num_sats_active = min 128 (ctx.num_sats_active + 0)
      omega
    · show _ = (List.take ctx.num_sats_active ctx.sats_active_info ++ []).take 128
      rw [List.append_nil, List.take_take]
      congr 1
      omega
    · intro r q
      show _ = (_ || (decide (r = k) && decide (q ∈ ([] : List Nat))))
      simp
  | cons i rest ih =>
    intro ctx hi hwf hp
    obtain ⟨w1, w2, w3, w4⟩ := hwf
    have hget : gsa.satellite_prns.get? i =
        some (gsa.satellite_prns.get ⟨i, hi i (List.mem_cons_self _ _)⟩) := List.get?_eq_get _
    generalize gsa.satellite_prns.get ⟨i, hi i (List.mem_cons_self _ _)⟩ = prn at hget
    have hi2 : ∀ j ∈ rest, j < gsa.satellite_prns.length :=
      fun j hj => hi j (List.mem_cons_of_mem _ hj)
    rw [gsa_accumulate]
    simp only [hget]
    by_cases hs : prn = 0 ∨ prn ≥ TINY_NMEA_MAX_PRN_PER_CONST
    · rw [if_pos hs]
      rw [idx_prns_skip gsa i prn rest hget hs] at hp ⊢
      exact ih ctx hi2 ⟨w1, w2, w3, w4⟩ hp
    · rw [if_neg hs]
      rw [idx_prns_keep gsa i prn rest hget hs] at hp ⊢
      have hrow : ctx.sats_active_bitmask.get? k =
          some (ctx.sats_active_bitmask.get ⟨k, by rw [w1]; exact hk⟩) := List.get?_eq_get _
      have hlen : (ctx.sats_active_bitmask.get ⟨k, by rw [w1]; exact hk⟩).length = 31 :=
        w2 _ (List.get_mem _ _ _)
      generalize ctx.sats_active_bitmask.get ⟨k, by rw [w1]; exact hk⟩ = row at hrow hlen
      have hp0 : 0 < prn := by omega
      have hp1 : prn < 248 := hp prn (List.mem_cons_self _ _)
      obtain ⟨row1, hset, hl1, hb1⟩ := set_bit_eq row prn hp0 (by omega)
      have hp2 : ∀ p ∈ idx_prns gsa rest, p < 248 := fun p h => hp p (List.mem_cons_of_mem _ h)
      have hrows1 : ∀ r ∈ ctx.sats_active_bitmask.set k row1,
          r.length = TINY_NMEA_TRACK_PRN_PER_CONST_ARR_SIZE := by
        intro r hr
        rcases List.mem_or_eq_of_mem_set hr with h | h
        · exact w2 r h
        · rw [h, hl1]; exact hlen
      have hrec := recorded_set ctx.sats_active_bitmask k prn row row1 w2 hrow hp0 hp1 hl1 hb1
      simp only [hrow, hset]
      unfold TINY_NMEA_MAX_TRACKED_GSA_SATS at w3 w4 ⊢
      by_cases hroom : ctx.num_sats_active < 128
      · rw [if_pos hroom]
        have e8 : to_uint8 (ctx.num_sats_active + 1) = ctx.num_sats_active + 1 := by
          unfold to_uint8; omega
        rw [e8]
        obtain ⟨c, h1, h2, h3, h4, h5, h6⟩ := ih
          { ctx with
            sats_active_bitmask := ctx.sats_active_bitmask.set k row1
            sats_active_info := ctx.sats_active_info.set ctx.num_sats_active
              { prn := prn, constellation := k }
            num_sats_active := ctx.num_sats_active + 1 } hi2
          ⟨by simp only [List.length_set]; exact w1, hrows1,
            by simp only [List.length_set]; exact w3, by show _ + 1 ≤ 128; omega⟩ hp2
        refine ⟨c, h1, h2, h3, ?_, ?_, ?_⟩
        · rw [h4]
          simp only [List.length_cons]
          omega
        · rw [h5]
          simp only
          rw [take_set_succ _ _ _ (by omega), List.map_cons, List.append_assoc]
          rfl
        · intro r q
          rw [h6 r q]
          simp only
          rw [hrec r q]
          simp only [List.mem_cons, Bool.or_assoc]
          by_cases hrk : r = k <;> by_cases hqp : q = prn <;> simp [hrk, hqp]
      · rw [if_neg hroom]
        have hnum : ctx.num_sats_active = 128 := by omega
        obtain ⟨c, h1, h2, h3, h4, h5, h6⟩ := ih
          { ctx with sats_active_bitmask := ctx.sats_active_bitmask.set k row1 } hi2
          ⟨by simp only [List.length_set]; exact w1, hrows1, w3, w4⟩ hp2
        refine ⟨c, h1, h2, h3, ?_, ?_, ?_⟩
        · rw [h4]
          simp only [List.length_cons]
          omega
        · rw [h5]
          simp only
          have hl : (ctx.sats_active_info.take ctx.num_sats_active).length = 128 := by
            rw [List.length_take]; omega
          rw [List.take_append_of_le_length (by omega), List.take_append_of_le_length (by omega)]
        · intro r q
          rw [h6 r q]
          simp only
          rw [hrec r q]
          simp only [List.mem_cons, Bool.or_assoc]
          by_cases hrk : r = k <;> by_cases hqp : q = prn <;> simp [hrk, hqp]

/-! ## Framer invariants, termination and remaining safety properties: lemmas -/

theorem time_to_ms_eq (t : tiny_nmea_time_t) (h : time_in_type t) :
    (time_to_ms t : Int) = time_ms t := by
  obtain ⟨h1, h2, h3, h4⟩ := h
  unfold time_to_ms time_ms to_uint32
  congr 1
  omega

theorem push_finish_tail (rb1 : ringbuf_t) (data1 : List Nat) (head1 : Nat) :
    (ringbuf_push_finish rb1 data1 head1).1.tail = rb1.tail := by
  unfold ringbuf_push_finish
  simp only
  split <;> rfl

theorem discard_take (ctx : tiny_nmea_ctx_t) (s : Nat)
    (hwb : ctx.working_buf_len ≤ ctx.working_buf.length) :
    (discard_bytes ctx s).working_buf_len = ctx.working_buf_len - s ∧
    (discard_bytes ctx s).working_buf.take (discard_bytes ctx s).working_buf_len =
      (ctx.working_buf.take ctx.working_buf_len).drop s := by
  unfold discard_bytes
  by_cases h : s ≥ ctx.working_buf_len
  · rw [if_pos h]
    refine ⟨by show 0 = _; omega, ?_⟩
    show List.take 0 _ = _
    rw [List.take_zero, List.drop_eq_nil_of_le]
    rw [List.length_take]; omega
  · rw [if_neg h]
    refine ⟨rfl, ?_⟩
    show List.take (ctx.working_buf_len - s) (memcpy _ 0 _) = _
    have hl : (slice ctx.working_buf s (ctx.working_buf_len - s)).length =
        ctx.working_buf_len - s := by
      unfold slice
      rw [List.length_take, List.length_drop]; omega
    unfold memcpy
    rw [List.take_zero, List.nil_append, List.take_append_of_le_length (by omega),
      List.take_of_length_le (by omega)]
    unfold slice
    rw [List.drop_take]

theorem parse_time_failed (f : List Nat) (h : (parse_time f).1 = false) :
    time_unparsed f (parse_time f).2 := by
  unfold parse_time at h ⊢
  unfold time_unparsed
  by_cases h1 : (field_empty f || decide (f.length < 6)) = true
  · rw [if_pos h1]
    have : ¬ (6 ≤ f.length ∧ is_ndigits f 6 = true) := by
      intro q
      simp only [field_empty, Bool.or_eq_true, beq_iff_eq, decide_eq_true_eq] at h1
      omega
    exact ⟨rfl, rfl, by rw [if_neg this]⟩
  · rw [if_neg h1] at h ⊢
    have hl : 6 ≤ f.length := by
      simp only [field_empty, Bool.or_eq_true, beq_iff_eq, decide_eq_true_eq, not_or] at h1
      omega
    by_cases h2 : (!(is_ndigits f 6)) = true
    · rw [if_pos h2]
      have : ¬ (6 ≤ f.length ∧ is_ndigits f 6 = true) := by
        intro q
        rw [q.2] at h2
        exact Bool.noConfusion h2
      exact ⟨rfl, rfl, by rw [if_neg this]⟩
    · rw [if_neg h2] at h ⊢
      have hd : is_ndigits f 6 = true := by
        cases hq : is_ndigits f 6 with
        | true => rfl
        | false => rw [hq] at h2; exact absurd rfl h2
      simp only at h ⊢
      by_cases h3 : to_uint8 ((f.getD 0 0 - 48) * 10 + (f.getD 1 0 - 48)) > 23 ∨
          to_uint8 ((f.getD 2 0 - 48) * 10 + (f.getD 3 0 - 48)) > 59 ∨
          to_uint8 ((f.getD 4 0 - 48) * 10 + (f.getD 5 0 - 48)) > 60
      · rw [if_pos h3]
        refine ⟨rfl, rfl, ?_⟩
        rw [if_pos ⟨hl, hd⟩]
        exact ⟨rfl, rfl, rfl, h3⟩
      · rw [if_neg h3] at h
        exact Bool.noConfusion h

theorem parse_date_failed (f : List Nat) (h : (parse_date f).1 = false) :
    date_unparsed f (parse_date f).2 := by
  unfold parse_date at h ⊢
  unfold date_unparsed
  by_cases h1 : (field_empty f || decide (f.length < 6)) = true
  · rw [if_pos h1]
    have : ¬ (6 ≤ f.length ∧ is_ndigits f 6 = true) := by
      intro q
      simp only [field_empty, Bool.or_eq_true, beq_iff_eq, decide_eq_true_eq] at h1
      omega
    exact ⟨rfl, rfl, by rw [if_neg this]⟩
  · rw [if_neg h1] at h ⊢
    have hl : 6 ≤ f.length := by
      simp only [field_empty, Bool.or_eq_true, beq_iff_eq, decide_eq_true_eq, not_or] at h1
      omega
    by_cases h2 : (!(is_ndigits f 6)) = true
    · rw [if_pos h2]
      have : ¬ (6 ≤ f.length ∧ is_ndigits f 6 = true) := by
        intro q
        rw [q.2] at h2
        exact Bool.noConfusion h2
      exact ⟨rfl, rfl, by rw [if_neg this]⟩
    · rw [if_neg h2] at h ⊢
      have hd : is_ndigits f 6 = true := by
        cases hq : is_ndigits f 6 with
        | true => rfl
        | false => rw [hq] at h2; exact absurd rfl h2
      simp only at h ⊢
      by_cases h3 : to_uint8 ((f.getD 0 0 - 48) * 10 + (f.getD 1 0 - 48)) < 1 ∨
          to_uint8 ((f.getD 0 0 - 48) * 10 + (f.getD 1 0 - 48)) > 31 ∨
          to_uint8 ((f.getD 2 0 - 48) * 10 + (f.getD 3 0 - 48)) < 1 ∨
          to_uint8 ((f.getD 2 0 - 48) * 10 + (f.getD 3 0 - 48)) > 12
      · rw [if_pos h3]
        refine ⟨rfl, rfl, ?_⟩
        rw [if_pos ⟨hl, hd⟩]
        exact ⟨rfl, rfl, rfl, h3⟩
      · rw [if_neg h3] at h
        exact Bool.noConfusion h

theorem fixedpoint_body_false (negative : Bool) (p : List Nat) (raw : tiny_nmea_float_t)
    (h : fixedpoint_body negative p = some (false, raw)) : raw = {} := by
  unfold fixedpoint_body at h
  have key : ∀ x : Option (Bool × tiny_nmea_float_t),
      (x = some (false, {}) ∨ x = none ∨ ∃ r, x = some (true, r)) →
      x = some (false, raw) → raw = {} := by
    intro x hx hq
    rcases hx with q | q | ⟨r, q⟩
    · rw [q] at hq
      exact (congrArg Prod.snd (Option.some.inj hq)).symm
    · rw [q] at hq; exact Option.noConfusion hq
    · rw [q] at hq
      exact Bool.noConfusion (congrArg Prod.fst (Option.some.inj hq))
  refine key _ ?_ h
  split
  · exact Or.inl rfl
  · simp only
    split
    · exact Or.inl rfl
    · split
      · exact Or.inl rfl
      · split
        · exact Or.inl rfl
        · split
          · exact Or.inr (Or.inl rfl)
          · split
            · exact Or.inl rfl
            · split
              · exact Or.inl rfl
              · exact Or.inr (Or.inr ⟨_, rfl⟩)

theorem fixedpoint_false (f : List Nat) (raw : tiny_nmea_float_t)
    (h : parse_fixedpoint_float f = some (false, raw)) : raw = {} := by
  rw [parse_fixedpoint_float_eq] at h
  split at h
  · exact (congrArg Prod.snd (Option.some.inj h)).symm
  · exact fixedpoint_body_false _ _ _ h

theorem parse_latitude_failed (f dir : List Nat) (c : tiny_nmea_coord_t)
    (h : parse_latitude f dir = some (false, c)) : coord_unparsed f dir c := by
  unfold parse_latitude at h
  by_cases h1 : field_empty f = true
  · rw [if_pos h1] at h
    have hc : _ = c := congrArg Prod.snd (Option.some.inj h)
    subst hc
    exact ⟨rfl, Or.inl rfl⟩
  · rw [if_neg h1] at h
    cases hp : parse_fixedpoint_float f with
    | none => rw [hp] at h; exact Option.noConfusion h
    | some r =>
      obtain ⟨b, raw⟩ := r
      rw [hp] at h
      cases b with
      | false =>
        simp only at h
        have hc : _ = c := congrArg Prod.snd (Option.some.inj h)
        subst hc
        exact ⟨rfl, Or.inl (fixedpoint_false f raw hp)⟩
      | true =>
        simp only at h
        by_cases h2 : (!(field_empty dir)) = true
        · rw [if_pos h2] at h
          have hne : dir ≠ [] := by
            intro q; rw [q] at h2; exact Bool.noConfusion h2
          split at h
          · exact Bool.noConfusion (congrArg Prod.fst (Option.some.inj h))
          · have hc : _ = c := congrArg Prod.snd (Option.some.inj h)
            subst hc
            exact ⟨rfl, Or.inr ⟨hp, hne⟩⟩
        · rw [if_neg h2] at h
          exact Bool.noConfusion (congrArg Prod.fst (Option.some.inj h))

theorem parse_longitude_failed (f dir : List Nat) (c : tiny_nmea_coord_t)
    (h : parse_longitude f dir = some (false, c)) : coord_unparsed f dir c := by
  unfold parse_longitude at h
  by_cases h1 : field_empty f = true
  · rw [if_pos h1] at h
    have hc : _ = c := congrArg Prod.snd (Option.some.inj h)
    subst hc
    exact ⟨rfl, Or.inl rfl⟩
  · rw [if_neg h1] at h
    cases hp : parse_fixedpoint_float f with
    | none => rw [hp] at h; exact Option.noConfusion h
    | some r =>
      obtain ⟨b, raw⟩ := r
      rw [hp] at h
      cases b with
      | false =>
        simp only at h
        have hc : _ = c := congrArg Prod.snd (Option.some.inj h)
        subst hc
        exact ⟨rfl, Or.inl (fixedpoint_false f raw hp)⟩
      | true =>
        simp only at h
        by_cases h2 : (!(field_empty dir)) = true
        · rw [if_pos h2] at h
          have hne : dir ≠ [] := by
            intro q; rw [q] at h2; exact Bool.noConfusion h2
          split at h
          · exact Bool.noConfusion (congrArg Prod.fst (Option.some.inj h))
          · have hc : _ = c := congrArg Prod.snd (Option.some.inj h)
            subst hc
            exact ⟨rfl, Or.inr ⟨hp, hne⟩⟩
        · rw [if_neg h2] at h
          exact Bool.noConfusion (congrArg Prod.fst (Option.some.inj h))

/-- The time, date and coordinate members of a record that `handle_parse_rmc`
returns with OK are what the field parsers left in them. -/
theorem handle_parse_rmc_members (s : List Nat) (data out : tiny_nmea_rmc_t)
    (h : handle_parse_rmc s data = some (TINY_NMEA_OK, out)) :
    out.time = (parse_time ((tokenize s 13).getD 0 [])).2 ∧
    out.date = (parse_date ((tokenize s 13).getD 8 [])).2 ∧
    (∃ b, parse_latitude ((tokenize s 13).getD 2 []) ((tokenize s 13).getD 3 []) =
      some (b, out.latitude)) ∧
    (∃ b, parse_longitude ((tokenize s 13).getD 4 []) ((tokenize s 13).getD 5 []) =
      some (b, out.longitude)) := by
  unfold handle_parse_rmc at h
  by_cases hc : (tokenize s 13).length < 11
  · simp only [hc, if_true] at h
    exact tiny_nmea_res_t.noConfusion (congrArg Prod.fst (Option.some.inj h))
  · simp only [hc, if_false, Option.bind_eq_bind, Option.bind_eq_some, Option.some.injEq,
      Prod.mk.injEq, true_and] at h
    obtain ⟨la, hla, lo, hlo, x0, _, x1, _, x2, _, heq⟩ := h
    subst heq
    exact ⟨rfl, rfl, ⟨la.1, hla⟩, ⟨lo.1, hlo⟩⟩

/-- The time, date and coordinate members of a record that `handle_parse_gga`
returns with OK are what the field parsers left in them. -/
theorem handle_parse_gga_members (s : List Nat) (data out : tiny_nmea_gga_t)
    (h : handle_parse_gga s data = some (TINY_NMEA_OK, out)) :
    out.time = (parse_time ((tokenize s 15).getD 0 [])).2 ∧
    (∃ b, parse_latitude ((tokenize s 15).getD 1 []) ((tokenize s 15).getD 2 []) =
      some (b, out.latitude)) ∧
    (∃ b, parse_longitude ((tokenize s 15).getD 3 []) ((tokenize s 15).getD 4 []) =
      some (b, out.longitude)) := by
  unfold handle_parse_gga at h
  by_cases hc : (tokenize s 15).length < 14
  · simp only [hc, if_true] at h
    exact tiny_nmea_res_t.noConfusion (congrArg Prod.fst (Option.some.inj h))
  · simp only [hc, if_false, Option.bind_eq_bind, Option.bind_eq_some, Option.some.injEq,
      Prod.mk.injEq, true_and] at h
    obtain ⟨la, hla, lo, hlo, x0, _, x1, _, x2, _, x3, _, heq⟩ := h
    subst heq
    exact ⟨rfl, ⟨la.1, hla⟩, ⟨lo.1, hlo⟩⟩

/-- The time, date and coordinate members of a record that `handle_parse_gns`
returns with OK are what the field parsers left in them. -/
theorem handle_parse_gns_members (s : List Nat) (data out : tiny_nmea_gns_t)
    (h : handle_parse_gns s data = some (TINY_NMEA_OK, out)) :
    out.time = (parse_time ((tokenize s 14).getD 0 [])).2 ∧
    (∃ b, parse_latitude ((tokenize s 14).getD 1 []) ((tokenize s 14).getD 2 []) =
      some (b, out.latitude)) ∧
    (∃ b, parse_longitude ((tokenize s 14).getD 3 []) ((tokenize s 14).getD 4 []) =
      some (b, out.longitude)) := by
  unfold handle_parse_gns at h
  by_cases hc : (tokenize s 14).length < 12
  · simp only [hc, if_true] at h
    exact tiny_nmea_res_t.noConfusion (congrArg Prod.fst (Option.some.inj h))
  · simp only [hc, if_false, Option.bind_eq_bind, Option.bind_eq_some, Option.some.injEq,
      Prod.mk.injEq, true_and] at h
    obtain ⟨la, hla, lo, hlo, x0, _, x1, _, x2, _, x3, _, heq⟩ := h
    subst heq
    exact ⟨rfl, ⟨la.1, hla⟩, ⟨lo.1, hlo⟩⟩

/-- The time, date and coordinate members of a record that `handle_parse_gll`
returns with OK are what the field parsers left in them. -/
theorem handle_parse_gll_members (s : List Nat) (data out : tiny_nmea_gll_t)
    (h : handle_parse_gll s data = some (TINY_NMEA_OK, out)) :
    out.time = (parse_time ((tokenize s 8).getD 4 [])).2 ∧
    (∃ b, parse_latitude ((tokenize s 8).getD 0 []) ((tokenize s 8).getD 1 []) =
      some (b, out.latitude)) ∧
    (∃ b, parse_longitude ((tokenize s 8).getD 2 []) ((tokenize s 8).getD 3 []) =
      some (b, out.longitude)) := by
  unfold handle_parse_gll at h
  by_cases hc : (tokenize s 8).length < 6
  · simp only [hc, if_true] at h
    exact tiny_nmea_res_t.noConfusion (congrArg Prod.fst (Option.some.inj h))
  · simp only [hc, if_false, Option.bind_eq_bind, Option.bind_eq_some, Option.some.injEq,
      Prod.mk.injEq, true_and] at h
    obtain ⟨la, hla, lo, hlo, heq⟩ := h
    subst heq
    exact ⟨rfl, ⟨la.1, hla⟩, ⟨lo.1, hlo⟩⟩

/-- The time, date and coordinate members of a record that `handle_parse_gbs`
returns with OK are what the field parsers left in them. -/
theorem handle_parse_gbs_members (s : List Nat) (data out : tiny_nmea_gbs_t)
    (h : handle_parse_gbs s data = some (TINY_NMEA_OK, out)) :
    out.time = (parse_time ((tokenize s 9).getD 0 [])).2 := by
  unfold handle_parse_gbs at h
  by_cases hc : (tokenize s 9).length < 8
  · simp only [hc, if_true] at h
    exact tiny_nmea_res_t.noConfusion (congrArg Prod.fst (Option.some.inj h))
  · simp only [hc, if_false, Option.bind_eq_bind, Option.bind_eq_some, Option.some.injEq,
      Prod.mk.injEq, true_and] at h
    obtain ⟨x0, _, x1, _, x2, _, x3, _, x4, _, x5, _, heq⟩ := h
    subst heq
    exact rfl

/-- The time, date and coordinate members of a record that `handle_parse_gst`
returns with OK are what the field parsers left in them. -/
theorem handle_parse_gst_members (s : List Nat) (data out : tiny_nmea_gst_t)
    (h : handle_parse_gst s data = some (TINY_NMEA_OK, out)) :
    out.time = (parse_time ((tokenize s 9).getD 0 [])).2 := by
  unfold handle_parse_gst at h
  by_cases hc : (tokenize s 9).length < 8
  · simp only [hc, if_true] at h
    exact tiny_nmea_res_t.noConfusion (congrArg Prod.fst (Option.some.inj h))
  · simp only [hc, if_false, Option.bind_eq_bind, Option.bind_eq_some, Option.some.injEq,
      Prod.mk.injEq, true_and] at h
    obtain ⟨x0, _, x1, _, x2, _, x3, _, x4, _, x5, _, x6, _, heq⟩ := h
    subst heq
    exact rfl

theorem discard_len (ctx : tiny_nmea_ctx_t) (n : Nat) :
    (discard_bytes ctx n).working_buf_len = ctx.working_buf_len - n := by
  unfold discard_bytes
  by_cases h : n ≥ ctx.working_buf_len
  · rw [if_pos h]; show 0 = _; omega
  · rw [if_neg h]

theorem discard_pos (ctx : tiny_nmea_ctx_t) (n : Nat) :
    (discard_bytes ctx n).parse_pos = ctx.parse_pos := by
  unfold discard_bytes
  split <;> rfl

theorem discard_state (ctx : tiny_nmea_ctx_t) (n : Nat) :
    (discard_bytes ctx n).parser_state = ctx.parser_state := by
  unfold discard_bytes
  split <;> rfl

theorem memchr_some_bounds (buf : List Nat) (off c n a : Nat)
    (hm : memchr buf off c n = some a) : off ≤ a ∧ a < off + n := by
  unfold memchr at hm
  cases hs : memchr_list (slice buf off n) c with
  | none => simp [hs] at hm
  | some m =>
    simp [hs] at hm
    obtain ⟨a1, _, _⟩ := (memchr_list_some _ _ _).mp hs
    have hl : (slice buf off n).length ≤ n := by
      unfold slice
      rw [List.length_take]
      exact Nat.min_le_left _ _
    omega

theorem earliest_bounds (buf : List Nat) (off c1 c2 n a : Nat)
    (hm : earliest_ptr (memchr buf off c1 n) (memchr buf off c2 n) = some a) :
    off ≤ a ∧ a < off + n := by
  cases h1 : memchr buf off c1 n with
  | none =>
    cases h2 : memchr buf off c2 n with
    | none => rw [h1, h2] at hm; exact Option.noConfusion hm
    | some y =>
      rw [h1, h2] at hm
      have : y = a := Option.some.inj hm
      subst this
      exact memchr_some_bounds _ _ _ _ _ h2
  | some x =>
    have b1 := memchr_some_bounds _ _ _ _ _ h1
    cases h2 : memchr buf off c2 n with
    | none =>
      rw [h1, h2] at hm
      have : x = a := Option.some.inj hm
      subst this
      exact b1
    | some y =>
      have b2 := memchr_some_bounds _ _ _ _ _ h2
      rw [h1, h2] at hm
      have : min_ptr x y = a := Option.some.inj hm
      subst this
      unfold min_ptr
      split <;> omega

theorem pop_count_le (rb : ringbuf_t) (d : Option (List Nat)) (n : Nat) :
    (ringbuf_pop rb d n).2.2 ≤ n := by
  unfold ringbuf_pop
  simp only
  generalize hm : (if n > RINGBUF_COMPUTE_LENGTH rb rb.head rb.tail then
    RINGBUF_COMPUTE_LENGTH rb rb.head rb.tail else n) = m
  have hmn : m ≤ n := by
    rw [← hm]; split <;> omega
  by_cases h0 : m = 0
  · rw [if_pos h0]; exact Nat.zero_le _
  · rw [if_neg h0]; exact hmn

theorem top_up_inv (ctx : tiny_nmea_ctx_t) (h : framer_inv ctx) : framer_inv (work_top_up ctx) := by
  obtain ⟨h1, h2, h3⟩ := h
  unfold TINY_NMEA_MAX_SENTENCE_LEN at h2
  unfold work_top_up
  simp only
  by_cases hk : min_size (TINY_NMEA_MAX_SENTENCE_LEN - ctx.working_buf_len)
      (ringbuf_len ctx.ringbuf) > 0
  · rw [if_pos hk]
    have hp := pop_count_le ctx.ringbuf (some (ctx.working_buf.drop ctx.working_buf_len))
      (min_size (TINY_NMEA_MAX_SENTENCE_LEN - ctx.working_buf_len) (ringbuf_len ctx.ringbuf))
    have hms : min_size (TINY_NMEA_MAX_SENTENCE_LEN - ctx.working_buf_len)
        (ringbuf_len ctx.ringbuf) ≤ 82 - ctx.working_buf_len := by
      unfold min_size TINY_NMEA_MAX_SENTENCE_LEN
      split <;> omega
    refine ⟨?_, ?_, h3⟩
    · show ctx.parse_pos ≤ ctx.working_buf_len + _
      omega
    · show ctx.working_buf_len + _ ≤ 82
      omega
  · rw [if_neg hk]
    split
    · exact ⟨Nat.le_refl _, Nat.zero_le _, fun _ => rfl⟩
    · exact ⟨h1, h2, h3⟩

theorem need_more_inv (ctx : tiny_nmea_ctx_t) (h : framer_inv ctx)
    (hs : ctx.parser_state ≠ TINY_NMEA_PARSE_FIND_START) : framer_inv (fsm_need_more_data ctx) := by
  obtain ⟨h1, h2, h3⟩ := h
  unfold fsm_need_more_data
  split
  · refine ⟨Nat.zero_le _, ?_, fun _ => rfl⟩
    show (discard_bytes (count_parse_error ctx) ctx.parse_pos).working_buf_len ≤ _
    rw [discard_len]
    exact Nat.le_trans (Nat.sub_le _ _) h2
  · exact ⟨Nat.le_refl _, h2, fun q => absurd q hs⟩

theorem find_start_inv (ctx : tiny_nmea_ctx_t) (h : framer_inv ctx)
    (hp : ctx.parse_pos < ctx.working_buf_len) : framer_inv (fsm_find_start ctx) := by
  obtain ⟨h1, h2, h3⟩ := h
  unfold fsm_find_start
  simp only
  split
  · rename_i k hk
    have hkl : k < ctx.working_buf_len := by
      split at hk
      · have : 0 = k := Option.some.inj hk
        omega
      · have := earliest_bounds _ _ _ _ _ _ hk
        omega
    refine ⟨?_, ?_, fun q => tiny_nmea_parser_fsm_state_t.noConfusion q⟩
    · show 1 ≤ (discard_bytes _ k).working_buf_len
      rw [discard_len]
      show 1 ≤ ctx.working_buf_len - k
      omega
    · show (discard_bytes _ k).working_buf_len ≤ _
      rw [discard_len]
      exact Nat.le_trans (Nat.sub_le _ _) h2
  · exact ⟨Nat.le_refl _, Nat.zero_le _, fun _ => rfl⟩

theorem find_talker_inv (ctx : tiny_nmea_ctx_t) (h : framer_inv ctx) :
    framer_inv (fsm_find_talker_and_type ctx) := by
  obtain ⟨h1, h2, h3⟩ := h
  unfold fsm_find_talker_and_type
  by_cases h6 : ctx.working_buf_len - ctx.parse_pos < 6
  · rw [if_pos h6]
    exact ⟨h1, h2, h3⟩
  · rw [if_neg h6]
    simp only
    split
    · refine ⟨Nat.zero_le _, ?_, fun _ => rfl⟩
      show (discard_bytes _ 1).working_buf_len ≤ _
      rw [discard_len]
      exact Nat.le_trans (Nat.sub_le _ _) h2
    · refine ⟨?_, h2, fun q => tiny_nmea_parser_fsm_state_t.noConfusion q⟩
      show ctx.parse_pos + 6 ≤ ctx.working_buf_len
      omega

theorem find_checksum_inv (ctx : tiny_nmea_ctx_t) (h : framer_inv ctx)
    (hs : ctx.parser_state = TINY_NMEA_PARSE_FIND_CHECKSUM_OR_END) :
    framer_inv (fsm_find_checksum_or_end ctx) := by
  obtain ⟨h1, h2, h3⟩ := h
  have hne : ctx.parser_state ≠ TINY_NMEA_PARSE_FIND_START := by rw [hs]; decide
  unfold fsm_find_checksum_or_end
  simp only
  cases ha : memchr ctx.working_buf ctx.parse_pos 42 (ctx.working_buf_len - ctx.parse_pos) with
  | none =>
    cases hl : earliest_ptr
        (memchr ctx.working_buf ctx.parse_pos 13 (ctx.working_buf_len - ctx.parse_pos))
        (memchr ctx.working_buf ctx.parse_pos 10 (ctx.working_buf_len - ctx.parse_pos)) with
    | none => exact need_more_inv _ ⟨h1, h2, h3⟩ hne
    | some l =>
      have bl := earliest_bounds _ _ _ _ _ _ hl
      refine ⟨?_, h2, ?_⟩
      · show l ≤ ctx.working_buf_len
        omega
      · intro q; exact tiny_nmea_parser_fsm_state_t.noConfusion q
  | some a =>
    have ba := memchr_some_bounds _ _ _ _ _ ha
    cases hl : earliest_ptr
        (memchr ctx.working_buf ctx.parse_pos 13 (ctx.working_buf_len - ctx.parse_pos))
        (memchr ctx.working_buf ctx.parse_pos 10 (ctx.working_buf_len - ctx.parse_pos)) with
    | none =>
      refine ⟨?_, h2, ?_⟩
      · show a ≤ ctx.working_buf_len
        omega
      · intro q; exact tiny_nmea_parser_fsm_state_t.noConfusion q
    | some l =>
      have bl := earliest_bounds _ _ _ _ _ _ hl
      refine ⟨?_, h2, ?_⟩
      · show (if a < l then a else l) ≤ ctx.working_buf_len
        split <;> omega
      · intro q
        have q2 : (if decide (a < l) = true then TINY_NMEA_PARSE_FIND_END
          else TINY_NMEA_SENTENCE_COMPLETE) = TINY_NMEA_PARSE_FIND_START := q
        split at q2 <;> exact tiny_nmea_parser_fsm_state_t.noConfusion q2

theorem find_end_inv (ctx : tiny_nmea_ctx_t) (h : framer_inv ctx)
    (hs : ctx.parser_state = TINY_NMEA_PARSE_FIND_END) : framer_inv (fsm_find_end ctx) := by
  obtain ⟨h1, h2, h3⟩ := h
  have hne : ctx.parser_state ≠ TINY_NMEA_PARSE_FIND_START := by rw [hs]; decide
  unfold fsm_find_end
  simp only
  generalize hc : (if ctx.line_end.isNone = true then
    { ctx with line_end := (earliest_ptr
        (memchr ctx.working_buf ctx.parse_pos 13 (ctx.working_buf_len - ctx.parse_pos))
        (memchr ctx.working_buf ctx.parse_pos 10 (ctx.working_buf_len - ctx.parse_pos))) }
    else ctx) = c
  have e1 : c.parse_pos = ctx.parse_pos := by rw [← hc]; split <;> rfl
  have e2 : c.working_buf_len = ctx.working_buf_len := by rw [← hc]; split <;> rfl
  have e3 : c.parser_state = ctx.parser_state := by rw [← hc]; split <;> rfl
  have hi : framer_inv c := ⟨by rw [e1, e2]; exact h1, by rw [e2]; exact h2,
    fun q => absurd (e3 ▸ q) hne⟩
  split
  · exact need_more_inv _ hi (by rw [e3]; exact hne)
  · split
    · exact ⟨Nat.le_refl _, Nat.zero_le _, fun _ => rfl⟩
    · split
      · exact ⟨Nat.le_refl _, Nat.zero_le _, fun _ => rfl⟩
      · split
        · exact ⟨hi.1, hi.2.1, fun q => tiny_nmea_parser_fsm_state_t.noConfusion q⟩
        · exact ⟨Nat.le_refl _, Nat.zero_le _, fun _ => rfl⟩

theorem discard_ringbuf (ctx : tiny_nmea_ctx_t) (n : Nat) :
    (discard_bytes ctx n).ringbuf = ctx.ringbuf := by
  unfold discard_bytes
  split <;> rfl

theorem discard_waiting (ctx : tiny_nmea_ctx_t) (n : Nat) :
    (discard_bytes ctx n).waiting_for_data = ctx.waiting_for_data := by
  unfold discard_bytes
  split <;> rfl

theorem discard_wb_length (ctx : tiny_nmea_ctx_t) (n : Nat)
    (h : ctx.working_buf_len ≤ ctx.working_buf.length) :
    (discard_bytes ctx n).working_buf.length = ctx.working_buf.length := by
  unfold discard_bytes
  split
  · rfl
  · show (memcpy _ 0 _).length = _
    apply memcpy_length
    have hl : (slice ctx.working_buf n (ctx.working_buf_len - n)).length ≤
        ctx.working_buf_len - n := by
      unfold slice
      rw [List.length_take]
      exact Nat.min_le_left _ _
    omega

/-- What the case `TINY_NMEA_SENTENCE_COMPLETE` leaves in the framing fields
when it is defined: the line end was set, the bytes up to it (at least) are
removed from the scratch buffer and the state machine is back at the start. -/
theorem sentence_complete_shape (ctx c : tiny_nmea_ctx_t)
    (h : fsm_sentence_complete ctx = some c) :
    ∃ e, ctx.line_end = some e ∧ c.parser_state = TINY_NMEA_PARSE_FIND_START ∧
      c.parse_pos = 0 ∧ c.working_buf_len ≤ ctx.working_buf_len - e ∧
      c.ringbuf = ctx.ringbuf ∧ c.waiting_for_data = ctx.waiting_for_data ∧
      (ctx.working_buf_len ≤ ctx.working_buf.length →
        c.working_buf.length = ctx.working_buf.length) := by
  cases hd : complete_decode ctx with
  | none =>
    unfold complete_decode at hd
    unfold fsm_sentence_complete at h
    simp only [hd] at h
    exact Option.noConfusion h
  | some r =>
    obtain ⟨res, rec⟩ := r
    cases hle : ctx.line_end with
    | none =>
      unfold complete_decode at hd
      unfold fsm_sentence_complete at h
      simp only [hd, pp_eq, hle, count_parse_error] at h
      split_ifs at h
    | some e =>
      refine ⟨e, rfl, ?_⟩
      unfold complete_decode at hd
      unfold fsm_sentence_complete at h
      simp only [hd, pp_eq, hle, count_parse_error] at h
      have key : ∀ (c2 : tiny_nmea_ctx_t) (k : Nat),
          some (RESET_WORKBUF_BYTES (discard_bytes c2 (e + k))
            (discard_bytes c2 (e + k)).working_buf_len) = some c →
          c2.working_buf_len = ctx.working_buf_len →
          c2.ringbuf = ctx.ringbuf → c2.waiting_for_data = ctx.waiting_for_data →
          c2.working_buf.length = ctx.working_buf.length →
          c.parser_state = TINY_NMEA_PARSE_FIND_START ∧
          c.parse_pos = 0 ∧ c.working_buf_len ≤ ctx.working_buf_len - e ∧
          c.ringbuf = ctx.ringbuf ∧ c.waiting_for_data = ctx.waiting_for_data ∧
          (ctx.working_buf_len ≤ ctx.working_buf.length →
            c.working_buf.length = ctx.working_buf.length) := by
        intro c2 k hk e1 e2 e3 e4
        have hc := Option.some.inj hk
        subst hc
        refine ⟨rfl, rfl, ?_, ?_, ?_, ?_⟩
        · show (discard_bytes c2 (e + k)).working_buf_len ≤ _
          rw [discard_len, e1]
          omega
        · show (discard_bytes c2 (e + k)).ringbuf = _
          rw [discard_ringbuf, e2]
        · show (discard_bytes c2 (e + k)).waiting_for_data = _
          rw [discard_waiting, e3]
        · intro hw
          show (discard_bytes c2 (e + k)).working_buf.length = _
          rw [discard_wb_length _ _ (by rw [e1, e4]; exact hw), e4]
      have hset : (ctx.working_buf.set ctx.data_end 0).length = ctx.working_buf.length :=
        List.length_set _ _ _
      by_cases hr : res = TINY_NMEA_OK
      · simp only [hr, if_true] at h
        by_cases hcb : ctx.parse_callback = true
        · simp only [hcb, if_true] at h
          exact key _ _ h rfl rfl rfl hset
        · simp only [hcb, Bool.false_eq_true, if_false] at h
          exact key _ _ h rfl rfl rfl hset
      · simp only [hr, if_false] at h
        by_cases hcb : ctx.error_callback = true
        · simp only [hcb, if_true] at h
          exact key _ _ h rfl rfl rfl hset
        · simp only [hcb, Bool.false_eq_true, if_false] at h
          exact key _ _ h rfl rfl rfl hset

theorem sentence_complete_inv (ctx c : tiny_nmea_ctx_t) (h : framer_inv ctx)
    (hc : fsm_sentence_complete ctx = some c) : framer_inv c := by
  obtain ⟨e, _, h1, h2, h3, _⟩ := sentence_complete_shape ctx c hc
  refine ⟨by rw [h2]; exact Nat.zero_le _, ?_, fun _ => h2⟩
  exact Nat.le_trans h3 (Nat.le_trans (Nat.sub_le _ _) h.2.1)

theorem dispatch_inv_at (a c : tiny_nmea_ctx_t) (hi : framer_inv a)
    (hb : (if a.working_buf_len - a.parse_pos = 0 then
        if ringbuf_empty a.ringbuf then loop_outcome.exit a else loop_outcome.next a
      else
        match a.parser_state with
        | TINY_NMEA_PARSE_FIND_START => loop_outcome.next (fsm_find_start a)
        | TINY_NMEA_PARSE_FIND_TALKER_AND_TYPE => loop_outcome.next (fsm_find_talker_and_type a)
        | TINY_NMEA_PARSE_FIND_CHECKSUM_OR_END => loop_outcome.next (fsm_find_checksum_or_end a)
        | TINY_NMEA_PARSE_FIND_END => loop_outcome.next (fsm_find_end a)
        | TINY_NMEA_SENTENCE_COMPLETE =>
          match fsm_sentence_complete a with
          | some c => loop_outcome.next c
          | none => loop_outcome.undefined) = loop_outcome.next c ∨
      (if a.working_buf_len - a.parse_pos = 0 then
        if ringbuf_empty a.ringbuf then loop_outcome.exit a else loop_outcome.next a
      else
        match a.parser_state with
        | TINY_NMEA_PARSE_FIND_START => loop_outcome.next (fsm_find_start a)
        | TINY_NMEA_PARSE_FIND_TALKER_AND_TYPE => loop_outcome.next (fsm_find_talker_and_type a)
        | TINY_NMEA_PARSE_FIND_CHECKSUM_OR_END => loop_outcome.next (fsm_find_checksum_or_end a)
        | TINY_NMEA_PARSE_FIND_END => loop_outcome.next (fsm_find_end a)
        | TINY_NMEA_SENTENCE_COMPLETE =>
          match fsm_sentence_complete a with
          | some c => loop_outcome.next c
          | none => loop_outcome.undefined) = loop_outcome.exit c) :
    framer_inv c := by
  by_cases hz : a.working_buf_len - a.parse_pos = 0
  · rw [if_pos hz] at hb
    split at hb
    · rcases hb with hb | hb
      · exact loop_outcome.noConfusion hb
      · injection hb with hb; subst hb; exact hi
    · rcases hb with hb | hb
      · injection hb with hb; subst hb; exact hi
      · exact loop_outcome.noConfusion hb
  · rw [if_neg hz] at hb
    have hp : a.parse_pos < a.working_buf_len := by omega
    split at hb
    · rcases hb with hb | hb
      · injection hb with hb; subst hb; exact find_start_inv _ hi hp
      · exact loop_outcome.noConfusion hb
    · rcases hb with hb | hb
      · injection hb with hb; subst hb; exact find_talker_inv _ hi
      · exact loop_outcome.noConfusion hb
    · rename_i hs
      rcases hb with hb | hb
      · injection hb with hb; subst hb; exact find_checksum_inv _ hi hs
      · exact loop_outcome.noConfusion hb
    · rename_i hs
      rcases hb with hb | hb
      · injection hb with hb; subst hb; exact find_end_inv _ hi hs
      · exact loop_outcome.noConfusion hb
    · split at hb
      · rename_i c1 hc
        rcases hb with hb | hb
        · injection hb with hb; subst hb; exact sentence_complete_inv _ _ hi hc
        · exact loop_outcome.noConfusion hb
      · rcases hb with hb | hb <;> exact loop_outcome.noConfusion hb

theorem dispatch_inv (ctx c : tiny_nmea_ctx_t) (h : framer_inv ctx)
    (hb : work_dispatch ctx = loop_outcome.next c ∨ work_dispatch ctx = loop_outcome.exit c) :
    framer_inv c :=
  dispatch_inv_at { ctx with waiting_for_data := false } c h hb

theorem body_inv (ctx c : tiny_nmea_ctx_t) (h : framer_inv ctx)
    (hb : tiny_nmea_work_body ctx = loop_outcome.next c ∨
      tiny_nmea_work_body ctx = loop_outcome.exit c) : framer_inv c := by
  rw [work_body_eq] at hb
  split at hb
  · rcases hb with hb | hb
    · exact loop_outcome.noConfusion hb
    · injection hb with hb; subst hb; exact h
  · exact dispatch_inv _ _ (top_up_inv _ h) hb

theorem work_loop_inv : ∀ (fuel : Nat) (ctx c : tiny_nmea_ctx_t), framer_inv ctx →
    tiny_nmea_work_loop fuel ctx = some c → framer_inv c := by
  intro fuel
  induction fuel with
  | zero => intro ctx c _ h; exact Option.noConfusion h
  | succ f ih =>
    intro ctx c hi h
    rw [work_loop_succ] at h
    split at h
    · cases hb : tiny_nmea_work_body ctx with
      | next c1 =>
        rw [hb] at h
        exact ih c1 c (body_inv _ _ hi (Or.inl hb)) h
      | exit c1 =>
        rw [hb] at h
        have e : c1 = c := Option.some.inj h
        subst e
        exact body_inv _ _ hi (Or.inr hb)
      | undefined =>
        rw [hb] at h
        exact Option.noConfusion h
    · have e : ctx = c := Option.some.inj h
      subst e
      exact hi

/-- The state `FIND_TALKER_AND_TYPE` with a recognised talker and type and a
comma after them. -/
theorem find_talker_valid (ctx : tiny_nmea_ctx_t)
    (h : ¬ ctx.working_buf_len - ctx.parse_pos < 6)
    (htk : tiny_nmea_talker_valid
      (parse_talker_id (ctx.working_buf.getD 1 0) (ctx.working_buf.getD 2 0)) = true)
    (hty : tiny_nmea_sentence_valid (parse_sentence_type (ctx.working_buf.getD 3 0)
      (ctx.working_buf.getD 4 0) (ctx.working_buf.getD 5 0)) = true)
    (hc : ctx.working_buf.getD 6 0 = 44) :
    fsm_find_talker_and_type ctx =
      { ctx with
        current_talker := parse_talker_id (ctx.working_buf.getD 1 0) (ctx.working_buf.getD 2 0)
        current_type := parse_sentence_type (ctx.working_buf.getD 3 0)
          (ctx.working_buf.getD 4 0) (ctx.working_buf.getD 5 0)
        parse_pos := ctx.parse_pos + 6
        parser_state := TINY_NMEA_PARSE_FIND_CHECKSUM_OR_END } := by
  unfold fsm_find_talker_and_type
  simp only [h, if_false, htk, hty, hc]
  simp

/-- The state `FIND_CHECKSUM_OR_END` with no '*', CR or LF from the cursor to
the end of the scratch buffer. -/
theorem find_checksum_none (ctx : tiny_nmea_ctx_t)
    (hwb : ctx.working_buf_len ≤ ctx.working_buf.length)
    (hp : ctx.parse_pos ≤ ctx.working_buf_len)
    (h : ∀ j, ctx.parse_pos ≤ j → j < ctx.working_buf_len →
      ctx.working_buf.getD j 0 ≠ 42 ∧ ctx.working_buf.getD j 0 ≠ 13 ∧
      ctx.working_buf.getD j 0 ≠ 10) :
    fsm_find_checksum_or_end ctx = fsm_need_more_data { ctx with line_end := none } := by
  unfold fsm_find_checksum_or_end
  have hb : ctx.parse_pos + (ctx.working_buf_len - ctx.parse_pos) ≤ ctx.working_buf.length := by
    omega
  have e1 := memchr_eq_none ctx.working_buf ctx.parse_pos 42
    (ctx.working_buf_len - ctx.parse_pos) hb (fun j a b => (h j a (by omega)).1)
  have e2 := memchr_eq_none ctx.working_buf ctx.parse_pos 13
    (ctx.working_buf_len - ctx.parse_pos) hb (fun j a b => (h j a (by omega)).2.1)
  have e3 := memchr_eq_none ctx.working_buf ctx.parse_pos 10
    (ctx.working_buf_len - ctx.parse_pos) hb (fun j a b => (h j a (by omega)).2.2)
  simp only [e1, e2, e3]
  rfl

/-- A pass of the loop in the state `FIND_TALKER_AND_TYPE` with a full
scratch buffer and a valid header in it. -/
theorem pass_talker_valid (ctx : tiny_nmea_ctx_t) (hs : settled ctx)
    (hst : ctx.parser_state = TINY_NMEA_PARSE_FIND_TALKER_AND_TYPE)
    (hp : ctx.parse_pos + 6 ≤ ctx.working_buf_len)
    (htk : tiny_nmea_talker_valid
      (parse_talker_id (ctx.working_buf.getD 1 0) (ctx.working_buf.getD 2 0)) = true)
    (hty : tiny_nmea_sentence_valid (parse_sentence_type (ctx.working_buf.getD 3 0)
      (ctx.working_buf.getD 4 0) (ctx.working_buf.getD 5 0)) = true)
    (hc : ctx.working_buf.getD 6 0 = 44) :
    runs_to ctx
      { ctx with
        current_talker := parse_talker_id (ctx.working_buf.getD 1 0) (ctx.working_buf.getD 2 0)
        current_type := parse_sentence_type (ctx.working_buf.getD 3 0)
          (ctx.working_buf.getD 4 0) (ctx.working_buf.getD 5 0)
        parse_pos := ctx.parse_pos + 6
        parser_state := TINY_NMEA_PARSE_FIND_CHECKSUM_OR_END } 1 := by
  have hlt : ctx.parse_pos < ctx.working_buf_len := by omega
  have h := runs_next ctx _ (cond_of_pos_lt ctx hlt) (by rw [dispatch_settled ctx hs hlt, hst])
  rw [find_talker_valid ctx (by omega) htk hty hc] at h
  exact h

/-- A pass of the loop in the state `FIND_CHECKSUM_OR_END` with no '*', CR or
LF from the cursor to the end of the scratch buffer: the cursor moves to the
end and the framer waits for data. -/
theorem pass_checksum_none (ctx : tiny_nmea_ctx_t) (hs : settled ctx)
    (hst : ctx.parser_state = TINY_NMEA_PARSE_FIND_CHECKSUM_OR_END)
    (hwb : ctx.working_buf_len ≤ ctx.working_buf.length)
    (hp : ctx.parse_pos < ctx.working_buf_len)
    (hmax : ctx.parse_pos ≤ TINY_NMEA_MAX_SENTENCE_LEN)
    (h : ∀ j, ctx.parse_pos ≤ j → j < ctx.working_buf_len →
      ctx.working_buf.getD j 0 ≠ 42 ∧ ctx.working_buf.getD j 0 ≠ 13 ∧
      ctx.working_buf.getD j 0 ≠ 10) :
    runs_to ctx
      { ctx with line_end := none, parse_pos := ctx.working_buf_len,
                 waiting_for_data := true } 1 := by
  have hr := runs_next ctx _ (cond_of_pos_lt ctx hp) (by rw [dispatch_settled ctx hs hp, hst])
  rw [find_checksum_none ctx hwb (by omega) h] at hr
  unfold fsm_need_more_data at hr
  rw [if_neg (by show ¬ ctx.parse_pos > TINY_NMEA_MAX_SENTENCE_LEN; omega)] at hr
  exact hr

/-- A pass of the loop that finds the scratch buffer full while the framer
waits for data and the ring buffer holds more: the overflow is counted in
`buffer_overflows` and the scratch buffer is dropped. -/
theorem pass_overflow (ctx : tiny_nmea_ctx_t) (hwf : ringbuf_wf ctx.ringbuf)
    (hw : ctx.waiting_for_data = true)
    (hlen : ctx.working_buf_len = TINY_NMEA_MAX_SENTENCE_LEN)
    (hr : 0 < ringbuf_len ctx.ringbuf) :
    runs_to ctx
      { ctx with
        stats := { ctx.stats with buffer_overflows := incr32 ctx.stats.buffer_overflows }
        working_buf_len := 0, parse_pos := 0, parser_state := TINY_NMEA_PARSE_FIND_START
        waiting_for_data := false } 1 := by
  have hne : ringbuf_empty ctx.ringbuf = false := by
    by_contra hc
    have := (empty_iff ctx.ringbuf hwf).1 (by simpa using hc)
    omega
  have hcond : work_cond ctx = true := by
    unfold work_cond
    simp [hne]
  apply runs_next ctx _ hcond
  rw [work_body_eq]
  have h0 : (ringbuf_len ctx.ringbuf == 0) = false := by
    simp only [beq_eq_false_iff_ne, ne_eq]
    omega
  simp only [h0, Bool.and_false, Bool.false_eq_true, if_false]
  have htu : work_top_up ctx = RESET_TO_START { ctx with stats := { ctx.stats with
      buffer_overflows := incr32 ctx.stats.buffer_overflows } } := by
    unfold work_top_up min_size
    simp only [hlen, Nat.sub_self, hw, and_self, if_true]
    have : ¬ (if 0 < ringbuf_len ctx.ringbuf then 0 else ringbuf_len ctx.ringbuf) > 0 := by
      split <;> omega
    rw [if_neg this]
  rw [htu]
  unfold work_dispatch RESET_TO_START RESET_WORKBUF_BYTES
  simp only [Nat.sub_self, if_true, hne, Bool.false_eq_true, if_false]

/-- An over-long sentence in front of an empty framer: after the header is
accepted the scratch buffer fills up without a terminator, the overflow is
counted in `buffer_overflows`, the first `TINY_NMEA_MAX_SENTENCE_LEN` bytes are
dropped and the framer looks for a start character in what follows. -/
theorem overlong_run (a0 : tiny_nmea_ctx_t) (I : List Nat) (hs : at_start a0)
    (hstr : stream a0 = I)
    (hstart : I.getD 0 0 = 36 ∨ I.getD 0 0 = 33)
    (htk : tiny_nmea_talker_valid (parse_talker_id (I.getD 1 0) (I.getD 2 0)) = true)
    (hty : tiny_nmea_sentence_valid
      (parse_sentence_type (I.getD 3 0) (I.getD 4 0) (I.getD 5 0)) = true)
    (hcomma : I.getD 6 0 = 44)
    (hlong : TINY_NMEA_MAX_SENTENCE_LEN < I.length)
    (hterm : ∀ j, 7 ≤ j → j < TINY_NMEA_MAX_SENTENCE_LEN →
      I.getD j 0 ≠ 42 ∧ I.getD j 0 ≠ 13 ∧ I.getD j 0 ≠ 10) :
    ∃ c, runs_to a0 c 4 ∧ fresh c ∧ c.parser_state = TINY_NMEA_PARSE_FIND_START ∧
      stream c = I.drop TINY_NMEA_MAX_SENTENCE_LEN ∧
      c.stats = { a0.stats with buffer_overflows := incr32 a0.stats.buffer_overflows } ∧
      c.calls = a0.calls ∧ c.parse_callback = a0.parse_callback ∧
      c.error_callback = a0.error_callback ∧ c.zda_century = a0.zda_century ∧
      c.ringbuf.size = a0.ringbuf.size := by
  have hl0 := hs.len
  have hp0 := hs.pos
  have hwl0 := hs.wb_length
  have htop := activate_topped a0 hs.wf hs.wb_length (by rw [hl0]; exact Nat.zero_le _)
    (Or.inr hs.waiting)
  have hrun := activate_runs a0 hs.wf hs.wb_length (by rw [hl0]; exact Nat.zero_le _)
    (Or.inr hs.waiting) (by omega) (Or.inr hs.waiting)
  generalize activate a0 = a at htop hrun
  have hsa := topped_settled htop
  have hsl := stream_length a0 (by rw [hl0]; exact Nat.zero_le _)
  rw [hstr] at hsl
  have hal := htop.len
  have harl := htop.ring_len
  have hawl := htop.wb_length
  have hstra : stream a = I := htop.stream_eq.trans hstr
  unfold TINY_NMEA_MAX_SENTENCE_LEN at hal hlong hterm
  unfold TINY_NMEA_WORKING_BUF_LEN at hwl0
  have hal82 : a.working_buf_len = 82 := by omega
  have hapos : a.parse_pos = 0 := htop.pos.trans hp0
  have hast : a.parser_state = TINY_NMEA_PARSE_FIND_START := htop.state.trans hs.state
  have hget : ∀ i, i < 82 → a.working_buf.getD i 0 = I.getD i 0 := by
    intro i hi
    rw [stream_getD a i (by omega) (by omega), hstra]
  -- pass 1: the start character
  have hp : a.parse_pos < a.working_buf_len := by omega
  have hstep1 := runs_next a _ (cond_of_pos_lt a hp) (by rw [dispatch_settled a hsa hp, hast])
  rw [find_start_at_zero a (by rw [hget 0 (by omega)]; exact hstart) (by omega) (by omega)]
    at hstep1
  -- pass 2: the header
  have hstep2 := pass_talker_valid
    { a with has_checksum := false, parse_pos := 1, computed_checksum := 0,
             parser_state := TINY_NMEA_PARSE_FIND_TALKER_AND_TYPE }
    ⟨hsa.1, Or.inr (by show a.working_buf_len = TINY_NMEA_MAX_SENTENCE_LEN; exact hal82)⟩ rfl
    (by show 1 + 6 ≤ a.working_buf_len; omega)
    (by show tiny_nmea_talker_valid
          (parse_talker_id (a.working_buf.getD 1 0) (a.working_buf.getD 2 0)) = true
        rw [hget 1 (by omega), hget 2 (by omega)]; exact htk)
    (by show tiny_nmea_sentence_valid (parse_sentence_type (a.working_buf.getD 3 0)
          (a.working_buf.getD 4 0) (a.working_buf.getD 5 0)) = true
        rw [hget 3 (by omega), hget 4 (by omega), hget 5 (by omega)]; exact hty)
    (by show a.working_buf.getD 6 0 = 44
        rw [hget 6 (by omega)]; exact hcomma)
  -- pass 3: no terminator in the scratch buffer
  have hstep3 := pass_checksum_none
    { a with has_checksum := false, computed_checksum := 0,
             current_talker := parse_talker_id (a.working_buf.getD 1 0) (a.working_buf.getD 2 0),
             current_type := parse_sentence_type (a.working_buf.getD 3 0)
               (a.working_buf.getD 4 0) (a.working_buf.getD 5 0),
             parse_pos := 1 + 6,
             parser_state := TINY_NMEA_PARSE_FIND_CHECKSUM_OR_END }
    ⟨hsa.1, Or.inr (by show a.working_buf_len = TINY_NMEA_MAX_SENTENCE_LEN; exact hal82)⟩ rfl
    (by show a.working_buf_len ≤ a.working_buf.length; omega)
    (by show 1 + 6 < a.working_buf_len; omega)
    (by show 1 + 6 ≤ TINY_NMEA_MAX_SENTENCE_LEN; unfold TINY_NMEA_MAX_SENTENCE_LEN; omega)
    (by
      intro j hj1 hj2
      have hj1 : 1 + 6 ≤ j := hj1
      have hj2 : j < a.working_buf_len := hj2
      show a.working_buf.getD j 0 ≠ 42 ∧ a.working_buf.getD j 0 ≠ 13 ∧
        a.working_buf.getD j 0 ≠ 10
      rw [hget j (by omega)]
      exact hterm j (by omega) (by omega))
  -- pass 4: the overflow
  have hstep4 := pass_overflow
    { a with has_checksum := false, computed_checksum := 0,
             current_talker := parse_talker_id (a.working_buf.getD 1 0) (a.working_buf.getD 2 0),
             current_type := parse_sentence_type (a.working_buf.getD 3 0)
               (a.working_buf.getD 4 0) (a.working_buf.getD 5 0),
             parser_state := TINY_NMEA_PARSE_FIND_CHECKSUM_OR_END,
             line_end := none, parse_pos := a.working_buf_len, waiting_for_data := true }
    htop.wf rfl (by show a.working_buf_len = TINY_NMEA_MAX_SENTENCE_LEN; exact hal82)
    (by show 0 < ringbuf_len a.ringbuf; omega)
  have hall := runs_to_trans hrun (runs_to_trans hstep1 (runs_to_trans hstep2
    (runs_to_trans hstep3 hstep4)))
  refine ⟨_, hall, ?_, rfl, ?_, ?_, htop.calls, htop.parse_cb, htop.error_cb,
    htop.century, htop.size⟩
  · exact ⟨htop.wf, hawl.trans hs.wb_length, Nat.zero_le _, rfl, Or.inl ⟨rfl, rfl⟩⟩
  · have hsp := stream_split a I hstra (by omega)
    show List.take 0 a.working_buf ++ ringbuf_contents a.ringbuf = List.drop 82 I
    rw [List.take_zero, List.nil_append, hsp.2, hal82]
  · show ({ a.stats with buffer_overflows := incr32 a.stats.buffer_overflows } :
      tiny_nmea_parser_statistics_t) = _
    rw [htop.stats]

theorem getD_mem_drop (l : List Nat) (n j : Nat) (h1 : n ≤ j) (h2 : j < l.length) :
    l.getD j 0 ∈ l.drop n := by
  have e : l.getD j 0 = (l.drop n).getD (j - n) 0 := by
    rw [getD_drop', show n + (j - n) = j by omega]
  have hi : j - n < (l.drop n).length := by
    rw [List.length_drop]; omega
  rw [e, List.getD_eq_getElem?_getD, List.getElem?_eq_getElem hi]
  exact List.getElem_mem _

theorem state_rank_le (s : tiny_nmea_parser_fsm_state_t) : state_rank s ≤ 4 := by
  cases s <;> decide

theorem weight_lt_len (a c : tiny_nmea_ctx_t) (h : c.working_buf_len < a.working_buf_len) :
    fsm_weight c < fsm_weight a := by
  unfold fsm_weight
  have := state_rank_le c.parser_state
  split <;> split <;> omega

theorem weight_lt_rank (a c : tiny_nmea_ctx_t) (h : c.working_buf_len ≤ a.working_buf_len)
    (hr : state_rank a.parser_state < state_rank c.parser_state) :
    fsm_weight c < fsm_weight a := by
  unfold fsm_weight
  have := state_rank_le c.parser_state
  split <;> split <;> omega

theorem weight_lt_wait (a c : tiny_nmea_ctx_t) (h : c.working_buf_len ≤ a.working_buf_len)
    (hr : c.parser_state = a.parser_state) (hc : c.waiting_for_data = true)
    (ha : a.waiting_for_data = false) : fsm_weight c < fsm_weight a := by
  unfold fsm_weight
  rw [hr, hc, ha]
  simp only [if_true, Bool.false_eq_true, if_false]
  omega

/-- A context at the start of a sentence satisfies the invariant. -/
theorem wf_of_start (c : tiny_nmea_ctx_t) (hr : ringbuf_wf c.ringbuf)
    (hl : c.working_buf_len ≤ TINY_NMEA_MAX_SENTENCE_LEN) (hp : c.parse_pos = 0)
    (hs : c.parser_state = TINY_NMEA_PARSE_FIND_START) : framer_wf c := by
  refine ⟨hr, by omega, hl, fun _ => hp, ?_, fun q => absurd hs q, ?_, ?_⟩
  · intro q; rw [hs] at q; exact tiny_nmea_parser_fsm_state_t.noConfusion q
  · intro q; rw [hs] at q; exact tiny_nmea_parser_fsm_state_t.noConfusion q
  · intro q1 q2
    unfold TINY_NMEA_MAX_SENTENCE_LEN at q2
    omega

theorem progress_congr {a b c : tiny_nmea_ctx_t} (h : fsm_progress b c)
    (hr : b.ringbuf = a.ringbuf) (hw : fsm_weight b = fsm_weight a) : fsm_progress a c :=
  ⟨h.ring.trans hr, h.wf, hw ▸ h.less⟩

theorem need_more_progress (a : tiny_nmea_ctx_t) (h : framer_wf a)
    (hw : a.waiting_for_data = false) (hp : a.parse_pos < a.working_buf_len)
    (hs : a.parser_state = TINY_NMEA_PARSE_FIND_CHECKSUM_OR_END ∨
      a.parser_state = TINY_NMEA_PARSE_FIND_END) :
    fsm_progress a (fsm_need_more_data a) := by
  have h2 := h.len_le
  have h1 := h.pos_le
  have hne : a.parser_state ≠ TINY_NMEA_PARSE_FIND_START := by
    rcases hs with q | q <;> rw [q] <;> decide
  have hnt : a.parser_state ≠ TINY_NMEA_PARSE_FIND_TALKER_AND_TYPE := by
    rcases hs with q | q <;> rw [q] <;> decide
  have hnc : a.parser_state ≠ TINY_NMEA_SENTENCE_COMPLETE := by
    rcases hs with q | q <;> rw [q] <;> decide
  have hpos := h.later hne
  unfold fsm_need_more_data
  rw [if_neg (by omega)]
  refine ⟨rfl, ⟨h.ring, Nat.le_refl _, h2, fun q => absurd q hne, fun q => absurd q hnt,
    fun _ => ?_, fun q => absurd q hnc, fun _ _ => rfl⟩, weight_lt_wait _ _ (Nat.le_refl _) rfl rfl hw⟩
  show 0 < a.working_buf_len
  omega

theorem find_start_progress (a : tiny_nmea_ctx_t) (h : framer_wf a)
    (hp : a.parse_pos < a.working_buf_len)
    (hs : a.parser_state = TINY_NMEA_PARSE_FIND_START) :
    fsm_progress a (fsm_find_start a) := by
  have h2 := h.len_le
  unfold fsm_find_start
  simp only
  split
  · rename_i k hk
    have hkl : k < a.working_buf_len := by
      split at hk
      · have : 0 = k := Option.some.inj hk
        omega
      · have := earliest_bounds _ _ _ _ _ _ hk
        omega
    have hlen : (discard_bytes { a with has_checksum := false } k).working_buf_len =
        a.working_buf_len - k := discard_len _ _
    refine ⟨discard_ringbuf _ _, ⟨?_, ?_, ?_, ?_, fun _ => rfl, fun _ => Nat.one_pos, ?_, ?_⟩, ?_⟩
    · show ringbuf_wf (discard_bytes _ k).ringbuf
      rw [discard_ringbuf]; exact h.ring
    · show 1 ≤ (discard_bytes _ k).working_buf_len
      rw [hlen]; omega
    · show (discard_bytes _ k).working_buf_len ≤ _
      rw [hlen]; omega
    · intro q; exact tiny_nmea_parser_fsm_state_t.noConfusion q
    · intro q; exact tiny_nmea_parser_fsm_state_t.noConfusion q
    · intro q1 q2
      have q1 : 1 = (discard_bytes { a with has_checksum := false } k).working_buf_len := q1
      have q2 : (discard_bytes { a with has_checksum := false } k).working_buf_len =
        TINY_NMEA_MAX_SENTENCE_LEN := q2
      unfold TINY_NMEA_MAX_SENTENCE_LEN at q2
      omega
    · apply weight_lt_rank
      · show (discard_bytes _ k).working_buf_len ≤ _
        rw [hlen]; omega
      · show state_rank a.parser_state < 1
        rw [hs]; decide
  · refine ⟨rfl, wf_of_start _ h.ring (Nat.zero_le _) rfl rfl, weight_lt_len _ _ ?_⟩
    show 0 < a.working_buf_len
    omega

theorem find_talker_progress (a : tiny_nmea_ctx_t) (h : framer_wf a)
    (hw : a.waiting_for_data = false) (hp : a.parse_pos < a.working_buf_len)
    (hs : a.parser_state = TINY_NMEA_PARSE_FIND_TALKER_AND_TYPE) :
    fsm_progress a (fsm_find_talker_and_type a) := by
  have h2 := h.len_le
  have hp1 := h.talker hs
  have hne : a.parser_state ≠ TINY_NMEA_PARSE_FIND_START := by rw [hs]; decide
  have hnc : a.parser_state ≠ TINY_NMEA_SENTENCE_COMPLETE := by rw [hs]; decide
  unfold fsm_find_talker_and_type
  by_cases h6 : a.working_buf_len - a.parse_pos < 6
  · rw [if_pos h6]
    exact ⟨rfl, ⟨h.ring, h.pos_le, h2, h.start, h.talker, h.later, h.complete, fun _ _ => rfl⟩,
      weight_lt_wait _ _ (Nat.le_refl _) rfl rfl hw⟩
  · rw [if_neg h6]
    simp only
    split
    · have hlen : (discard_bytes { a with
          current_talker := parse_talker_id (a.working_buf.getD 1 0) (a.working_buf.getD 2 0),
          current_type := parse_sentence_type (a.working_buf.getD 3 0)
            (a.working_buf.getD 4 0) (a.working_buf.getD 5 0) } 1).working_buf_len =
          a.working_buf_len - 1 := discard_len _ _
      refine ⟨discard_ringbuf _ _, wf_of_start _ ?_ ?_ rfl rfl, weight_lt_len _ _ ?_⟩
      · show ringbuf_wf (discard_bytes _ 1).ringbuf
        rw [discard_ringbuf]; exact h.ring
      · show (discard_bytes _ 1).working_buf_len ≤ _
        rw [hlen]; omega
      · show (discard_bytes _ 1).working_buf_len < _
        rw [hlen]; omega
    · refine ⟨rfl, ⟨h.ring, ?_, h2, ?_, ?_, fun _ => ?_, ?_, ?_⟩, weight_lt_rank _ _ (Nat.le_refl _) ?_⟩
      · show a.parse_pos + 6 ≤ a.working_buf_len
        omega
      · intro q; exact tiny_nmea_parser_fsm_state_t.noConfusion q
      · intro q; exact tiny_nmea_parser_fsm_state_t.noConfusion q
      · show 0 < a.parse_pos + 6
        omega
      · intro q; exact tiny_nmea_parser_fsm_state_t.noConfusion q
      · intro q1 q2
        have q1 : a.parse_pos + 6 = a.working_buf_len := q1
        have q2 : a.working_buf_len = TINY_NMEA_MAX_SENTENCE_LEN := q2
        unfold TINY_NMEA_MAX_SENTENCE_LEN at q2
        omega
      · show state_rank a.parser_state < 2
        rw [hs]; decide

theorem find_checksum_progress (a : tiny_nmea_ctx_t) (h : framer_wf a)
    (hw : a.waiting_for_data = false) (hp : a.parse_pos < a.working_buf_len)
    (hs : a.parser_state = TINY_NMEA_PARSE_FIND_CHECKSUM_OR_END) :
    fsm_progress a (fsm_find_checksum_or_end a) := by
  have h2 := h.len_le
  have hne : a.parser_state ≠ TINY_NMEA_PARSE_FIND_START := by rw [hs]; decide
  have hpos := h.later hne
  unfold fsm_find_checksum_or_end
  simp only
  cases ha : memchr a.working_buf a.parse_pos 42 (a.working_buf_len - a.parse_pos) with
  | none =>
    cases hl : earliest_ptr
        (memchr a.working_buf a.parse_pos 13 (a.working_buf_len - a.parse_pos))
        (memchr a.working_buf a.parse_pos 10 (a.working_buf_len - a.parse_pos)) with
    | none =>
      exact progress_congr (need_more_progress { a with line_end := none }
        ⟨h.ring, h.pos_le, h2, h.start, h.talker, h.later,
          fun q => absurd (hs ▸ q) (by decide), h.full⟩ hw hp (Or.inl hs)) rfl rfl
    | some l =>
      have bl := earliest_bounds _ _ _ _ _ _ hl
      refine ⟨rfl, ⟨h.ring, ?_, h2, ?_, ?_, fun _ => ?_, fun _ => ⟨l, rfl, ?_⟩, ?_⟩,
        weight_lt_rank _ _ (Nat.le_refl _) ?_⟩
      · show l ≤ a.working_buf_len
        omega
      · intro q; exact tiny_nmea_parser_fsm_state_t.noConfusion q
      · intro q; exact tiny_nmea_parser_fsm_state_t.noConfusion q
      · show 0 < l
        omega
      · omega
      · intro q1 q2
        have q1 : l = a.working_buf_len := q1
        omega
      · show state_rank a.parser_state < 4
        rw [hs]; decide
  | some s =>
    have ba := memchr_some_bounds _ _ _ _ _ ha
    cases hl : earliest_ptr
        (memchr a.working_buf a.parse_pos 13 (a.working_buf_len - a.parse_pos))
        (memchr a.working_buf a.parse_pos 10 (a.working_buf_len - a.parse_pos)) with
    | none =>
      refine ⟨rfl, ⟨h.ring, ?_, h2, ?_, ?_, fun _ => ?_, ?_, ?_⟩,
        weight_lt_rank _ _ (Nat.le_refl _) ?_⟩
      · show s ≤ a.working_buf_len
        omega
      · intro q; exact tiny_nmea_parser_fsm_state_t.noConfusion q
      · intro q; exact tiny_nmea_parser_fsm_state_t.noConfusion q
      · show 0 < s
        omega
      · intro q; exact tiny_nmea_parser_fsm_state_t.noConfusion q
      · intro q1 q2
        have q1 : s = a.working_buf_len := q1
        omega
      · show state_rank a.parser_state < 3
        rw [hs]; decide
    | some l =>
      have bl := earliest_bounds _ _ _ _ _ _ hl
      by_cases hsl : s < l
      · simp only [hsl, if_true, decide_True]
        refine ⟨rfl, ⟨h.ring, ?_, h2, ?_, ?_, fun _ => ?_, ?_, ?_⟩,
          weight_lt_rank _ _ (Nat.le_refl _) ?_⟩
        · show s ≤ a.working_buf_len
          omega
        · intro q; exact tiny_nmea_parser_fsm_state_t.noConfusion q
        · intro q; exact tiny_nmea_parser_fsm_state_t.noConfusion q
        · show 0 < s
          omega
        · intro q; exact tiny_nmea_parser_fsm_state_t.noConfusion q
        · intro q1 q2
          have q1 : s = a.working_buf_len := q1
          omega
        · show state_rank a.parser_state < 3
          rw [hs]; decide
      · simp only [hsl, if_false, decide_False, Bool.false_eq_true]
        refine ⟨rfl, ⟨h.ring, ?_, h2, ?_, ?_, fun _ => ?_, fun _ => ⟨l, rfl, ?_⟩, ?_⟩,
          weight_lt_rank _ _ (Nat.le_refl _) ?_⟩
        · show l ≤ a.working_buf_len
          omega
        · intro q; exact tiny_nmea_parser_fsm_state_t.noConfusion q
        · intro q; exact tiny_nmea_parser_fsm_state_t.noConfusion q
        · show 0 < l
          omega
        · omega
        · intro q1 q2
          have q1 : l = a.working_buf_len := q1
          omega
        · show state_rank a.parser_state < 4
          rw [hs]; decide

theorem find_end_tail_progress (x : tiny_nmea_ctx_t) (h : framer_wf x)
    (hw : x.waiting_for_data = false) (hp : x.parse_pos < x.working_buf_len)
    (hs : x.parser_state = TINY_NMEA_PARSE_FIND_END) :
    fsm_progress x
      (match x.line_end with
      | none => fsm_need_more_data x
      | some line_end =>
        let hex_start := x.data_end + 1
        if line_end ≤ hex_start ∨ line_end - hex_start ≠ 2 then
          RESET_TO_START (count_parse_error x)
        else
          match parse_hex_byte (x.working_buf.getD hex_start 0)
              (x.working_buf.getD (hex_start + 1) 0) with
          | none => RESET_TO_START (count_parse_error x)
          | some received =>
            let ctx1 := { x with
              received_checksum := received
              computed_checksum := nmea_checksum_helper (slice x.working_buf 1 (x.data_end - 1)) }
            if ctx1.computed_checksum = ctx1.received_checksum then
              { ctx1 with parser_state := TINY_NMEA_SENTENCE_COMPLETE }
            else
              RESET_TO_START { ctx1 with stats := { ctx1.stats with
                checksum_errors := incr32 ctx1.stats.checksum_errors } }) := by
  have h2 := h.len_le
  have hreset : ∀ c : tiny_nmea_ctx_t, c.ringbuf = x.ringbuf →
      fsm_progress x (RESET_TO_START c) := by
    intro c hc
    refine ⟨hc, wf_of_start _ ?_ (Nat.zero_le _) rfl rfl, weight_lt_len _ _ ?_⟩
    · show ringbuf_wf c.ringbuf
      rw [hc]; exact h.ring
    · show 0 < x.working_buf_len
      omega
  cases hl : x.line_end with
  | none => exact need_more_progress x h hw hp (Or.inr hs)
  | some l =>
    simp only
    by_cases hbad : l ≤ x.data_end + 1 ∨ l - (x.data_end + 1) ≠ 2
    · rw [if_pos hbad]
      exact hreset _ rfl
    · rw [if_neg hbad]
      cases hx : parse_hex_byte (x.working_buf.getD (x.data_end + 1) 0)
          (x.working_buf.getD (x.data_end + 1 + 1) 0) with
      | none => exact hreset _ rfl
      | some v =>
        simp only
        split
        · refine ⟨rfl, ⟨h.ring, h.pos_le, h2, ?_, ?_, fun _ => ?_, fun _ => ⟨l, rfl, ?_⟩, ?_⟩,
            weight_lt_rank _ _ (Nat.le_refl _) ?_⟩
          · intro q; exact tiny_nmea_parser_fsm_state_t.noConfusion q
          · intro q; exact tiny_nmea_parser_fsm_state_t.noConfusion q
          · exact h.later (by rw [hs]; decide)
          · omega
          · intro q1 q2
            have q1 : x.parse_pos = x.working_buf_len := q1
            omega
          · show state_rank x.parser_state < 4
            rw [hs]; decide
        · exact hreset _ rfl

theorem find_end_progress (a : tiny_nmea_ctx_t) (h : framer_wf a)
    (hw : a.waiting_for_data = false) (hp : a.parse_pos < a.working_buf_len)
    (hs : a.parser_state = TINY_NMEA_PARSE_FIND_END) :
    fsm_progress a (fsm_find_end a) := by
  have hnc : a.parser_state ≠ TINY_NMEA_SENTENCE_COMPLETE := by rw [hs]; decide
  unfold fsm_find_end
  by_cases hn : a.line_end.isNone = true
  · simp only [hn, if_true]
    exact progress_congr (find_end_tail_progress
      { a with line_end := (earliest_ptr
        (memchr a.working_buf a.parse_pos 13 (a.working_buf_len - a.parse_pos))
        (memchr a.working_buf a.parse_pos 10 (a.working_buf_len - a.parse_pos))) }
      ⟨h.ring, h.pos_le, h.len_le, h.start, h.talker, h.later, fun q => absurd q hnc, h.full⟩
      hw hp hs) rfl rfl
  · simp only [hn, if_false]
    exact find_end_tail_progress a h hw hp hs

theorem complete_progress (a c : tiny_nmea_ctx_t) (h : framer_wf a)
    (hp : a.parse_pos < a.working_buf_len)
    (hs : a.parser_state = TINY_NMEA_SENTENCE_COMPLETE)
    (hc : fsm_sentence_complete a = some c) : fsm_progress a c := by
  obtain ⟨e, he, h1, h2, h3, h4, _, _⟩ := sentence_complete_shape a c hc
  obtain ⟨l, hl, hl0⟩ := h.complete hs
  rw [he] at hl
  have : e = l := Option.some.inj hl
  subst this
  have hlen := h.len_le
  refine ⟨h4, wf_of_start _ (by rw [h4]; exact h.ring) (by omega) h2 h1, weight_lt_len _ _ ?_⟩
  omega

/-- The case `SENTENCE_COMPLETE` has no defined result only when the decoder
has none, provided the line end is set. -/
theorem complete_undefined (a : tiny_nmea_ctx_t) (l : Nat) (hl : a.line_end = some l)
    (hc : fsm_sentence_complete a = none) : complete_decode a = none := by
  cases hd : complete_decode a with
  | none => rfl
  | some r =>
    obtain ⟨res, rec⟩ := r
    obtain ⟨c, h1, _⟩ := sentence_complete_user a res rec l hd hl
    rw [hc] at h1
    exact Option.noConfusion h1

theorem work_dispatch_eq (t : tiny_nmea_ctx_t) :
    work_dispatch t = fsm_dispatch { t with waiting_for_data := false } := rfl

theorem measure_of_progress {a c : tiny_nmea_ctx_t} (h : fsm_progress a c) :
    work_measure c < work_measure a := by
  unfold work_measure
  rw [h.ring]
  have := h.less
  omega

theorem fsm_dispatch_progress (a : tiny_nmea_ctx_t) (B : Nat) (h : framer_wf a)
    (hw : a.waiting_for_data = false) (hB : work_measure a ≤ B)
    (hstrict : a.working_buf_len ≤ a.parse_pos → ringbuf_len a.ringbuf ≠ 0 →
      work_measure a < B) :
    (∀ c, fsm_dispatch a = loop_outcome.exit c → ringbuf_len c.ringbuf = 0 ∧ framer_wf c) ∧
    (∀ c, fsm_dispatch a = loop_outcome.next c → framer_wf c ∧ work_measure c < B) ∧
    (fsm_dispatch a = loop_outcome.undefined →
      a.parser_state = TINY_NMEA_SENTENCE_COMPLETE ∧ complete_decode a = none) := by
  unfold fsm_dispatch
  by_cases hz : a.working_buf_len - a.parse_pos = 0
  · rw [if_pos hz]
    by_cases he : ringbuf_empty a.ringbuf = true
    · rw [if_pos he]
      refine ⟨?_, ?_, ?_⟩
      · intro c hc
        injection hc with hc
        subst hc
        exact ⟨(empty_iff a.ringbuf h.ring).1 he, h⟩
      · intro c hc; exact loop_outcome.noConfusion hc
      · intro hc; exact loop_outcome.noConfusion hc
    · rw [if_neg he]
      refine ⟨?_, ?_, ?_⟩
      · intro c hc; exact loop_outcome.noConfusion hc
      · intro c hc
        injection hc with hc
        subst hc
        refine ⟨h, hstrict (by omega) ?_⟩
        intro q
        exact he ((empty_iff a.ringbuf h.ring).2 q)
      · intro hc; exact loop_outcome.noConfusion hc
  · rw [if_neg hz]
    have hp : a.parse_pos < a.working_buf_len := by omega
    have key : ∀ (P : Prop) (c0 : tiny_nmea_ctx_t), fsm_progress a c0 →
        (∀ c, loop_outcome.next c0 = loop_outcome.exit c →
          ringbuf_len c.ringbuf = 0 ∧ framer_wf c) ∧
        (∀ c, loop_outcome.next c0 = loop_outcome.next c → framer_wf c ∧ work_measure c < B) ∧
        (loop_outcome.next c0 = loop_outcome.undefined → P) := by
      intro P c0 hpr
      refine ⟨?_, ?_, ?_⟩
      · intro c hc; exact loop_outcome.noConfusion hc
      · intro c hc
        injection hc with hc
        subst hc
        exact ⟨hpr.wf, Nat.lt_of_lt_of_le (measure_of_progress hpr) hB⟩
      · intro hc; exact loop_outcome.noConfusion hc
    cases hst : a.parser_state with
    | TINY_NMEA_PARSE_FIND_START => exact key _ _ (find_start_progress a h hp hst)
    | TINY_NMEA_PARSE_FIND_TALKER_AND_TYPE => exact key _ _ (find_talker_progress a h hw hp hst)
    | TINY_NMEA_PARSE_FIND_CHECKSUM_OR_END => exact key _ _ (find_checksum_progress a h hw hp hst)
    | TINY_NMEA_PARSE_FIND_END => exact key _ _ (find_end_progress a h hw hp hst)
    | TINY_NMEA_SENTENCE_COMPLETE =>
      simp only
      cases hc : fsm_sentence_complete a with
      | some c0 => exact key _ _ (complete_progress a c0 h hp hst hc)
      | none =>
        obtain ⟨l, hl, _⟩ := h.complete hst
        refine ⟨?_, ?_, ?_⟩
        · intro c q; exact loop_outcome.noConfusion q
        · intro c q; exact loop_outcome.noConfusion q
        · intro _; exact ⟨trivial, complete_undefined a l hl hc⟩

/-- The top-up block when the scratch buffer is full and the framer waits for
data: the overflow is counted and the scratch buffer dropped. -/
theorem top_up_overflow (ctx : tiny_nmea_ctx_t) (hw : ctx.waiting_for_data = true)
    (hlen : ctx.working_buf_len = TINY_NMEA_MAX_SENTENCE_LEN) :
    work_top_up ctx = RESET_TO_START { ctx with stats := { ctx.stats with
      buffer_overflows := incr32 ctx.stats.buffer_overflows } } := by
  unfold work_top_up min_size
  simp only [hlen, Nat.sub_self, hw, and_self, if_true]
  have : ¬ (if 0 < ringbuf_len ctx.ringbuf then 0 else ringbuf_len ctx.ringbuf) > 0 := by
    split <;> omega
  rw [if_neg this]

/-- The top-up block of a pass that is not left at once: the invariant is
kept, the measure does not grow, and it goes down when the scratch buffer has
nothing unread while the ring buffer still holds bytes. -/
theorem activate_progress (x : tiny_nmea_ctx_t) (h : framer_wf x)
    (hgo : ¬ (x.waiting_for_data = true ∧ ringbuf_len x.ringbuf = 0)) :
    framer_wf (activate x) ∧ work_measure (activate x) ≤ work_measure x ∧
    ((activate x).working_buf_len ≤ (activate x).parse_pos →
      ringbuf_len (activate x).ringbuf ≠ 0 → work_measure (activate x) < work_measure x) := by
  have h1 := h.pos_le
  have h2 := h.len_le
  unfold TINY_NMEA_MAX_SENTENCE_LEN at h2
  by_cases hk : 0 < min_size (TINY_NMEA_MAX_SENTENCE_LEN - x.working_buf_len)
      (ringbuf_len x.ringbuf)
  · -- bytes are popped
    unfold activate
    rw [top_up_pop x h.ring hk]
    generalize hkk : min_size (TINY_NMEA_MAX_SENTENCE_LEN - x.working_buf_len)
      (ringbuf_len x.ringbuf) = k at hk
    have hkle : k ≤ 82 - x.working_buf_len ∧ k ≤ ringbuf_len x.ringbuf := by
      rw [← hkk]
      unfold min_size TINY_NMEA_MAX_SENTENCE_LEN
      split <;> omega
    have hrl := advance_len x.ringbuf k h.ring hkle.2
    have hm : work_measure
        { x with
          ringbuf := ringbuf_advance x.ringbuf k
          working_buf := x.working_buf.take x.working_buf_len ++
            ringbuf_copy_out (x.working_buf.drop x.working_buf_len) x.ringbuf.buf
              x.ringbuf.size x.ringbuf.tail k
          working_buf_len := x.working_buf_len + k
          waiting_for_data := false } < work_measure x := by
      unfold work_measure fsm_weight
      show 2 * ringbuf_len (ringbuf_advance x.ringbuf k) * 10 +
        ((x.working_buf_len + k) * 10 + (4 - state_rank x.parser_state) * 2 +
          (if false = true then 0 else 1)) < _
      rw [hrl]
      simp only [Bool.false_eq_true, if_false]
      split <;> omega
    refine ⟨⟨advance_wf _ _ h.ring, ?_, ?_, h.start, h.talker, h.later, h.complete, ?_⟩,
      Nat.le_of_lt hm, fun _ _ => hm⟩
    · show x.parse_pos ≤ x.working_buf_len + k
      omega
    · show x.working_buf_len + k ≤ TINY_NMEA_MAX_SENTENCE_LEN
      unfold TINY_NMEA_MAX_SENTENCE_LEN
      omega
    · intro q1 q2
      have q1 : x.parse_pos = x.working_buf_len + k := q1
      omega
  · have hk0 : min_size (TINY_NMEA_MAX_SENTENCE_LEN - x.working_buf_len)
        (ringbuf_len x.ringbuf) = 0 := by omega
    have hsp : 82 - x.working_buf_len = 0 ∨ ringbuf_len x.ringbuf = 0 := by
      unfold min_size TINY_NMEA_MAX_SENTENCE_LEN at hk0
      split at hk0 <;> omega
    by_cases hov : TINY_NMEA_MAX_SENTENCE_LEN - x.working_buf_len = 0 ∧
        x.waiting_for_data = true
    · -- the overflow is counted and the scratch buffer dropped
      have hlen : x.working_buf_len = 82 := by
        have := hov.1
        unfold TINY_NMEA_MAX_SENTENCE_LEN at this
        omega
      have hact : activate x =
          { x with
            stats := { x.stats with buffer_overflows := incr32 x.stats.buffer_overflows }
            working_buf_len := 0, parse_pos := 0
            parser_state := TINY_NMEA_PARSE_FIND_START, waiting_for_data := false } := by
        unfold activate
        rw [top_up_overflow x hov.2 hlen]
        rfl
      rw [hact]
      have hm : work_measure
          { x with
            stats := { x.stats with buffer_overflows := incr32 x.stats.buffer_overflows }
            working_buf_len := 0, parse_pos := 0
            parser_state := TINY_NMEA_PARSE_FIND_START, waiting_for_data := false } <
          work_measure x := by
        unfold work_measure fsm_weight
        show 2 * ringbuf_len x.ringbuf * 10 + (0 * 10 + (4 - 0) * 2 +
          (if false = true then 0 else 1)) < _
        simp only [Bool.false_eq_true, if_false]
        omega
      exact ⟨wf_of_start _ h.ring (Nat.zero_le _) rfl rfl, Nat.le_of_lt hm, fun _ _ => hm⟩
    · -- nothing to pop
      have hw : x.waiting_for_data = false := by
        cases hwv : x.waiting_for_data with
        | false => rfl
        | true =>
          exfalso
          have hr : ringbuf_len x.ringbuf ≠ 0 := fun q => hgo ⟨hwv, q⟩
          apply hov
          unfold TINY_NMEA_MAX_SENTENCE_LEN
          exact ⟨by omega, hwv⟩
      have hact : activate x = x := by
        unfold activate
        rw [top_up_id x hw (by unfold TINY_NMEA_MAX_SENTENCE_LEN; omega)]
        exact waiting_false_eq x hw
      rw [hact]
      refine ⟨h, Nat.le_refl _, ?_⟩
      intro q1 q2
      exfalso
      have hfull := h.full (by omega) (by unfold TINY_NMEA_MAX_SENTENCE_LEN; omega)
      rw [hw] at hfull
      exact Bool.noConfusion hfull

/-- One pass through the body of the loop of `tiny_nmea_work` from a context
satisfying the invariant: when the pass leaves the loop the ring buffer is
empty; when it returns to the loop condition the measure has gone down; and it
has no defined result only in the state `SENTENCE_COMPLETE`, when the decoder
has none. The invariant is kept. -/
theorem body_progress (x : tiny_nmea_ctx_t) (h : framer_wf x) :
    (∀ c, tiny_nmea_work_body x = loop_outcome.exit c →
      ringbuf_len c.ringbuf = 0 ∧ framer_wf c) ∧
    (∀ c, tiny_nmea_work_body x = loop_outcome.next c →
      framer_wf c ∧ work_measure c < work_measure x) ∧
    (tiny_nmea_work_body x = loop_outcome.undefined →
      (activate x).parser_state = TINY_NMEA_SENTENCE_COMPLETE ∧
      complete_decode (activate x) = none) := by
  rw [work_body_eq]
  by_cases hex : (x.waiting_for_data && ringbuf_len x.ringbuf == 0) = true
  · rw [if_pos hex]
    simp only [Bool.and_eq_true, beq_iff_eq] at hex
    refine ⟨?_, ?_, ?_⟩
    · intro c hc
      injection hc with hc
      subst hc
      exact ⟨hex.2, h⟩
    · intro c hc; exact loop_outcome.noConfusion hc
    · intro hc; exact loop_outcome.noConfusion hc
  · rw [if_neg hex]
    simp only [Bool.and_eq_true, beq_iff_eq] at hex
    obtain ⟨a1, a2, a3⟩ := activate_progress x h hex
    exact fsm_dispatch_progress (activate x) (work_measure x) a1 rfl a2 a3

/-- The loop of `tiny_nmea_work` from a context satisfying the invariant, with
more passes of fuel than the measure: it ends with the ring buffer empty,
unless it comes to a pass that has no defined result because the decoder has
none on the framed sentence. -/
theorem work_loop_terminates : ∀ (n : Nat) (x : tiny_nmea_ctx_t), framer_wf x →
    work_measure x < n →
    (∃ c, tiny_nmea_work_loop n x = some c ∧ ringbuf_len c.ringbuf = 0 ∧ framer_wf c) ∨
    (tiny_nmea_work_loop n x = none ∧
      ∃ y, framer_wf y ∧ tiny_nmea_work_body y = loop_outcome.undefined ∧
        (activate y).parser_state = TINY_NMEA_SENTENCE_COMPLETE ∧
        complete_decode (activate y) = none) := by
  intro n
  induction n with
  | zero => intro x _ hm; omega
  | succ n ih =>
    intro x h hm
    rw [work_loop_succ]
    by_cases hc : work_cond x = true
    · rw [if_pos hc]
      obtain ⟨b1, b2, b3⟩ := body_progress x h
      cases hb : tiny_nmea_work_body x with
      | exit c =>
        obtain ⟨e1, e2⟩ := b1 c hb
        exact Or.inl ⟨c, rfl, e1, e2⟩
      | next c =>
        obtain ⟨e1, e2⟩ := b2 c hb
        exact ih c e1 (by omega)
      | undefined =>
        obtain ⟨e1, e2⟩ := b3 hb
        exact Or.inr ⟨rfl, x, h, hb, e1, e2⟩
    · rw [if_neg hc]
      refine Or.inl ⟨x, rfl, ?_, h⟩
      unfold work_cond at hc
      simp only [Bool.or_eq_true, Bool.not_eq_true', decide_eq_true_eq, not_or,
        Bool.not_eq_false] at hc
      exact (empty_iff x.ringbuf h.ring).1 hc.1

/-- A freshly initialised parser with a non-empty ring buffer satisfies the
invariant. -/
theorem init_wf (mem : tiny_nmea_ctx_t) (buffer : List Nat) (pcb ecb : Bool)
    (h : 0 < buffer.length) :
    framer_wf (tiny_nmea_init_callbacks mem buffer buffer.length pcb ecb) :=
  wf_of_start _ ⟨h, rfl, h, h⟩ (Nat.zero_le _) rfl rfl

/-- The call `tiny_nmea_feed` keeps the invariant. -/
theorem feed_wf (ctx : tiny_nmea_ctx_t) (data : List Nat) (h : framer_wf ctx) :
    framer_wf (tiny_nmea_feed ctx data).2 := by
  unfold tiny_nmea_feed
  simp only
  rw [push_drop_eq _ _ h.ring]
  refine ⟨?_, h.pos_le, h.len_le, h.start, h.talker, h.later, h.complete, h.full⟩
  apply write_wf _ _ h.ring
  rw [List.length_take]
  exact Nat.min_le_left _ _

/-- Unless a decoder has no defined result on a framed sentence,
`tiny_nmea_work` returns from every context satisfying the invariant, given
more passes of fuel than the measure, and the ring buffer is then empty. -/
theorem work_terminates (x : tiny_nmea_ctx_t) (fuel : Nat) (h : framer_wf x)
    (hf : work_measure x < fuel) :
    (∃ c, tiny_nmea_work fuel x = some c ∧ ringbuf_empty c.ringbuf = true ∧
      ringbuf_len c.ringbuf = 0 ∧ framer_wf c) ∨
    (tiny_nmea_work fuel x = none ∧
      ∃ y, framer_wf y ∧ tiny_nmea_work_body y = loop_outcome.undefined ∧
        (activate y).parser_state = TINY_NMEA_SENTENCE_COMPLETE ∧
        complete_decode (activate y) = none) := by
  rcases work_loop_terminates fuel x h hf with ⟨c, h1, h2, h3⟩ | h1
  · exact Or.inl ⟨c, h1, (empty_iff c.ringbuf h3.ring).2 h2, h2, h3⟩
  · exact Or.inr h1

theorem loop_none_of_undefined (y : tiny_nmea_ctx_t) (hc : work_cond y = true)
    (hb : tiny_nmea_work_body y = loop_outcome.undefined) :
    ∀ f, tiny_nmea_work_loop f y = none := by
  intro f
  cases f with
  | zero => rfl
  | succ f =>
    rw [work_loop_succ, hc, hb]
    rfl

theorem loop_none_of_next (a c : tiny_nmea_ctx_t) (hc : work_cond a = true)
    (hb : tiny_nmea_work_body a = loop_outcome.next c)
    (h : ∀ f, tiny_nmea_work_loop f c = none) : ∀ f, tiny_nmea_work_loop f a = none := by
  intro f
  cases f with
  | zero => rfl
  | succ f =>
    rw [work_loop_succ, hc, hb]
    exact h f

/-- The sentence `sample_gga` fed to a fresh parser: the invariant holds, the
measure is 1349, and `tiny_nmea_work` returns with the ring buffer empty. -/
theorem work_terminates_example :
    work_measure (tiny_nmea_feed sample_context sample_gga).2 = 1349 ∧
    ∃ c, tiny_nmea_work 1350 (tiny_nmea_feed sample_context sample_gga).2 = some c ∧
      ringbuf_empty c.ringbuf = true ∧ framer_wf c := by
  refine ⟨by decide, ?_⟩
  rcases work_terminates (tiny_nmea_feed sample_context sample_gga).2 1350
    (feed_wf _ _ (init_wf ctx_zero (List.replicate 512 0) true true (by decide)))
    (by decide) with ⟨c, h1, h2, _, h4⟩ | ⟨h1, _⟩
  · exact ⟨c, h1, h2, h4⟩
  · exact absurd h1 (by decide)

/-- The record that `parse_post_process` leaves: unchanged unless it is an RMC
record, and then changed in `date.year` alone. -/
theorem post_process_record (ctx : tiny_nmea_ctx_t) (result : tiny_nmea_type_t) :
    (result.type ≠ TINY_NMEA_SENTENCE_RMC → (parse_post_process ctx result).2 = result) ∧
    (result.type = TINY_NMEA_SENTENCE_RMC →
      (parse_post_process ctx result).2.type = result.type ∧
      (parse_post_process ctx result).2.talker = result.talker ∧
      (ctx.zda_century = 0 → (parse_post_process ctx result).2 = result) ∧
      data_rmc (parse_post_process ctx result).2.data =
        { data_rmc result.data with date := { (data_rmc result.data).date with
          year := if 0 < ctx.zda_century then
              to_uint16 (to_uint16 ctx.zda_century * 100 + (data_rmc result.data).date.year_yy)
            else (data_rmc result.data).date.year } }) := by
  unfold parse_post_process
  refine ⟨fun h => ?_, fun h => ?_⟩
  · rw [if_neg h]
    split
    · split <;> rfl
    · rfl
  · rw [if_neg (by rw [h]; decide), if_pos h]
    by_cases hc : ctx.zda_century > 0
    · rw [if_pos hc]
      refine ⟨rfl, rfl, fun q => absurd q (by omega), ?_⟩
      simp only [data_rmc, if_pos hc]
    · rw [if_neg hc]
      refine ⟨rfl, rfl, fun _ => rfl, ?_⟩
      rw [if_neg hc]

theorem header_valid_congr (s t : List Nat) (h : ∀ i, i < 7 → s.getD i 0 = t.getD i 0) :
    header_valid s = header_valid t := by
  unfold header_valid
  rw [h 1 (by omega), h 2 (by omega), h 3 (by omega), h 4 (by omega), h 5 (by omega),
    h 6 (by omega)]

/-- The state `FIND_TALKER_AND_TYPE` with a header that fails the test: one
byte is discarded, a parse error is counted and the search starts again. -/
theorem find_talker_invalid (ctx : tiny_nmea_ctx_t)
    (h : ¬ ctx.working_buf_len - ctx.parse_pos < 6)
    (hv : header_valid ctx.working_buf = false) :
    fsm_find_talker_and_type ctx =
      RESET_WORKBUF_BYTES
        (count_parse_error (discard_bytes
          { ctx with
            current_talker := parse_talker_id (ctx.working_buf.getD 1 0) (ctx.working_buf.getD 2 0)
            current_type := parse_sentence_type (ctx.working_buf.getD 3 0)
              (ctx.working_buf.getD 4 0) (ctx.working_buf.getD 5 0) } 1))
        (count_parse_error (discard_bytes
          { ctx with
            current_talker := parse_talker_id (ctx.working_buf.getD 1 0) (ctx.working_buf.getD 2 0)
            current_type := parse_sentence_type (ctx.working_buf.getD 3 0)
              (ctx.working_buf.getD 4 0) (ctx.working_buf.getD 5 0) } 1)).working_buf_len := by
  unfold fsm_find_talker_and_type
  rw [if_neg h]
  have hc : (!(tiny_nmea_talker_valid
        (parse_talker_id (ctx.working_buf.getD 1 0) (ctx.working_buf.getD 2 0))) ||
      !(tiny_nmea_sentence_valid (parse_sentence_type (ctx.working_buf.getD 3 0)
        (ctx.working_buf.getD 4 0) (ctx.working_buf.getD 5 0))) ||
      ctx.working_buf.getD 6 0 != 44) = true := by
    unfold header_valid at hv
    revert hv
    cases tiny_nmea_talker_valid
        (parse_talker_id (ctx.working_buf.getD 1 0) (ctx.working_buf.getD 2 0)) <;>
      cases tiny_nmea_sentence_valid (parse_sentence_type (ctx.working_buf.getD 3 0)
        (ctx.working_buf.getD 4 0) (ctx.working_buf.getD 5 0)) <;>
      simp
  simp only [hc, if_true]

/-- A start character with a header that fails the test, at the front of the
bytes the framer holds with at least seven bytes there: within two passes the
start character is dropped and a parse error counted, without a callback. -/
theorem bad_header_step (ctx : tiny_nmea_ctx_t) (Y : List Nat) (hfr : fresh ctx)
    (hstr : stream ctx = Y) (h7 : 7 ≤ Y.length)
    (h0 : Y.getD 0 0 = 36 ∨ Y.getD 0 0 = 33) (hv : header_valid Y = false) :
    ∃ c j, j ≤ 2 ∧ runs_to ctx c j ∧ stream c = Y.drop 1 ∧ fresh c ∧
      c.parser_state = TINY_NMEA_PARSE_FIND_START ∧
      c.parse_callback = ctx.parse_callback ∧ c.error_callback = ctx.error_callback ∧
      c.stats = { ctx.stats with parse_errors := incr32 ctx.stats.parse_errors } ∧
      c.calls = ctx.calls ∧ c.zda_century = ctx.zda_century ∧
      c.ringbuf.size = ctx.ringbuf.size := by
  have hwl := hfr.wb_length
  have hl82 := hfr.len_le
  have hpos : ctx.parse_pos ≤ ctx.working_buf_len := by
    rcases hfr.stage with q | q
    · rw [q.2]; exact Nat.zero_le _
    · rw [q.2.1]; exact q.2.2
  have htop := activate_topped ctx hfr.wf hfr.wb_length hfr.len_le (Or.inr hfr.waiting)
  have hrun := activate_runs ctx hfr.wf hfr.wb_length hfr.len_le (Or.inr hfr.waiting)
    hpos (Or.inr hfr.waiting)
  have hstage := hfr.stage
  rw [← htop.state, ← htop.pos] at hstage
  generalize activate ctx = a at htop hrun hstage
  have hsa := topped_settled htop
  have hsl := stream_length ctx (by
    rw [hwl]; unfold TINY_NMEA_WORKING_BUF_LEN
    unfold TINY_NMEA_MAX_SENTENCE_LEN at hl82; omega)
  have hal := htop.len
  have hawl := htop.wb_length
  have hstra : stream a = Y := htop.stream_eq.trans hstr
  rw [hstr] at hsl
  unfold TINY_NMEA_MAX_SENTENCE_LEN at hal hl82
  unfold TINY_NMEA_WORKING_BUF_LEN at hwl
  have ha7 : 7 ≤ a.working_buf_len := by omega
  have ha82 : a.working_buf_len ≤ 82 := by omega
  have hget : ∀ i, i < a.working_buf_len → a.working_buf.getD i 0 = Y.getD i 0 := by
    intro i hi
    rw [stream_getD a i hi (by omega), hstra]
  -- the pass in the state FIND_TALKER_AND_TYPE
  have step : ∀ b : tiny_nmea_ctx_t, settled b →
      b.parser_state = TINY_NMEA_PARSE_FIND_TALKER_AND_TYPE → b.parse_pos = 1 →
      b.ringbuf = a.ringbuf → b.working_buf = a.working_buf →
      b.working_buf_len = a.working_buf_len →
      b.parse_callback = a.parse_callback → b.error_callback = a.error_callback →
      b.stats = a.stats → b.calls = a.calls → b.zda_century = a.zda_century →
      ∃ c, runs_to b c 1 ∧ stream c = Y.drop 1 ∧ fresh c ∧
        c.parser_state = TINY_NMEA_PARSE_FIND_START ∧
        c.parse_callback = ctx.parse_callback ∧ c.error_callback = ctx.error_callback ∧
        c.stats = { ctx.stats with parse_errors := incr32 ctx.stats.parse_errors } ∧
        c.calls = ctx.calls ∧ c.zda_century = ctx.zda_century ∧
        c.ringbuf.size = ctx.ringbuf.size := by
    intro b hsb hst hp1 e1 e2 e3 e4 e5 e6 e7 e8
    have hlt : b.parse_pos < b.working_buf_len := by omega
    have hr := runs_next b _ (cond_of_pos_lt b hlt) (by rw [dispatch_settled b hsb hlt, hst])
    have hvb : header_valid b.working_buf = false := by
      rw [← hv, e2]
      exact header_valid_congr _ _ (fun i hi => hget i (by omega))
    rw [find_talker_invalid b (by omega) hvb] at hr
    generalize hb' : ({ b with
      current_talker := parse_talker_id (b.working_buf.getD 1 0) (b.working_buf.getD 2 0)
      current_type := parse_sentence_type (b.working_buf.getD 3 0)
        (b.working_buf.getD 4 0) (b.working_buf.getD 5 0) } : tiny_nmea_ctx_t) = b' at hr
    have f1 : b'.ringbuf = a.ringbuf := by rw [← hb']; exact e1
    have f2 : b'.working_buf = a.working_buf := by rw [← hb']; exact e2
    have f3 : b'.working_buf_len = a.working_buf_len := by rw [← hb']; exact e3
    have f4 : b'.waiting_for_data = false := by rw [← hb']; exact hsb.1
    have f5 : stream b' = Y := by
      rw [← hstra]
      unfold stream
      rw [f1, f2, f3]
    have hstrd := stream_discard b' 1 (by omega) (by rw [f2, f3]; omega)
    refine ⟨_, hr, ?_, ?_, rfl, ?_, ?_, ?_, ?_, ?_, ?_⟩
    · show stream (discard_bytes b' 1) = _
      rw [hstrd, f5]
    · refine ⟨?_, ?_, ?_, ?_, Or.inl ⟨rfl, rfl⟩⟩
      · show ringbuf_wf (discard_bytes b' 1).ringbuf
        rw [discard_ringbuf, f1]
        exact htop.wf
      · show (discard_bytes b' 1).working_buf.length = _
        rw [discard_wb_length _ _ (by rw [f2, f3]; omega), f2, hawl]
        exact hfr.wb_length
      · show (discard_bytes b' 1).working_buf_len ≤ _
        rw [discard_len, f3]
        unfold TINY_NMEA_MAX_SENTENCE_LEN
        omega
      · show (discard_bytes b' 1).waiting_for_data = false
        rw [discard_waiting, f4]
    · show (discard_bytes b' 1).parse_callback = _
      unfold discard_bytes
      split
      · show b'.parse_callback = _
        rw [← hb']
        exact e4.trans htop.parse_cb
      · show b'.parse_callback = _
        rw [← hb']
        exact e4.trans htop.parse_cb
    · show (discard_bytes b' 1).error_callback = _
      unfold discard_bytes
      split
      · show b'.error_callback = _
        rw [← hb']
        exact e5.trans htop.error_cb
      · show b'.error_callback = _
        rw [← hb']
        exact e5.trans htop.error_cb
    · have hst' : (discard_bytes b' 1).stats = ctx.stats := by
        unfold discard_bytes
        split
        · show b'.stats = _
          rw [← hb']
          exact e6.trans htop.stats
        · show b'.stats = _
          rw [← hb']
          exact e6.trans htop.stats
      show ({ (discard_bytes b' 1).stats with
        parse_errors := incr32 (discard_bytes b' 1).stats.parse_errors } :
          tiny_nmea_parser_statistics_t) = _
      rw [hst']
    · show (discard_bytes b' 1).calls = _
      unfold discard_bytes
      split
      · show b'.calls = _
        rw [← hb']
        exact e7.trans htop.calls
      · show b'.calls = _
        rw [← hb']
        exact e7.trans htop.calls
    · show (discard_bytes b' 1).zda_century = _
      unfold discard_bytes
      split
      · show b'.zda_century = _
        rw [← hb']
        exact e8.trans htop.century
      · show b'.zda_century = _
        rw [← hb']
        exact e8.trans htop.century
    · show (discard_bytes b' 1).ringbuf.size = _
      rw [discard_ringbuf, f1]
      exact htop.size
  rcases hstage with q | q
  · -- the pass in the state FIND_START
    have hlt : a.parse_pos < a.working_buf_len := by rw [q.2]; omega
    have hr1 := runs_next a _ (cond_of_pos_lt a hlt) (by rw [dispatch_settled a hsa hlt, q.1])
    rw [find_start_at_zero a (by rw [hget 0 (by omega)]; exact h0) (by omega) (by omega)] at hr1
    obtain ⟨c, g⟩ := step
      { a with has_checksum := false, parse_pos := 1, computed_checksum := 0,
               parser_state := TINY_NMEA_PARSE_FIND_TALKER_AND_TYPE }
      ⟨hsa.1, hsa.2⟩ rfl rfl rfl rfl rfl rfl rfl rfl rfl rfl
    exact ⟨c, 2, le_refl _, runs_to_trans hrun (runs_to_trans hr1 g.1), g.2⟩
  · obtain ⟨c, g⟩ := step a hsa q.1 q.2.1 rfl rfl rfl rfl rfl rfl rfl rfl
    exact ⟨c, 1, by omega, runs_to_trans hrun g.1, g.2⟩

theorem start_count_zero (L : List Nat)
    (h : ∀ i, i < L.length → is_start_char (L.getD i 0) = false) : start_count L = 0 := by
  unfold start_count
  rw [List.length_eq_zero, List.filter_eq_nil_iff]
  intro a ha
  obtain ⟨i, hi, rfl⟩ := List.getElem_of_mem ha
  have := h i hi
  rw [List.getD_eq_getElem _ _ hi] at this
  rw [this]
  exact Bool.false_ne_true

theorem start_count_append (L M : List Nat) :
    start_count (L ++ M) = start_count L + start_count M := by
  unfold start_count
  rw [List.filter_append, List.length_append]

theorem start_count_cons (b : Nat) (L : List Nat) (h : is_start_char b = true) :
    start_count (b :: L) = 1 + start_count L := by
  unfold start_count
  rw [List.filter_cons_of_pos h, List.length_cons]
  omega

theorem start_count_split (G : List Nat) (p : Nat) (hp : p < G.length)
    (h : ∀ i, i < p → is_start_char (G.getD i 0) = false)
    (hs : is_start_char (G.getD p 0) = true) :
    start_count G = 1 + start_count (G.drop (p + 1)) := by
  have e : G = G.take p ++ (G.getD p 0 :: G.drop (p + 1)) := by
    rw [List.getD_eq_getElem _ _ hp, ← List.drop_eq_getElem_cons hp, List.take_append_drop]
  have z : start_count (G.take p) = 0 := by
    apply start_count_zero
    intro i hi
    rw [List.length_take] at hi
    rw [getD_take' _ _ _ (by omega)]
    exact h i (by omega)
  conv_lhs => rw [e]
  rw [start_count_append, z, start_count_cons _ _ hs, Nat.zero_add]

theorem start_count_drop (G : List Nat) (m : Nat)
    (h : ∀ i, i < m → i < G.length → is_start_char (G.getD i 0) = false) :
    start_count (G.drop m) = start_count G := by
  have z : start_count (G.take m) = 0 := by
    apply start_count_zero
    intro i hi
    rw [List.length_take] at hi
    rw [getD_take' _ _ _ (by omega)]
    exact h i (by omega) (by omega)
  conv_rhs => rw [← List.take_append_drop m G]
  rw [start_count_append, z, Nat.zero_add]

theorem start_char_iff (b : Nat) : is_start_char b = true ↔ (b = 36 ∨ b = 33) := by
  unfold is_start_char
  simp

theorem start_char_false (b : Nat) : is_start_char b = false ↔ (b ≠ 36 ∧ b ≠ 33) := by
  unfold is_start_char
  simp

/-- Bytes in front of the sentence `B` in which every start character opens a
header that fails the test: they are dropped, one parse error being counted
for each start character, and the loop comes to a context that holds `B`. -/
theorem skip_junk (n : Nat) : ∀ (ctx : tiny_nmea_ctx_t) (G B : List Nat), G.length ≤ n →
    fresh ctx → ctx.parser_state = TINY_NMEA_PARSE_FIND_START →
    stream ctx = G ++ B → 7 ≤ B.length → (B.getD 0 0 = 36 ∨ B.getD 0 0 = 33) →
    (∀ i, i < G.length → is_start_char (G.getD i 0) = true →
      header_valid ((G ++ B).drop i) = false) →
    ctx.stats.parse_errors < 4294967296 →
    ∃ c j, j ≤ (G.length + 81) / 82 + 3 * start_count G ∧ runs_to ctx c j ∧ stream c = B ∧
      fresh c ∧
      c.parse_callback = ctx.parse_callback ∧ c.error_callback = ctx.error_callback ∧
      c.stats = { ctx.stats with
        parse_errors := (ctx.stats.parse_errors + start_count G) % 4294967296 } ∧
      c.calls = ctx.calls ∧ c.zda_century = ctx.zda_century ∧
      c.ringbuf.size = ctx.ringbuf.size := by
  induction n with
  | zero =>
    intro ctx G B hn hfr hst hstr hB7 hB0 hG hpe
    have : G = [] := List.eq_nil_of_length_eq_zero (by omega)
    subst this
    refine ⟨ctx, 0, Nat.zero_le _, runs_to_refl ctx, by simpa using hstr, hfr, rfl, rfl, ?_,
      rfl, rfl, rfl⟩
    show ctx.stats = { ctx.stats with parse_errors := (ctx.stats.parse_errors + 0) % 4294967296 }
    rw [Nat.add_zero, Nat.mod_eq_of_lt hpe]
  | succ n ih =>
    intro ctx G B hn hfr hst hstr hB7 hB0 hG hpe
    obtain ⟨t1, t2⟩ := takeWhile_spec G (fun b => !is_start_char b)
    generalize hp : (G.takeWhile fun b => !is_start_char b).length = p at t1 t2
    have hpl : p ≤ G.length := by
      rw [← hp]
      exact takeWhile_length_le _ _
    have hfree : ∀ i, i < p → is_start_char (G.getD i 0) = false := by
      intro i hi
      have := t1 i hi
      simpa using this
    have hBne : B ≠ [] := by
      intro h
      rw [h] at hB7
      simp at hB7
    by_cases hpG : p = G.length
    · -- no start character in G
      have hz : start_count G = 0 := start_count_zero G (fun i hi => hfree i (by omega))
      obtain ⟨c, j, h1, h2, h3, h4, h5, h6⟩ := skip_garbage G.length ctx G B (le_refl _) hfr hst
        hstr (fun i hi => (start_char_false _).1 (hfree i (by omega))) (Or.inr hB0)
      refine ⟨c, j, by omega, h2, h3, h4, h5.parse_cb, h5.error_cb, ?_, h5.calls, h5.century,
        h6⟩
      rw [h5.stats, hz]
      show ctx.stats = { ctx.stats with parse_errors := (ctx.stats.parse_errors + 0) % 4294967296 }
      rw [Nat.add_zero, Nat.mod_eq_of_lt hpe]
    · have hplt : p < G.length := by omega
      have hsp : is_start_char (G.getD p 0) = true := by
        have := t2 hplt
        simpa using this
      have hcount := start_count_split G p hplt hfree hsp
      have hstr1 : stream ctx = G.take p ++ (G.drop p ++ B) := by
        rw [hstr, ← List.append_assoc, List.take_append_drop]
      have hY0 : (G.drop p ++ B).getD 0 0 = G.getD p 0 := by
        rw [getD_append_left' _ _ _ (by rw [List.length_drop]; omega), getD_drop', Nat.add_zero]
      obtain ⟨c1, j1, h1, h2, h3, h4, h5, h6⟩ := skip_garbage (G.take p).length ctx (G.take p)
        (G.drop p ++ B) (le_refl _) hfr hst hstr1
        (by
          intro i hi
          rw [List.length_take] at hi
          rw [getD_take' _ _ _ (by omega)]
          exact (start_char_false _).1 (hfree i (by omega)))
        (Or.inr (by rw [hY0]; exact (start_char_iff _).1 hsp))
      rw [List.length_take, Nat.min_eq_left hpl] at h1
      have hdrop : (G ++ B).drop p = G.drop p ++ B := List.drop_append_of_le_length hpl
      obtain ⟨c2, j2, g1, g2, g3, g4, g5, g6, g7, g8, g9, g10, g11⟩ := bad_header_step c1
        (G.drop p ++ B) h4 h3 (by rw [List.length_append]; omega)
        (by rw [hY0]; exact (start_char_iff _).1 hsp)
        (by rw [← hdrop]; exact hG p hplt hsp)
      have hstr2 : stream c2 = G.drop (p + 1) ++ B := by
        rw [g3, ← hdrop, List.drop_drop]
        exact List.drop_append_of_le_length (by omega)
      have hpe2 : c2.stats.parse_errors < 4294967296 := by
        rw [g8]
        show incr32 _ < _
        unfold incr32 to_uint32
        omega
      obtain ⟨c, j3, k1, k2, k3, k4, k5, k6, k7, k8, k9, k10⟩ := ih c2 (G.drop (p + 1)) B
        (by rw [List.length_drop]; omega) g4 g5 hstr2 hB7 hB0
        (by
          intro i hi hs
          rw [List.length_drop] at hi
          rw [getD_drop'] at hs
          have := hG (p + 1 + i) (by omega) hs
          rw [← List.drop_append_of_le_length (by omega : p + 1 ≤ G.length), List.drop_drop]
          exact this)
        hpe2
      rw [List.length_drop] at k1
      refine ⟨c, j3 + (j2 + j1), ?_, runs_to_trans (runs_to_trans h2 g2) k2, k3, k4,
        k5.trans (g6.trans h5.parse_cb), k6.trans (g7.trans h5.error_cb), ?_,
        k8.trans (g9.trans h5.calls), k9.trans (g10.trans h5.century),
        k10.trans (g11.trans h6)⟩
      · rw [hcount]
        omega
      · rw [k7, g8, h5.stats, hcount]
        show ({ ctx.stats with parse_errors := (incr32 ctx.stats.parse_errors +
          start_count (G.drop (p + 1))) % 4294967296 } : tiny_nmea_parser_statistics_t) =
          { ctx.stats with parse_errors := (ctx.stats.parse_errors +
            (1 + start_count (G.drop (p + 1)))) % 4294967296 }
        have : (incr32 ctx.stats.parse_errors + start_count (G.drop (p + 1))) % 4294967296 =
            (ctx.stats.parse_errors + (1 + start_count (G.drop (p + 1)))) % 4294967296 := by
          unfold incr32 to_uint32
          omega
        rw [this]

/-- Two acceptable sentences with bytes between them in which every start
character opens a header that fails the test, fed in one piece to an empty
framer: both are completed, in order, and one parse error is counted for each
start character between them. -/
theorem two_sentences_junk (ctx : tiny_nmea_ctx_t) (A G B : List Nat)
    (dA eA : Nat) (ckA : Bool) (tkA tyA vA : Nat) (recA : tiny_nmea_type_t)
    (dB eB : Nat) (ckB : Bool) (tkB tyB vB : Nat) (recB : tiny_nmea_type_t)
    (hfA : sentence_frame A dA eA ckA tkA tyA vA) (haA : accepted A dA ckA tkA tyA vA recA)
    (hfB : sentence_frame B dB eB ckB tkB tyB vB) (haB : accepted B dB ckB tkB tyB vB recB)
    (hG : ∀ i, i < G.length → is_start_char (G.getD i 0) = true →
      header_valid ((G ++ B).drop i) = false)
    (hs : at_start ctx) (hring : ringbuf_len ctx.ringbuf = 0) (hcb : ctx.parse_callback = true)
    (hpe : ctx.stats.parse_errors < 4294967296)
    (hcap : (A ++ G ++ B).length < ctx.ringbuf.size) :
    ∃ c1 c2 c3,
      halts_at (tiny_nmea_feed ctx (A ++ G ++ B)).2 c3
        ((G.length + 81) / 82 + 3 * start_count G + 11) ∧
      user_done true recA ctx c1 ∧
      c2.parse_callback = c1.parse_callback ∧ c2.error_callback = c1.error_callback ∧
      c2.stats = { c1.stats with
        parse_errors := (c1.stats.parse_errors + start_count G) % 4294967296 } ∧
      c2.calls = c1.calls ∧ c2.zda_century = c1.zda_century ∧
      user_done true recB c2 c3 := by
  have hfree := len_add_free ctx.ringbuf hs.wf
  have hfit : (A ++ G ++ B).length ≤ ringbuf_free ctx.ringbuf := by omega
  rw [feed_fits ctx _ hs.wf hfit]
  have hstr : stream { ctx with ringbuf := ringbuf_write ctx.ringbuf (A ++ G ++ B) } =
      A ++ (G ++ B) := by
    rw [stream_feed ctx _ hs.wf hfit]
    unfold stream
    rw [hs.len, contents_nil_of_len _ hring]
    simp
  have hfr : fresh { ctx with ringbuf := ringbuf_write ctx.ringbuf (A ++ G ++ B) } :=
    ⟨write_wf _ _ hs.wf hfit, hs.wb_length,
      by show ctx.working_buf_len ≤ _; rw [hs.len]; exact Nat.zero_le _,
      hs.waiting, Or.inl ⟨hs.state, hs.pos⟩⟩
  obtain ⟨c1, k, j1, hj1, hr1, hd1, hfr1, hst1, _, hstr1, hk1, hk2, hk3⟩ :=
    front_sentence _ A (G ++ B) dA eA ckA tkA tyA vA recA hfA haA hfr hcb hstr
  have heB := hfB.e_lt
  have hdB := hfB.d_ge
  have hdeB := frame_d_le_e hfB
  have hkG : k ≤ A.length + G.length := by
    by_contra hc
    have := hk3 (A.length + G.length) (by omega) (by omega)
    rw [getD_append_right' _ _ _ (by omega), getD_append_right' _ _ _ (by omega)] at this
    rw [show A.length + G.length - A.length - G.length = 0 by omega] at this
    rcases hfB.start with q | q <;> rw [q] at this <;> omega
  have hstr1' : stream c1 = G.drop (k - A.length) ++ B := by
    rw [hstr1, List.drop_append_eq_append_drop, List.drop_append_eq_append_drop]
    rw [List.drop_of_length_le (by omega : A.length ≤ k)]
    rw [show k - A.length - G.length = 0 by omega, List.drop_zero, List.nil_append]
  have heaten : ∀ i, i < k - A.length → i < G.length → is_start_char (G.getD i 0) = false := by
    intro i hi hiG
    have := hk3 (A.length + i) (by omega) (by omega)
    rw [getD_append_right' _ _ _ (by omega), getD_append_left' _ _ _ (by omega)] at this
    rw [show A.length + i - A.length = i by omega] at this
    rw [start_char_false]
    omega
  have hcnt := start_count_drop G (k - A.length) heaten
  have hpe1 : c1.stats.parse_errors < 4294967296 := by
    rw [hd1.stats]
    exact hpe
  obtain ⟨c2, j2, hj2, hr2, hstr2, hfr2, u1, u2, u3, u4, u5, _⟩ := skip_junk
    (G.drop (k - A.length)).length c1 (G.drop (k - A.length)) B (le_refl _) hfr1 hst1 hstr1'
    (by omega) hfB.start
    (by
      intro i hi hsc
      rw [List.length_drop] at hi
      rw [getD_drop'] at hsc
      have := hG (k - A.length + i) (by omega) hsc
      rw [← List.drop_append_of_le_length (by omega : k - A.length ≤ G.length), List.drop_drop]
      exact this)
    hpe1
  rw [List.length_drop, hcnt] at hj2
  rw [hcnt] at u3
  have hcb2 : c2.parse_callback = true := by
    rw [u1, hd1.parse_cb]
    exact hcb
  obtain ⟨c3, k3, j3, hj3, hr3, hd3, hfr3, _, _, hstr3, hk4, _, _⟩ :=
    front_sentence c2 B [] dB eB ckB tkB tyB vB recB hfB haB hfr2 hcb2 (by simpa using hstr2)
  have hnil : stream c3 = [] := by
    rw [hstr3]
    apply List.drop_of_length_le
    simp only [List.append_nil]
    exact hk4
  have hwl := hfr3.wb_length
  have hl82 := hfr3.len_le
  unfold TINY_NMEA_WORKING_BUF_LEN at hwl
  unfold TINY_NMEA_MAX_SENTENCE_LEN at hl82
  obtain ⟨z1, z2⟩ := stream_nil c3 hnil (by omega)
  refine ⟨c1, c2, c3, ?_, user_done_of_same (a := ctx) (by exact ⟨rfl, rfl, rfl, rfl, rfl⟩) hd1,
    u1, u2, u3, u4, u5, hd3⟩
  exact halts_mono (runs_to_halts hr1 (runs_to_halts hr2 (runs_to_halts hr3
    (halts_idle c3 hfr3.wf (by omega) z2)))) (by omega)

theorem tally_good {sp ce : Nat} {rec : tiny_nmea_type_t} {a c : tiny_nmea_ctx_t}
    (ht : tally sp ce a) (hd : user_done true rec a c) : tally (sp + 1) ce c := by
  refine ⟨hd.parse_cb.trans ht.cb, ?_⟩
  have := hd.stats
  simp only [if_true] at this
  rw [this, ht.stats]
  show tiny_nmea_parser_statistics_t.mk (incr32 (sp % 4294967296)) (ce % 4294967296) 0 0 = _
  have e : incr32 (sp % 4294967296) = (sp + 1) % 4294967296 := by
    unfold incr32 to_uint32
    omega
  rw [e]

theorem tally_bad {sp ce : Nat} {rec : tiny_nmea_type_t} {a c : tiny_nmea_ctx_t}
    (ht : tally sp ce a) (hd : user_done false rec a c) : tally sp (ce + 1) c := by
  refine ⟨hd.parse_cb.trans ht.cb, ?_⟩
  have := hd.stats
  simp only [Bool.false_eq_true, if_false] at this
  rw [this, ht.stats]
  show tiny_nmea_parser_statistics_t.mk (sp % 4294967296) (incr32 (ce % 4294967296)) 0 0 = _
  have e : incr32 (ce % 4294967296) = (ce + 1) % 4294967296 := by
    unfold incr32 to_uint32
    omega
  rw [e]

theorem tally_same {sp ce : Nat} {a c : tiny_nmea_ctx_t} (ht : tally sp ce a)
    (h1 : c.parse_callback = a.parse_callback) (h2 : c.stats = a.stats) : tally sp ce c :=
  ⟨h1.trans ht.cb, h2.trans ht.stats⟩

theorem sentence_ok_verdict (T : List Nat) (g : Bool) (h : sentence_ok (T, g)) :
    ∃ d e ck tk ty v rec, sentence_frame T d e ck tk ty v ∧ verdict g T d ck tk ty v rec := by
  cases g with
  | true =>
    obtain ⟨d, e, ck, tk, ty, v, rec, h1, h2⟩ := h
    exact ⟨d, e, ck, tk, ty, v, rec, h1, h2⟩
  | false =>
    obtain ⟨d, e, tk, ty, v, h1, h2⟩ := h
    exact ⟨d, e, true, tk, ty, v, {}, h1, h2⟩

theorem sentence_bytes_cons (T : List Nat) (g : Bool) (Ss : List (List Nat × Bool)) :
    sentence_bytes ((T, g) :: Ss) = T ++ sentence_bytes Ss := by
  unfold sentence_bytes
  simp

theorem sentence_bytes_nil : sentence_bytes [] = [] := rfl

/-- The first byte of the sentences is a start character. -/
theorem sentence_bytes_start (Ss : List (List Nat × Bool)) (hok : sentences_ok Ss)
    (hne : Ss ≠ []) :
    0 < (sentence_bytes Ss).length ∧
    ((sentence_bytes Ss).getD 0 0 = 36 ∨ (sentence_bytes Ss).getD 0 0 = 33) := by
  cases Ss with
  | nil => exact absurd rfl hne
  | cons p rest =>
    obtain ⟨T, g⟩ := p
    obtain ⟨d, e, ck, tk, ty, v, rec, hf, _⟩ := sentence_ok_verdict T g hok.1
    have := hf.e_lt
    rw [sentence_bytes_cons, List.length_append, getD_append_left' _ _ _ (by omega)]
    exact ⟨by omega, hf.start⟩

theorem good_count_cons (T : List Nat) (g : Bool) (Ss : List (List Nat × Bool)) :
    good_count ((T, g) :: Ss) = (if g then 1 else 0) + good_count Ss := by
  unfold good_count
  cases g <;> simp [List.filter_cons]
  omega

theorem bad_count_cons (T : List Nat) (g : Bool) (Ss : List (List Nat × Bool)) :
    bad_count ((T, g) :: Ss) = (if g then 0 else 1) + bad_count Ss := by
  unfold bad_count
  cases g <;> simp [List.filter_cons]
  omega

/-- The loop of `tiny_nmea_work` from a framer that is framing the sentence
`T`, with the sentences `Ss` after it: either the line end of `T` is not in
yet and the loop ends waiting, or `T` is finished and the loop goes on with the
bytes after it. -/
theorem drain_sentence (T : List Nat) (g : Bool) (Ss : List (List Nat × Bool))
    (d e : Nat) (ck : Bool) (tk ty v : Nat) (rec : tiny_nmea_type_t)
    (hf : sentence_frame T d e ck tk ty v) (hv : verdict g T d ck tk ty v rec)
    (hsok : sentence_ok (T, g)) (hlast : Ss ≠ [] → g = true) (hok : sentences_ok Ss)
    (hA : drain_spec Ss)
    (ctx : tiny_nmea_ctx_t) (W R : List Nat) (sp ce : Nat)
    (hfr : framing T d e ck tk ty ctx)
    (hready : (ctx.working_buf_len < TINY_NMEA_MAX_SENTENCE_LEN ∧ 0 < ringbuf_len ctx.ringbuf) ∨
      ctx.waiting_for_data = false)
    (hstr : stream ctx = W) (hW : W ≠ []) (hsplit : W ++ R = T ++ sentence_bytes Ss)
    (ht : tally sp ce ctx) :
    drain_result ((T, g) :: Ss) (6 * Ss.length + 7) ctx R sp ce := by
  have heT := hf.e_lt
  have hTl := hf.len_le
  have hwl := hfr.wb_length
  have hl82 := hfr.len_le
  have hno : ctx.working_buf_len < TINY_NMEA_MAX_SENTENCE_LEN ∨ ctx.waiting_for_data = false :=
    hready.imp (fun q => q.1) id
  have hgo : 0 < ringbuf_len ctx.ringbuf ∨ ctx.waiting_for_data = false :=
    hready.imp (fun q => q.2) id
  have htop := activate_topped ctx hfr.wf hfr.wb_length hfr.len_le hno
  have hrun := activate_runs ctx hfr.wf hfr.wb_length hfr.len_le hno hfr.pos_le hgo
  generalize activate ctx = a at htop hrun
  have hfra := framing_topped hfr htop
  have hsa := topped_settled htop
  have hsl := stream_length ctx (by
    rw [hwl]; unfold TINY_NMEA_WORKING_BUF_LEN
    unfold TINY_NMEA_MAX_SENTENCE_LEN at hl82; omega)
  have hal := htop.len
  have harl := htop.ring_len
  have hawl := htop.wb_length
  have hstra : stream a = W := htop.stream_eq.trans hstr
  rw [hstr] at hsl
  unfold TINY_NMEA_MAX_SENTENCE_LEN at hal hl82 hTl
  unfold TINY_NMEA_WORKING_BUF_LEN at hwl
  have hWpos : 0 < W.length := List.length_pos.2 hW
  have hlen := congrArg List.length hsplit
  simp only [List.length_append] at hlen
  have hget : ∀ i, i < a.working_buf_len →
      a.working_buf.getD i 0 = (T ++ sentence_bytes Ss).getD i 0 := by
    intro i hi
    rw [stream_getD a i hi (by omega), hstra, ← hsplit, getD_append_left' _ _ _ (by omega)]
  have hta : tally sp ce a := tally_same ht htop.parse_cb htop.stats
  obtain ⟨s1, s2⟩ := append_split W R _ hsplit
  by_cases hle : a.working_buf_len ≤ e
  · obtain ⟨c, h1, h2, h3⟩ := (loop_framing a T d e ck tk ty v g rec hf hfra hsa hv).1 hle
    have har := settled_ring_empty hf hsa hle
    have hWl : W.length = a.working_buf_len := by omega
    have hR : R = T.drop a.working_buf_len ++ sentence_bytes Ss := by
      rw [s2, hWl, List.drop_append_of_le_length (by omega)]
    refine ⟨c, (T, g) :: Ss, sp, ce, 6, by omega, halts_mono (runs_to_halts hrun h1) (by omega),
      ⟨by rw [h3.ringbuf]; exact har,
        Or.inr ⟨T, g, Ss, d, e, ck, tk, ty, v, rec, rfl, hf, hv, h2, ?_, ?_, ?_⟩⟩,
      tally_same hta h3.parse_cb h3.stats, ?_, ⟨hsok, hlast, hok⟩, le_refl _, rfl, rfl⟩
    · rw [h3.working_buf_len]; omega
    · rw [h3.working_buf_len]; exact hle
    · rw [h3.working_buf_len]; exact hR
    · rw [h3.ringbuf]; exact htop.size
  · have hlt : e < a.working_buf_len := by omega
    obtain ⟨c, j, hj, hr2, hfin, hw⟩ :=
      (loop_framing a T d e ck tk ty v g rec hf hfra hsa hv).2 hlt
    obtain ⟨f1, f2, f3, f4, f5⟩ := finished_fields hfin
    cases g with
    | true =>
      unfold finished at hfin
      simp only [if_true] at hfin
      obtain ⟨k, hk⟩ := hfin
      have hkl := hk.k_le
      have hkg := hk.k_gt
      have hkT : k ≤ T.length := by
        by_cases hWT : W.length ≤ T.length
        · omega
        · by_contra hc
          have hne : Ss ≠ [] := by
            intro h
            rw [h, sentence_bytes_nil] at hlen
            simp at hlen
            omega
          obtain ⟨_, hst⟩ := sentence_bytes_start Ss hok hne
          have h1 := hk.skipped T.length (by omega) (by omega)
          rw [hget T.length (by omega), getD_append_right' _ _ _ (le_refl _),
            Nat.sub_self] at h1
          rcases hst with q | q <;> rw [q] at h1 <;> omega
      have hfc : fresh c := by
        refine ⟨f1 ▸ htop.wf, f2.trans (hawl.trans hfr.wb_length), ?_, hw, Or.inl ⟨f4, f3⟩⟩
        rw [hk.len]
        unfold TINY_NMEA_MAX_SENTENCE_LEN
        omega
      have hstrc : stream c = W.drop k := by
        rw [completed_stream hk (by omega), hstra]
      have hsplit' : W.drop k ++ R = T.drop k ++ sentence_bytes Ss := by
        rw [← List.drop_append_of_le_length (by omega : k ≤ W.length), hsplit,
          List.drop_append_of_le_length hkT]
      have hJ : line_ending_bytes (T.drop k) := by
        intro i hi
        rw [List.length_drop] at hi
        rw [getD_drop']
        exact hf.term (k + i) (by omega) (by omega)
      obtain ⟨c', Ss', sp', ce', n, hn, g1, g2, g3, g4, g5, g6, g7, g8⟩ :=
        hA c (T.drop k) (W.drop k) R (sp + 1) ce hfc f4 hstrc hsplit' hJ
          (by rw [List.length_drop]; omega) (tally_good hta f5)
      refine ⟨c', Ss', sp', ce', n + j, by omega,
        halts_mono (runs_to_halts hrun (runs_to_halts hr2 g1)) (by omega), g2, g3, ?_, g5, ?_,
        ?_, ?_⟩
      · rw [g4, f1]; exact htop.size
      · rw [List.length_cons]; omega
      · rw [g7, good_count_cons]
        simp only [if_true]
        omega
      · rw [g8, bad_count_cons]
        simp only [if_true]
        omega
    | false =>
      have hSs : Ss = [] := by
        by_contra h
        exact Bool.false_ne_true (hlast h)
      subst hSs
      simp only [sentence_bytes_nil, List.append_nil, List.length_nil, Nat.add_zero]
        at hsplit hlen s1 s2
      unfold finished at hfin
      simp only [Bool.false_eq_true, if_false] at hfin
      have hWl : W.length = a.working_buf_len := by omega
      have har : ringbuf_len a.ringbuf = 0 := by omega
      have hcs : at_start c :=
        ⟨f1 ▸ htop.wf, f2.trans (hawl.trans hfr.wb_length), hfin.len, f3, f4, hw⟩
      have hcr : ringbuf_len c.ringbuf = 0 := by rw [f1]; exact har
      have hJ : line_ending_bytes R := by
        intro i hi
        rw [s2] at hi ⊢
        rw [List.length_drop] at hi
        rw [getD_drop']
        exact hf.term (W.length + i) (by omega) (by omega)
      refine ⟨c, [], sp, ce + 1, 1 + j, by omega,
        halts_mono (runs_to_halts hrun (runs_to_halts hr2
          (halts_idle c hcs.wf (by rw [hcs.len]; omega) hcr))) (by omega),
        ⟨hcr, Or.inl ⟨hcs, R, by rw [sentence_bytes_nil, List.append_nil], hJ, ?_⟩⟩,
        tally_bad hta f5, ?_, trivial, Nat.zero_le _, ?_, ?_⟩
      · rw [s2, List.length_drop]; omega
      · rw [f1]; exact htop.size
      · rw [good_count_cons]
        simp
      · rw [bad_count_cons]
        simp [bad_count]

/-- The loop of `tiny_nmea_work` from a framer between sentences: line-ending
bytes are dropped and the sentences are finished one after the other as far as
the bytes go. -/
theorem drain_fresh : ∀ (Ss : List (List Nat × Bool)), sentences_ok Ss → drain_spec Ss := by
  intro Ss
  induction Ss with
  | nil =>
    intro _ ctx J W R sp ce hfr hst hstr hsplit hJ hJ82 ht
    rw [sentence_bytes_nil, List.append_nil] at hsplit
    obtain ⟨s1, s2⟩ := append_split W R _ hsplit
    have hlen := congrArg List.length hsplit
    simp only [List.length_append] at hlen
    have hwl := hfr.wb_length
    have hl82 := hfr.len_le
    unfold TINY_NMEA_WORKING_BUF_LEN at hwl
    unfold TINY_NMEA_MAX_SENTENCE_LEN at hl82
    obtain ⟨c, j, h1, h2, h3, h4, h5, h6⟩ := skip_garbage W.length ctx W [] (le_refl _) hfr hst
      (by rw [List.append_nil]; exact hstr)
      (by
        intro i hi
        have := hJ i (by omega)
        rw [← hsplit, getD_append_left' _ _ _ hi] at this
        omega)
      (Or.inl rfl)
    have hwl' := h4.wb_length
    have hl82' := h4.len_le
    unfold TINY_NMEA_WORKING_BUF_LEN at hwl'
    unfold TINY_NMEA_MAX_SENTENCE_LEN at hl82'
    obtain ⟨z1, z2⟩ := stream_nil c h3 (by omega)
    refine ⟨c, [], sp, ce, 1 + j, by omega,
      runs_to_halts h2 (halts_idle c h4.wf (by omega) z2),
      ⟨z2, Or.inl ⟨fresh_at_start h4 z1, R, by rw [sentence_bytes_nil, List.append_nil], ?_, ?_⟩⟩,
      tally_same ht h5.parse_cb h5.stats, h6, trivial, le_refl _, rfl, rfl⟩
    · intro i hi
      have := hJ (W.length + i) (by omega)
      rw [← hsplit, getD_append_right' _ _ _ (by omega), Nat.add_sub_cancel_left] at this
      exact this
    · omega
  | cons p rest ih =>
    intro hok ctx J W R sp ce hfr hst hstr hsplit hJ hJ82 ht
    obtain ⟨T, g⟩ := p
    obtain ⟨hsok, hlast, hrest⟩ := hok
    obtain ⟨d, e, ck, tk, ty, v, rec, hf, hv⟩ := sentence_ok_verdict T g hsok
    have heT := hf.e_lt
    have hlen := congrArg List.length hsplit
    simp only [List.length_append] at hlen
    have hwl := hfr.wb_length
    have hl82 := hfr.len_le
    unfold TINY_NMEA_WORKING_BUF_LEN at hwl
    unfold TINY_NMEA_MAX_SENTENCE_LEN at hl82
    by_cases hWJ : W.length ≤ J.length
    · -- only line-ending bytes are in
      obtain ⟨c, j, h1, h2, h3, h4, h5, h6⟩ := skip_garbage W.length ctx W [] (le_refl _) hfr hst
        (by rw [List.append_nil]; exact hstr)
        (by
          intro i hi
          have := hJ i (by omega)
          rw [← getD_append_left' J (sentence_bytes ((T, g) :: rest)) i (by omega), ← hsplit,
            getD_append_left' _ _ _ hi] at this
          omega)
        (Or.inl rfl)
      have hwl' := h4.wb_length
      have hl82' := h4.len_le
      unfold TINY_NMEA_WORKING_BUF_LEN at hwl'
      unfold TINY_NMEA_MAX_SENTENCE_LEN at hl82'
      obtain ⟨z1, z2⟩ := stream_nil c h3 (by omega)
      obtain ⟨s1, s2⟩ := append_split W R _ hsplit
      refine ⟨c, (T, g) :: rest, sp, ce, 1 + j, by omega,
        runs_to_halts h2 (halts_idle c h4.wf (by omega) z2),
        ⟨z2, Or.inl ⟨fresh_at_start h4 z1, J.drop W.length, ?_, ?_, ?_⟩⟩,
        tally_same ht h5.parse_cb h5.stats, h6, ⟨hsok, hlast, hrest⟩, le_refl _, rfl, rfl⟩
      · rw [s2, List.drop_append_of_le_length hWJ]
      · intro i hi
        rw [List.length_drop] at hi
        rw [getD_drop']
        exact hJ _ (by omega)
      · rw [List.length_drop]; omega
    · -- the line-ending bytes and the beginning of the first sentence are in
      have hJW : J.length < W.length := by omega
      have hWsplit : W = J ++ W.drop J.length := by
        have e1 : W.take J.length = J := by
          have := congrArg (List.take J.length) hsplit
          rw [List.take_append_of_le_length (by omega), List.take_left'] at this
          · exact this
          · rfl
        conv_lhs => rw [← List.take_append_drop J.length W, e1]
      have hY : W.drop J.length ++ R = T ++ sentence_bytes rest := by
        have := congrArg (List.drop J.length) hsplit
        rw [List.drop_append_of_le_length (by omega), List.drop_left', sentence_bytes_cons]
          at this
        · exact this
        · rfl
      have hYlen : 0 < (W.drop J.length).length := by
        rw [List.length_drop]; omega
      have hY0 : (W.drop J.length).getD 0 0 = T.getD 0 0 := by
        rw [← getD_append_left' (W.drop J.length) R 0 hYlen, hY,
          getD_append_left' _ _ _ (by omega)]
      obtain ⟨c, j, h1, h2, h3, h4, h5, h6⟩ := skip_garbage J.length ctx J (W.drop J.length)
        (le_refl _) hfr hst (by rw [hstr]; exact hWsplit)
        (by
          intro i hi
          have := hJ i hi
          omega)
        (Or.inr (by rw [hY0]; exact hf.start))
      have hcb : c.parse_callback = true := h5.parse_cb.trans ht.cb
      have hfrc : framing T d e ck tk ty c := by
        apply framing_fresh T d e ck tk ty c h4 hcb
        intro i hi hiT
        rw [h3] at hi ⊢
        rw [← getD_append_left' (W.drop J.length) R i hi, hY, getD_append_left' _ _ _ hiT]
      obtain ⟨c', Ss', sp', ce', n, hn, g1, g2, g3, g4, g5, g6, g7, g8⟩ :=
        drain_sentence T g rest d e ck tk ty v rec hf hv hsok hlast hrest (ih hrest) c
          (W.drop J.length) R sp ce hfrc (Or.inr h4.waiting) h3
          (List.length_pos.1 hYlen) hY (tally_same ht h5.parse_cb h5.stats)
      refine ⟨c', Ss', sp', ce', n + j, ?_, runs_to_halts h2 g1, g2, g3, g4.trans h6, g5, g6,
        g7, g8⟩
      rw [List.length_cons]
      omega

theorem sentences_ok_of (Ss : List (List Nat × Bool))
    (h1 : ∀ p, p ∈ Ss → if p.2 then well_formed p.1 else wrong_checksum p.1)
    (h2 : ∀ p, p ∈ Ss.dropLast → p.2 = true) : sentences_ok Ss := by
  induction Ss with
  | nil => trivial
  | cons p rest ih =>
    refine ⟨h1 p (List.mem_cons_self _ _), ?_, ih (fun q hq => h1 q (List.mem_cons_of_mem _ hq)) ?_⟩
    · intro hne
      cases rest with
      | nil => exact absurd rfl hne
      | cons q r =>
        apply h2
        rw [List.dropLast_cons₂]
        exact List.mem_cons_self _ _
    · intro q hq
      cases rest with
      | nil => simp at hq
      | cons q' r =>
        apply h2
        rw [List.dropLast_cons₂]
        exact List.mem_cons_of_mem _ hq

theorem good_count_append (A B : List (List Nat × Bool)) :
    good_count (A ++ B) = good_count A + good_count B := by
  unfold good_count
  rw [List.filter_append, List.length_append]

theorem bad_count_append (A B : List (List Nat × Bool)) :
    bad_count (A ++ B) = bad_count A + bad_count B := by
  unfold bad_count
  rw [List.filter_append, List.length_append]

/-- The rest of the chunks of a group of sentences, each fed and followed by
`tiny_nmea_work`: every sentence of the group is counted. -/
theorem group_chunks (fuel : Nat) : ∀ (chunks : List (List Nat)) (ctx : tiny_nmea_ctx_t)
    (Ss : List (List Nat × Bool)) (R : List Nat) (sp ce : Nat),
    drained Ss R ctx → sentences_ok Ss → tally sp ce ctx → 6 * Ss.length + 7 ≤ fuel →
    chunks.flatten = R → (∀ c, c ∈ chunks → c ≠ [] ∧ c.length < ctx.ringbuf.size) →
    ∃ c', feed_work_chunks fuel ctx chunks = some c' ∧ at_start c' ∧
      ringbuf_len c'.ringbuf = 0 ∧ tally (sp + good_count Ss) (ce + bad_count Ss) c' ∧
      c'.ringbuf.size = ctx.ringbuf.size := by
  intro chunks
  induction chunks with
  | nil =>
    intro ctx Ss R sp ce hdr hok ht _ hR _
    rw [List.flatten_nil] at hR
    subst hR
    obtain ⟨hring, hcase⟩ := hdr
    rcases hcase with ⟨hs, J, hJ, _, _⟩ | ⟨T, g, Ss', d, e, ck, tk, ty, v, rec, _, hf, _, _, _, hle, hT⟩
    · have hSs : Ss = [] := by
        by_contra hne
        obtain ⟨hpos, _⟩ := sentence_bytes_start Ss hok hne
        have := congrArg List.length hJ
        simp only [List.length_nil, List.length_append] at this
        omega
      subst hSs
      exact ⟨ctx, rfl, hs, hring, ht, rfl⟩
    · have := congrArg List.length hT
      simp only [List.length_nil, List.length_append, List.length_drop] at this
      have := hf.e_lt
      omega
  | cons c rest ih =>
    intro ctx Ss R sp ce hdr hok ht hfuel hR hch
    rw [List.flatten_cons] at hR
    obtain ⟨hcne, hcsz⟩ := hch c (List.mem_cons_self _ _)
    have hc0 : 0 < c.length := List.length_pos.2 hcne
    obtain ⟨hring, hcase⟩ := hdr
    have step : drain_result Ss (6 * Ss.length + 7) (tiny_nmea_feed ctx c).2 rest.flatten sp ce ∧
        (tiny_nmea_feed ctx c).2.ringbuf.size = ctx.ringbuf.size := by
      rcases hcase with ⟨hs, J, hJ, hJl, hJ82⟩ | ⟨T, g, Ss', d, e, ck, tk, ty, v, rec, hSs, hf, hv, hfr, hpos, hle, hT⟩
      · have hfree := len_add_free ctx.ringbuf hs.wf
        have hfit : c.length ≤ ringbuf_free ctx.ringbuf := by omega
        rw [feed_fits ctx c hs.wf hfit]
        have hstr : stream { ctx with ringbuf := ringbuf_write ctx.ringbuf c } = c := by
          rw [stream_feed ctx c hs.wf hfit]
          unfold stream
          rw [hs.len, contents_nil_of_len _ hring]
          simp
        have hfr : fresh { ctx with ringbuf := ringbuf_write ctx.ringbuf c } :=
          ⟨write_wf _ _ hs.wf hfit, hs.wb_length,
            by show ctx.working_buf_len ≤ _; rw [hs.len]; exact Nat.zero_le _,
            hs.waiting, Or.inl ⟨hs.state, hs.pos⟩⟩
        obtain ⟨c', Ss', sp', ce', n, hn, g⟩ := drain_fresh Ss hok _ J c rest.flatten sp ce hfr
          hs.state hstr (by rw [hR, hJ]) hJl hJ82 ⟨ht.cb, ht.stats⟩
        exact ⟨⟨c', Ss', sp', ce', n, by omega, g⟩, write_size _ _⟩
      · subst hSs
        have heT := hf.e_lt
        have hTl := hf.len_le
        have hwl := hfr.wb_length
        have hl82 := hfr.len_le
        unfold TINY_NMEA_MAX_SENTENCE_LEN at hTl hl82
        unfold TINY_NMEA_WORKING_BUF_LEN at hwl
        have hfree := len_add_free ctx.ringbuf hfr.wf
        have hfit : c.length ≤ ringbuf_free ctx.ringbuf := by omega
        rw [feed_fits ctx c hfr.wf hfit]
        have hsl := stream_length ctx (by omega)
        rw [hring, Nat.add_zero] at hsl
        have hstr0 : stream ctx = T.take ctx.working_buf_len := by
          apply list_ext_getD
          · rw [hsl, List.length_take]; omega
          · intro i hi
            rw [hsl] at hi
            rw [getD_take' _ _ _ hi]
            exact hfr.agrees i (by omega) (by omega)
        have hstr : stream { ctx with ringbuf := ringbuf_write ctx.ringbuf c } =
            T.take ctx.working_buf_len ++ c := by
          rw [stream_feed ctx c hfr.wf hfit, hstr0]
        have hsplit : (T.take ctx.working_buf_len ++ c) ++ rest.flatten =
            T ++ sentence_bytes Ss' := by
          rw [List.append_assoc, hR, hT, ← List.append_assoc, List.take_append_drop]
        have hfr1 : framing T d e ck tk ty { ctx with ringbuf := ringbuf_write ctx.ringbuf c } := by
          refine ⟨write_wf _ _ hfr.wf hfit, hfr.wb_length, hfr.len_le, hfr.pos_le, ?_, hfr.cb,
            hfr.stage⟩
          intro i hi hiT
          rw [hstr] at hi ⊢
          rw [← getD_append_left' _ rest.flatten i hi, hsplit, getD_append_left' _ _ _ hiT]
        have hwlen : ringbuf_len (ringbuf_write ctx.ringbuf c) = c.length := by
          rw [write_len _ _ hfr.wf hfit, hring, Nat.zero_add]
        obtain ⟨c', Ss'', sp', ce', n, hn, g⟩ := drain_sentence T g Ss' d e ck tk ty v rec hf hv
          hok.1 hok.2.1 hok.2.2
          (drain_fresh Ss' hok.2.2) _ _ rest.flatten sp ce hfr1
          (Or.inl ⟨by
            show ctx.working_buf_len < TINY_NMEA_MAX_SENTENCE_LEN
            unfold TINY_NMEA_MAX_SENTENCE_LEN; omega, by
            show 0 < ringbuf_len (ringbuf_write ctx.ringbuf c)
            omega⟩)
          hstr (by
            intro h
            have := congrArg List.length h
            simp only [List.length_append, List.length_nil] at this
            omega)
          hsplit ⟨ht.cb, ht.stats⟩
        exact ⟨⟨c', Ss'', sp', ce', n, by rw [List.length_cons]; omega, g⟩, write_size _ _⟩
    obtain ⟨⟨c1, Ss1, sp1, ce1, n, hn, g1, g2, g3, g4, g5, g6, g7, g8⟩, hfsz⟩ := step
    have hsz1 : c1.ringbuf.size = ctx.ringbuf.size := g4.trans hfsz
    rw [feed_work_cons fuel ctx c1 c rest n g1 (by omega)]
    obtain ⟨c', k1, k2, k3, k4, k5⟩ := ih c1 Ss1 rest.flatten sp1 ce1 g2 g5 g3 (by omega) rfl
      (by
        intro x hx
        rw [hsz1]
        exact hch x (List.mem_cons_of_mem _ hx))
    refine ⟨c', k1, k2, k3, ?_, k5.trans hsz1⟩
    rw [← g7, ← g8]
    exact k4

theorem sample_rmc_bad_cr_frame : sentence_frame sample_rmc_bad_cr 65 68 true 1 1 255 :=
  ⟨⟨by decide, by decide, by decide, by decide, by decide, by decide, by decide, by decide,
    by decide, by decide, by decide, by decide, by decide⟩, by decide⟩

theorem sample_rmc_bad_cr_corrupted : corrupted sample_rmc_bad_cr 65 true 255 :=
  ⟨rfl, by decide⟩

/-- Groups of sentences fed one group after the other, each group in chunks of
its own with `tiny_nmea_work` after every chunk: every sentence is counted. -/
theorem groups_run (fuel : Nat) :
    ∀ (groups : List (List (List Nat) × List Nat × List (List Nat × Bool)))
      (ctx : tiny_nmea_ctx_t) (sp ce : Nat),
    at_start ctx → ringbuf_len ctx.ringbuf = 0 → tally sp ce ctx →
    (∀ g, g ∈ groups →
      (∀ c, c ∈ g.1 → c ≠ [] ∧ c.length < ctx.ringbuf.size) ∧
      g.1.flatten = g.2.1 ++ (g.2.2.map Prod.fst).flatten ∧
      (∀ b, b ∈ g.2.1 → b = 13 ∨ b = 10) ∧ g.2.1.length ≤ 82 ∧
      (∀ p, p ∈ g.2.2 → if p.2 then well_formed p.1 else wrong_checksum p.1) ∧
      (∀ p, p ∈ g.2.2.dropLast → p.2 = true) ∧
      6 * g.2.2.length + 7 ≤ fuel) →
    ∃ ctx', feed_work_chunks fuel ctx (groups.map Prod.fst).flatten = some ctx' ∧
      tally (sp + good_count (groups.map fun g => g.2.2).flatten)
        (ce + bad_count (groups.map fun g => g.2.2).flatten) ctx' := by
  intro groups
  induction groups with
  | nil =>
    intro ctx sp ce _ _ ht _
    exact ⟨ctx, rfl, ht⟩
  | cons g rest ih =>
    intro ctx sp ce hs hring ht hg
    obtain ⟨h1, h2, hJ, hJ82, h3, h4, h5⟩ := hg g (List.mem_cons_self _ _)
    have hok := sentences_ok_of g.2.2 h3 h4
    have hJ' : line_ending_bytes g.2.1 := by
      intro i hi
      apply hJ
      rw [List.getD_eq_getElem _ _ hi]
      exact List.getElem_mem hi
    obtain ⟨c1, k1, k2, k3, k4, k5⟩ := group_chunks fuel g.1 ctx g.2.2 g.1.flatten sp ce
      ⟨hring, Or.inl ⟨hs, g.2.1, by rw [h2]; rfl, hJ', hJ82⟩⟩ hok ht h5 rfl h1
    obtain ⟨c2, g1, g2⟩ := ih c1 (sp + good_count g.2.2) (ce + bad_count g.2.2) k2 k3 k4
      (by
        intro x hx
        have := hg x (List.mem_cons_of_mem _ hx)
        rw [k5]
        exact this)
    refine ⟨c2, ?_, ?_⟩
    · rw [List.map_cons, List.flatten_cons, feed_work_append fuel g.1 _ ctx c1 k1]
      exact g1
    · rw [List.map_cons, List.flatten_cons, good_count_append, bad_count_append,
        ← Nat.add_assoc, ← Nat.add_assoc]
      exact g2

/-! ## Framing: main theorems -/

/-- C1. Chunking is irrelevant: for a sentence `T` with the shape of a
sentence (start character, recognised talker and type, comma, body, optional
'*HH', line terminator), at most `TINY_NMEA_MAX_SENTENCE_LEN` bytes long, with
a right checksum and a body its decoder accepts with record `rec`, and for
every split of `T` into non-empty `chunks`: from a freshly initialised context
whose ring buffer is larger than `T`, `tiny_nmea_feed` of each chunk followed by
`tiny_nmea_work` returns, and the callbacks made are exactly one parse
callback, with the record `rec`; feeding `T` as a single chunk makes the same
callbacks. -/
theorem chunking_irrelevant (T : List Nat) (d e : Nat) (ck : Bool) (tk ty v : Nat)
    (rec : tiny_nmea_type_t) (mem : tiny_nmea_ctx_t) (buffer : List Nat) (ecb : Bool)
    (chunks : List (List Nat)) (fuel : Nat)
    (hf : sentence_frame T d e ck tk ty v) (hacc : accepted T d ck tk ty v rec)
    (hcap : T.length < buffer.length) (hne : ∀ c, c ∈ chunks → c ≠ [])
    (hsplit : chunks.flatten = T) (hfuel : 6 ≤ fuel) :
    ∃ ctx one,
      feed_work_chunks fuel (tiny_nmea_init_callbacks mem buffer buffer.length true ecb)
        chunks = some ctx ∧
      feed_work_chunks fuel (tiny_nmea_init_callbacks mem buffer buffer.length true ecb)
        [T] = some one ∧
      ctx.calls = [tiny_nmea_callback_event.parse rec
        { sentences_parsed := 1, checksum_errors := 0, parse_errors := 0,
          buffer_overflows := 0 }] ∧
      one.calls = ctx.calls := by
  have hv : verdict true T d ck tk ty v rec := by
    unfold verdict
    simpa using hacc
  have hTne : T ≠ [] := by
    intro h
    have := hf.e_lt
    rw [h] at this
    simp at this
  obtain ⟨ctx, h1, h2⟩ := init_chunks fuel hfuel mem buffer ecb T d e ck tk ty v true rec chunks
    hf hv hcap hne hsplit
  obtain ⟨one, h3, h4⟩ := init_chunks fuel hfuel mem buffer ecb T d e ck tk ty v true rec [T]
    hf hv hcap (by
      intro c hc
      rw [List.mem_singleton] at hc
      rw [hc]
      exact hTne) (by simp)
  have g1 := (init_user_done_good mem buffer buffer.length ecb rec ctx h2).1
  have g2 := (init_user_done_good mem buffer buffer.length ecb rec one h4).1
  exact ⟨ctx, one, h1, h3, g1, g2.trans g1.symm⟩

theorem chunking_irrelevant_witness :
    sentence_frame sample_gga 62 65 true 1 2 71 ∧
    accepted sample_gga 62 true 1 2 71 sample_gga_record ∧
    ∃ ctx one,
      feed_work_chunks 6
        (tiny_nmea_init_callbacks ctx_zero (List.replicate 512 0) (List.replicate 512 0).length
          true true)
        [bytes "$GPG", bytes "GA,123519,4807.038,N,01131.000,E,1,08,0.9,545.4,M,46.9,M,,*4",
          bytes "7\r", bytes "\n"] = some ctx ∧
      feed_work_chunks 6
        (tiny_nmea_init_callbacks ctx_zero (List.replicate 512 0) (List.replicate 512 0).length
          true true)
        [sample_gga] = some one ∧
      ctx.calls = [tiny_nmea_callback_event.parse sample_gga_record
        { sentences_parsed := 1, checksum_errors := 0, parse_errors := 0,
          buffer_overflows := 0 }] ∧
      one.calls = ctx.calls :=
  ⟨sample_gga_frame, sample_gga_accepted,
    chunking_irrelevant sample_gga 62 65 true 1 2 71 sample_gga_record ctx_zero
      (List.replicate 512 0) true
      [bytes "$GPG", bytes "GA,123519,4807.038,N,01131.000,E,1,08,0.9,545.4,M,46.9,M,,*4",
        bytes "7\r", bytes "\n"] 6
      sample_gga_frame sample_gga_accepted (by decide) (by decide) (by decide) (by decide)⟩

/-- C2, counterexample. The 95 byte sentence `sample_rmc_long` has a recognised
header, a body that the RMC decoder accepts, and '*4B' with 4B the XOR of the
bytes between '$' and '*', yet on a fresh parser no callback fires:
`tiny_nmea_work` counts a buffer overflow and drops it. -/
theorem checksum_decides_counterexample :
    sentence_shape sample_rmc_long 90 93 true 1 1 75 ∧
    accepted sample_rmc_long 90 true 1 1 75 sample_rmc_long_record ∧
    nmea_checksum_helper (slice sample_rmc_long 1 89) = 75 ∧
    (tiny_nmea_work 20 (tiny_nmea_feed sample_context sample_rmc_long).2).map
        (fun c => (c.calls, c.stats)) =
      some ([], { sentences_parsed := 0, checksum_errors := 0, parse_errors := 0,
                  buffer_overflows := 1 }) :=
  ⟨sample_rmc_long_shape, sample_rmc_long_accepted, by decide, by decide⟩

/-- C2, amended. For a sentence `T` with a recognised header, a body its
decoder accepts, '*' with two hex digits of value `v` and a line terminator,
that is at most `TINY_NMEA_MAX_SENTENCE_LEN` bytes long, fed in one piece to a
fresh parser whose ring buffer is larger than `T`: `tiny_nmea_work` returns;
when the XOR of the bytes between the start character and '*' equals `v` the
parse callback fires once (and nothing else), and when it differs no callback
fires, `checksum_errors` is one and the other counters are zero. -/
theorem checksum_decides (T : List Nat) (d e : Nat) (tk ty v : Nat)
    (rec : tiny_nmea_type_t) (mem : tiny_nmea_ctx_t) (buffer : List Nat) (ecb : Bool)
    (fuel : Nat)
    (hf : sentence_frame T d e true tk ty v)
    (hdec : tiny_nmea_parse (T.take d ++ [0])
      { type := ty, talker := tk, data := tiny_nmea_data_t.zero } = some (TINY_NMEA_OK, rec))
    (hcap : T.length < buffer.length) (hfuel : 6 ≤ fuel) :
    ∃ ctx,
      tiny_nmea_work fuel
        (tiny_nmea_feed (tiny_nmea_init_callbacks mem buffer buffer.length true ecb) T).2 =
        some ctx ∧
      (nmea_checksum_helper (slice T 1 (d - 1)) = v →
        ctx.calls = [tiny_nmea_callback_event.parse rec
          { sentences_parsed := 1, checksum_errors := 0, parse_errors := 0,
            buffer_overflows := 0 }] ∧
        ctx.stats = { sentences_parsed := 1, checksum_errors := 0, parse_errors := 0,
                      buffer_overflows := 0 }) ∧
      (nmea_checksum_helper (slice T 1 (d - 1)) ≠ v →
        ctx.calls = [] ∧
        ctx.stats = { sentences_parsed := 0, checksum_errors := 1, parse_errors := 0,
                      buffer_overflows := 0 }) := by
  have hTne : T ≠ [] := by
    intro h
    have := hf.e_lt
    rw [h] at this
    simp at this
  have hne : ∀ c, c ∈ [T] → c ≠ [] := by
    intro c hc
    rw [List.mem_singleton] at hc
    rw [hc]
    exact hTne
  by_cases hx : nmea_checksum_helper (slice T 1 (d - 1)) = v
  · have hv : verdict true T d true tk ty v rec := by
      unfold verdict accepted
      simp only [if_true]
      exact ⟨fun _ => hx, hdec⟩
    obtain ⟨ctx, h1, h2⟩ := init_chunks fuel hfuel mem buffer ecb T d e true tk ty v true rec
      [T] hf hv hcap hne (by simp)
    have g := init_user_done_good mem buffer buffer.length ecb rec ctx h2
    exact ⟨ctx, feed_work_single fuel _ ctx T h1, fun _ => ⟨g.1, g.2.1⟩,
      fun hc => absurd hx hc⟩
  · have hv : verdict false T d true tk ty v rec := by
      unfold verdict corrupted
      simp only [Bool.false_eq_true, if_false]
      exact ⟨trivial, hx⟩
    obtain ⟨ctx, h1, h2⟩ := init_chunks fuel hfuel mem buffer ecb T d e true tk ty v false rec
      [T] hf hv hcap hne (by simp)
    have g := init_user_done_bad mem buffer buffer.length ecb rec ctx h2
    exact ⟨ctx, feed_work_single fuel _ ctx T h1, fun hc => absurd hc hx, fun _ => g⟩

theorem checksum_decides_witness :
    sentence_frame sample_rmc_bad 65 68 true 1 1 255 ∧
    nmea_checksum_helper (slice sample_rmc_bad 1 (65 - 1)) ≠ 255 ∧
    ∃ ctx,
      tiny_nmea_work 6
        (tiny_nmea_feed (tiny_nmea_init_callbacks ctx_zero (List.replicate 512 0)
          (List.replicate 512 0).length true true) sample_rmc_bad).2 = some ctx ∧
      ctx.calls = [] ∧
      ctx.stats = { sentences_parsed := 0, checksum_errors := 1, parse_errors := 0,
                    buffer_overflows := 0 } :=
  ⟨sample_rmc_bad_frame, by decide,
    (checksum_decides sample_rmc_bad 65 68 1 1 255 sample_rmc_record
      ctx_zero (List.replicate 512 0) true 6 sample_rmc_bad_frame (by decide) (by decide)
      (by decide)).imp fun _ h => ⟨h.1, h.2.2 (by decide)⟩⟩

/-- C3, counterexample. A stream of one sentence with a wrong checksum followed
by one well-formed sentence (K = 1, E = 1), fed in one piece to a fresh parser
and drained: `sentences_parsed` is 0, not 1 (the checksum mismatch drops the
whole scratch buffer, the following sentence with it). -/
theorem statistics_counterexample :
    wrong_checksum sample_rmc_bad ∧ well_formed sample_gsa ∧
    (tiny_nmea_work 20 (tiny_nmea_feed sample_context (sample_rmc_bad ++ sample_gsa)).2).map
        (fun c => c.stats) =
      some { sentences_parsed := 0, checksum_errors := 1, parse_errors := 0,
             buffer_overflows := 0 } :=
  ⟨⟨65, 68, 1, 1, 255, sample_rmc_bad_frame, sample_rmc_bad_corrupted⟩,
    ⟨44, 47, true, 1, 4, 57, sample_gsa_record, sample_gsa_frame, sample_gsa_accepted⟩,
    by decide⟩

/-- C4, counterexample. With the garbage `$GPRMC,` between the valid sentences
`sample_gga` and `sample_gsa`, fed in one piece to a fresh parser and drained,
only one parse callback fires, the one for the first sentence: the garbage and
the second sentence are framed together and dropped as a checksum error. -/
theorem garbage_between_counterexample :
    well_formed sample_gga ∧ well_formed sample_gsa ∧
    (tiny_nmea_work 20
        (tiny_nmea_feed sample_context (sample_gga ++ bytes "$GPRMC," ++ sample_gsa)).2).map
        (fun c => (c.calls, c.stats)) =
      some ([tiny_nmea_callback_event.parse sample_gga_record
              { sentences_parsed := 1, checksum_errors := 0, parse_errors := 0,
                buffer_overflows := 0 }],
            { sentences_parsed := 1, checksum_errors := 1, parse_errors := 0,
              buffer_overflows := 0 }) :=
  ⟨⟨62, 65, true, 1, 2, 71, sample_gga_record, sample_gga_frame, sample_gga_accepted⟩,
    ⟨44, 47, true, 1, 4, 57, sample_gsa_record, sample_gsa_frame, sample_gsa_accepted⟩,
    by decide⟩

/-! ## Tokenizer, field decoders and sentence decoders: main theorems -/

/-- C11. Tokenizer: on a non-empty input of at most 255 bytes with `c` commas,
`tokenize` returns `min(max_fields, c + 1)` fields; they are the first
comma-delimited segments of the input (each field being the bytes that its
`ptr` and `len` address), none contains a comma, and when `c + 1 ≤ max_fields`
joining them with ',' gives the input back, a trailing comma giving a last empty
field. On a zero-length input no field is returned. -/
theorem tokenize_segments (s : List Nat) (max_fields : Nat) (hs : s ≠ [])
    (hl : s.length ≤ 255) :
    (tokenize s max_fields).length = min max_fields (s.count 44 + 1) ∧
    tokenize s max_fields = (s.splitOn 44).take max_fields ∧
    (∀ f, f ∈ tokenize s max_fields → 44 ∉ f) ∧
    (s.count 44 + 1 ≤ max_fields →
      [44].intercalate (tokenize s max_fields) = s ∧
      (s.getLast? = some 44 → (tokenize s max_fields).getLast? = some [])) ∧
    tokenize [] max_fields = [] := by
  obtain ⟨b1, b2, b3⟩ := splitOn_comma_facts s.length s (le_refl _)
  have hlen : ¬ s.length = 0 := fun h => hs (List.eq_nil_of_length_eq_zero h)
  have ht : tokenize s max_fields = (s.splitOn 44).take max_fields := by
    unfold tokenize
    rw [if_neg hlen]
    exact tokenize_loop_eq max_fields s hl
  rw [ht]
  refine ⟨?_, rfl, ?_, ?_, rfl⟩
  · rw [List.length_take, b1]
  · intro f hf
    exact b2 f (List.mem_of_mem_take hf)
  · intro hc
    rw [List.take_of_length_le (by omega)]
    exact ⟨List.intercalate_splitOn s 44, b3⟩

theorem tokenize_segments_witness :
    bytes "GPRMC,123519,,A," ≠ [] ∧ (bytes "GPRMC,123519,,A,").length ≤ 255 ∧
    tokenize (bytes "GPRMC,123519,,A,") 13 =
      [bytes "GPRMC", bytes "123519", [], bytes "A", []] ∧
    (tokenize (bytes "GPRMC,123519,,A,") 3).length = 3 :=
  have h := tokenize_segments (bytes "GPRMC,123519,,A,") 3 (by decide) (by decide)
  ⟨by decide, by decide,
    (tokenize_segments (bytes "GPRMC,123519,,A,") 13 (by decide) (by decide)).2.1.trans
      (by decide),
    h.1.trans (by decide)⟩

/-- C12. The function `parse_uint` succeeds with output `v` exactly when the
field is non-empty, every byte is an ASCII digit, the decimal value of the digit
string (leading zeros allowed) is at most 4294967295 and `v` is that value. -/
theorem parse_uint_exact (f : List Nat) (hb : ∀ c, c ∈ f → c < 256) (v : Nat) :
    parse_uint f = some v ↔
      (f ≠ [] ∧ (∀ c, c ∈ f → is_ascii_digit c) ∧ decimal_value f ≤ 4294967295 ∧
        v = decimal_value f) :=
  parse_uint_spec f hb v

theorem parse_uint_exact_witness :
    (∀ c, c ∈ bytes "4294967295" → c < 256) ∧
    parse_uint (bytes "4294967295") = some 4294967295 ∧
    parse_uint (bytes "4294967296") ≠ some 4294967296 :=
  ⟨by decide,
   (parse_uint_exact (bytes "4294967295") (by decide) 4294967295).2
     ⟨by decide, by decide, by decide, by decide⟩,
   fun h => absurd ((parse_uint_exact (bytes "4294967296") (by decide) 4294967296).1 h).2.2.1
     (by decide)⟩

/-- C13. The function `parse_int` succeeds with output `z` exactly when the
field is an optional single '+' or '-' followed by one or more ASCII digits,
`z` is the signed value of that numeral and `-2147483648 ≤ z ≤ 2147483647`. -/
theorem parse_int_exact (f : List Nat) (hb : ∀ c, c ∈ f → c < 256) (z : Int) :
    parse_int f = some z ↔
      ∃ sign ds, f = sign ++ ds ∧ (sign = [] ∨ sign = [43] ∨ sign = [45]) ∧ ds ≠ [] ∧
        (∀ c, c ∈ ds → is_ascii_digit c) ∧
        z = (if sign = [45] then -(decimal_value ds : Int) else (decimal_value ds : Int)) ∧
        -2147483648 ≤ z ∧ z ≤ 2147483647 :=
  parse_int_spec f hb z

theorem parse_int_exact_witness :
    (∀ c, c ∈ bytes "-2147483648" → c < 256) ∧
    parse_int (bytes "-2147483648") = some (-2147483648) :=
  ⟨by decide,
   (parse_int_exact (bytes "-2147483648") (by decide) (-2147483648)).2
     ⟨[45], bytes "2147483648", by decide, by decide, by decide, by decide, by decide,
       by decide, by decide⟩⟩

/-- C14. Fixed-point round trip. On an optional sign, a digit string `I`, a
'.' and a digit string `F` of length `k ≤ 9` (`I` and `F` not both empty),
`parse_fixedpoint_float` returns true exactly when `I * 10 ^ k + F` is at most
`INT32_MAX`, with scale `10 ^ k` and value `±(I * 10 ^ k + F)`; and parsing the
decimal with exactly `k` fractional digits written for `{v, 10 ^ k}`
(`k ≤ 9`, `|v| ≤ INT32_MAX`) gives back `{v, 10 ^ k}`. -/
theorem fixedpoint_round_trip (sign I F : List Nat) (v : Int) (k : Nat)
    (hs : sign = [] ∨ sign = [43] ∨ sign = [45])
    (hI : ∀ c, c ∈ I → is_ascii_digit c) (hF : ∀ c, c ∈ F → is_ascii_digit c)
    (hF9 : F.length ≤ 9) (hne : I ≠ [] ∨ F ≠ [])
    (hk : k ≤ 9) (hv : v.natAbs ≤ 2147483647) :
    parse_fixedpoint_float (sign ++ (I ++ 46 :: F)) =
      some (if decimal_value I * 10 ^ F.length + decimal_value F ≤ 2147483647 then
              (true, { value := if sign = [45]
                         then -((decimal_value I * 10 ^ F.length + decimal_value F : Nat) : Int)
                         else ((decimal_value I * 10 ^ F.length + decimal_value F : Nat) : Int),
                       scale := ((10 ^ F.length : Nat) : Int) })
            else (false, {})) ∧
    parse_fixedpoint_float (write_fixedpoint v k) =
      some (true, { value := v, scale := ((10 ^ k : Nat) : Int) }) :=
  ⟨fixedpoint_point sign I F hs hI hF hF9 hne, write_fixedpoint_parse v k hk hv⟩

theorem fixedpoint_round_trip_witness :
    parse_fixedpoint_float (bytes "3855.4487") =
      some (true, { value := 38554487, scale := 10000 }) ∧
    write_fixedpoint (-38554487) 4 = bytes "-3855.4487" ∧
    parse_fixedpoint_float (write_fixedpoint (-38554487) 4) =
      some (true, { value := -38554487, scale := 10000 }) :=
  have h := fixedpoint_round_trip [] (bytes "3855") (bytes "4487") (-38554487) 4
    (by decide) (by decide) (by decide) (by decide) (by decide) (by decide) (by decide)
  ⟨h.1.trans (by decide), by decide, h.2.trans (by decide)⟩

/-- Further values of `parse_fixedpoint_float` on decimals with a point. -/
theorem fixedpoint_point_examples :
    parse_fixedpoint_float (bytes ".5") = some (true, { value := 5, scale := 10 }) ∧
    parse_fixedpoint_float (bytes "42.") = some (true, { value := 42, scale := 1 }) ∧
    parse_fixedpoint_float (bytes "-0.25") = some (true, { value := -25, scale := 100 }) ∧
    parse_fixedpoint_float (bytes "2.147483648") = some (false, {}) := by
  decide

/-- C15. Integer-only input: on an optional sign and `n` ASCII digits
(`1 ≤ n ≤ 9`) without a '.', `parse_fixedpoint_float` returns true with value
`±D` and scale `10 ^ n`, where `D` is the value of the digits; the result is not
`{±D, 1}`. -/
theorem integer_only_scale (sign ds : List Nat) (hs : sign = [] ∨ sign = [43] ∨ sign = [45])
    (hd : ∀ c, c ∈ ds → is_ascii_digit c) (h1 : 1 ≤ ds.length) (h9 : ds.length ≤ 9) :
    parse_fixedpoint_float (sign ++ ds) =
      some (true, { value := if sign = [45] then -((decimal_value ds : Nat) : Int)
                             else ((decimal_value ds : Nat) : Int),
                    scale := ((10 ^ ds.length : Nat) : Int) }) ∧
    parse_fixedpoint_float (sign ++ ds) ≠
      some (true, { value := if sign = [45] then -((decimal_value ds : Nat) : Int)
                             else ((decimal_value ds : Nat) : Int),
                    scale := 1 }) := by
  have h := fixedpoint_digits sign ds hs hd h1 h9
  refine ⟨h, ?_⟩
  rw [h]
  intro e
  have e2 : ((10 ^ ds.length : Nat) : Int) = 1 := by
    injection e with e
    injection e with _ e
    injection e
  have : 10 ^ 1 ≤ 10 ^ ds.length := Nat.pow_le_pow_right (by omega) h1
  omega

theorem integer_only_scale_witness :
    parse_fixedpoint_float (bytes "123") = some (true, { value := 123, scale := 1000 }) ∧
    parse_fixedpoint_float (bytes "-0") = some (true, { value := 0, scale := 10 }) :=
  ⟨(integer_only_scale [] (bytes "123") (by decide) (by decide) (by decide)
      (by decide)).1.trans (by decide),
   (integer_only_scale [45] (bytes "0") (by decide) (by decide) (by decide)
      (by decide)).1.trans (by decide)⟩

/-- C16. With ten digits after the '.', the scale computed by
`parse_fixedpoint_float` wraps in 32 bits: "1.0000000000", of magnitude
`10 ^ 10`, is accepted with value and scale 1410065408, and "0.0000000001"
is accepted with scale 1410065408; with 32 digits after the '.' the scale is 0
and the division by it is undefined. -/
theorem fixedpoint_scale_wraps :
    parse_fixedpoint_float (bytes "1.0000000000") =
      some (true, { value := 1410065408, scale := 1410065408 }) ∧
    parse_fixedpoint_float (bytes "0.0000000001") =
      some (true, { value := 1, scale := 1410065408 }) ∧
    parse_fixedpoint_float (bytes ".00000000000000000000000000000000") = none := by
  decide

/-- C17. The function `parse_time` returns true exactly when the field has at
least six bytes, the first six are ASCII digits HHMMSS and `HH ≤ 23`,
`MM ≤ 59`, `SS ≤ 60`. On success `valid` is true, hours, minutes and seconds
are HH, MM and SS, and microseconds is at most 999999: it is 0 unless byte 6 is
'.', and when byte 6 is '.' followed by a maximal run `ds` of digits it is the
first `min(|ds|, 6)` of them read as an integer times
`10 ^ (6 - min(|ds|, 6))`. -/
theorem parse_time_exact (f : List Nat) (hb : ∀ c, c ∈ f → c < 256) :
    ((parse_time f).1 = true ↔
      (6 ≤ f.length ∧ (∀ c, c ∈ f.take 6 → is_ascii_digit c) ∧
        decimal_value (f.take 2) ≤ 23 ∧ decimal_value ((f.drop 2).take 2) ≤ 59 ∧
        decimal_value ((f.drop 4).take 2) ≤ 60)) ∧
    ((parse_time f).1 = true →
      (parse_time f).2.valid = true ∧
      (parse_time f).2.hours = decimal_value (f.take 2) ∧
      (parse_time f).2.minutes = decimal_value ((f.drop 2).take 2) ∧
      (parse_time f).2.seconds = decimal_value ((f.drop 4).take 2) ∧
      (parse_time f).2.microseconds ≤ 999999 ∧
      (f.getD 6 0 ≠ 46 → (parse_time f).2.microseconds = 0) ∧
      (∀ ds tl, f.drop 6 = 46 :: (ds ++ tl) → (∀ c, c ∈ ds → is_ascii_digit c) →
        ¬ is_ascii_digit (tl.headD 0) →
        (parse_time f).2.microseconds =
          decimal_value (ds.take 6) * 10 ^ (6 - min ds.length 6))) := by
  by_cases h6 : 6 ≤ f.length
  · obtain ⟨a, b, c, d, e, g, rest, hf⟩ := six_split f h6
    subst hf
    have hb6 : ∀ x, x ∈ [a, b, c, d, e, g] → x < 256 := fun x hx =>
      hb x (by
        simp only [List.mem_cons, List.mem_singleton, List.not_mem_nil, or_false] at hx ⊢
        tauto)
    have hbr : ∀ x, x ∈ rest → x < 256 := fun x hx =>
      hb x (by simp only [List.mem_cons]; tauto)
    have hg : (a :: b :: c :: d :: e :: g :: rest).getD 6 0 = rest.headD 0 := by
      cases rest <;> rfl
    show (_ ↔ (_ ∧ (∀ x, x ∈ [a, b, c, d, e, g] → is_ascii_digit x) ∧
        decimal_value [a, b] ≤ 23 ∧ decimal_value [c, d] ≤ 59 ∧ decimal_value [e, g] ≤ 60)) ∧
      (_ → _ ∧ _ = decimal_value [a, b] ∧ _ = decimal_value [c, d] ∧
        _ = decimal_value [e, g] ∧ _ ∧ _ ∧
        ∀ ds tl, rest = 46 :: (ds ++ tl) → _)
    rw [hg]
    by_cases hd : ∀ x, x ∈ [a, b, c, d, e, g] → is_ascii_digit x
    · rw [parse_time_six a b c d e g rest hd]
      by_cases hr : decimal_value [a, b] > 23 ∨ decimal_value [c, d] > 59 ∨
          decimal_value [e, g] > 60
      · rw [if_pos hr]
        refine ⟨⟨fun h => Bool.noConfusion h, ?_⟩, fun h => Bool.noConfusion h⟩
        rintro ⟨_, _, h1, h2, h3⟩
        omega
      · rw [if_neg hr]
        have hfr := parse_time_fraction rest hbr
        exact ⟨⟨fun _ => ⟨h6, hd, by omega, by omega, by omega⟩, fun _ => rfl⟩,
          fun _ => ⟨rfl, rfl, rfl, rfl, hfr.1, hfr.2.1, hfr.2.2⟩⟩
    · rw [parse_time_nondigit _ (is_ndigits_six_false a b c d e g rest hb6 hd)]
      exact ⟨⟨fun h => Bool.noConfusion h, fun h => absurd h.2.1 hd⟩,
        fun h => Bool.noConfusion h⟩
  · rw [parse_time_short f (by omega)]
    exact ⟨⟨fun h => Bool.noConfusion h, fun h => absurd h.1 h6⟩, fun h => Bool.noConfusion h⟩

theorem parse_time_exact_witness :
    (∀ c, c ∈ bytes "093045.123" → c < 256) ∧
    (parse_time (bytes "093045.123")).1 = true ∧
    (parse_time (bytes "093045.123")).2.microseconds = 123000 :=
  have h := parse_time_exact (bytes "093045.123") (by decide)
  have ht : (parse_time (bytes "093045.123")).1 = true :=
    h.1.2 ⟨by decide, by decide, by decide, by decide, by decide⟩
  ⟨by decide, ht,
    ((h.2 ht).2.2.2.2.2.2 (bytes "123") [] (by decide) (by decide) (by decide)).trans
      (by decide)⟩

/-- Further values of `parse_time`. -/
theorem parse_time_examples :
    (parse_time (bytes "235960")).1 = true ∧ (parse_time (bytes "250000")).1 = false ∧
    (parse_time (bytes "123519.")).2.microseconds = 0 ∧
    (parse_time (bytes "123519.1234567")).2.microseconds = 123456 := by
  decide

/-- C18. The function `parse_date` returns true exactly when the field has at
least six bytes, the first six are ASCII digits DDMMYY, `1 ≤ DD ≤ 31` and
`1 ≤ MM ≤ 12`. On success `valid` is true, day, month and `year_yy` are DD, MM
and YY and the full year is 0; on failure `valid` is false. -/
theorem parse_date_exact (f : List Nat) (hb : ∀ c, c ∈ f → c < 256) :
    ((parse_date f).1 = true ↔
      (6 ≤ f.length ∧ (∀ c, c ∈ f.take 6 → is_ascii_digit c) ∧
        1 ≤ decimal_value (f.take 2) ∧ decimal_value (f.take 2) ≤ 31 ∧
        1 ≤ decimal_value ((f.drop 2).take 2) ∧ decimal_value ((f.drop 2).take 2) ≤ 12)) ∧
    ((parse_date f).1 = true →
      (parse_date f).2.valid = true ∧
      (parse_date f).2.day = decimal_value (f.take 2) ∧
      (parse_date f).2.month = decimal_value ((f.drop 2).take 2) ∧
      (parse_date f).2.year_yy = decimal_value ((f.drop 4).take 2) ∧
      (parse_date f).2.year = 0) ∧
    ((parse_date f).1 = false → (parse_date f).2.valid = false) := by
  by_cases h6 : 6 ≤ f.length
  · obtain ⟨a, b, c, d, e, g, rest, hf⟩ := six_split f h6
    subst hf
    have hb6 : ∀ x, x ∈ [a, b, c, d, e, g] → x < 256 := fun x hx =>
      hb x (by
        simp only [List.mem_cons, List.mem_singleton, List.not_mem_nil, or_false] at hx ⊢
        tauto)
    show (_ ↔ (_ ∧ (∀ x, x ∈ [a, b, c, d, e, g] → is_ascii_digit x) ∧
        1 ≤ decimal_value [a, b] ∧ decimal_value [a, b] ≤ 31 ∧
        1 ≤ decimal_value [c, d] ∧ decimal_value [c, d] ≤ 12)) ∧
      (_ → _ ∧ _ = decimal_value [a, b] ∧ _ = decimal_value [c, d] ∧
        _ = decimal_value [e, g] ∧ _) ∧ _
    by_cases hd : ∀ x, x ∈ [a, b, c, d, e, g] → is_ascii_digit x
    · rw [parse_date_six a b c d e g rest hd]
      by_cases hr : decimal_value [a, b] < 1 ∨ decimal_value [a, b] > 31 ∨
          decimal_value [c, d] < 1 ∨ decimal_value [c, d] > 12
      · rw [if_pos hr]
        refine ⟨⟨fun h => Bool.noConfusion h, ?_⟩, fun h => Bool.noConfusion h, fun _ => rfl⟩
        rintro ⟨_, _, h1, h2, h3, h4⟩
        omega
      · rw [if_neg hr]
        exact ⟨⟨fun _ => ⟨h6, hd, by omega, by omega, by omega, by omega⟩, fun _ => rfl⟩,
          fun _ => ⟨rfl, rfl, rfl, rfl, rfl⟩, fun h => Bool.noConfusion h⟩
    · rw [parse_date_nondigit _ (is_ndigits_six_false a b c d e g rest hb6 hd)]
      exact ⟨⟨fun h => Bool.noConfusion h, fun h => absurd h.2.1 hd⟩,
        fun h => Bool.noConfusion h, fun _ => rfl⟩
  · rw [parse_date_short f (by omega)]
    exact ⟨⟨fun h => Bool.noConfusion h, fun h => absurd h.1 h6⟩, fun h => Bool.noConfusion h,
      fun _ => rfl⟩

theorem parse_date_exact_witness :
    (∀ c, c ∈ bytes "230394" → c < 256) ∧
    (parse_date (bytes "230394")).1 = true ∧
    (parse_date (bytes "230394")).2.year_yy = 94 ∧
    (parse_date (bytes "320125")).1 ≠ true :=
  have h := parse_date_exact (bytes "230394") (by decide)
  have ht : (parse_date (bytes "230394")).1 = true :=
    h.1.2 ⟨by decide, by decide, by decide, by decide, by decide, by decide⟩
  ⟨by decide, ht, (h.2.1 ht).2.2.2.1.trans (by decide),
    fun q => absurd ((parse_date_exact (bytes "320125") (by decide)).1.1 q).2.2.2.1 (by decide)⟩

/-- Further values of `parse_date`. -/
theorem parse_date_examples :
    (parse_date (bytes "000125")).1 = false ∧ (parse_date (bytes "150025")).1 = false ∧
    (parse_date (bytes "151325")).1 = false ∧ (parse_date (bytes "15012")).1 = false ∧
    parse_date (bytes "150125") =
      (true, { day := 15, month := 1, year := 0, year_yy := 25, valid := true }) := by
  decide

/-- C19. An RMC body of eleven fields whose speed field has 32 digits after the
'.': the scale of `parse_fixedpoint_float` wraps to 0 and `handle_parse_rmc`
divides by it, so no result is defined (the body has eleven fields, for which
OK is expected). -/
theorem rmc_speed_scale_zero :
    (tokenize (bytes ",,,,,,.00000000000000000000000000000000,,,,") 13).length = 11 ∧
    float_field (bytes ".00000000000000000000000000000000") = none ∧
    handle_parse_rmc (bytes ",,,,,,.00000000000000000000000000000000,,,,") {} = none := by
  decide

/-- C20. A GGA body whose fix-quality field is "9": `handle_parse_gga` returns
OK and stores 9, which is none of the codes 0..8; "300" is stored as 44. -/
theorem gga_fix_quality_unchecked :
    (handle_parse_gga (bytes "123519,4807.038,N,01131.000,E,9,08,0.9,545.4,M,46.9,M,,") {}).map
        (fun r => (r.1, r.2.fix_quality)) = some (TINY_NMEA_OK, 9) ∧
    (handle_parse_gga (bytes "123519,4807.038,N,01131.000,E,300,08,0.9,545.4,M,46.9,M,,")
        {}).map (fun r => (r.1, r.2.fix_quality)) = some (TINY_NMEA_OK, 44) := by
  decide

/-! ## Sentence decoders, framer bookkeeping, satellite tracker and unit conversions: main theorems -/

/-- C22. A GSV body with four satellite blocks, the second with an empty PRN,
and the signal ID "1" in field 19: `handle_parse_gsv` records three satellites
and reads the signal ID from field 15, the PRN "16" of the fourth block. With
all four PRNs present the signal ID is read from field 19. -/
theorem gsv_signal_id_misplaced :
    (handle_parse_gsv (bytes "3,1,11,03,03,111,00,,,,,14,25,170,00,16,57,208,39,1") {}).map
        (fun r => (r.1, r.2.sat_count, r.2.signal_id)) = some (TINY_NMEA_OK, 3, 16) ∧
    (tokenize (bytes "3,1,11,03,03,111,00,,,,,14,25,170,00,16,57,208,39,1") 20).getD 19 [] =
      bytes "1" ∧
    (handle_parse_gsv (bytes "3,1,11,03,03,111,00,04,15,270,00,14,25,170,00,16,57,208,39,1")
        {}).map (fun r => (r.1, r.2.sat_count, r.2.signal_id)) = some (TINY_NMEA_OK, 4, 1) := by
  decide

/-- C27. The in-order GSV sequence (3,1) (3,2) (3,3) on an initialised tracker
with the on-view callback registered: no callback is invoked and the view
buffer is empty afterwards; the same holds for (2,1) (2,2). A single message
(1,1) invokes the callback once. -/
theorem gsv_sequence_never_completes :
    (track_gsv sample_tracker [sample_gsv 3 1, sample_gsv 3 2, sample_gsv 3 3]).map
        (fun c => (c.calls, c.num_sats_in_view)) = some ([], 0) ∧
    (track_gsv sample_tracker [sample_gsv 2 1, sample_gsv 2 2]).map
        (fun c => (c.calls, c.num_sats_in_view)) = some ([], 0) ∧
    (track_gsv sample_tracker [sample_gsv 1 1]).map (fun c => c.calls.length) = some 1 := by
  decide

/-- C29. For the speed 1.0000000 knots, `{10000000, 10000000}`, the divisor
`scale * 1000` of `tiny_nmea_knots_to_mps` wraps in 32 bits to 1410065408 and
the function returns 3648; the quotient `value * 514444 / (scale * 1000)` is
514. For the scale 536870912 the divisor wraps to 0. -/
theorem knots_to_mps_divisor_wraps :
    tiny_nmea_knots_to_mps { value := 10000000, scale := 10000000 } = some 3648 ∧
    Int.tdiv (10000000 * 514444) (10000000 * 1000) = 514 ∧
    tiny_nmea_knots_to_mps { value := 1, scale := 536870912 } = none := by
  decide

/-- C21. On a ZDA body with at least six fields `handle_parse_zda` returns
INVALID_TIME exactly when `parse_time` fails on field 0; otherwise INVALID_DATE
exactly when the decoded day is outside 1..31 or the decoded month outside
1..12; otherwise OK. On OK, `time.valid` and `date.valid` are true, day and
month are in range, and `date.year` is the number in field 3 converted to
`uint16_t` (0 when field 3 is no number): the value of field 3 whenever that
is a decimal number of at most 65535. -/
theorem zda_requires_time_and_date (s : List Nat) (data : tiny_nmea_zda_t)
    (h : 6 ≤ (tokenize s 7).length) :
    ∃ res out, handle_parse_zda s data = some (res, out) ∧
      (res = TINY_NMEA_ERR_INVALID_TIME ↔
        (parse_time ((tokenize s 7).getD 0 [])).1 = false) ∧
      ((parse_time ((tokenize s 7).getD 0 [])).1 = true →
        (res = TINY_NMEA_ERR_INVALID_DATE ↔
          (((parse_uint ((tokenize s 7).getD 1 [])).map to_uint8).getD 0 < 1 ∨
           ((parse_uint ((tokenize s 7).getD 1 [])).map to_uint8).getD 0 > 31 ∨
           ((parse_uint ((tokenize s 7).getD 2 [])).map to_uint8).getD 0 < 1 ∨
           ((parse_uint ((tokenize s 7).getD 2 [])).map to_uint8).getD 0 > 12))) ∧
      (res ≠ TINY_NMEA_ERR_INVALID_TIME → res ≠ TINY_NMEA_ERR_INVALID_DATE →
        res = TINY_NMEA_OK) ∧
      (res = TINY_NMEA_OK →
        out.time.valid = true ∧ out.date.valid = true ∧
        1 ≤ out.date.day ∧ out.date.day ≤ 31 ∧ 1 ≤ out.date.month ∧ out.date.month ≤ 12 ∧
        out.date.day = ((parse_uint ((tokenize s 7).getD 1 [])).map to_uint8).getD 0 ∧
        out.date.month = ((parse_uint ((tokenize s 7).getD 2 [])).map to_uint8).getD 0 ∧
        (∀ v, parse_uint ((tokenize s 7).getD 3 []) = some v → out.date.year = v % 65536) ∧
        (parse_uint ((tokenize s 7).getD 3 []) = none → out.date.year = 0) ∧
        ((tokenize s 7).getD 3 [] ≠ [] →
          (∀ c, c ∈ (tokenize s 7).getD 3 [] → is_ascii_digit c) →
          decimal_value ((tokenize s 7).getD 3 []) ≤ 65535 →
          out.date.year = decimal_value ((tokenize s 7).getD 3 []))) := by
  unfold handle_parse_zda
  simp only [show ¬ (tokenize s 7).length < 6 by omega, if_false]
  by_cases ht : (parse_time ((tokenize s 7).getD 0 [])).1 = true
  · simp only [ht, Bool.not_true, Bool.false_eq_true, if_false]
    by_cases hd : ((parse_uint ((tokenize s 7).getD 1 [])).map to_uint8).getD 0 < 1 ∨
        ((parse_uint ((tokenize s 7).getD 1 [])).map to_uint8).getD 0 > 31 ∨
        ((parse_uint ((tokenize s 7).getD 2 [])).map to_uint8).getD 0 < 1 ∨
        ((parse_uint ((tokenize s 7).getD 2 [])).map to_uint8).getD 0 > 12
    · rw [if_pos hd]
      refine ⟨_, _, rfl, ⟨fun q => tiny_nmea_res_t.noConfusion q, fun q => Bool.noConfusion q⟩,
        fun _ => ⟨fun _ => hd, fun _ => rfl⟩, fun _ q => absurd rfl q,
        fun q => tiny_nmea_res_t.noConfusion q⟩
    · rw [if_neg hd]
      have hy := zda_year_field ((tokenize s 7).getD 3 [])
      have d1 : 1 ≤ ((parse_uint ((tokenize s 7).getD 1 [])).map to_uint8).getD 0 := by omega
      have d2 : ((parse_uint ((tokenize s 7).getD 1 [])).map to_uint8).getD 0 ≤ 31 := by omega
      have m1 : 1 ≤ ((parse_uint ((tokenize s 7).getD 2 [])).map to_uint8).getD 0 := by omega
      have m2 : ((parse_uint ((tokenize s 7).getD 2 [])).map to_uint8).getD 0 ≤ 12 := by omega
      refine ⟨_, _, rfl, ⟨fun q => tiny_nmea_res_t.noConfusion q, fun q => Bool.noConfusion q⟩,
        fun _ => ⟨fun q => tiny_nmea_res_t.noConfusion q, fun q => absurd q hd⟩,
        fun _ _ => rfl,
        fun _ => ⟨parse_time_valid _ ht, rfl, d1, d2, m1, m2, rfl, rfl,
          hy.1, hy.2.1, hy.2.2⟩⟩
  · have ht2 : (parse_time ((tokenize s 7).getD 0 [])).1 = false := by
      cases hq : (parse_time ((tokenize s 7).getD 0 [])).1 with
      | true => exact absurd hq ht
      | false => rfl
    simp only [ht2, Bool.not_false, if_true]
    refine ⟨_, _, rfl, ⟨fun _ => trivial, fun _ => rfl⟩, fun q => Bool.noConfusion q,
      fun q _ => absurd rfl q, fun q => tiny_nmea_res_t.noConfusion q⟩

theorem zda_requires_time_and_date_witness :
    6 ≤ (tokenize (bytes "160012.71,11,03,2004,-1,00") 7).length ∧
    ∃ out, handle_parse_zda (bytes "160012.71,11,03,2004,-1,00") {} =
        some (TINY_NMEA_OK, out) ∧
      out.time.valid = true ∧ out.date.valid = true ∧
      out.date.day = 11 ∧ out.date.month = 3 ∧ out.date.year = 2004 := by
  refine ⟨by decide, ?_⟩
  obtain ⟨res, out, h1, h2, h3, h4, h5⟩ :=
    zda_requires_time_and_date (bytes "160012.71,11,03,2004,-1,00") {} (by decide)
  have ht : (parse_time ((tokenize (bytes "160012.71,11,03,2004,-1,00") 7).getD 0 [])).1 = true := by
    decide
  have r1 : res ≠ TINY_NMEA_ERR_INVALID_TIME :=
    fun q => Bool.noConfusion ((h2.1 q).symm.trans ht)
  have r2 : res ≠ TINY_NMEA_ERR_INVALID_DATE := fun q => absurd ((h3 ht).1 q) (by decide)
  have hok := h4 r1 r2
  subst hok
  obtain ⟨t, d, _, _, _, _, dd, mm, yv, _, _⟩ := h5 rfl
  exact ⟨out, h1, t, d, dd.trans (by decide), mm.trans (by decide), yv 2004 (by decide)⟩

/-- The ZDA body "160012.71,11,03,2004,-1,00" is decoded as 16:00:12.71 on
11/03/2004 with `tz_hours` = -1. -/
theorem zda_decoding_example :
    handle_parse_zda (bytes "160012.71,11,03,2004,-1,00") {} =
      some (TINY_NMEA_OK,
        { time := { hours := 16, minutes := 0, seconds := 12, microseconds := 710000,
                    valid := true },
          date := { day := 11, month := 3, year := 2004, year_yy := 0, valid := true },
          tz_hours := -1, tz_minutes := 0 }) := by
  decide

/-- The year 70000 in field 3 of a ZDA body is stored as 4464, and an empty
year field as 0, in both cases with the result OK. -/
theorem zda_year_counterexample :
    (handle_parse_zda (bytes "120000,15,01,70000,,") {}).map
        (fun r => (r.1, r.2.date.year)) = some (TINY_NMEA_OK, 4464) ∧
    (handle_parse_zda (bytes "120000,15,01,,,") {}).map
        (fun r => (r.1, r.2.date.year)) = some (TINY_NMEA_OK, 0) := by
  decide

/-- C26. With a well-formed ring buffer, `tiny_nmea_feed` returns
`TINY_NMEA_OK` exactly when all offered bytes fit in the free space, and
`TINY_NMEA_ERR_BUFFER_FULL` otherwise; in both cases exactly the first `free`
bytes of the data are appended to the stored bytes (all of them when they
fit), and nothing but the ring buffer changes in the context: the statistics,
the framer state, the scratch buffer and the callbacks stay as they were. -/
theorem feed_reports_buffer_full (ctx : tiny_nmea_ctx_t) (data : List Nat)
    (hwf : ringbuf_wf ctx.ringbuf) :
    ((tiny_nmea_feed ctx data).1 = TINY_NMEA_OK ↔ data.length ≤ ringbuf_free ctx.ringbuf) ∧
    (¬ data.length ≤ ringbuf_free ctx.ringbuf →
      (tiny_nmea_feed ctx data).1 = TINY_NMEA_ERR_BUFFER_FULL) ∧
    ringbuf_contents (tiny_nmea_feed ctx data).2.ringbuf =
      ringbuf_contents ctx.ringbuf ++ data.take (ringbuf_free ctx.ringbuf) ∧
    (data.length ≤ ringbuf_free ctx.ringbuf →
      ringbuf_contents (tiny_nmea_feed ctx data).2.ringbuf = ringbuf_contents ctx.ringbuf ++ data) ∧
    (tiny_nmea_feed ctx data).2 = { ctx with ringbuf := (tiny_nmea_feed ctx data).2.ringbuf } ∧
    (tiny_nmea_feed ctx data).2.stats = ctx.stats ∧
    (tiny_nmea_feed ctx data).2.parser_state = ctx.parser_state := by
  have hlen : (data.take (ringbuf_free ctx.ringbuf)).length ≤ ringbuf_free ctx.ringbuf := by
    rw [List.length_take]; exact Nat.min_le_left _ _
  have hc := write_contents ctx.ringbuf (data.take (ringbuf_free ctx.ringbuf)) hwf hlen
  unfold tiny_nmea_feed
  simp only [push_drop_eq _ _ hwf]
  refine ⟨?_, ?_, hc, ?_, trivial, trivial, trivial⟩
  · constructor
    · intro h
      by_cases c : min data.length (ringbuf_free ctx.ringbuf) = data.length
      · omega
      · rw [if_neg c] at h
        exact tiny_nmea_res_t.noConfusion h
    · intro h
      rw [if_pos (Nat.min_eq_left h)]
  · intro h
    rw [if_neg (by omega)]
  · intro h
    rw [hc, List.take_of_length_le h]

theorem feed_reports_buffer_full_witness :
    ringbuf_wf sample_context.ringbuf ∧
    (tiny_nmea_feed sample_context (List.replicate 511 65)).1 = TINY_NMEA_OK ∧
    (tiny_nmea_feed sample_context (List.replicate 512 65)).1 = TINY_NMEA_ERR_BUFFER_FULL ∧
    ringbuf_contents (tiny_nmea_feed sample_context (List.replicate 512 65)).2.ringbuf =
      List.replicate 511 65 :=
  have h := feed_reports_buffer_full sample_context (List.replicate 512 65) (by decide)
  ⟨by decide,
   (feed_reports_buffer_full sample_context (List.replicate 511 65) (by decide)).1.2 (by decide),
   h.2.1 (by decide), h.2.2.1.trans (by decide)⟩

/-- C25. Decoder errors: when the case `TINY_NMEA_SENTENCE_COMPLETE` runs on a
sentence whose header gave a valid talker and type and whose decoder returns a
result other than OK, `parse_errors` is incremented by one (as a `uint32_t`),
the other counters are unchanged, the parse callback is not invoked, and the
error callback, when registered, is invoked once with the record of the
decoder and the new statistics; talker and type of that record are those of
the header. -/
theorem decoder_error_counted (ctx : tiny_nmea_ctx_t) (res : tiny_nmea_res_t)
    (rec : tiny_nmea_type_t) (e : Nat)
    (htk : tiny_nmea_talker_valid ctx.current_talker = true)
    (hty : tiny_nmea_sentence_valid ctx.current_type = true)
    (hdec : complete_decode ctx = some (res, rec)) (hres : res ≠ TINY_NMEA_OK)
    (hle : ctx.line_end = some e) :
    ∃ c, fsm_sentence_complete ctx = some c ∧
      c.stats.parse_errors = (ctx.stats.parse_errors + 1) % 4294967296 ∧
      (ctx.stats.parse_errors < 4294967295 →
        c.stats.parse_errors = ctx.stats.parse_errors + 1) ∧
      c.stats.sentences_parsed = ctx.stats.sentences_parsed ∧
      c.stats.checksum_errors = ctx.stats.checksum_errors ∧
      c.stats.buffer_overflows = ctx.stats.buffer_overflows ∧
      c.calls = (if ctx.error_callback then
          ctx.calls ++ [tiny_nmea_callback_event.error rec c.stats]
        else ctx.calls) ∧
      rec.talker = ctx.current_talker ∧ rec.type = ctx.current_type := by
  obtain ⟨c, h1, _, _, _, _, _, h7⟩ := sentence_complete_user ctx res rec e hdec hle
  obtain ⟨hs, _, hc⟩ := h7 hres
  have hh := parse_keeps_header _ _ htk hty res rec hdec
  refine ⟨c, h1, ?_, ?_, ?_, ?_, ?_, ?_, hh.2, hh.1⟩
  · rw [hs]; rfl
  · intro hlt
    rw [hs]
    show (ctx.stats.parse_errors + 1) % 4294967296 = _
    omega
  · rw [hs]
  · rw [hs]
  · rw [hs]
  · rw [hc, hs]

theorem decoder_error_counted_witness :
    sample_rmc_short_complete.parser_state = TINY_NMEA_SENTENCE_COMPLETE ∧
    ∃ c, fsm_sentence_complete sample_rmc_short_complete = some c ∧
      c.stats = { sentences_parsed := 0, checksum_errors := 0, parse_errors := 1,
                  buffer_overflows := 0 } ∧
      c.calls = [tiny_nmea_callback_event.error
        { type := TINY_NMEA_SENTENCE_RMC, talker := 1, data := tiny_nmea_data_t.rmc {} }
        c.stats] := by
  refine ⟨by decide, ?_⟩
  obtain ⟨c, h1, _, h3, h4, h5, h6, h7, _⟩ :=
    decoder_error_counted sample_rmc_short_complete TINY_NMEA_ERR_TOO_FEW_FIELDS
      { type := TINY_NMEA_SENTENCE_RMC, talker := 1, data := tiny_nmea_data_t.rmc {} } 13
      (by decide) (by decide) (by decide) (by decide) (by decide)
  refine ⟨c, h1, ?_, h7.trans (by rw [if_pos (by decide)]; rfl)⟩
  have hs : ∀ s : tiny_nmea_parser_statistics_t, s.parse_errors = 1 → s.sentences_parsed = 0 →
      s.checksum_errors = 0 → s.buffer_overflows = 0 →
      s = { sentences_parsed := 0, checksum_errors := 0, parse_errors := 1,
            buffer_overflows := 0 } := by
    intro s a b c d
    cases s
    simp only at a b c d
    subst a b c d
    rfl
  exact hs _
    ((h3 (by decide)).trans (show sample_rmc_short_complete.stats.parse_errors + 1 = 1 by decide))
    (h4.trans (show sample_rmc_short_complete.stats.sentences_parsed = 0 by decide))
    (h5.trans (show sample_rmc_short_complete.stats.checksum_errors = 0 by decide))
    (h6.trans (show sample_rmc_short_complete.stats.buffer_overflows = 0 by decide))

/-- Decoder errors through `tiny_nmea_work`: an RMC sentence with two fields
and a ZDA sentence with an invalid time, each fed to a fresh parser, are
counted in `parse_errors` and reported through the error callback only. -/
theorem decoder_error_examples :
    (tiny_nmea_work 10 (tiny_nmea_feed sample_context sample_rmc_short).2).map
        (fun c => (c.stats, c.calls.length)) =
      some ({ sentences_parsed := 0, checksum_errors := 0, parse_errors := 1,
              buffer_overflows := 0 }, 1) ∧
    (tiny_nmea_work 10 (tiny_nmea_feed sample_context sample_zda_bad_time).2).map
        (fun c => (c.stats, c.calls.map fun ev =>
          match ev with
          | tiny_nmea_callback_event.error r _ => (false, r.type, r.talker)
          | tiny_nmea_callback_event.parse r _ => (true, r.type, r.talker))) =
      some ({ sentences_parsed := 0, checksum_errors := 0, parse_errors := 1,
              buffer_overflows := 0 }, [(false, TINY_NMEA_SENTENCE_ZDA, 1)]) := by
  decide

/-- C23. When the case `TINY_NMEA_SENTENCE_COMPLETE` decodes a ZDA sentence
with OK, the century becomes (year / 100) mod 256 for a year of at least 100
and 0 for a smaller year: year / 100 for every year below 25600. A pass of the
loop of `tiny_nmea_work` changes the century in no other way: it leaves it as
it was unless it is such a step. -/
theorem century_follows_zda (ctx : tiny_nmea_ctx_t) (rec : tiny_nmea_type_t) (e : Nat)
    (a c : tiny_nmea_ctx_t)
    (htk : tiny_nmea_talker_valid ctx.current_talker = true)
    (hty : ctx.current_type = TINY_NMEA_SENTENCE_ZDA)
    (hdec : complete_decode ctx = some (TINY_NMEA_OK, rec))
    (hle : ctx.line_end = some e)
    (hpass : tiny_nmea_work_body a = loop_outcome.next c ∨
      tiny_nmea_work_body a = loop_outcome.exit c) :
    (∃ c1, fsm_sentence_complete ctx = some c1 ∧
      c1.zda_century = (if 100 ≤ (data_zda rec.data).date.year then
        ((data_zda rec.data).date.year / 100) % 256 else 0) ∧
      ((data_zda rec.data).date.year < 25600 →
        c1.zda_century = (data_zda rec.data).date.year / 100)) ∧
    (c.zda_century = a.zda_century ∨
      ∃ rec1, (activate a).parser_state = TINY_NMEA_SENTENCE_COMPLETE ∧
        complete_decode (activate a) = some (TINY_NMEA_OK, rec1) ∧
        rec1.type = TINY_NMEA_SENTENCE_ZDA ∧ (data_zda rec1.data).date.valid = true ∧
        c.zda_century = (if 100 ≤ (data_zda rec1.data).date.year then
          ((data_zda rec1.data).date.year / 100) % 256 else 0)) := by
  refine ⟨?_, pass_century a c hpass⟩
  obtain ⟨z, hz, hv⟩ := zda_decoded ctx rec htk hty hdec
  obtain ⟨c1, h1, _, _, _, _, hok, _⟩ := sentence_complete_user ctx _ rec e hdec hle
  have hcen := (hok rfl).2.1
  rw [hz, pp_century_zda _ _ _ hv] at hcen
  have hy : (data_zda rec.data).date.year = z.date.year := by rw [hz]; rfl
  rw [hy]
  refine ⟨c1, h1, hcen, fun hlt => ?_⟩
  rw [hcen]
  split
  · exact Nat.mod_eq_of_lt (by omega)
  · omega

theorem century_follows_zda_witness :
    sample_zda_complete.parser_state = TINY_NMEA_SENTENCE_COMPLETE ∧
    (fsm_sentence_complete sample_zda_complete).map (fun c => c.zda_century) = some 20 ∧
    ((work_passes 1 sample_zda_complete).zda_century = sample_zda_complete.zda_century ∨
      (work_passes 1 sample_zda_complete).zda_century = 20) := by
  obtain ⟨⟨c1, h1, h2, _⟩, h3⟩ :=
    century_follows_zda sample_zda_complete sample_zda_record 36
      sample_zda_complete (work_passes 1 sample_zda_complete)
      (by decide) (by decide) (by decide) (by decide) (Or.inl (by rfl))
  refine ⟨by decide, ?_, ?_⟩
  · rw [h1]
    exact congrArg some (h2.trans (by decide))
  · rcases h3 with q | ⟨rec1, _, q2, _, _, q5⟩
    · exact Or.inl q
    · have hr : rec1 = sample_zda_record := by
        have := q2.symm.trans (show complete_decode (activate sample_zda_complete) =
          some (TINY_NMEA_OK, sample_zda_record) by decide)
        exact congrArg Prod.snd (Option.some.inj this)
      rw [hr] at q5
      exact Or.inr (q5.trans (by decide))

/-- The sentence `$GPZDA,120000.00,15,01,2025,00,00*65` sets the century to 20;
the sentence `$GPZDA,120001.00,15,01,0025,00,00*66` after it is decoded with OK
as well and sets the century back to 0. -/
theorem century_reset_counterexample :
    (feed_work_chunks 10 sample_context [sample_zda_2025]).map
        (fun c => (c.zda_century, c.stats.sentences_parsed, c.stats.parse_errors)) =
      some (20, 1, 0) ∧
    (feed_work_chunks 10 sample_context [sample_zda_2025, sample_zda_0025]).map
        (fun c => (c.zda_century, c.stats.sentences_parsed, c.stats.parse_errors)) =
      some (0, 2, 0) := by
  decide

/-- C24. When the case `TINY_NMEA_SENTENCE_COMPLETE` decodes an RMC sentence
with OK, the record handed to the parse callback is the decoded record with
`date.year` set to `zda_century * 100 + date.year_yy` when the century of the
context is non-zero, and with `date.year` = 0 when it is zero. -/
theorem rmc_year_backfill (ctx : tiny_nmea_ctx_t) (rec : tiny_nmea_type_t) (e : Nat)
    (htk : tiny_nmea_talker_valid ctx.current_talker = true)
    (hty : ctx.current_type = TINY_NMEA_SENTENCE_RMC)
    (hcen : ctx.zda_century < 256)
    (hcb : ctx.parse_callback = true)
    (hdec : complete_decode ctx = some (TINY_NMEA_OK, rec))
    (hle : ctx.line_end = some e) :
    ∃ c out, fsm_sentence_complete ctx = some c ∧
      c.calls = ctx.calls ++ [tiny_nmea_callback_event.parse out c.stats] ∧
      out.type = TINY_NMEA_SENTENCE_RMC ∧ out.talker = ctx.current_talker ∧
      out.data = tiny_nmea_data_t.rmc { data_rmc rec.data with
        date := { (data_rmc rec.data).date with year := (data_rmc out.data).date.year } } ∧
      (data_rmc out.data).date.year_yy = (data_rmc rec.data).date.year_yy ∧
      (ctx.zda_century ≠ 0 →
        (data_rmc out.data).date.year =
          ctx.zda_century * 100 + (data_rmc out.data).date.year_yy) ∧
      (ctx.zda_century = 0 → (data_rmc out.data).date.year = 0) ∧
      c.zda_century = ctx.zda_century := by
  obtain ⟨r, hr, hy0, hyy⟩ := rmc_decoded ctx rec htk hty hdec
  obtain ⟨c, h1, _, _, _, _, hok, _⟩ := sentence_complete_user ctx _ rec e hdec hle
  obtain ⟨hs, hc, hcalls⟩ := hok rfl
  rw [if_pos hcb, ← hs] at hcalls
  have hpc : pp_century ctx.zda_century rec = ctx.zda_century := by
    rw [hr]
    unfold pp_century parse_post_process
    rw [if_neg (show ¬ TINY_NMEA_SENTENCE_RMC = TINY_NMEA_SENTENCE_ZDA by decide)]
    simp only [if_true]
    split <;> rfl
  refine ⟨c, pp_record ctx.zda_century rec, h1, hcalls, ?_⟩
  rw [hr, pp_record_rmc _ _ _ hcen hyy]
  by_cases h0 : ctx.zda_century = 0
  · rw [if_pos h0]
    refine ⟨rfl, rfl, rfl, rfl, fun q => absurd h0 q, fun _ => hy0, ?_⟩
    rw [hc, hpc]
  · rw [if_neg h0]
    refine ⟨rfl, rfl, rfl, rfl, fun _ => rfl, fun q => absurd q h0, ?_⟩
    rw [hc, hpc]

theorem rmc_year_backfill_witness :
    sample_rmc_complete.parser_state = TINY_NMEA_SENTENCE_COMPLETE ∧
    sample_rmc_complete.zda_century = 20 ∧
    ∃ c out, fsm_sentence_complete sample_rmc_complete = some c ∧
      c.calls = sample_rmc_complete.calls ++ [tiny_nmea_callback_event.parse out c.stats] ∧
      (data_rmc out.data).date.year = 2025 := by
  obtain ⟨c, out, h1, h2, _, _, _, h6, h7, _⟩ :=
    rmc_year_backfill sample_rmc_complete sample_rmc_decoded 68
      (by decide) (by decide) (by decide) (by decide) (by decide) (by decide)
  refine ⟨by decide, by decide, c, out, h1, h2, ?_⟩
  rw [h7 (by decide), h6]
  decide

/-- The sentences of the test `test_system_century_from_zda` through
`tiny_nmea_work`: the RMC sentence after the ZDA sentence of 2025 is delivered
with the year 2025, and the same RMC sentence fed to a fresh parser with the
year 0. -/
theorem rmc_year_examples :
    (feed_work_chunks 10 sample_context [sample_zda_2025, sample_rmc_full]).map
        (fun c => c.calls.map fun ev =>
          match ev with
          | tiny_nmea_callback_event.parse r _ =>
            (true, r.type, (data_rmc r.data).date.year, (data_rmc r.data).date.year_yy)
          | tiny_nmea_callback_event.error r _ => (false, r.type, 0, 0)) =
      some [(true, TINY_NMEA_SENTENCE_ZDA, 0, 0), (true, TINY_NMEA_SENTENCE_RMC, 2025, 25)] ∧
    (feed_work_chunks 10 sample_context [sample_rmc_full]).map
        (fun c => c.calls.map fun ev =>
          match ev with
          | tiny_nmea_callback_event.parse r _ =>
            (true, r.type, (data_rmc r.data).date.year, (data_rmc r.data).date.year_yy)
          | tiny_nmea_callback_event.error r _ => (false, r.type, 0, 0)) =
      some [(true, TINY_NMEA_SENTENCE_RMC, 0, 25)] := by
  decide

/-- C30. For a coordinate with hemisphere N, S, E or W, a scale `s` > 0 and a
raw value `r` ≥ 0 with `r` < 21200 * `s`, `tiny_nmea_coord_to_fixed_degrees`
returns sign * (D * 10^7 + ⌊m * 10^7 / (60 * s)⌋) with D = ⌊r / (100 * s)⌋,
m = r - D * 100 * s and sign = -1 for S and W, +1 otherwise; the result is
less than 1 away from sign * 10^7 * (D + (m / s) / 60); the value for S (W) is
the negation of the value for N (E); and the function returns 0 whenever the
hemisphere is 0 or the scale is 0. -/
theorem coord_to_fixed_degrees_spec (r s : Int) (hem : Nat)
    (hh : hem = 78 ∨ hem = 83 ∨ hem = 69 ∨ hem = 87)
    (hs0 : 0 < s) (hs1 : s ≤ 2147483647) (hr0 : 0 ≤ r) (hr1 : r ≤ 2147483647)
    (hlt : r < 21200 * s) :
    tiny_nmea_coord_to_fixed_degrees { raw := { value := r, scale := s }, hemisphere := hem } =
      (if hem = 83 ∨ hem = 87 then -1 else 1) *
        (r / (100 * s) * 10000000 + (r - r / (100 * s) * 100 * s) * 10000000 / (60 * s)) ∧
    |((tiny_nmea_coord_to_fixed_degrees
          { raw := { value := r, scale := s }, hemisphere := hem } : Int) : ℚ) -
        ((if hem = 83 ∨ hem = 87 then -1 else 1 : Int) : ℚ) * 10000000 *
          (((r / (100 * s) : Int) : ℚ) +
            (((r - r / (100 * s) * 100 * s : Int) : ℚ) / (s : ℚ)) / 60)| < 1 ∧
    tiny_nmea_coord_to_fixed_degrees { raw := { value := r, scale := s }, hemisphere := 83 } =
      - tiny_nmea_coord_to_fixed_degrees { raw := { value := r, scale := s }, hemisphere := 78 } ∧
    tiny_nmea_coord_to_fixed_degrees { raw := { value := r, scale := s }, hemisphere := 87 } =
      - tiny_nmea_coord_to_fixed_degrees { raw := { value := r, scale := s }, hemisphere := 69 } ∧
    (∀ v h, tiny_nmea_coord_to_fixed_degrees
      { raw := { value := v, scale := 0 }, hemisphere := h } = 0) ∧
    (∀ v k, tiny_nmea_coord_to_fixed_degrees
      { raw := { value := v, scale := k }, hemisphere := 0 } = 0) := by
  obtain ⟨hu, hu0, hu1⟩ := coord_fixed_unsigned r s hs0 hs1 hr0 hr1 hlt
  have key : ∀ h : Nat, h ≠ 0 →
      tiny_nmea_coord_to_fixed_degrees { raw := { value := r, scale := s }, hemisphere := h } =
        (if h = 83 ∨ h = 87 then -1 else 1) *
          (r / (100 * s) * 10000000 + (r - r / (100 * s) * 100 * s) * 10000000 / (60 * s)) := by
    intro h hne
    unfold tiny_nmea_coord_to_fixed_degrees
    have hc : ¬ (h = 0 ∨ s = 0) := by omega
    simp only [hc, if_false]
    rw [hu]
    by_cases hsw : h = 83 ∨ h = 87
    · rw [if_pos hsw, if_pos hsw, to_int64_id _ (by omega) (by omega),
        to_int32_id _ (by omega) (by omega)]
      ring
    · rw [if_neg hsw, if_neg hsw, to_int32_id _ (by omega) (by omega)]
      ring
  have hne : hem ≠ 0 := by omega
  refine ⟨key hem hne, ?_, ?_, ?_, ?_, ?_⟩
  · rw [key hem hne]
    have hsq : (0 : ℚ) < (s : ℚ) := by exact_mod_cast hs0
    have hfl := floor_div_close ((r - r / (100 * s) * 100 * s) * 10000000) (60 * s) (by omega)
    have hx : (((r - r / (100 * s) * 100 * s) * 10000000 : Int) : ℚ) / ((60 * s : Int) : ℚ) =
        10000000 * ((((r - r / (100 * s) * 100 * s : Int) : ℚ) / (s : ℚ)) / 60) := by
      push_cast
      field_simp
      ring
    rw [hx] at hfl
    obtain ⟨f1, f2⟩ := hfl
    by_cases hsw : hem = 83 ∨ hem = 87
    · simp only [if_pos hsw]
      rw [abs_lt]
      push_cast at f1 f2 ⊢
      constructor <;> linarith
    · simp only [if_neg hsw]
      rw [abs_lt]
      push_cast at f1 f2 ⊢
      constructor <;> linarith
  · rw [key 83 (by decide), key 78 (by decide)]
    simp
  · rw [key 87 (by decide), key 69 (by decide)]
    simp
  · intro v h
    unfold tiny_nmea_coord_to_fixed_degrees
    simp
  · intro v k
    unfold tiny_nmea_coord_to_fixed_degrees
    simp

theorem coord_to_fixed_degrees_spec_witness :
    tiny_nmea_coord_to_fixed_degrees
        { raw := { value := 4807038, scale := 1000 }, hemisphere := 78 } = 481173000 ∧
    tiny_nmea_coord_to_fixed_degrees
        { raw := { value := 4807038, scale := 1000 }, hemisphere := 83 } = -481173000 :=
  ⟨(coord_to_fixed_degrees_spec 4807038 1000 78 (by decide) (by decide) (by decide) (by decide)
      (by decide) (by decide)).1.trans (by decide),
    (coord_to_fixed_degrees_spec 4807038 1000 78 (by decide) (by decide) (by decide) (by decide)
      (by decide) (by decide)).2.2.1.trans (by decide)⟩

/-- C28. For a tracker whose arrays have their declared sizes, with no burst
timeout pending, and a GSA record whose PRNs in 1 .. 254 are all below 248
(the PRNs the 31 bytes of a bitmask row have a bit for),
`tiny_nmea_sat_tracking_update_gsa` returns OK and:
when one of those PRNs is recorded in the row of the GSA's constellation, the
on-active callback (if registered) is invoked once with the active buffer and
count as they were, and afterwards the active buffer holds exactly the PRNs of
this GSA, in order, tagged with the constellation, and the bitmask records
exactly these PRNs, in that row;
when none is recorded, no callback is invoked, the PRNs are recorded in the
row in addition to what was recorded, and they are appended to the active
buffer as far as its `TINY_NMEA_MAX_TRACKED_GSA_SATS` slots reach: all of them
when they fit. -/
theorem gsa_conflict_publishes_prior (ctx : tiny_nmea_sats_tracker_ctx_t)
    (gsa : tiny_nmea_gsa_t) (talker : Nat)
    (hwf : tracker_wf ctx)
    (hlen : gsa.satellite_prns.length = TINY_NMEA_MAX_SATS_GSA)
    (hcount : gsa.satellite_count ≤ TINY_NMEA_MAX_SATS_GSA)
    (hprn : ∀ p ∈ gsa_prns gsa, p < 8 * TINY_NMEA_TRACK_PRN_PER_CONST_ARR_SIZE)
    (hfresh : get_time_delta_ms ctx.sats_active_update_time ctx.sats_active_update_date
      ctx.last_seen_time (some ctx.last_seen_date) ≤ (ctx.gsa_burst_threshold : Int)) :
    ∃ c, tiny_nmea_sat_tracking_update_gsa ctx gsa talker = some (TINY_NMEA_OK, c) ∧
      tracker_wf c ∧
      ((∃ p ∈ gsa_prns gsa,
          prn_recorded ctx.sats_active_bitmask (gsa_constellation gsa talker) p = true) →
        c.calls = (if ctx.cb_sats_active then ctx.calls ++
            [tiny_nmea_tracker_event.sats_active ctx.sats_active_info ctx.num_sats_active
              ctx.sats_active_update_date ctx.sats_active_update_time]
          else ctx.calls) ∧
        c.num_sats_active = (gsa_prns gsa).length ∧
        c.sats_active_info.take c.num_sats_active =
          (gsa_prns gsa).map (gsa_entry (gsa_constellation gsa talker)) ∧
        ∀ r q, prn_recorded c.sats_active_bitmask r q =
          (decide (r = gsa_constellation gsa talker) && decide (q ∈ gsa_prns gsa))) ∧
      ((∀ p ∈ gsa_prns gsa,
          prn_recorded ctx.sats_active_bitmask (gsa_constellation gsa talker) p = false) →
        c.calls = ctx.calls ∧
        c.num_sats_active = min TINY_NMEA_MAX_TRACKED_GSA_SATS
          (ctx.num_sats_active + (gsa_prns gsa).length) ∧
        c.sats_active_info.take c.num_sats_active =
          (ctx.sats_active_info.take ctx.num_sats_active ++
            (gsa_prns gsa).map (gsa_entry (gsa_constellation gsa talker))).take
              TINY_NMEA_MAX_TRACKED_GSA_SATS ∧
        (ctx.num_sats_active + (gsa_prns gsa).length ≤ TINY_NMEA_MAX_TRACKED_GSA_SATS →
          c.sats_active_info.take c.num_sats_active =
            ctx.sats_active_info.take ctx.num_sats_active ++
              (gsa_prns gsa).map (gsa_entry (gsa_constellation gsa talker))) ∧
        ∀ r q, prn_recorded c.sats_active_bitmask r q =
          (prn_recorded ctx.sats_active_bitmask r q ||
            (decide (r = gsa_constellation gsa talker) && decide (q ∈ gsa_prns gsa)))) := by
  have hk := gsa_constellation_lt gsa talker
  have hcl : gsa.satellite_count ≤ gsa.satellite_prns.length := by rw [hlen]; exact hcount
  have hidx := idx_prns_range gsa hcl
  have hin : ∀ i ∈ List.range gsa.satellite_count, i < gsa.satellite_prns.length :=
    fun i hi => Nat.lt_of_lt_of_le (List.mem_range.1 hi) hcl
  have hp248 : ∀ p ∈ idx_prns gsa (List.range gsa.satellite_count), p < 248 := by
    rw [hidx]; exact hprn
  have hlen12 : (gsa_prns gsa).length ≤ 12 := by
    unfold gsa_prns
    refine Nat.le_trans (List.length_filter_le _ _) ?_
    rw [List.length_take]
    exact Nat.le_trans (Nat.min_le_left _ _) hcount
  have hconf := gsa_conflict_spec ctx gsa _ hk hwf _ hin hp248
  rw [hidx] at hconf
  unfold tiny_nmea_sat_tracking_update_gsa
  simp only [not_lt.2 hfresh, gt_iff_lt, if_false]
  rw [hconf]
  simp only
  cases hb : (gsa_prns gsa).any fun p => prn_recorded ctx.sats_active_bitmask (gsa_constellation gsa talker) p
  · -- no conflict
    simp only [Bool.false_eq_true, if_false]
    obtain ⟨c, h1, h2, h3, h4, h5, h6⟩ := gsa_accumulate_spec gsa _ hk _ ctx hin hwf hp248
    rw [hidx] at h4 h5 h6
    rw [h1]
    refine ⟨_, rfl, h2, ?_, ?_⟩
    · rintro ⟨p, hp, hr⟩
      have : ((gsa_prns gsa).any fun p => prn_recorded ctx.sats_active_bitmask (gsa_constellation gsa talker) p) = true :=
        List.any_eq_true.2 ⟨p, hp, hr⟩
      rw [hb] at this
      exact Bool.noConfusion this
    · intro _
      refine ⟨h3, h4, h5, fun hfit => ?_, h6⟩
      show List.take c.num_sats_active c.sats_active_info = _
      rw [h5, List.take_of_length_le]
      rw [List.length_append, List.length_take, List.length_map]
      unfold TINY_NMEA_MAX_TRACKED_GSA_SATS at hfit
      omega
  · -- conflict
    simp only [if_true]
    have hwf2 : tracker_wf (reset_active_sats
        (if ctx.cb_sats_active = true then publish_active ctx else ctx)) := by
      obtain ⟨w1, w2, w3, w4⟩ := hwf
      refine ⟨List.length_replicate _ _, ?_, ?_, Nat.zero_le _⟩
      · intro row hrow
        rw [List.eq_of_mem_replicate hrow]
        exact List.length_replicate _ _
      · split <;> exact w3
    obtain ⟨c, h1, h2, h3, h4, h5, h6⟩ := gsa_accumulate_spec gsa _ hk _ _ hin hwf2 hp248
    rw [hidx] at h4 h5 h6
    rw [h1]
    refine ⟨_, rfl, h2, ?_, ?_⟩
    · intro _
      have hn : c.num_sats_active = (gsa_prns gsa).length := by
        rw [h4]
        show min 128 (0 + _) = _
        omega
      refine ⟨?_, hn, ?_, ?_⟩
      · show c.calls = _
        rw [h3]
        by_cases hcb : ctx.cb_sats_active = true
        · rw [if_pos hcb, if_pos hcb]; rfl
        · rw [if_neg hcb, if_neg hcb]; rfl
      · show List.take c.num_sats_active c.sats_active_info = _
        rw [h5]
        show List.take 128 (List.take 0 _ ++ _) = _
        rw [List.take_zero, List.nil_append, List.take_of_length_le]
        rw [List.length_map]
        omega
      · intro r q
        show prn_recorded c.sats_active_bitmask r q = _
        rw [h6 r q]
        show (prn_recorded (List.replicate TINY_NMEA_CONSTELLATION_COUNT
          (List.replicate TINY_NMEA_TRACK_PRN_PER_CONST_ARR_SIZE 0)) r q || _) = _
        rw [recorded_zero, Bool.false_or]
    · intro hall
      obtain ⟨p, hp, hr⟩ := List.any_eq_true.1 hb
      rw [hall p hp] at hr
      exact Bool.noConfusion hr

theorem gsa_conflict_publishes_prior_witness :
    ∃ c, tiny_nmea_sat_tracking_update_gsa sample_tracker_active sample_gsa_overlap 1 =
        some (TINY_NMEA_OK, c) ∧
      c.calls = [tiny_nmea_tracker_event.sats_active sample_tracker_active.sats_active_info 12
        {} {}] ∧
      c.num_sats_active = 3 ∧
      c.sats_active_info.take 3 =
        [{ prn := 12, constellation := 1 }, { prn := 13, constellation := 1 },
         { prn := 14, constellation := 1 }] ∧
      ∀ r q, prn_recorded c.sats_active_bitmask r q =
        (decide (r = 1) && decide (q ∈ [12, 13, 14])) := by
  obtain ⟨c, h1, _, hc, _⟩ :=
    gsa_conflict_publishes_prior sample_tracker_active sample_gsa_overlap 1
      (by decide) (by decide) (by decide) (by decide) (by decide)
  obtain ⟨a1, a2, a3, a4⟩ := hc ⟨12, by decide, by decide⟩
  have a2n : c.num_sats_active = 3 := a2.trans (by decide)
  rw [a2n] at a3
  exact ⟨c, h1, a1.trans (by decide), a2n, a3.trans (by decide), a4⟩

/-- Ten GSA records with twelve new PRNs each fill 120 of the 128 slots of the
active buffer. The eleventh, `sample_gsa_block 10` with the PRNs 121 .. 132,
meets no conflict and no timeout and invokes no callback, but only its first
eight PRNs are appended: the buffer then holds the PRNs 1 .. 128. -/
theorem gsa_capacity_counterexample :
    sample_tracker_full.num_sats_active = 120 ∧
    gsa_prns (sample_gsa_block 10) = [121, 122, 123, 124, 125, 126, 127, 128, 129, 130, 131, 132] ∧
    (∀ p ∈ gsa_prns (sample_gsa_block 10),
      prn_recorded sample_tracker_full.sats_active_bitmask
        (gsa_constellation (sample_gsa_block 10) 1) p = false) ∧
    get_time_delta_ms sample_tracker_full.sats_active_update_time
      sample_tracker_full.sats_active_update_date sample_tracker_full.last_seen_time
      (some sample_tracker_full.last_seen_date) = 0 ∧
    (tiny_nmea_sat_tracking_update_gsa sample_tracker_full (sample_gsa_block 10) 1).map
        (fun r => (r.1, r.2.calls, r.2.num_sats_active,
          (r.2.sats_active_info.take r.2.num_sats_active).map fun s => s.prn)) =
      some (TINY_NMEA_OK, [], 128, (List.range 128).map fun i => i + 1) := by
  decide

/-! ## Framer invariants, ring buffer frame conditions and remaining safety properties: main theorems -/

/-- C36. Frame conditions of the ring buffer operations: `ringbuf_push` in the
ATOMIC and DROP modes leaves `tail` as it is, and so does a WRAP push of data
that fits; a WRAP push of data that does not fit sets `tail` to 0 (data of
`size` bytes or more) or advances it as `ringbuf_discard` does;
`ringbuf_pop` and `ringbuf_discard` leave `head`, the storage and `size` as
they are; `ringbuf_peek` and `ringbuf_peek_byte` leave the whole state as it
is; `ringbuf_clear` changes `head` only. On a full buffer of size 4 the WRAP
push of one byte moves `tail` and `ringbuf_clear` moves `head`. (The queries
`ringbuf_len`, `ringbuf_free`, `ringbuf_empty` and `ringbuf_full` take a
`const ringbuf_t *` and only return a value; here they are functions from the
state to a number or a flag.) -/
theorem spsc_frame_conditions (rb : ringbuf_t) (data : List Nat) (dest : Option (List Nat))
    (n : Nat) :
    (ringbuf_push rb data RINGBUF_PUSH_ATOMIC).1.tail = rb.tail ∧
    (ringbuf_push rb data RINGBUF_PUSH_DROP).1.tail = rb.tail ∧
    (ringbuf_push rb data RINGBUF_PUSH_WRAP).1.tail =
      (if data.length ≤ ringbuf_free rb then rb.tail
       else if data.length ≥ rb.size then 0
       else (ringbuf_discard rb (data.length - ringbuf_free rb)).1.tail) ∧
    ((ringbuf_pop rb dest n).1.head = rb.head ∧ (ringbuf_pop rb dest n).1.buf = rb.buf ∧
      (ringbuf_pop rb dest n).1.size = rb.size) ∧
    ((ringbuf_discard rb n).1.head = rb.head ∧ (ringbuf_discard rb n).1.buf = rb.buf ∧
      (ringbuf_discard rb n).1.size = rb.size) ∧
    (∀ d len off, ringbuf_apply rb (ringbuf_op.peek d len off) = rb) ∧
    (∀ off out, ringbuf_apply rb (ringbuf_op.peek_byte off out) = rb) ∧
    ((ringbuf_clear rb).tail = rb.tail ∧ (ringbuf_clear rb).buf = rb.buf ∧
      (ringbuf_clear rb).size = rb.size ∧ (ringbuf_clear rb).head = rb.tail) ∧
    (ringbuf_push sample_ring_full [7] RINGBUF_PUSH_WRAP).1.tail = 1 ∧
    sample_ring_full.tail = 0 ∧
    (ringbuf_clear sample_ring_full).head = 0 ∧ sample_ring_full.head = 3 := by
  refine ⟨?_, ?_, ?_, ?_, ?_, fun _ _ _ => rfl, fun _ _ => rfl, ⟨rfl, rfl, rfl, rfl⟩,
    by decide, by decide, by decide, by decide⟩
  · by_cases hfit : data.length > RINGBUF_COMPUTE_FREE_SPACE rb rb.head rb.tail
    · have e : ringbuf_push rb data RINGBUF_PUSH_ATOMIC = (rb, 0) := by
        unfold ringbuf_push
        simp only [hfit, if_true]
      rw [e]
    · have e : ringbuf_push rb data RINGBUF_PUSH_ATOMIC =
          ringbuf_push_finish rb data rb.head := by
        unfold ringbuf_push
        simp only [hfit, if_false]
        rfl
      rw [e, push_finish_tail]
  · by_cases hfit : data.length > RINGBUF_COMPUTE_FREE_SPACE rb rb.head rb.tail
    · have e : ringbuf_push rb data RINGBUF_PUSH_DROP =
          ringbuf_push_finish rb (data.take (RINGBUF_COMPUTE_FREE_SPACE rb rb.head rb.tail))
            rb.head := by
        unfold ringbuf_push
        simp only [hfit, if_true]
        rfl
      rw [e, push_finish_tail]
    · have e : ringbuf_push rb data RINGBUF_PUSH_DROP =
          ringbuf_push_finish rb data rb.head := by
        unfold ringbuf_push
        simp only [hfit, if_false]
        rfl
      rw [e, push_finish_tail]
  · unfold ringbuf_free
    by_cases hfit : data.length > RINGBUF_COMPUTE_FREE_SPACE rb rb.head rb.tail
    · rw [if_neg (by omega)]
      by_cases hbig : data.length ≥ rb.size
      · have e : ringbuf_push rb data RINGBUF_PUSH_WRAP =
            ringbuf_push_finish { rb with tail := 0, head := 0 }
              (data.drop (data.length - (rb.size - 1))) 0 := by
          unfold ringbuf_push
          simp only [hfit, hbig, if_true]
          rfl
        rw [e, push_finish_tail, if_pos hbig]
      · have e : ringbuf_push rb data RINGBUF_PUSH_WRAP =
            ringbuf_push_finish
              (ringbuf_discard rb
                (data.length - RINGBUF_COMPUTE_FREE_SPACE rb rb.head rb.tail)).1 data rb.head := by
          unfold ringbuf_push
          simp only [hfit, hbig, if_true, if_false]
          rfl
        rw [e, push_finish_tail, if_neg hbig]
    · rw [if_pos (by omega)]
      have e : ringbuf_push rb data RINGBUF_PUSH_WRAP =
          ringbuf_push_finish rb data rb.head := by
        unfold ringbuf_push
        simp only [hfit, if_false]
        rfl
      rw [e, push_finish_tail]
  · unfold ringbuf_pop
    simp only
    generalize (if n > RINGBUF_COMPUTE_LENGTH rb rb.head rb.tail then
      RINGBUF_COMPUTE_LENGTH rb rb.head rb.tail else n) = m
    by_cases hm : m = 0
    · rw [if_pos hm]
      exact ⟨rfl, rfl, rfl⟩
    · rw [if_neg hm]
      exact ⟨rfl, rfl, rfl⟩
  · unfold ringbuf_discard
    exact ⟨rfl, rfl, rfl⟩

/-- C37. For valid old and new times and valid old and new dates,
`get_time_delta_ms` returns `new_ms - old_ms` when the two dates have the same
`day` member and `new_ms + 86400000 - old_ms` when their `day` members differ;
month and year are not looked at. Here `x_ms` is `hours * 3600000 +
minutes * 60000 + seconds * 1000 + microseconds / 1000`. The function returns 0
whenever one of the two times is invalid. -/
theorem time_delta_compares_day (old_time new_time : tiny_nmea_time_t)
    (old_date new_date : tiny_nmea_date_t)
    (hto : old_time.valid = true) (htn : new_time.valid = true)
    (hdo : old_date.valid = true) (hdn : new_date.valid = true)
    (hbo : time_in_type old_time) (hbn : time_in_type new_time) :
    (new_date.day = old_date.day →
      get_time_delta_ms old_time old_date new_time (some new_date) =
        time_ms new_time - time_ms old_time) ∧
    (new_date.day ≠ old_date.day →
      get_time_delta_ms old_time old_date new_time (some new_date) =
        time_ms new_time + 86400000 - time_ms old_time) ∧
    (∀ (t1 t2 : tiny_nmea_time_t) (d1 : tiny_nmea_date_t) (d2 : Option tiny_nmea_date_t),
      t1.valid = false ∨ t2.valid = false → get_time_delta_ms t1 d1 t2 d2 = 0) := by
  refine ⟨fun hd => ?_, fun hd => ?_, fun t1 t2 d1 d2 h => ?_⟩
  · unfold get_time_delta_ms
    simp only [hto, htn, hdo, hdn, Bool.not_true, Bool.or_self, Bool.false_eq_true, if_false,
      Bool.and_self, if_true, Option.map_some', hd]
    rw [time_to_ms_eq _ hbo, time_to_ms_eq _ hbn]
  · unfold get_time_delta_ms
    have hne : ¬ (some new_date.day = some old_date.day) := fun q => hd (Option.some.inj q)
    simp only [hto, htn, hdo, hdn, Bool.not_true, Bool.or_self, Bool.false_eq_true, if_false,
      Bool.and_self, if_true, Option.map_some', hne, DAY_IN_MS]
    rw [time_to_ms_eq _ hbo, time_to_ms_eq _ hbn]
  · unfold get_time_delta_ms
    rcases h with h | h
    · simp [h]
    · simp [h]

theorem time_delta_compares_day_witness :
    get_time_delta_ms { hours := 23, minutes := 59, seconds := 59, valid := true }
        { day := 31, month := 1, year := 2025, valid := true }
        { hours := 0, minutes := 0, seconds := 1, valid := true }
        (some { day := 1, month := 2, year := 2025, valid := true }) = 2000 ∧
    get_time_delta_ms { hours := 12, minutes := 0, seconds := 0, valid := true }
        { day := 15, month := 1, year := 2025, valid := true }
        { hours := 12, minutes := 0, seconds := 1, microseconds := 500000, valid := true }
        (some { day := 15, month := 1, year := 2025, valid := true }) = 1500 :=
  ⟨((time_delta_compares_day { hours := 23, minutes := 59, seconds := 59, valid := true }
      { hours := 0, minutes := 0, seconds := 1, valid := true }
      { day := 31, month := 1, year := 2025, valid := true }
      { day := 1, month := 2, year := 2025, valid := true }
      rfl rfl rfl rfl (by decide) (by decide)).2.1 (by decide)).trans (by decide),
   ((time_delta_compares_day { hours := 12, minutes := 0, seconds := 0, valid := true }
      { hours := 12, minutes := 0, seconds := 1, microseconds := 500000, valid := true }
      { day := 15, month := 1, year := 2025, valid := true }
      { day := 15, month := 1, year := 2025, valid := true }
      rfl rfl rfl rfl (by decide) (by decide)).1 (by decide)).trans (by decide)⟩

/-- The dates 15/01/2025 and 15/02/2025 differ in the month, all times and
dates are valid, and `get_time_delta_ms` returns `new_ms - old_ms` = 1000 with
no day added; so it does for 15/01/2025 and 15/01/2026. -/
theorem time_delta_counterexample :
    get_time_delta_ms { hours := 12, minutes := 0, seconds := 0, valid := true }
        { day := 15, month := 1, year := 2025, valid := true }
        { hours := 12, minutes := 0, seconds := 1, valid := true }
        (some { day := 15, month := 2, year := 2025, valid := true }) = 1000 ∧
    get_time_delta_ms { hours := 12, minutes := 0, seconds := 0, valid := true }
        { day := 15, month := 1, year := 2025, valid := true }
        { hours := 12, minutes := 0, seconds := 1, valid := true }
        (some { day := 15, month := 1, year := 2026, valid := true }) = 1000 := by
  decide

/-- C38. For the field "0." followed by 32 digits, and for a field of 32
digits without a '.', the `uint32_t` scale of `parse_fixedpoint_float` is
`10 ^ 32 mod 2 ^ 32` = 0 when the guard `INT32_MAX / scale` is evaluated: the
division is by zero and no result is defined. With 31 digits the scale is
2147483648 and the field is accepted. -/
theorem fixedpoint_divides_by_zero :
    scale_loop 32 1 = 0 ∧
    parse_fixedpoint_float (bytes "0.00000000000000000000000000000000") = none ∧
    parse_fixedpoint_float (bytes "00000000000000000000000000000000") = none ∧
    parse_fixedpoint_float (bytes "0000000000000000000000000000000") =
      some (true, { value := 0, scale := -2147483648 }) := by
  decide

/-- C39. A GSA record with the PRN 250, which is below
`TINY_NMEA_MAX_PRN_PER_CONST`, on an initialised tracker: the byte index
250 / 8 = 31 is not below `TINY_NMEA_TRACK_PRN_PER_CONST_ARR_SIZE` = 31, so
`check_bit` and `set_bit` access the row outside its bounds and
`tiny_nmea_sat_tracking_update_gsa` has no defined result. The PRN 247 is the
largest whose byte is inside the row. -/
theorem prn_bit_outside_row :
    250 < TINY_NMEA_MAX_PRN_PER_CONST ∧
    ¬ 250 / 8 < TINY_NMEA_TRACK_PRN_PER_CONST_ARR_SIZE ∧
    (tiny_nmea_sat_tracking_init.sats_active_bitmask.map List.length) =
      List.replicate 9 31 ∧
    check_bit (tiny_nmea_sat_tracking_init.sats_active_bitmask.getD 1 []) 250 = none ∧
    set_bit (tiny_nmea_sat_tracking_init.sats_active_bitmask.getD 1 []) 250 = none ∧
    tiny_nmea_sat_tracking_update_gsa tiny_nmea_sat_tracking_init
      { satellite_prns := [250, 0, 0, 0, 0, 0, 0, 0, 0, 0, 0, 0], satellite_count := 1 } 1 =
      none ∧
    (tiny_nmea_sat_tracking_update_gsa tiny_nmea_sat_tracking_init
      { satellite_prns := [247, 0, 0, 0, 0, 0, 0, 0, 0, 0, 0, 0], satellite_count := 1 } 1).map
      (fun r => (r.1, r.2.num_sats_active)) = some (TINY_NMEA_OK, 1) := by
  decide

/-- C32. Invalid header: when `fsm_find_talker_and_type` runs with at least 6
bytes after the cursor and the talker is unknown, or the sentence type is
unknown, or the byte at offset 6 is not ',', then `parse_errors` is
incremented and nothing else in the statistics changes, the first byte of the
scratch buffer is removed with the rest kept in order, the state is FIND_START
with cursor 0, and no callback is recorded; in the loop this is what a pass
in the state FIND_TALKER_AND_TYPE does when nothing is to be popped. Bytes
without '$' and '!' fed to a parser between sentences leave the statistics and
the callbacks as they were. -/
theorem invalid_header_resync (ctx : tiny_nmea_ctx_t)
    (hwb : ctx.working_buf_len ≤ ctx.working_buf.length)
    (hlen : 6 ≤ ctx.working_buf_len - ctx.parse_pos)
    (hbad : tiny_nmea_talker_valid
        (parse_talker_id (ctx.working_buf.getD 1 0) (ctx.working_buf.getD 2 0)) = false ∨
      tiny_nmea_sentence_valid (parse_sentence_type (ctx.working_buf.getD 3 0)
        (ctx.working_buf.getD 4 0) (ctx.working_buf.getD 5 0)) = false ∨
      ctx.working_buf.getD 6 0 ≠ 44) :
    (fsm_find_talker_and_type ctx).stats =
      { ctx.stats with parse_errors := (ctx.stats.parse_errors + 1) % 4294967296 } ∧
    (ctx.stats.parse_errors < 4294967295 →
      (fsm_find_talker_and_type ctx).stats.parse_errors = ctx.stats.parse_errors + 1) ∧
    (fsm_find_talker_and_type ctx).working_buf_len = ctx.working_buf_len - 1 ∧
    (fsm_find_talker_and_type ctx).working_buf.take
        (fsm_find_talker_and_type ctx).working_buf_len =
      (ctx.working_buf.take ctx.working_buf_len).drop 1 ∧
    (fsm_find_talker_and_type ctx).parser_state = TINY_NMEA_PARSE_FIND_START ∧
    (fsm_find_talker_and_type ctx).parse_pos = 0 ∧
    (fsm_find_talker_and_type ctx).calls = ctx.calls ∧
    (fsm_find_talker_and_type ctx).ringbuf = ctx.ringbuf ∧
    (ctx.parser_state = TINY_NMEA_PARSE_FIND_TALKER_AND_TYPE → settled ctx →
      tiny_nmea_work_body ctx = loop_outcome.next (fsm_find_talker_and_type ctx)) ∧
    (∀ (a : tiny_nmea_ctx_t) (G : List Nat), at_start a → ringbuf_len a.ringbuf = 0 →
      G.length < a.ringbuf.size → (∀ b, b ∈ G → b ≠ 36 ∧ b ≠ 33) →
      ∃ c, tiny_nmea_work ((G.length + 81) / 82 + 1) (tiny_nmea_feed a G).2 = some c ∧
        c.stats = a.stats ∧ c.calls = a.calls) := by
  have hcond : (!(tiny_nmea_talker_valid
        (parse_talker_id (ctx.working_buf.getD 1 0) (ctx.working_buf.getD 2 0))) ||
      !(tiny_nmea_sentence_valid (parse_sentence_type (ctx.working_buf.getD 3 0)
        (ctx.working_buf.getD 4 0) (ctx.working_buf.getD 5 0))) ||
      ctx.working_buf.getD 6 0 != 44) = true := by
    rcases hbad with h | h | h
    · rw [h]; rfl
    · rw [h]; simp
    · have h6 : (ctx.working_buf.getD 6 0 != 44) = true := by
        rw [bne_iff_ne]; exact h
      rw [h6, Bool.or_true]
  have e : fsm_find_talker_and_type ctx =
      RESET_WORKBUF_BYTES (count_parse_error (discard_bytes { ctx with
        current_talker := parse_talker_id (ctx.working_buf.getD 1 0) (ctx.working_buf.getD 2 0)
        current_type := parse_sentence_type (ctx.working_buf.getD 3 0)
          (ctx.working_buf.getD 4 0) (ctx.working_buf.getD 5 0) } 1))
        (count_parse_error (discard_bytes { ctx with
        current_talker := parse_talker_id (ctx.working_buf.getD 1 0) (ctx.working_buf.getD 2 0)
        current_type := parse_sentence_type (ctx.working_buf.getD 3 0)
          (ctx.working_buf.getD 4 0) (ctx.working_buf.getD 5 0) } 1)).working_buf_len := by
    unfold fsm_find_talker_and_type
    rw [if_neg (by omega)]
    simp only
    rw [if_pos hcond]
  have hd := discard_take { ctx with
        current_talker := parse_talker_id (ctx.working_buf.getD 1 0) (ctx.working_buf.getD 2 0)
        current_type := parse_sentence_type (ctx.working_buf.getD 3 0)
          (ctx.working_buf.getD 4 0) (ctx.working_buf.getD 5 0) } 1 hwb
  have hfields : ∀ x : tiny_nmea_ctx_t, (discard_bytes x 1).stats = x.stats ∧
      (discard_bytes x 1).calls = x.calls ∧ (discard_bytes x 1).ringbuf = x.ringbuf := by
    intro x
    unfold discard_bytes
    split <;> exact ⟨rfl, rfl, rfl⟩
  obtain ⟨f1, f2, f3⟩ := hfields { ctx with
        current_talker := parse_talker_id (ctx.working_buf.getD 1 0) (ctx.working_buf.getD 2 0)
        current_type := parse_sentence_type (ctx.working_buf.getD 3 0)
          (ctx.working_buf.getD 4 0) (ctx.working_buf.getD 5 0) }
  rw [e]
  refine ⟨?_, ?_, hd.1, hd.2, rfl, rfl, f2, f3, ?_, ?_⟩
  · show ({ (discard_bytes _ 1).stats with parse_errors := _ } :
      tiny_nmea_parser_statistics_t) = _
    rw [f1]
    rfl
  · intro hlt
    show incr32 (discard_bytes _ 1).stats.parse_errors = _
    rw [f1]
    show (ctx.stats.parse_errors + 1) % 4294967296 = _
    exact Nat.mod_eq_of_lt (by omega)
  · intro hs hset
    rw [← e, dispatch_settled ctx hset (by omega), hs]
  · intro a G ha hr hcap hG
    have hG2 : ∀ i, i < G.length → G.getD i 0 ≠ 36 ∧ G.getD i 0 ≠ 33 := by
      intro i hi
      apply hG
      rw [List.getD_eq_getElem?_getD, List.getElem?_eq_getElem hi]
      exact List.getElem_mem _
    obtain ⟨c, h1, h2, _⟩ := garbage_step a G ha hr hcap hG2
    exact ⟨c, halts_fuel h1 _ (Nat.le_refl _), h2.stats, h2.calls⟩

theorem invalid_header_resync_witness :
    sample_dropped_comma_header.parser_state = TINY_NMEA_PARSE_FIND_TALKER_AND_TYPE ∧
    sample_dropped_comma_header.working_buf.take 7 = bytes "$GPGGA1" ∧
    (fsm_find_talker_and_type sample_dropped_comma_header).stats.parse_errors = 1 ∧
    (fsm_find_talker_and_type sample_dropped_comma_header).working_buf.take 6 =
      bytes "GPGGA1" ∧
    (fsm_find_talker_and_type sample_dropped_comma_header).parser_state =
      TINY_NMEA_PARSE_FIND_START ∧
    (fsm_find_talker_and_type sample_dropped_comma_header).calls = [] := by
  have h := invalid_header_resync sample_dropped_comma_header (by decide) (by decide)
    (Or.inr (Or.inr (by decide)))
  obtain ⟨_, h2, h3, h4, h5, _, h7, _⟩ := h
  refine ⟨by decide, by decide, (h2 (by decide)).trans (by decide), ?_, h5,
    h7.trans (by decide)⟩
  have e : (fsm_find_talker_and_type sample_dropped_comma_header).working_buf.take 6 =
      ((fsm_find_talker_and_type sample_dropped_comma_header).working_buf.take
        (fsm_find_talker_and_type sample_dropped_comma_header).working_buf_len).take 6 := by
    rw [List.take_take, h3]
    congr 1
  rw [e, h4]
  decide

/-- The sentence of the test `test_corrupt_dropped_comma` through
`tiny_nmea_work`: one parse error, no callback, and the framer ends in
FIND_START with an empty scratch buffer. -/
theorem invalid_header_example :
    (tiny_nmea_work 10 (tiny_nmea_feed sample_context sample_dropped_comma).2).map
        (fun c => (c.stats, c.calls, c.parser_state, c.working_buf_len)) =
      some ({ sentences_parsed := 0, checksum_errors := 0, parse_errors := 1,
              buffer_overflows := 0 }, [], TINY_NMEA_PARSE_FIND_START, 0) := by
  decide

/-- C31. For every body that the RMC, GGA, GNS, GLL, GBS or GST decoder
accepts with OK: a time member whose field `parse_time` rejects has `valid`
false and microseconds 0, and is entirely zero unless the field starts with
six digits of which hours, minutes or seconds are out of range (these three
then hold the decoded numbers); a date member whose field `parse_date` rejects
has `valid` false and year 0 in the record the decoder returns, and is
entirely zero unless the field starts with six digits with the day or month
out of range; a coordinate member that `parse_latitude` or `parse_longitude`
rejects has hemisphere 0, and a zero raw value unless the number was accepted
and the hemisphere letter is wrong.  The record handed to the parse callback
is the decoded record after `parse_post_process`, which leaves every record
but an RMC record as it is and changes `date.year` alone in an RMC record: with
a non-zero century in the context it stores `zda_century * 100 + year_yy`
there without looking at `date.valid`.  So a delivered RMC record whose date
field failed has `valid` false and the year 0 only when no century is known,
and the back-filled year otherwise. -/
theorem failed_members_marked (s : List Nat) :
    (∀ data out, handle_parse_rmc s data = some (TINY_NMEA_OK, out) →
      ((parse_time ((tokenize s 13).getD 0 [])).1 = false →
        time_unparsed ((tokenize s 13).getD 0 []) out.time) ∧
      ((parse_date ((tokenize s 13).getD 8 [])).1 = false →
        date_unparsed ((tokenize s 13).getD 8 []) out.date) ∧
      ((parse_latitude ((tokenize s 13).getD 2 []) ((tokenize s 13).getD 3 [])).map (·.1) = some false →
        coord_unparsed ((tokenize s 13).getD 2 []) ((tokenize s 13).getD 3 []) out.latitude) ∧
      ((parse_longitude ((tokenize s 13).getD 4 []) ((tokenize s 13).getD 5 [])).map (·.1) = some false →
        coord_unparsed ((tokenize s 13).getD 4 []) ((tokenize s 13).getD 5 []) out.longitude)) ∧
    (∀ data out, handle_parse_gga s data = some (TINY_NMEA_OK, out) →
      ((parse_time ((tokenize s 15).getD 0 [])).1 = false →
        time_unparsed ((tokenize s 15).getD 0 []) out.time) ∧
      ((parse_latitude ((tokenize s 15).getD 1 []) ((tokenize s 15).getD 2 [])).map (·.1) = some false →
        coord_unparsed ((tokenize s 15).getD 1 []) ((tokenize s 15).getD 2 []) out.latitude) ∧
      ((parse_longitude ((tokenize s 15).getD 3 []) ((tokenize s 15).getD 4 [])).map (·.1) = some false →
        coord_unparsed ((tokenize s 15).getD 3 []) ((tokenize s 15).getD 4 []) out.longitude)) ∧
    (∀ data out, handle_parse_gns s data = some (TINY_NMEA_OK, out) →
      ((parse_time ((tokenize s 14).getD 0 [])).1 = false →
        time_unparsed ((tokenize s 14).getD 0 []) out.time) ∧
      ((parse_latitude ((tokenize s 14).getD 1 []) ((tokenize s 14).getD 2 [])).map (·.1) = some false →
        coord_unparsed ((tokenize s 14).getD 1 []) ((tokenize s 14).getD 2 []) out.latitude) ∧
      ((parse_longitude ((tokenize s 14).getD 3 []) ((tokenize s 14).getD 4 [])).map (·.1) = some false →
        coord_unparsed ((tokenize s 14).getD 3 []) ((tokenize s 14).getD 4 []) out.longitude)) ∧
    (∀ data out, handle_parse_gll s data = some (TINY_NMEA_OK, out) →
      ((parse_time ((tokenize s 8).getD 4 [])).1 = false →
        time_unparsed ((tokenize s 8).getD 4 []) out.time) ∧
      ((parse_latitude ((tokenize s 8).getD 0 []) ((tokenize s 8).getD 1 [])).map (·.1) = some false →
        coord_unparsed ((tokenize s 8).getD 0 []) ((tokenize s 8).getD 1 []) out.latitude) ∧
      ((parse_longitude ((tokenize s 8).getD 2 []) ((tokenize s 8).getD 3 [])).map (·.1) = some false →
        coord_unparsed ((tokenize s 8).getD 2 []) ((tokenize s 8).getD 3 []) out.longitude)) ∧
    (∀ data out, handle_parse_gbs s data = some (TINY_NMEA_OK, out) →
      ((parse_time ((tokenize s 9).getD 0 [])).1 = false →
        time_unparsed ((tokenize s 9).getD 0 []) out.time)) ∧
    (∀ data out, handle_parse_gst s data = some (TINY_NMEA_OK, out) →
      ((parse_time ((tokenize s 9).getD 0 [])).1 = false →
        time_unparsed ((tokenize s 9).getD 0 []) out.time)) ∧
    (∀ (ctx : tiny_nmea_ctx_t) (result : tiny_nmea_type_t),
      (result.type ≠ TINY_NMEA_SENTENCE_RMC → (parse_post_process ctx result).2 = result) ∧
      (result.type = TINY_NMEA_SENTENCE_RMC →
        (parse_post_process ctx result).2.type = result.type ∧
        (parse_post_process ctx result).2.talker = result.talker ∧
        (ctx.zda_century = 0 → (parse_post_process ctx result).2 = result) ∧
        data_rmc (parse_post_process ctx result).2.data =
          { data_rmc result.data with date := { (data_rmc result.data).date with
            year := if 0 < ctx.zda_century then
                to_uint16 (to_uint16 ctx.zda_century * 100 + (data_rmc result.data).date.year_yy)
              else (data_rmc result.data).date.year } })) ∧
    (∀ (ctx : tiny_nmea_ctx_t) (rec : tiny_nmea_type_t) (e : Nat),
      tiny_nmea_parse (ctx.working_buf.set ctx.data_end 0)
          { type := ctx.current_type, talker := ctx.current_talker,
            data := tiny_nmea_data_t.zero } = some (TINY_NMEA_OK, rec) →
      ctx.line_end = some e → ctx.parse_callback = true →
      ∃ c, fsm_sentence_complete ctx = some c ∧
        c.calls = ctx.calls ++
          [tiny_nmea_callback_event.parse (parse_post_process ctx rec).2 c.stats]) ∧
    (∀ (ctx : tiny_nmea_ctx_t) (talker : Nat) data out,
      handle_parse_rmc s data = some (TINY_NMEA_OK, out) →
      (parse_date ((tokenize s 13).getD 8 [])).1 = false →
      (data_rmc (parse_post_process ctx
          { type := TINY_NMEA_SENTENCE_RMC, talker := talker,
            data := tiny_nmea_data_t.rmc out }).2.data).date =
        { out.date with
          valid := false,
          year := if 0 < ctx.zda_century then
              to_uint16 (to_uint16 ctx.zda_century * 100 + out.date.year_yy)
            else 0 } ∧
      (data_rmc (parse_post_process ctx
          { type := TINY_NMEA_SENTENCE_RMC, talker := talker,
            data := tiny_nmea_data_t.rmc out }).2.data).time = out.time ∧
      (data_rmc (parse_post_process ctx
          { type := TINY_NMEA_SENTENCE_RMC, talker := talker,
            data := tiny_nmea_data_t.rmc out }).2.data).latitude = out.latitude ∧
      (data_rmc (parse_post_process ctx
          { type := TINY_NMEA_SENTENCE_RMC, talker := talker,
            data := tiny_nmea_data_t.rmc out }).2.data).longitude = out.longitude) := by
  refine ⟨?_, ?_, ?_, ?_, ?_, ?_, ?_, ?_, ?_⟩
  · intro data out h
    obtain ⟨ht, hd, ⟨b1, h1⟩, ⟨b2, h2⟩⟩ := handle_parse_rmc_members s data out h
    refine ⟨fun q => ?_, fun q => ?_, fun q => ?_, fun q => ?_⟩
    · rw [ht]; exact parse_time_failed _ q
    · rw [hd]; exact parse_date_failed _ q
    · rw [h1] at q
      have hb : b1 = false := Option.some.inj q
      subst hb
      exact parse_latitude_failed _ _ _ h1
    · rw [h2] at q
      have hb : b2 = false := Option.some.inj q
      subst hb
      exact parse_longitude_failed _ _ _ h2
  · intro data out h
    obtain ⟨ht, ⟨b1, h1⟩, ⟨b2, h2⟩⟩ := handle_parse_gga_members s data out h
    refine ⟨fun q => ?_, fun q => ?_, fun q => ?_⟩
    · rw [ht]; exact parse_time_failed _ q
    · rw [h1] at q
      have hb : b1 = false := Option.some.inj q
      subst hb
      exact parse_latitude_failed _ _ _ h1
    · rw [h2] at q
      have hb : b2 = false := Option.some.inj q
      subst hb
      exact parse_longitude_failed _ _ _ h2
  · intro data out h
    obtain ⟨ht, ⟨b1, h1⟩, ⟨b2, h2⟩⟩ := handle_parse_gns_members s data out h
    refine ⟨fun q => ?_, fun q => ?_, fun q => ?_⟩
    · rw [ht]; exact parse_time_failed _ q
    · rw [h1] at q
      have hb : b1 = false := Option.some.inj q
      subst hb
      exact parse_latitude_failed _ _ _ h1
    · rw [h2] at q
      have hb : b2 = false := Option.some.inj q
      subst hb
      exact parse_longitude_failed _ _ _ h2
  · intro data out h
    obtain ⟨ht, ⟨b1, h1⟩, ⟨b2, h2⟩⟩ := handle_parse_gll_members s data out h
    refine ⟨fun q => ?_, fun q => ?_, fun q => ?_⟩
    · rw [ht]; exact parse_time_failed _ q
    · rw [h1] at q
      have hb : b1 = false := Option.some.inj q
      subst hb
      exact parse_latitude_failed _ _ _ h1
    · rw [h2] at q
      have hb : b2 = false := Option.some.inj q
      subst hb
      exact parse_longitude_failed _ _ _ h2
  · intro data out h
    have ht := handle_parse_gbs_members s data out h
    intro q
    rw [ht]; exact parse_time_failed _ q
  · intro data out h
    have ht := handle_parse_gst_members s data out h
    intro q
    rw [ht]; exact parse_time_failed _ q
  · intro ctx result
    exact post_process_record ctx result
  · intro ctx rec e hdec hle hcb
    obtain ⟨c, h1, _, _, _, _, hok, _⟩ := sentence_complete_user ctx _ rec e hdec hle
    obtain ⟨hs, _, hcalls⟩ := hok rfl
    rw [if_pos hcb, ← hs] at hcalls
    refine ⟨c, h1, ?_⟩
    rw [hcalls, pp_eq]
  · intro ctx talker data out h q
    obtain ⟨_, hd, _, _⟩ := handle_parse_rmc_members s data out h
    have hdate := parse_date_failed _ q
    rw [← hd] at hdate
    obtain ⟨hv, hy, _⟩ := hdate
    have hpp := (post_process_record ctx
      { type := TINY_NMEA_SENTENCE_RMC, talker := talker,
        data := tiny_nmea_data_t.rmc out }).2 rfl
    obtain ⟨_, _, _, hrec⟩ := hpp
    rw [hrec]
    refine ⟨?_, rfl, rfl, rfl⟩
    simp only [data_rmc]
    rw [hy, hv]

/-- The RMC body `sample_rmc_out_of_range` is accepted with OK; its time
and date fields are rejected and its latitude is rejected, and the record
members carry the validity marker off (hemisphere 0 for the latitude) with
microseconds and year 0, as `failed_members_marked` states; delivered in a
context with the century 20 the date member has the validity marker off and
the year 2025. -/
theorem failed_members_marked_witness :
    handle_parse_rmc sample_rmc_out_of_range {} =
      some (TINY_NMEA_OK, sample_rmc_out_of_range_record) ∧
    (parse_time ((tokenize sample_rmc_out_of_range 13).getD 0 [])).1 = false ∧
    sample_rmc_out_of_range_record.time.valid = false ∧
    sample_rmc_out_of_range_record.time.microseconds = 0 ∧
    (parse_date ((tokenize sample_rmc_out_of_range 13).getD 8 [])).1 = false ∧
    sample_rmc_out_of_range_record.date.valid = false ∧
    sample_rmc_out_of_range_record.date.year = 0 ∧
    sample_rmc_out_of_range_record.latitude.hemisphere = 0 ∧
    (data_rmc (parse_post_process { sample_context with zda_century := 20 }
        { type := TINY_NMEA_SENTENCE_RMC, talker := 1,
          data := tiny_nmea_data_t.rmc sample_rmc_out_of_range_record }).2.data).date =
      { day := 32, month := 1, year := 2025, year_yy := 25, valid := false } :=
  have h := (failed_members_marked sample_rmc_out_of_range).1 {}
    sample_rmc_out_of_range_record (by decide)
  have ht := h.1 (by decide)
  have hd := h.2.1 (by decide)
  have hl := h.2.2.1 (by decide)
  have hp := ((failed_members_marked sample_rmc_out_of_range).2.2.2.2.2.2.2.2
    { sample_context with zda_century := 20 } 1 {} sample_rmc_out_of_range_record
    (by decide) (by decide)).1
  ⟨by decide, by decide, ht.1, ht.2.1, by decide, hd.1, hd.2.1, hl.1, hp.trans (by decide)⟩

/-- C31, counterexample.  `handle_parse_rmc` accepts `sample_rmc_out_of_range`
with OK; `parse_time`, `parse_date` and `parse_latitude` reject the time, date
and latitude fields; the time member holds 25:61:99, the date member day 32,
month 1 and two-digit year 25, and the latitude member the raw value
4807038 / 1000: none of the three is entirely zero.  The same body as a
sentence, fed after a ZDA sentence of the year 2025, reaches the parse callback
with the date member day 32, month 1, year 2025 and `valid` false. -/
theorem failed_members_counterexample :
    handle_parse_rmc sample_rmc_out_of_range {} =
      some (TINY_NMEA_OK, sample_rmc_out_of_range_record) ∧
    (parse_time ((tokenize sample_rmc_out_of_range 13).getD 0 [])).1 = false ∧
    (parse_date ((tokenize sample_rmc_out_of_range 13).getD 8 [])).1 = false ∧
    (parse_latitude ((tokenize sample_rmc_out_of_range 13).getD 2 [])
      ((tokenize sample_rmc_out_of_range 13).getD 3 [])).map (·.1) = some false ∧
    sample_rmc_out_of_range_record.time.hours = 25 ∧
    sample_rmc_out_of_range_record.time.minutes = 61 ∧
    sample_rmc_out_of_range_record.time.seconds = 99 ∧
    sample_rmc_out_of_range_record.date.day = 32 ∧
    sample_rmc_out_of_range_record.date.year_yy = 25 ∧
    sample_rmc_out_of_range_record.latitude.raw = { value := 4807038, scale := 1000 } ∧
    sample_rmc_out_of_range_record.time ≠ {} ∧
    sample_rmc_out_of_range_record.date ≠ {} ∧
    sample_rmc_out_of_range_record.latitude ≠ {} ∧
    (feed_work_chunks 10 sample_context
        [sample_zda_2025, sample_rmc_out_of_range_sentence]).map
        (fun c => c.calls.map fun ev =>
          match ev with
          | tiny_nmea_callback_event.parse r _ => (true, r.type, (data_rmc r.data).date)
          | tiny_nmea_callback_event.error r _ => (false, r.type, (data_rmc r.data).date)) =
      some [(true, TINY_NMEA_SENTENCE_ZDA, {}),
            (true, TINY_NMEA_SENTENCE_RMC,
              { day := 32, month := 1, year := 2025, year_yy := 25, valid := false })] := by
  decide

/-- C34. The framer state invariant `framer_inv` (cursor `parse_pos` at most
`working_buf_len`, `working_buf_len` at most `TINY_NMEA_MAX_SENTENCE_LEN`, and
`parse_pos = 0` whenever the state is `FIND_START`) holds after
`tiny_nmea_init` and `tiny_nmea_init_callbacks`, is kept by `tiny_nmea_feed`,
holds after every pass through the body of the loop of `tiny_nmea_work` that
starts in a state satisfying it (whether the pass ends at the loop condition
or leaves the loop), and so holds when `tiny_nmea_work` returns; under it both
the cursor and the fill level are below `TINY_NMEA_WORKING_BUF_LEN`. -/
theorem framer_state_invariant :
    (∀ mem buffer size, framer_inv (tiny_nmea_init mem buffer size)) ∧
    (∀ mem buffer size pcb ecb,
      framer_inv (tiny_nmea_init_callbacks mem buffer size pcb ecb)) ∧
    (∀ ctx data, framer_inv ctx → framer_inv (tiny_nmea_feed ctx data).2) ∧
    (∀ ctx c, framer_inv ctx →
      (tiny_nmea_work_body ctx = loop_outcome.next c ∨
        tiny_nmea_work_body ctx = loop_outcome.exit c) → framer_inv c) ∧
    (∀ fuel ctx c, framer_inv ctx → tiny_nmea_work fuel ctx = some c → framer_inv c) ∧
    (∀ ctx, framer_inv ctx →
      ctx.parse_pos ≤ ctx.working_buf_len ∧
      ctx.working_buf_len ≤ TINY_NMEA_MAX_SENTENCE_LEN ∧
      ctx.working_buf_len < TINY_NMEA_WORKING_BUF_LEN ∧
      ctx.parse_pos < TINY_NMEA_WORKING_BUF_LEN ∧
      (ctx.parser_state = TINY_NMEA_PARSE_FIND_START → ctx.parse_pos = 0)) := by
  refine ⟨?_, ?_, ?_, ?_, ?_, ?_⟩
  · intro mem buffer size
    exact ⟨Nat.le_refl _, Nat.zero_le _, fun _ => rfl⟩
  · intro mem buffer size pcb ecb
    exact ⟨Nat.le_refl _, Nat.zero_le _, fun _ => rfl⟩
  · intro ctx data h
    exact h
  · intro ctx c h hb
    exact body_inv ctx c h hb
  · intro fuel ctx c h hw
    exact work_loop_inv fuel ctx c h hw
  · intro ctx h
    obtain ⟨h1, h2, h3⟩ := h
    unfold TINY_NMEA_MAX_SENTENCE_LEN at h2
    refine ⟨h1, h2, ?_, ?_, h3⟩
    · show ctx.working_buf_len < 128
      omega
    · show ctx.parse_pos < 128
      omega

/-- The parser `sample_rmc_short_complete`, in the state `SENTENCE_COMPLETE`
with the cursor at 10 of 15 scratch bytes, satisfies the invariant; the next
pass of the loop decodes the sentence and leaves the framer in `FIND_START`
with the cursor at 0 and an empty scratch buffer. -/
theorem framer_state_invariant_witness :
    framer_inv sample_rmc_short_complete ∧
    sample_rmc_short_complete.parser_state = TINY_NMEA_SENTENCE_COMPLETE ∧
    sample_rmc_short_complete.parse_pos = 10 ∧
    sample_rmc_short_complete.working_buf_len = 15 ∧
    tiny_nmea_work_body sample_rmc_short_complete =
      loop_outcome.next (work_passes 1 sample_rmc_short_complete) ∧
    (work_passes 1 sample_rmc_short_complete).parser_state = TINY_NMEA_PARSE_FIND_START ∧
    (work_passes 1 sample_rmc_short_complete).parse_pos = 0 ∧
    (work_passes 1 sample_rmc_short_complete).working_buf_len = 0 ∧
    framer_inv (work_passes 1 sample_rmc_short_complete) :=
  ⟨by decide, by decide, by decide, by decide, by rfl, by decide, by decide, by decide,
    framer_state_invariant.2.2.2.1 sample_rmc_short_complete
      (work_passes 1 sample_rmc_short_complete) (by decide) (Or.inl (by rfl))⟩

/-- C33. Over-long data is counted in `buffer_overflows`, not in
`parse_errors`. Let the input `I` start with a valid header (start character,
recognised talker and type, comma), be longer than 7 +
`TINY_NMEA_MAX_SENTENCE_LEN` bytes, contain no '*', CR or LF after the header
and no '$' or '!' after its first `TINY_NMEA_MAX_SENTENCE_LEN` bytes, and fit
into the ring buffer. Fed to a freshly initialised parser, `tiny_nmea_work`
returns (with `I.length / 82 + 5` passes of fuel or more) with `buffer_overflows`
1, `parse_errors` 0, no sentence counted, no callback recorded, the state
`FIND_START`, the cursor at 0, and the scratch and ring buffers empty. -/
theorem overlong_counts_overflow (mem : tiny_nmea_ctx_t) (buffer I : List Nat)
    (pcb ecb : Bool) (fuel : Nat)
    (hstart : I.getD 0 0 = 36 ∨ I.getD 0 0 = 33)
    (htk : tiny_nmea_talker_valid (parse_talker_id (I.getD 1 0) (I.getD 2 0)) = true)
    (hty : tiny_nmea_sentence_valid
      (parse_sentence_type (I.getD 3 0) (I.getD 4 0) (I.getD 5 0)) = true)
    (hcomma : I.getD 6 0 = 44)
    (hlong : 7 + TINY_NMEA_MAX_SENTENCE_LEN < I.length)
    (hterm : ∀ b, b ∈ I.drop 7 → b ≠ 42 ∧ b ≠ 13 ∧ b ≠ 10)
    (hnostart : ∀ b, b ∈ I.drop TINY_NMEA_MAX_SENTENCE_LEN → b ≠ 36 ∧ b ≠ 33)
    (hcap : I.length < buffer.length)
    (hfuel : I.length / 82 + 5 ≤ fuel) :
    ∃ c, tiny_nmea_work fuel
        (tiny_nmea_feed (tiny_nmea_init_callbacks mem buffer buffer.length pcb ecb) I).2 =
          some c ∧
      c.stats = { sentences_parsed := 0, checksum_errors := 0, parse_errors := 0,
                  buffer_overflows := 1 } ∧
      c.calls = [] ∧ c.parser_state = TINY_NMEA_PARSE_FIND_START ∧ c.parse_pos = 0 ∧
      c.working_buf_len = 0 ∧ ringbuf_len c.ringbuf = 0 := by
  obtain ⟨hs, hring⟩ := init_at_start mem buffer pcb ecb (by omega)
  generalize hctx : tiny_nmea_init_callbacks mem buffer buffer.length pcb ecb = ctx at hs hring
  have hsize : ctx.ringbuf.size = buffer.length := by rw [← hctx]; rfl
  have hstats : ctx.stats = ⟨0, 0, 0, 0⟩ := by rw [← hctx]; rfl
  have hcalls : ctx.calls = [] := by rw [← hctx]; rfl
  have hfree := len_add_free ctx.ringbuf hs.wf
  have hfit : I.length ≤ ringbuf_free ctx.ringbuf := by omega
  rw [feed_fits ctx I hs.wf hfit]
  have hstr : stream { ctx with ringbuf := ringbuf_write ctx.ringbuf I } = I := by
    rw [stream_feed ctx I hs.wf hfit]
    unfold stream
    rw [hs.len, contents_nil_of_len _ hring]
    simp
  have hs1 : at_start { ctx with ringbuf := ringbuf_write ctx.ringbuf I } :=
    ⟨write_wf _ _ hs.wf hfit, hs.wb_length, hs.len, hs.pos, hs.state, hs.waiting⟩
  have hlong2 : TINY_NMEA_MAX_SENTENCE_LEN < I.length := by omega
  obtain ⟨a, hrun, hfr, hst, hstra, hst2, hc2, _, _, _, _⟩ :=
    overlong_run _ I hs1 hstr hstart htk hty hcomma hlong2
      (fun j h1 h2 => hterm _ (getD_mem_drop I 7 j h1 (by omega)))
  obtain ⟨c, j, h1, h2, h3, h4, h5, _⟩ := skip_garbage (I.drop TINY_NMEA_MAX_SENTENCE_LEN).length
    a (I.drop TINY_NMEA_MAX_SENTENCE_LEN) [] (le_refl _) hfr hst (by rw [hstra]; simp)
    (by
      intro i hi
      apply hnostart
      rw [List.getD_eq_getElem?_getD, List.getElem?_eq_getElem hi]
      exact List.getElem_mem _)
    (Or.inl rfl)
  have hwl := h4.wb_length
  have hl82 := h4.len_le
  unfold TINY_NMEA_WORKING_BUF_LEN at hwl
  unfold TINY_NMEA_MAX_SENTENCE_LEN at hl82 hlong h1
  rw [List.length_drop] at h1
  obtain ⟨z1, z2⟩ := stream_nil c h3 (by omega)
  have hat := fresh_at_start h4 z1
  have hhalt := runs_to_halts (runs_to_trans hrun h2) (halts_idle c h4.wf (by omega) z2)
  refine ⟨c, halts_fuel hhalt fuel (by omega), ?_, ?_, hat.state, hat.pos, z1, z2⟩
  · rw [h5.stats, hst2]
    show ({ ctx.stats with buffer_overflows := incr32 ctx.stats.buffer_overflows } :
      tiny_nmea_parser_statistics_t) = _
    rw [hstats]
    rfl
  · rw [h5.calls, hc2]
    exact hcalls

/-- The input `sample_overlong` (a header and one hundred digits) through a
parser initialised with a ring buffer of 512 bytes: one buffer overflow, no
parse error, no callback, and the framer ends in `FIND_START`. -/
theorem overlong_counts_overflow_witness :
    sample_overlong.length = 107 ∧
    ∃ c, tiny_nmea_work 7
        (tiny_nmea_feed (tiny_nmea_init_callbacks ctx_zero (List.replicate 512 0)
          (List.replicate 512 0).length true true) sample_overlong).2 = some c ∧
      c.stats.buffer_overflows = 1 ∧ c.stats.parse_errors = 0 ∧ c.calls = [] ∧
      c.parser_state = TINY_NMEA_PARSE_FIND_START :=
  ⟨by decide,
    (overlong_counts_overflow ctx_zero (List.replicate 512 0) sample_overlong true true 7
      (by decide) (by decide) (by decide) (by decide) (by decide) (by decide) (by decide)
      (by decide) (by decide)).imp
      fun _ h => ⟨h.1, congrArg tiny_nmea_parser_statistics_t.buffer_overflows h.2.1,
        congrArg tiny_nmea_parser_statistics_t.parse_errors h.2.1, h.2.2.1, h.2.2.2.1⟩⟩

/-- C33, counterexample.  `sample_overlong` is the valid header `$GPGGA,`
followed by one hundred bytes `0`, none of them '*', CR or LF.  Fed to the
fresh parser `sample_context`, `tiny_nmea_work` returns with `parse_errors`
still 0 (the overflow is counted in `buffer_overflows`), no callback and the
state `FIND_START`. -/
theorem overlong_counterexample :
    sample_overlong = bytes "$GPGGA," ++ List.replicate 100 48 ∧
    TINY_NMEA_MAX_SENTENCE_LEN < (List.replicate 100 48).length ∧
    (∀ b, b ∈ List.replicate 100 48 → b ≠ 42 ∧ b ≠ 13 ∧ b ≠ 10) ∧
    sample_context.stats.parse_errors = 0 ∧
    (tiny_nmea_work 8 (tiny_nmea_feed sample_context sample_overlong).2).map
        (fun c => (c.stats, c.calls, c.parser_state)) =
      some ({ sentences_parsed := 0, checksum_errors := 0, parse_errors := 0,
              buffer_overflows := 1 }, [], TINY_NMEA_PARSE_FIND_START) := by
  refine ⟨rfl, by decide, by decide, by decide, by decide⟩

/-- With the beginning of another sentence after the first
`TINY_NMEA_MAX_SENTENCE_LEN` bytes (`sample_overlong_restart`), the overflow is
counted in the same way and `tiny_nmea_work` returns in the state
`FIND_CHECKSUM_OR_END`, waiting for the rest of that sentence. -/
theorem overlong_restart_example :
    (tiny_nmea_work 8 (tiny_nmea_feed sample_context sample_overlong_restart).2).map
        (fun c => (c.stats, c.calls, c.parser_state, c.working_buf_len, c.waiting_for_data)) =
      some ({ sentences_parsed := 0, checksum_errors := 0, parse_errors := 0,
              buffer_overflows := 1 }, [], TINY_NMEA_PARSE_FIND_CHECKSUM_OR_END, 8, true) := by
  decide

/-- C35. The sentence `sample_rmc_zero_scale` (52 bytes, accepted by
`tiny_nmea_feed`) is framed in three passes of the loop of `tiny_nmea_work`;
in the fourth pass the RMC decoder divides by the scale 0 of its speed field,
so the pass has no defined result and `tiny_nmea_work` returns nothing,
whatever the fuel. -/
theorem work_meets_division_by_zero :
    sample_rmc_zero_scale.length = 52 ∧
    (tiny_nmea_feed sample_context sample_rmc_zero_scale).1 = TINY_NMEA_OK ∧
    (work_passes 3 (tiny_nmea_feed sample_context sample_rmc_zero_scale).2).parser_state =
      TINY_NMEA_SENTENCE_COMPLETE ∧
    complete_decode (work_passes 3 (tiny_nmea_feed sample_context sample_rmc_zero_scale).2) =
      none ∧
    tiny_nmea_work_body (work_passes 3 (tiny_nmea_feed sample_context sample_rmc_zero_scale).2) =
      loop_outcome.undefined ∧
    ∀ fuel, tiny_nmea_work fuel (tiny_nmea_feed sample_context sample_rmc_zero_scale).2 =
      none := by
  refine ⟨by decide, by decide, by decide, by decide, by rfl, ?_⟩
  apply loop_none_of_next _ (work_passes 1 (tiny_nmea_feed sample_context sample_rmc_zero_scale).2)
    (by decide) (by rfl)
  apply loop_none_of_next _ (work_passes 2 (tiny_nmea_feed sample_context sample_rmc_zero_scale).2)
    (by decide) (by rfl)
  apply loop_none_of_next _ (work_passes 3 (tiny_nmea_feed sample_context sample_rmc_zero_scale).2)
    (by decide) (by rfl)
  exact loop_none_of_undefined _ (by decide) (by rfl)

/-- C4, amended. For acceptable sentences `A` and `B` (decoded records `recA`,
`recB`) and garbage `G` in which no start character ('$' or '!') opens a valid
header (in `A ++ G ++ B`, the six bytes after every start character of `G` are
not a recognised talker, a recognised sentence type and a comma), `A ++ G ++ B`
fed in one piece to a fresh parser whose ring buffer is larger than the
stream: `tiny_nmea_work` returns and exactly two callbacks have fired, both
parse callbacks, the first with the record of `A` and the second with the
record of `B` (post-processed with the century that `A` left, if any); the
statistics handed to the second callback count one parse error for each start
character of `G`. -/
theorem garbage_between (A G B : List Nat)
    (dA eA : Nat) (ckA : Bool) (tkA tyA vA : Nat) (recA : tiny_nmea_type_t)
    (dB eB : Nat) (ckB : Bool) (tkB tyB vB : Nat) (recB : tiny_nmea_type_t)
    (mem : tiny_nmea_ctx_t) (buffer : List Nat) (ecb : Bool) (fuel : Nat)
    (hfA : sentence_frame A dA eA ckA tkA tyA vA) (haA : accepted A dA ckA tkA tyA vA recA)
    (hfB : sentence_frame B dB eB ckB tkB tyB vB) (haB : accepted B dB ckB tkB tyB vB recB)
    (hG : ∀ i, i < G.length → is_start_char (G.getD i 0) = true →
      header_valid ((G ++ B).drop i) = false)
    (hcap : (A ++ G ++ B).length < buffer.length)
    (hfuel : (G.length + 81) / 82 + 3 * start_count G + 11 ≤ fuel) :
    ∃ ctx,
      tiny_nmea_work fuel
        (tiny_nmea_feed (tiny_nmea_init_callbacks mem buffer buffer.length true ecb)
          (A ++ G ++ B)).2 = some ctx ∧
      ctx.calls =
        [tiny_nmea_callback_event.parse recA
          { sentences_parsed := 1, checksum_errors := 0, parse_errors := 0,
            buffer_overflows := 0 },
         tiny_nmea_callback_event.parse (pp_record (pp_century 0 recA) recB)
          { sentences_parsed := 2, checksum_errors := 0,
            parse_errors := start_count G % 4294967296, buffer_overflows := 0 }] := by
  obtain ⟨h1, h2⟩ := init_at_start mem buffer true ecb (by omega)
  obtain ⟨c1, c2, c3, g1, g2, u1, u2, u3, u4, u5, g3⟩ := two_sentences_junk
    (tiny_nmea_init_callbacks mem buffer buffer.length true ecb) A G B dA eA ckA tkA tyA vA recA
    dB eB ckB tkB tyB vB recB hfA haA hfB haB hG h1 h2 rfl
    (by show 0 < 4294967296; omega) hcap
  obtain ⟨q1, q2, q3⟩ := init_user_done_good mem buffer buffer.length ecb recA c1 g2
  refine ⟨c3, halts_fuel g1 fuel hfuel, ?_⟩
  have := g3.calls
  simp only [if_true] at this
  rw [this, u4, u5, u3, q1, q2, q3]
  have e : (0 + start_count G) % 4294967296 = start_count G % 4294967296 := by
    rw [Nat.zero_add]
  rw [← e]
  rfl

/-- The theorem `garbage_between` for the garbage "\r\n$GPRMC!AB$x$$GP" (five
start characters, none of them opening a valid header, two of them followed by
a recognised talker) between the sentences `sample_gga` and `sample_gsa`. -/
theorem garbage_between_witness :
    sentence_frame sample_gga 62 65 true 1 2 71 ∧
    accepted sample_gga 62 true 1 2 71 sample_gga_record ∧
    sentence_frame sample_gsa 44 47 true 1 4 57 ∧
    accepted sample_gsa 44 true 1 4 57 sample_gsa_record ∧
    start_count (bytes "\r\n$GPRMC!AB$x$$GP") = 5 ∧
    ∃ ctx,
      tiny_nmea_work 30
        (tiny_nmea_feed
          (tiny_nmea_init_callbacks ctx_zero (List.replicate 512 0) (List.replicate 512 0).length
            true true)
          (sample_gga ++ bytes "\r\n$GPRMC!AB$x$$GP" ++ sample_gsa)).2 = some ctx ∧
      ctx.calls =
        [tiny_nmea_callback_event.parse sample_gga_record
          { sentences_parsed := 1, checksum_errors := 0, parse_errors := 0,
            buffer_overflows := 0 },
         tiny_nmea_callback_event.parse (pp_record (pp_century 0 sample_gga_record)
            sample_gsa_record)
          { sentences_parsed := 2, checksum_errors := 0,
            parse_errors := start_count (bytes "\r\n$GPRMC!AB$x$$GP") % 4294967296,
            buffer_overflows := 0 }] :=
  ⟨sample_gga_frame, sample_gga_accepted, sample_gsa_frame, sample_gsa_accepted, by decide,
    garbage_between sample_gga (bytes "\r\n$GPRMC!AB$x$$GP") sample_gsa
      62 65 true 1 2 71 sample_gga_record 44 47 true 1 4 57 sample_gsa_record
      ctx_zero (List.replicate 512 0) true 30
      sample_gga_frame sample_gga_accepted sample_gsa_frame sample_gsa_accepted
      (by decide) (by decide) (by decide)⟩

/-- C3, amended. The stream is fed to a fresh parser in `groups`.  The bytes of
a group are line-ending bytes `J` (CR and LF, at most 82 of them, or none)
followed by the sentences of the group, one after the other; they are cut into
non-empty chunks in any way (a chunk may hold several sentences, or a piece of
one), every chunk is fed with `tiny_nmea_feed` and followed by `tiny_nmea_work`,
and the groups follow each other.  Each sentence is well formed or well formed
except for a wrong checksum value, and a sentence with a wrong checksum is the
last of its group, so that a chunk ends with it and no byte of a later sentence
is in the parser when it is rejected.  (The sentence may stop after the first
byte of its line ending there: the rest of the line ending is the `J` of the
next group.)  With every chunk shorter than the ring buffer: every
`tiny_nmea_work` returns and afterwards `sentences_parsed` is the number of
well-formed sentences and `checksum_errors` the number of sentences with a
wrong checksum (as `uint32_t`), the other two counters being zero.  An entry
of `groups` is the chunks of a group, its bytes `J` and its sentences, each
with the flag whether it is well formed. -/
theorem statistics_chunked (mem : tiny_nmea_ctx_t) (buffer : List Nat) (ecb : Bool)
    (fuel : Nat) (groups : List (List (List Nat) × List Nat × List (List Nat × Bool)))
    (hgroups : ∀ g, g ∈ groups →
      (∀ c, c ∈ g.1 → c ≠ [] ∧ c.length < buffer.length) ∧
      g.1.flatten = g.2.1 ++ (g.2.2.map Prod.fst).flatten ∧
      (∀ b, b ∈ g.2.1 → b = 13 ∨ b = 10) ∧ g.2.1.length ≤ 82 ∧
      (∀ p, p ∈ g.2.2 → if p.2 then well_formed p.1 else wrong_checksum p.1) ∧
      (∀ p, p ∈ g.2.2.dropLast → p.2 = true) ∧
      6 * g.2.2.length + 7 ≤ fuel)
    (hbuf : 0 < buffer.length) :
    ∃ ctx,
      feed_work_chunks fuel (tiny_nmea_init_callbacks mem buffer buffer.length true ecb)
        (groups.map Prod.fst).flatten = some ctx ∧
      ctx.stats =
        { sentences_parsed :=
            ((groups.map fun g => g.2.2).flatten.filter fun p => p.2).length % 4294967296
          checksum_errors :=
            ((groups.map fun g => g.2.2).flatten.filter fun p => !p.2).length % 4294967296
          parse_errors := 0
          buffer_overflows := 0 } := by
  obtain ⟨h1, h2⟩ := init_at_start mem buffer true ecb hbuf
  obtain ⟨ctx, g1, g2⟩ := groups_run fuel groups
    (tiny_nmea_init_callbacks mem buffer buffer.length true ecb) 0 0 h1 h2 ⟨rfl, rfl⟩ hgroups
  refine ⟨ctx, g1, ?_⟩
  rw [g2.stats, Nat.zero_add, Nat.zero_add]
  rfl

/-- The theorem `statistics_chunked` for the stream `sample_gga`, `sample_gsa`,
`sample_rmc_bad`, `sample_gsa`, `sample_gga` in five chunks: the first chunk
holds two well-formed sentences and the beginning of the sentence with the
wrong checksum, the second chunk the rest of that sentence up to its CR, the
third its LF and the beginning of the next sentence, the fourth the rest of
that sentence up to its CR, and the last its LF and another well-formed
sentence. -/
theorem statistics_chunked_witness :
    wrong_checksum sample_rmc_bad_cr ∧ well_formed sample_gsa ∧ well_formed sample_gga ∧
    sample_gga ++ sample_gsa ++ sample_rmc_bad ++ sample_gsa ++ sample_gga =
      [sample_gga ++ sample_gsa ++ bytes "$GPRMC,123519,A,48",
        bytes "07.038,N,01131.000,E,022.4,084.4,230394,003.1,W*FF\r",
        bytes "\n$GPGSA,A,3,04,05,,09,12,", bytes ",,24,,,,,2.5,1.3,2.1*39\r",
        bytes "\n" ++ sample_gga].flatten ∧
    ∃ ctx,
      feed_work_chunks 25
        (tiny_nmea_init_callbacks ctx_zero (List.replicate 512 0) (List.replicate 512 0).length
          true true)
        [sample_gga ++ sample_gsa ++ bytes "$GPRMC,123519,A,48",
          bytes "07.038,N,01131.000,E,022.4,084.4,230394,003.1,W*FF\r",
          bytes "\n$GPGSA,A,3,04,05,,09,12,", bytes ",,24,,,,,2.5,1.3,2.1*39\r",
          bytes "\n" ++ sample_gga] = some ctx ∧
      ctx.stats = { sentences_parsed := 4, checksum_errors := 1, parse_errors := 0,
                    buffer_overflows := 0 } :=
  ⟨⟨65, 68, 1, 1, 255, sample_rmc_bad_cr_frame, sample_rmc_bad_cr_corrupted⟩,
    ⟨44, 47, true, 1, 4, 57, sample_gsa_record, sample_gsa_frame, sample_gsa_accepted⟩,
    ⟨62, 65, true, 1, 2, 71, sample_gga_record, sample_gga_frame, sample_gga_accepted⟩,
    by decide,
    statistics_chunked ctx_zero (List.replicate 512 0) true 25
      [([sample_gga ++ sample_gsa ++ bytes "$GPRMC,123519,A,48",
          bytes "07.038,N,01131.000,E,022.4,084.4,230394,003.1,W*FF\r"],
        [], [(sample_gga, true), (sample_gsa, true), (sample_rmc_bad_cr, false)]),
       ([bytes "\n$GPGSA,A,3,04,05,,09,12,", bytes ",,24,,,,,2.5,1.3,2.1*39\r",
          bytes "\n" ++ sample_gga],
        [10], [(sample_gsa, true), (sample_gga, true)])]
      (by
        intro g hg
        simp only [List.mem_cons, List.mem_singleton, List.not_mem_nil, or_false] at hg
        rcases hg with rfl | rfl
        · refine ⟨by decide, by decide, by decide, by decide, ?_, by decide, by decide⟩
          intro p hp
          simp only [List.mem_cons, List.mem_singleton, List.not_mem_nil, or_false] at hp
          rcases hp with rfl | rfl | rfl
          · exact ⟨62, 65, true, 1, 2, 71, sample_gga_record, sample_gga_frame,
              sample_gga_accepted⟩
          · exact ⟨44, 47, true, 1, 4, 57, sample_gsa_record, sample_gsa_frame,
              sample_gsa_accepted⟩
          · exact ⟨65, 68, 1, 1, 255, sample_rmc_bad_cr_frame, sample_rmc_bad_cr_corrupted⟩
        · refine ⟨by decide, by decide, by decide, by decide, ?_, by decide, by decide⟩
          intro p hp
          simp only [List.mem_cons, List.mem_singleton, List.not_mem_nil, or_false] at hp
          rcases hp with rfl | rfl
          · exact ⟨44, 47, true, 1, 4, 57, sample_gsa_record, sample_gsa_frame,
              sample_gsa_accepted⟩
          · exact ⟨62, 65, true, 1, 2, 71, sample_gga_record, sample_gga_frame,
              sample_gga_accepted⟩)
      (by decide)⟩

end TinyNmea
